import Mathlib

/-!
# Lab 7 transaction pipeline: validation, fraud scoring and processing strategies

A shallow embedding of `lab07/solution/main.go`.

* `float64` values are modelled by `F64`: NaN, the two infinities, and the finite
  values as rationals.  Comparisons are the IEEE ones (every comparison with NaN
  is false).  Arithmetic on finite values is exact rational arithmetic followed
  by rounding to the nearest binary64 value, ties to even (`roundF64`).  Signed
  zeros are identified; nothing in the program distinguishes them.
* The process-wide random source of `math/rand` is an explicit state `Rand`:
  an arbitrary stream of outcomes and a cursor.
* Goroutines and channels are modelled by small-step machines driven by a
  schedule (a list of scheduler choices); see the sections further down.
-/

namespace Lab07

/-! ## float64 -/

/-- Model of a Go `float64` value. -/
inductive F64 where
  | nan : F64
  | inf (neg : Bool) : F64
  | fin (q : ℚ) : F64
  deriving DecidableEq

namespace F64

/-- Go `a < b` on float64. -/
def lt : F64 → F64 → Bool
  | fin a, fin b => decide (a < b)
  | fin _, inf neg => !neg
  | inf neg, fin _ => neg
  | inf a, inf b => a && !b
  | _, _ => false

/-- Go `a <= b` on float64. -/
def le : F64 → F64 → Bool
  | fin a, fin b => decide (a ≤ b)
  | fin _, inf neg => !neg
  | inf neg, fin _ => neg
  | inf a, inf b => a || !b
  | _, _ => false

/-- Go `a > b`. -/
def gt (a b : F64) : Bool := lt b a

/-- Go `a >= b`. -/
def ge (a b : F64) : Bool := le b a

/-- Largest `e` with `2 ^ e ≤ q`, for `q > 0`. -/
def binExp (q : ℚ) : ℤ :=
  let e0 : ℤ := (Nat.log2 q.num.natAbs : ℤ) - (Nat.log2 q.den : ℤ)
  if q < (2 : ℚ) ^ e0 then e0 - 1 else e0

/-- Nearest natural number to a non-negative rational, ties to even. -/
def roundHalfEven (q : ℚ) : ℕ :=
  let f : ℕ := q.floor.toNat
  let r : ℚ := q - f
  if r < 1 / 2 then f
  else if 1 / 2 < r then f + 1
  else if f % 2 = 0 then f else f + 1

/-- Rounding of an exact rational result to binary64, round-to-nearest-even:
53 significant bits, least exponent of the last place `-1074`, overflow to
infinity from `2 ^ 1024`. -/
def roundF64 (q : ℚ) : F64 :=
  let a : ℚ := |q|
  if a = 0 then fin 0
  else
    let e : ℤ := max (binExp a) (-1022) - 52
    let m : ℕ := roundHalfEven (a / (2 : ℚ) ^ e)
    let r : ℚ := (m : ℚ) * (2 : ℚ) ^ e
    if (2 : ℚ) ^ (1024 : ℤ) ≤ r then inf (decide (q < 0))
    else fin (if q < 0 then -r else r)

/-- Go `a + b` on float64. -/
def add : F64 → F64 → F64
  | fin a, fin b => roundF64 (a + b)
  | fin _, inf n => inf n
  | inf n, fin _ => inf n
  | inf a, inf b => if a = b then inf a else nan
  | _, _ => nan

/-- The lesser of two float64 values in the float64 order (`b` when they do not compare). -/
def min (a b : F64) : F64 := if lt a b then a else b

end F64

/-! ## Data model -/

/-- Go `Transaction`. -/
structure Transaction where
  ID : Int
  Amount : F64
  Currency : String
  MerchantID : String
  CardNumber : String
  deriving DecidableEq

/-- The two errors `ValidateTransaction` builds with `fmt.Errorf`, with the value each message carries. -/
inductive ValidationError where
  | invalidAmount (amount : F64) : ValidationError
  | invalidCurrency (currency : String) : ValidationError
  deriving DecidableEq

/-- Go `ProcessingResult`; `Error = none` is the nil error.  A field left out of a
composite literal has its zero value (`FraudScore = 0`). -/
structure ProcessingResult where
  Transaction : Transaction
  FraudScore : F64
  Valid : Bool
  Error : Option ValidationError
  deriving DecidableEq

/-! ## The random source -/

/-- State of the process-wide `math/rand` source: the outcomes still to be
drawn, as arbitrary streams, and the number of draws made so far.  `ints` feeds
`Intn`, `floats` feeds `Float64` (whose results lie in `[0,1)`). -/
structure Rand where
  ints : ℕ → ℕ
  floats : ℕ → {q : ℚ // 0 ≤ q ∧ q < 1}
  pos : ℕ

namespace Rand

/-- Go `rand.Intn(n)` for `n > 0`: an outcome in `[0, n)`. -/
def Intn (r : Rand) (n : ℕ) : ℕ × Rand :=
  (r.ints r.pos % n, { r with pos := r.pos + 1 })

/-- Go `rand.Float64()`: an outcome in `[0, 1)`. -/
def Float64 (r : Rand) : F64 × Rand :=
  (F64.fin (r.floats r.pos).1, { r with pos := r.pos + 1 })

/-- A source whose every `Intn` draw is `n` (reduced) and every `Float64` draw is `q`. -/
def const (n : ℕ) (q : {q : ℚ // 0 ≤ q ∧ q < 1}) : Rand :=
  { ints := fun _ => n, floats := fun _ => q, pos := 0 }

end Rand

/-! ## Validator and scorer -/

/-- Allow-list of `ValidateTransaction` (the keys of its `validCurrencies` map). -/
def validCurrencies : List String := ["USD", "EUR", "GBP", "JPY", "CAD"]

/-- Go `ValidateTransaction` (main.go 59-71); `none` is the nil error.  The map lookup
`validCurrencies[tx.Currency]` is false for a key that is not in the map. -/
def ValidateTransaction (tx : Transaction) : Option ValidationError :=
  if F64.lt tx.Amount (F64.fin 0) then
    some (ValidationError.invalidAmount tx.Amount)
  else if !(validCurrencies.contains tx.Currency) then
    some (ValidationError.invalidCurrency tx.Currency)
  else
    none

/-- Score computation of `CalculateFraudScore` from the baseline `b` drawn by `rand.Float64()`. -/
def fraudScore (tx : Transaction) (b : F64) : F64 :=
  let score := b
  let score := if F64.gt tx.Amount (F64.fin 5000) then F64.add score (F64.roundF64 (3 / 10)) else score
  let score := if F64.gt score (F64.fin 1) then F64.fin 1 else score
  score

/-- Outcome of one call of the scorer: the milliseconds slept, the score, and the random source afterwards. -/
structure ScoreCall where
  delay : ℕ
  score : F64
  rand : Rand

/-- Go `CalculateFraudScore` (main.go 73-88): `delay := 50 + rand.Intn(51)`, the sleep of
`delay` milliseconds (recorded in `delay`), then the score from `rand.Float64()`. -/
def CalculateFraudScore (tx : Transaction) (r : Rand) : ScoreCall :=
  let (n, r1) := r.Intn 51
  let delay := 50 + n
  let (b, r2) := r1.Float64
  { delay := delay, score := fraudScore tx b, rand := r2 }

/-- How a strategy obtains a fraud score for a transaction.  The program uses
`CalculateFraudScore`; the strategies are written over an arbitrary scorer so that
a deterministic one can be substituted. -/
abbrev Scorer := Transaction → Rand → ScoreCall

/-- The result a strategy builds for a transaction that failed validation. -/
def errResult (tx : Transaction) (err : ValidationError) : ProcessingResult :=
  { Transaction := tx, FraudScore := F64.fin 0, Valid := false, Error := some err }

/-- The result a strategy builds for a validated and scored transaction. -/
def okResult (tx : Transaction) (fraudScore : F64) : ProcessingResult :=
  { Transaction := tx, FraudScore := fraudScore, Valid := true, Error := none }

/-! ## Sequential strategy -/

/-- Named results of a strategy together with the random source afterwards. -/
structure Outcome where
  success : ℕ
  errors : ℕ
  results : List ProcessingResult
  rand : Rand

/-- One iteration of the loop of `ProcessTransactionsSequential`. -/
def seqBody (sc : Scorer) (st : Outcome) (tx : Transaction) : Outcome :=
  match ValidateTransaction tx with
  | some err =>
    { st with errors := st.errors + 1, results := st.results ++ [errResult tx err] }
  | none =>
    let c := sc tx st.rand
    { success := st.success + 1, errors := st.errors,
      results := st.results ++ [okResult tx c.score], rand := c.rand }

/-- Go `ProcessTransactionsSequential` (main.go 92-118), over an arbitrary scorer: the
`for _, tx := range transactions` loop from the zero counters and the empty slice. -/
def ProcessTransactionsSequentialWith (sc : Scorer) (transactions : List Transaction) (r : Rand) : Outcome :=
  transactions.foldl (seqBody sc) { success := 0, errors := 0, results := [], rand := r }

/-- Go `ProcessTransactionsSequential`. -/
def ProcessTransactionsSequential (transactions : List Transaction) (r : Rand) : Outcome :=
  ProcessTransactionsSequentialWith CalculateFraudScore transactions r

/-! ## Sample inputs -/

/-- A valid transaction of amount 100 USD. -/
def txUSD100 : Transaction :=
  { ID := 1, Amount := F64.fin 100, Currency := "USD", MerchantID := "MERCHANT_1", CardNumber := "****0001" }

/-- A transaction whose amount is NaN. -/
def txNaN : Transaction :=
  { ID := 2, Amount := F64.nan, Currency := "USD", MerchantID := "MERCHANT_2", CardNumber := "****0002" }

/-- A transaction with a negative amount. -/
def txNeg : Transaction :=
  { ID := 3, Amount := F64.fin (-1), Currency := "USD", MerchantID := "MERCHANT_3", CardNumber := "****0003" }

/-- A transaction with a currency outside the allow-list. -/
def txXYZ : Transaction :=
  { ID := 4, Amount := F64.fin 100, Currency := "XYZ", MerchantID := "MERCHANT_4", CardNumber := "****0004" }

/-- The baseline draw 1/2. -/
def half : {q : ℚ // 0 ≤ q ∧ q < 1} := ⟨1 / 2, by norm_num, by norm_num⟩

/-! ## Goroutines, channels and schedules

A strategy that starts goroutines is modelled by a machine: a state holding the
channels, the WaitGroup counter, the program counter and locals of every
goroutine, and a step function that lets one goroutine perform its next
operation.  A step is `none` when the chosen goroutine is blocked (or has
finished).  Every interleaving of the Go program corresponds to a schedule. -/

/-- A machine: initial state and one step of the goroutine picked by the scheduler. -/
structure Machine (σ α : Type) where
  init : σ
  step : σ → α → Option σ

namespace Machine

variable {σ α : Type}

/-- Run a schedule from a state; `none` if some chosen goroutine cannot move. -/
def run (m : Machine σ α) : σ → List α → Option σ
  | s, [] => some s
  | s, a :: rest => (m.step s a).bind fun s' => m.run s' rest

/-- Run a schedule from the initial state. -/
def exec (m : Machine σ α) (sched : List α) : Option σ := m.run m.init sched

/-- States some schedule leads to. -/
def Reachable (m : Machine σ α) (s : σ) : Prop := ∃ sched, m.exec sched = some s

/-- Some goroutine can move. -/
def CanStep (m : Machine σ α) (s : σ) : Prop := ∃ a s', m.step s a = some s'

end Machine

/-- A buffered Go channel: the queued items (oldest first), the capacity given
to `make`, and whether it has been closed.  With capacity 0 a send never finds room;
the strategies below make such a channel only for an empty batch, on which nothing is
sent, and for a semaphore of size 0, on which no receiver can be waiting before a
first send has gone through. -/
structure Chan (α : Type) where
  buf : List α
  cap : ℕ
  closed : Bool

/-- Outcome of a send on a buffered channel. -/
inductive SendResult (α : Type) where
  | ok (c : Chan α) : SendResult α
  | blocked : SendResult α
  | panic : SendResult α

/-- Outcome of a receive. -/
inductive RecvResult (α : Type) where
  | value (v : α) (c : Chan α) : RecvResult α
  | closed : RecvResult α
  | blocked : RecvResult α

namespace Chan

variable {α : Type}

/-- Go `make(chan T, cap)`. -/
def make (cap : ℕ) : Chan α := { buf := [], cap := cap, closed := false }

/-- Go `c <- v`: panics on a closed channel, blocks while the buffer is full. -/
def send (c : Chan α) (v : α) : SendResult α :=
  if c.closed then SendResult.panic
  else if c.buf.length < c.cap then SendResult.ok { c with buf := c.buf ++ [v] }
  else SendResult.blocked

/-- Go `<-c`: takes the oldest queued item; on an empty channel reports closed, or blocks. -/
def recv (c : Chan α) : RecvResult α :=
  match c.buf with
  | v :: rest => RecvResult.value v { c with buf := rest }
  | [] => if c.closed then RecvResult.closed else RecvResult.blocked

/-- Go `close(c)`: `none` is the panic on closing a closed channel. -/
def close (c : Chan α) : Option (Chan α) :=
  if c.closed then none else some { c with closed := true }

end Chan

/-- Go `wg.Done()`: `none` is the panic on a negative counter. -/
def wgDone (wg : ℕ) : Option ℕ := if wg = 0 then none else some (wg - 1)

/-- The goroutine every strategy starts last, `wg.Wait()` then closing the result
channel: not started; at `wg.Wait()`; at the `close`; finished. -/
inductive Closer where
  | idle : Closer
  | waiting : Closer
  | closing : Closer
  | done : Closer
  deriving DecidableEq

/-- The collector's update `if result.Valid { success++ } else { errors++ }`. -/
def bumpSuccess (success : ℕ) (r : ProcessingResult) : ℕ := if r.Valid then success + 1 else success

/-- The collector's update of `errors`. -/
def bumpErrors (errors : ℕ) (r : ProcessingResult) : ℕ := if r.Valid then errors else errors + 1

/-! ## Worker pool and semaphore strategies

`ProcessTransactionsWithWorkerPool` and `ProcessTransactionsWithSemaphore` have
the same text except for the semaphore channel and the two operations on it
around the scorer call; they share one machine, with `sem = none` for the
worker pool. -/

/-- Where a pool worker is: at `for tx := range jobs`; at `semaphore <- struct{}{}`
with a validated `tx`; in `CalculateFraudScore(tx)`; at `<-semaphore` with the score; at
`resultsChannel <- r`; or past the loop and its deferred `wg.Done()`. -/
inductive PoolWorker where
  | idle : PoolWorker
  | acquire (tx : Transaction) : PoolWorker
  | scoring (tx : Transaction) : PoolWorker
  | release (tx : Transaction) (fraudScore : F64) : PoolWorker
  | emit (r : ProcessingResult) : PoolWorker
  | exited : PoolWorker
  deriving DecidableEq

/-- Where the calling goroutine is: at the test of the loop that starts workers, having
started `w`; at the send of `transactions[i]` (or, past the end, at `close(jobs)`); at the
`go` statement of the closer; at `for result := range resultsChannel`; or returned. -/
inductive PoolMain where
  | spawn (w : ℕ) : PoolMain
  | feed (i : ℕ) : PoolMain
  | goCloser : PoolMain
  | collect : PoolMain
  | returned : PoolMain
  deriving DecidableEq

/-- State of a run of the worker pool or semaphore strategy. -/
structure PoolState where
  jobs : Chan Transaction
  res : Chan ProcessingResult
  sem : Option (Chan Unit)
  wg : ℕ
  workers : List PoolWorker
  closer : Closer
  main : PoolMain
  success : ℕ
  errors : ℕ
  results : List ProcessingResult
  rand : Rand
  panicked : Bool

/-- Scheduler choices. -/
inductive PoolAct where
  | main : PoolAct
  | worker (i : ℕ) : PoolAct
  | closer : PoolAct
  deriving DecidableEq

/-- Next operation of the calling goroutine. -/
def poolMainStep (transactions : List Transaction) (numWorkers : ℤ) (s : PoolState) : Option PoolState :=
  match s.main with
  | PoolMain.spawn w =>
    if (w : ℤ) < numWorkers then
      some { s with wg := s.wg + 1, workers := s.workers ++ [PoolWorker.idle], main := PoolMain.spawn (w + 1) }
    else some { s with main := PoolMain.feed 0 }
  | PoolMain.feed i =>
    match transactions[i]? with
    | some tx =>
      match s.jobs.send tx with
      | SendResult.ok c => some { s with jobs := c, main := PoolMain.feed (i + 1) }
      | SendResult.blocked => none
      | SendResult.panic => some { s with panicked := true }
    | none =>
      match s.jobs.close with
      | some c => some { s with jobs := c, main := PoolMain.goCloser }
      | none => some { s with panicked := true }
  | PoolMain.goCloser => some { s with closer := Closer.waiting, main := PoolMain.collect }
  | PoolMain.collect =>
    match s.res.recv with
    | RecvResult.value r c =>
      some { s with res := c, success := bumpSuccess s.success r, errors := bumpErrors s.errors r,
                    results := s.results ++ [r] }
    | RecvResult.closed => some { s with main := PoolMain.returned }
    | RecvResult.blocked => none
  | PoolMain.returned => none

/-- Next operation of worker `i`, currently at `w`. -/
def poolWorkerStep (sc : Scorer) (s : PoolState) (i : ℕ) (w : PoolWorker) : Option PoolState :=
  match w with
  | PoolWorker.idle =>
    match s.jobs.recv with
    | RecvResult.value tx c =>
      match ValidateTransaction tx with
      | some err => some { s with jobs := c, workers := s.workers.set i (PoolWorker.emit (errResult tx err)) }
      | none =>
        match s.sem with
        | some _ => some { s with jobs := c, workers := s.workers.set i (PoolWorker.acquire tx) }
        | none => some { s with jobs := c, workers := s.workers.set i (PoolWorker.scoring tx) }
    | RecvResult.closed =>
      match wgDone s.wg with
      | some n => some { s with wg := n, workers := s.workers.set i PoolWorker.exited }
      | none => some { s with panicked := true }
    | RecvResult.blocked => none
  | PoolWorker.acquire tx =>
    match s.sem with
    | some sem =>
      match sem.send () with
      | SendResult.ok c => some { s with sem := some c, workers := s.workers.set i (PoolWorker.scoring tx) }
      | SendResult.blocked => none
      | SendResult.panic => some { s with panicked := true }
    | none => none
  | PoolWorker.scoring tx =>
    let c := sc tx s.rand
    match s.sem with
    | some _ => some { s with rand := c.rand, workers := s.workers.set i (PoolWorker.release tx c.score) }
    | none => some { s with rand := c.rand, workers := s.workers.set i (PoolWorker.emit (okResult tx c.score)) }
  | PoolWorker.release tx fraudScore =>
    match s.sem with
    | some sem =>
      match sem.recv with
      | RecvResult.value _ c =>
        some { s with sem := some c, workers := s.workers.set i (PoolWorker.emit (okResult tx fraudScore)) }
      | RecvResult.closed => some { s with workers := s.workers.set i (PoolWorker.emit (okResult tx fraudScore)) }
      | RecvResult.blocked => none
    | none => none
  | PoolWorker.emit r =>
    match s.res.send r with
    | SendResult.ok c => some { s with res := c, workers := s.workers.set i PoolWorker.idle }
    | SendResult.blocked => none
    | SendResult.panic => some { s with panicked := true }
  | PoolWorker.exited => none

/-- Next operation of the closer goroutine (`wg.Wait(); close(resultsChannel)`). -/
def poolCloserStep (s : PoolState) : Option PoolState :=
  match s.closer with
  | Closer.idle => none
  | Closer.waiting => if s.wg = 0 then some { s with closer := Closer.closing } else none
  | Closer.closing =>
    match s.res.close with
    | some c => some { s with res := c, closer := Closer.done }
    | none => some { s with panicked := true }
  | Closer.done => none

/-- One step of the pool machine: the chosen goroutine performs its next operation.
After a panic nothing runs. -/
def poolStep (sc : Scorer) (transactions : List Transaction) (numWorkers : ℤ)
    (s : PoolState) (a : PoolAct) : Option PoolState :=
  if s.panicked then none
  else
    match a with
    | PoolAct.main => poolMainStep transactions numWorkers s
    | PoolAct.worker i =>
      match s.workers[i]? with
      | some w => poolWorkerStep sc s i w
      | none => none
    | PoolAct.closer => poolCloserStep s

/-- State after the two (or three) `make` calls that open the function. -/
def poolInit (transactions : List Transaction) (sem : Option (Chan Unit)) (r : Rand) : PoolState :=
  { jobs := Chan.make transactions.length, res := Chan.make transactions.length, sem := sem,
    wg := 0, workers := [], closer := Closer.idle, main := PoolMain.spawn 0,
    success := 0, errors := 0, results := [], rand := r, panicked := false }

/-- Go `ProcessTransactionsWithWorkerPool` (main.go 126-179), over an arbitrary scorer. -/
def ProcessTransactionsWithWorkerPoolWith (sc : Scorer) (transactions : List Transaction)
    (numWorkers : ℤ) (r : Rand) : Machine PoolState PoolAct :=
  { init := poolInit transactions none r
    step := poolStep sc transactions numWorkers }

/-- Go `ProcessTransactionsWithWorkerPool`. -/
def ProcessTransactionsWithWorkerPool (transactions : List Transaction) (numWorkers : ℤ) (r : Rand) :
    Machine PoolState PoolAct :=
  ProcessTransactionsWithWorkerPoolWith CalculateFraudScore transactions numWorkers r

/-- Go `ProcessTransactionsWithSemaphore` (main.go 490-550), over an arbitrary scorer.
`make` with a negative size panics. -/
def ProcessTransactionsWithSemaphoreWith (sc : Scorer) (transactions : List Transaction)
    (numWorkers : ℤ) (semaphoreSize : ℤ) (r : Rand) : Machine PoolState PoolAct :=
  { init := { poolInit transactions (some (Chan.make semaphoreSize.toNat)) r with
              panicked := decide (semaphoreSize < 0) }
    step := poolStep sc transactions numWorkers }

/-- Go `ProcessTransactionsWithSemaphore`. -/
def ProcessTransactionsWithSemaphore (transactions : List Transaction) (numWorkers : ℤ)
    (semaphoreSize : ℤ) (r : Rand) : Machine PoolState PoolAct :=
  ProcessTransactionsWithSemaphoreWith CalculateFraudScore transactions numWorkers semaphoreSize r

/-- The steps of the pool machine as a relation, one constructor per operation
(`poolStep_sound`: every step of `poolStep` is one of these). -/
inductive PoolStep (sc : Scorer) (transactions : List Transaction) (numWorkers : ℤ) :
    PoolState → PoolState → Prop where
  | spawn (s : PoolState) (w : ℕ) (hp : s.panicked = false) (hm : s.main = PoolMain.spawn w)
      (hw : (w : ℤ) < numWorkers) :
      PoolStep sc transactions numWorkers s
        { s with wg := s.wg + 1, workers := s.workers ++ [PoolWorker.idle], main := PoolMain.spawn (w + 1) }
  | spawnEnd (s : PoolState) (w : ℕ) (hp : s.panicked = false) (hm : s.main = PoolMain.spawn w)
      (hw : ¬ (w : ℤ) < numWorkers) :
      PoolStep sc transactions numWorkers s { s with main := PoolMain.feed 0 }
  | feed (s : PoolState) (i : ℕ) (tx : Transaction) (hp : s.panicked = false)
      (hm : s.main = PoolMain.feed i) (htx : transactions[i]? = some tx)
      (hopen : s.jobs.closed = false) (hroom : s.jobs.buf.length < s.jobs.cap) :
      PoolStep sc transactions numWorkers s
        { s with jobs := { s.jobs with buf := s.jobs.buf ++ [tx] }, main := PoolMain.feed (i + 1) }
  | feedPanic (s : PoolState) (i : ℕ) (tx : Transaction) (hp : s.panicked = false)
      (hm : s.main = PoolMain.feed i) (htx : transactions[i]? = some tx)
      (hclosed : s.jobs.closed = true) :
      PoolStep sc transactions numWorkers s { s with panicked := true }
  | closeJobs (s : PoolState) (i : ℕ) (hp : s.panicked = false)
      (hm : s.main = PoolMain.feed i) (htx : transactions[i]? = none)
      (hopen : s.jobs.closed = false) :
      PoolStep sc transactions numWorkers s
        { s with jobs := { s.jobs with closed := true }, main := PoolMain.goCloser }
  | closeJobsPanic (s : PoolState) (i : ℕ) (hp : s.panicked = false)
      (hm : s.main = PoolMain.feed i) (htx : transactions[i]? = none)
      (hclosed : s.jobs.closed = true) :
      PoolStep sc transactions numWorkers s { s with panicked := true }
  | goCloser (s : PoolState) (hp : s.panicked = false) (hm : s.main = PoolMain.goCloser) :
      PoolStep sc transactions numWorkers s { s with closer := Closer.waiting, main := PoolMain.collect }
  | collect (s : PoolState) (r : ProcessingResult) (rest : List ProcessingResult)
      (hp : s.panicked = false) (hm : s.main = PoolMain.collect) (hbuf : s.res.buf = r :: rest) :
      PoolStep sc transactions numWorkers s
        { s with res := { s.res with buf := rest }, success := bumpSuccess s.success r,
                 errors := bumpErrors s.errors r, results := s.results ++ [r] }
  | ret (s : PoolState) (hp : s.panicked = false) (hm : s.main = PoolMain.collect)
      (hbuf : s.res.buf = []) (hclosed : s.res.closed = true) :
      PoolStep sc transactions numWorkers s { s with main := PoolMain.returned }
  | takeInvalid (s : PoolState) (i : ℕ) (tx : Transaction) (rest : List Transaction)
      (err : ValidationError) (hp : s.panicked = false)
      (hw : s.workers[i]? = some PoolWorker.idle) (hbuf : s.jobs.buf = tx :: rest)
      (hv : ValidateTransaction tx = some err) :
      PoolStep sc transactions numWorkers s
        { s with jobs := { s.jobs with buf := rest },
                 workers := s.workers.set i (PoolWorker.emit (errResult tx err)) }
  | takeValidSem (s : PoolState) (i : ℕ) (tx : Transaction) (rest : List Transaction)
      (sem : Chan Unit) (hp : s.panicked = false)
      (hw : s.workers[i]? = some PoolWorker.idle) (hbuf : s.jobs.buf = tx :: rest)
      (hv : ValidateTransaction tx = none) (hsem : s.sem = some sem) :
      PoolStep sc transactions numWorkers s
        { s with jobs := { s.jobs with buf := rest },
                 workers := s.workers.set i (PoolWorker.acquire tx) }
  | takeValid (s : PoolState) (i : ℕ) (tx : Transaction) (rest : List Transaction)
      (hp : s.panicked = false)
      (hw : s.workers[i]? = some PoolWorker.idle) (hbuf : s.jobs.buf = tx :: rest)
      (hv : ValidateTransaction tx = none) (hsem : s.sem = none) :
      PoolStep sc transactions numWorkers s
        { s with jobs := { s.jobs with buf := rest },
                 workers := s.workers.set i (PoolWorker.scoring tx) }
  | exit (s : PoolState) (i : ℕ) (hp : s.panicked = false)
      (hw : s.workers[i]? = some PoolWorker.idle) (hbuf : s.jobs.buf = [])
      (hclosed : s.jobs.closed = true) (hwg : s.wg ≠ 0) :
      PoolStep sc transactions numWorkers s
        { s with wg := s.wg - 1, workers := s.workers.set i PoolWorker.exited }
  | exitPanic (s : PoolState) (i : ℕ) (hp : s.panicked = false)
      (hw : s.workers[i]? = some PoolWorker.idle) (hbuf : s.jobs.buf = [])
      (hclosed : s.jobs.closed = true) (hwg : s.wg = 0) :
      PoolStep sc transactions numWorkers s { s with panicked := true }
  | acquire (s : PoolState) (i : ℕ) (tx : Transaction) (sem : Chan Unit) (hp : s.panicked = false)
      (hw : s.workers[i]? = some (PoolWorker.acquire tx)) (hsem : s.sem = some sem)
      (hopen : sem.closed = false) (hroom : sem.buf.length < sem.cap) :
      PoolStep sc transactions numWorkers s
        { s with sem := some { sem with buf := sem.buf ++ [()] },
                 workers := s.workers.set i (PoolWorker.scoring tx) }
  | acquirePanic (s : PoolState) (i : ℕ) (tx : Transaction) (sem : Chan Unit)
      (hp : s.panicked = false)
      (hw : s.workers[i]? = some (PoolWorker.acquire tx)) (hsem : s.sem = some sem)
      (hclosed : sem.closed = true) :
      PoolStep sc transactions numWorkers s { s with panicked := true }
  | scoreSem (s : PoolState) (i : ℕ) (tx : Transaction) (sem : Chan Unit) (hp : s.panicked = false)
      (hw : s.workers[i]? = some (PoolWorker.scoring tx)) (hsem : s.sem = some sem) :
      PoolStep sc transactions numWorkers s
        { s with rand := (sc tx s.rand).rand,
                 workers := s.workers.set i (PoolWorker.release tx (sc tx s.rand).score) }
  | score (s : PoolState) (i : ℕ) (tx : Transaction) (hp : s.panicked = false)
      (hw : s.workers[i]? = some (PoolWorker.scoring tx)) (hsem : s.sem = none) :
      PoolStep sc transactions numWorkers s
        { s with rand := (sc tx s.rand).rand,
                 workers := s.workers.set i (PoolWorker.emit (okResult tx (sc tx s.rand).score)) }
  | release (s : PoolState) (i : ℕ) (tx : Transaction) (fraudScore : F64) (sem : Chan Unit)
      (u : Unit) (rest : List Unit) (hp : s.panicked = false)
      (hw : s.workers[i]? = some (PoolWorker.release tx fraudScore)) (hsem : s.sem = some sem)
      (hbuf : sem.buf = u :: rest) :
      PoolStep sc transactions numWorkers s
        { s with sem := some { sem with buf := rest },
                 workers := s.workers.set i (PoolWorker.emit (okResult tx fraudScore)) }
  | releaseClosed (s : PoolState) (i : ℕ) (tx : Transaction) (fraudScore : F64) (sem : Chan Unit)
      (hp : s.panicked = false)
      (hw : s.workers[i]? = some (PoolWorker.release tx fraudScore)) (hsem : s.sem = some sem)
      (hbuf : sem.buf = []) (hclosed : sem.closed = true) :
      PoolStep sc transactions numWorkers s
        { s with workers := s.workers.set i (PoolWorker.emit (okResult tx fraudScore)) }
  | emit (s : PoolState) (i : ℕ) (r : ProcessingResult) (hp : s.panicked = false)
      (hw : s.workers[i]? = some (PoolWorker.emit r))
      (hopen : s.res.closed = false) (hroom : s.res.buf.length < s.res.cap) :
      PoolStep sc transactions numWorkers s
        { s with res := { s.res with buf := s.res.buf ++ [r] },
                 workers := s.workers.set i PoolWorker.idle }
  | emitPanic (s : PoolState) (i : ℕ) (r : ProcessingResult) (hp : s.panicked = false)
      (hw : s.workers[i]? = some (PoolWorker.emit r)) (hclosed : s.res.closed = true) :
      PoolStep sc transactions numWorkers s { s with panicked := true }
  | waited (s : PoolState) (hp : s.panicked = false) (hc : s.closer = Closer.waiting)
      (hwg : s.wg = 0) :
      PoolStep sc transactions numWorkers s { s with closer := Closer.closing }
  | closeRes (s : PoolState) (hp : s.panicked = false) (hc : s.closer = Closer.closing)
      (hopen : s.res.closed = false) :
      PoolStep sc transactions numWorkers s
        { s with res := { s.res with closed := true }, closer := Closer.done }
  | closeResPanic (s : PoolState) (hp : s.panicked = false) (hc : s.closer = Closer.closing)
      (hclosed : s.res.closed = true) :
      PoolStep sc transactions numWorkers s { s with panicked := true }

/-! ### Invariants of the pool machine -/

/-- A result as the workers build it: an error result for a transaction that fails
validation, or a valid result for one that passes, with a score satisfying `G`. -/
def resultOK (G : Transaction → F64 → Prop) (r : ProcessingResult) : Prop :=
  (∃ err, ValidateTransaction r.Transaction = some err ∧ r = errResult r.Transaction err) ∨
  (ValidateTransaction r.Transaction = none ∧ r = okResult r.Transaction r.FraudScore ∧
    G r.Transaction r.FraudScore)

/-- What a pool worker holds is well formed. -/
def PoolWorker.OK (G : Transaction → F64 → Prop) : PoolWorker → Prop
  | PoolWorker.idle => True
  | PoolWorker.acquire tx => ValidateTransaction tx = none
  | PoolWorker.scoring tx => ValidateTransaction tx = none
  | PoolWorker.release tx fs => ValidateTransaction tx = none ∧ G tx fs
  | PoolWorker.emit r => resultOK G r
  | PoolWorker.exited => True

/-- Every result collected, queued or about to be sent is well formed. -/
def PoolState.ResultsOK (G : Transaction → F64 → Prop) (s : PoolState) : Prop :=
  (∀ r ∈ s.results, resultOK G r) ∧ (∀ r ∈ s.res.buf, resultOK G r) ∧
    (∀ w ∈ s.workers, PoolWorker.OK G w)

/-- The counters agree with the results collected so far. -/
def countsOK (success errors : ℕ) (results : List ProcessingResult) : Prop :=
  success = results.countP (fun r => r.Valid) ∧ errors = results.countP (fun r => !r.Valid)

/-- The transaction a pool worker is working on, if any. -/
def PoolWorker.holding : PoolWorker → Multiset Transaction
  | PoolWorker.idle => 0
  | PoolWorker.acquire tx => {tx}
  | PoolWorker.scoring tx => {tx}
  | PoolWorker.release tx _ => {tx}
  | PoolWorker.emit r => {r.Transaction}
  | PoolWorker.exited => 0

/-- 1 for a worker that has not called `wg.Done()` yet. -/
def PoolWorker.active : PoolWorker → ℕ
  | PoolWorker.exited => 0
  | _ => 1

/-- 1 for a worker that holds a semaphore permit. -/
def PoolWorker.permit : PoolWorker → ℕ
  | PoolWorker.scoring _ => 1
  | PoolWorker.release _ _ => 1
  | _ => 0

/-- Whether the worker is at one of the two semaphore operations. -/
def PoolWorker.atSem : PoolWorker → Bool
  | PoolWorker.acquire _ => true
  | PoolWorker.release _ _ => true
  | _ => false

/-- The transactions the calling goroutine has not sent to `jobs` yet. -/
def PoolMain.unfed (transactions : List Transaction) : PoolMain → List Transaction
  | PoolMain.spawn _ => transactions
  | PoolMain.feed i => transactions.drop i
  | _ => []

/-- Every transaction of the batch, wherever it currently is in the run. -/
def PoolState.everywhere (transactions : List Transaction) (s : PoolState) : Multiset Transaction :=
  (s.results.map ProcessingResult.Transaction : Multiset Transaction) +
    (s.res.buf.map ProcessingResult.Transaction : Multiset Transaction) +
    (s.workers.map PoolWorker.holding).sum + (s.jobs.buf : Multiset Transaction) +
    (PoolMain.unfed transactions s.main : Multiset Transaction)

/-- No transaction is lost or duplicated. -/
def PoolState.Conserved (transactions : List Transaction) (s : PoolState) : Prop :=
  s.everywhere transactions = (transactions : Multiset Transaction)

/-- The WaitGroup counter is the number of workers that have not finished, and
both queues keep the capacity they were made with. -/
def PoolState.Counted (transactions : List Transaction) (s : PoolState) : Prop :=
  s.wg = (s.workers.map PoolWorker.active).sum ∧
    s.jobs.cap = transactions.length ∧ s.res.cap = transactions.length

/-- The semaphore buffer holds one token per worker between acquire and release. -/
def PoolState.SemOK (s : PoolState) : Prop :=
  match s.sem with
  | none => ∀ w ∈ s.workers, PoolWorker.atSem w = false
  | some c => c.closed = false ∧ c.buf.length = (s.workers.map PoolWorker.permit).sum ∧
      c.buf.length ≤ c.cap

/-- How far the calling goroutine, the closer and the channels have got, consistently. -/
def PoolState.Phased (numWorkers : ℤ) (s : PoolState) : Prop :=
  (match s.main with
    | PoolMain.spawn w => s.workers.length = w ∧ w ≤ numWorkers.toNat ∧ s.jobs.closed = false ∧
        s.closer = Closer.idle
    | PoolMain.feed _ => s.workers.length = numWorkers.toNat ∧ s.jobs.closed = false ∧
        s.closer = Closer.idle
    | PoolMain.goCloser => s.workers.length = numWorkers.toNat ∧ s.jobs.closed = true ∧
        s.closer = Closer.idle
    | PoolMain.collect => s.workers.length = numWorkers.toNat ∧ s.jobs.closed = true ∧
        s.closer ≠ Closer.idle
    | PoolMain.returned => s.workers.length = numWorkers.toNat ∧ s.jobs.closed = true ∧
        s.closer = Closer.done ∧ s.res.buf = []) ∧
  (match s.closer with
    | Closer.idle => s.res.closed = false
    | Closer.waiting => s.res.closed = false
    | Closer.closing => s.wg = 0 ∧ s.res.closed = false
    | Closer.done => s.wg = 0 ∧ s.res.closed = true) ∧
  (PoolWorker.exited ∈ s.workers → s.jobs.closed = true ∧ s.jobs.buf = [])

/-- The semaphore, when there is one, has room for at least one permit. -/
def PoolState.SemPos (s : PoolState) : Prop := ∀ c, s.sem = some c → 0 < c.cap

/-- All the invariants of the pool machine together; in particular no goroutine has panicked. -/
structure PoolState.Inv (transactions : List Transaction) (numWorkers : ℤ) (s : PoolState) : Prop where
  noPanic : s.panicked = false
  conserved : s.Conserved transactions
  counted : s.Counted transactions
  semOK : s.SemOK
  phased : s.Phased numWorkers

/-- Work a pool worker still has in front of it (for the termination measure). -/
def PoolWorker.weight : PoolWorker → ℕ
  | PoolWorker.idle => 1
  | PoolWorker.acquire _ => 6
  | PoolWorker.scoring _ => 5
  | PoolWorker.release _ _ => 4
  | PoolWorker.emit _ => 3
  | PoolWorker.exited => 0

/-- Steps the calling goroutine still has in front of it, feeding and collecting apart. -/
def PoolMain.weight (numWorkers : ℤ) (n : ℕ) : PoolMain → ℕ
  | PoolMain.spawn w => 2 * (numWorkers.toNat - w) + 6 + 7 * n
  | PoolMain.feed i => 5 + 7 * (n - i)
  | PoolMain.goCloser => 4
  | PoolMain.collect => 1
  | PoolMain.returned => 0

/-- Steps the closer still has in front of it. -/
def Closer.weight : Closer → ℕ
  | Closer.idle => 2
  | Closer.waiting => 2
  | Closer.closing => 1
  | Closer.done => 0

/-- Termination measure of the pool machine: every step decreases it. -/
def PoolState.measure (transactions : List Transaction) (numWorkers : ℤ) (s : PoolState) : ℕ :=
  PoolMain.weight numWorkers transactions.length s.main + 6 * s.jobs.buf.length +
    (s.workers.map PoolWorker.weight).sum + s.res.buf.length + Closer.weight s.closer +
    (if s.panicked then 0 else 1)

/-! ## Fan-out / fan-in strategy

`FanOut`, `FanIn` and `ProcessTransactionsWithFanOutFanIn` use unbuffered channels
only.  A send on an unbuffered channel completes together with the matching receive,
so it is a single step of the machine, taken when the sender is at its send and the
receiver is at its receive; it is listed under the sender.  Lane `j` groups job
channel `j`, worker `j`, result channel `j` and the forwarder of `FanIn` for it. -/

/-- Where a fan-out worker is: not started yet; at `for tx := range jobs`; in
`CalculateFraudScore(tx)`; at `results <- r`; or past the loop and its deferred
`close(results)`. -/
inductive FanWorker where
  | notStarted : FanWorker
  | idle : FanWorker
  | scoring (tx : Transaction) : FanWorker
  | emit (r : ProcessingResult) : FanWorker
  | exited : FanWorker
  deriving DecidableEq

/-- Where a forwarder goroutine of `FanIn` is: not started yet; at `for result := range c`;
at `out <- r`; or past the loop and its deferred `wg.Done()`. -/
inductive Forwarder where
  | notStarted : Forwarder
  | idle : Forwarder
  | hold (r : ProcessingResult) : Forwarder
  | exited : Forwarder
  deriving DecidableEq

/-- Job channel, worker, result channel and forwarder number `j`. -/
structure Lane where
  jobClosed : Bool
  worker : FanWorker
  resClosed : Bool
  fwd : Forwarder
  deriving DecidableEq

/-- A lane right after `FanOut` made its job channel. -/
def Lane.fresh : Lane :=
  { jobClosed := false, worker := FanWorker.notStarted, resClosed := false, fwd := Forwarder.notStarted }

/-- Where the goroutine started by `FanOut` is: sending `transactions[i]`, closing channel `j`, or finished. -/
inductive Distributor where
  | notStarted : Distributor
  | send (i : ℕ) : Distributor
  | close (j : ℕ) : Distributor
  | done : Distributor
  deriving DecidableEq

/-- Where the calling goroutine is: at the call of `FanOut`; at the test of the loop that
starts worker `i`; in `FanIn`, at the start of forwarder `j`; at the `go` statement of the
closer of `FanIn`; at `for result := range mergedResults`; or returned. -/
inductive FanMain where
  | fanOut : FanMain
  | spawnWorker (i : ℕ) : FanMain
  | fanIn (j : ℕ) : FanMain
  | goCloser : FanMain
  | collect : FanMain
  | returned : FanMain
  deriving DecidableEq

/-- State of a run of the fan-out/fan-in strategy. -/
structure FanState where
  lanes : List Lane
  dist : Distributor
  wg : ℕ
  outClosed : Bool
  closer : Closer
  main : FanMain
  success : ℕ
  errors : ℕ
  results : List ProcessingResult
  rand : Rand
  panicked : Bool

/-- Scheduler choices. -/
inductive FanAct where
  | main : FanAct
  | dist : FanAct
  | worker (j : ℕ) : FanAct
  | fwd (j : ℕ) : FanAct
  | closer : FanAct
  deriving DecidableEq

/-- What a worker does with a transaction it has just received, up to its next channel
operation or scorer call. -/
def FanWorker.take (tx : Transaction) : FanWorker :=
  match ValidateTransaction tx with
  | some err => FanWorker.emit (errResult tx err)
  | none => FanWorker.scoring tx

/-- Next operation of the calling goroutine.  `FanOut` panics in `make` on a negative
`numWorkers`; otherwise it makes the job channels and starts the distributor. -/
def fanMainStep (numWorkers : ℤ) (s : FanState) : Option FanState :=
  match s.main with
  | FanMain.fanOut =>
    if numWorkers < 0 then some { s with panicked := true }
    else some { s with lanes := List.replicate numWorkers.toNat Lane.fresh,
                       dist := Distributor.send 0, main := FanMain.spawnWorker 0 }
  | FanMain.spawnWorker i =>
    if (i : ℤ) < numWorkers then
      match s.lanes[i]? with
      | some lane =>
        some { s with lanes := s.lanes.set i { lane with worker := FanWorker.idle },
                      main := FanMain.spawnWorker (i + 1) }
      | none => some { s with panicked := true }
    else some { s with main := FanMain.fanIn 0 }
  | FanMain.fanIn j =>
    match s.lanes[j]? with
    | some lane =>
      some { s with wg := s.wg + 1, lanes := s.lanes.set j { lane with fwd := Forwarder.idle },
                    main := FanMain.fanIn (j + 1) }
    | none => some { s with main := FanMain.goCloser }
  | FanMain.goCloser => some { s with closer := Closer.waiting, main := FanMain.collect }
  | FanMain.collect => if s.outClosed then some { s with main := FanMain.returned } else none
  | FanMain.returned => none

/-- Next operation of the goroutine started by `FanOut`: `channels[i%numWorkers] <- tx`
(a division by zero when `numWorkers` is 0), then `close(ch)` for every channel. -/
def fanOutStep (transactions : List Transaction) (numWorkers : ℤ) (s : FanState) : Option FanState :=
  match s.dist with
  | Distributor.notStarted => none
  | Distributor.send i =>
    match transactions[i]? with
    | some tx =>
      if numWorkers = 0 then some { s with panicked := true }
      else
        match s.lanes[i % numWorkers.toNat]? with
        | some lane =>
          if lane.jobClosed then some { s with panicked := true }
          else if lane.worker = FanWorker.idle then
            some { s with lanes := s.lanes.set (i % numWorkers.toNat) { lane with worker := FanWorker.take tx },
                          dist := Distributor.send (i + 1) }
          else none
        | none => some { s with panicked := true }
    | none => some { s with dist := Distributor.close 0 }
  | Distributor.close j =>
    match s.lanes[j]? with
    | some lane =>
      if lane.jobClosed then some { s with panicked := true }
      else some { s with lanes := s.lanes.set j { lane with jobClosed := true },
                         dist := Distributor.close (j + 1) }
    | none => some { s with dist := Distributor.done }
  | Distributor.done => none

/-- Next operation of worker `j`, whose lane is `lane`. -/
def fanWorkerStep (sc : Scorer) (s : FanState) (j : ℕ) (lane : Lane) : Option FanState :=
  match lane.worker with
  | FanWorker.notStarted => none
  | FanWorker.idle =>
    if lane.jobClosed then
      if lane.resClosed then some { s with panicked := true }
      else some { s with lanes := s.lanes.set j { lane with worker := FanWorker.exited, resClosed := true } }
    else none
  | FanWorker.scoring tx =>
    let c := sc tx s.rand
    some { s with rand := c.rand,
                  lanes := s.lanes.set j { lane with worker := FanWorker.emit (okResult tx c.score) } }
  | FanWorker.emit r =>
    if lane.resClosed then some { s with panicked := true }
    else if lane.fwd = Forwarder.idle then
      some { s with lanes := s.lanes.set j { lane with worker := FanWorker.idle, fwd := Forwarder.hold r } }
    else none
  | FanWorker.exited => none

/-- Next operation of forwarder `j` of `FanIn`, whose lane is `lane`. -/
def fanInStep (s : FanState) (j : ℕ) (lane : Lane) : Option FanState :=
  match lane.fwd with
  | Forwarder.notStarted => none
  | Forwarder.idle =>
    if lane.resClosed then
      match wgDone s.wg with
      | some n => some { s with wg := n, lanes := s.lanes.set j { lane with fwd := Forwarder.exited } }
      | none => some { s with panicked := true }
    else none
  | Forwarder.hold r =>
    if s.outClosed then some { s with panicked := true }
    else if s.main = FanMain.collect then
      some { s with lanes := s.lanes.set j { lane with fwd := Forwarder.idle },
                    success := bumpSuccess s.success r, errors := bumpErrors s.errors r,
                    results := s.results ++ [r] }
    else none
  | Forwarder.exited => none

/-- Next operation of the closer goroutine of `FanIn` (`wg.Wait(); close(out)`). -/
def fanCloserStep (s : FanState) : Option FanState :=
  match s.closer with
  | Closer.idle => none
  | Closer.waiting => if s.wg = 0 then some { s with closer := Closer.closing } else none
  | Closer.closing =>
    if s.outClosed then some { s with panicked := true }
    else some { s with outClosed := true, closer := Closer.done }
  | Closer.done => none

/-- One step of the fan-out/fan-in machine. -/
def fanStep (sc : Scorer) (transactions : List Transaction) (numWorkers : ℤ)
    (s : FanState) (a : FanAct) : Option FanState :=
  if s.panicked then none
  else
    match a with
    | FanAct.main => fanMainStep numWorkers s
    | FanAct.dist => fanOutStep transactions numWorkers s
    | FanAct.worker j =>
      match s.lanes[j]? with
      | some lane => fanWorkerStep sc s j lane
      | none => none
    | FanAct.fwd j =>
      match s.lanes[j]? with
      | some lane => fanInStep s j lane
      | none => none
    | FanAct.closer => fanCloserStep s

/-- State on entry to `ProcessTransactionsWithFanOutFanIn`. -/
def fanInit (r : Rand) : FanState :=
  { lanes := [], dist := Distributor.notStarted, wg := 0, outClosed := false, closer := Closer.idle,
    main := FanMain.fanOut, success := 0, errors := 0, results := [], rand := r, panicked := false }

/-- Go `ProcessTransactionsWithFanOutFanIn` (main.go 230-275) with `FanOut` (184-200) and
`FanIn` (205-225), over an arbitrary scorer. -/
def ProcessTransactionsWithFanOutFanInWith (sc : Scorer) (transactions : List Transaction)
    (numWorkers : ℤ) (r : Rand) : Machine FanState FanAct :=
  { init := fanInit r
    step := fanStep sc transactions numWorkers }

/-- Go `ProcessTransactionsWithFanOutFanIn`. -/
def ProcessTransactionsWithFanOutFanIn (transactions : List Transaction) (numWorkers : ℤ) (r : Rand) :
    Machine FanState FanAct :=
  ProcessTransactionsWithFanOutFanInWith CalculateFraudScore transactions numWorkers r

/-- The steps of the fan-out/fan-in machine as a relation, one constructor per operation
(`fanStep_sound`: every step of `fanStep` is one of these). -/
inductive FanStep (sc : Scorer) (transactions : List Transaction) (numWorkers : ℤ) :
    FanState → FanState → Prop where
  | fanOut (s : FanState) (hp : s.panicked = false) (hm : s.main = FanMain.fanOut)
      (hw : ¬ numWorkers < 0) :
      FanStep sc transactions numWorkers s
        { s with lanes := List.replicate numWorkers.toNat Lane.fresh,
                 dist := Distributor.send 0, main := FanMain.spawnWorker 0 }
  | fanOutPanic (s : FanState) (hp : s.panicked = false) (hm : s.main = FanMain.fanOut)
      (hw : numWorkers < 0) :
      FanStep sc transactions numWorkers s { s with panicked := true }
  | spawnWorker (s : FanState) (i : ℕ) (lane : Lane) (hp : s.panicked = false)
      (hm : s.main = FanMain.spawnWorker i) (hi : (i : ℤ) < numWorkers)
      (hl : s.lanes[i]? = some lane) :
      FanStep sc transactions numWorkers s
        { s with lanes := s.lanes.set i { lane with worker := FanWorker.idle },
                 main := FanMain.spawnWorker (i + 1) }
  | spawnWorkerPanic (s : FanState) (i : ℕ) (hp : s.panicked = false)
      (hm : s.main = FanMain.spawnWorker i) (hi : (i : ℤ) < numWorkers)
      (hl : s.lanes[i]? = none) :
      FanStep sc transactions numWorkers s { s with panicked := true }
  | spawnWorkerEnd (s : FanState) (i : ℕ) (hp : s.panicked = false)
      (hm : s.main = FanMain.spawnWorker i) (hi : ¬ (i : ℤ) < numWorkers) :
      FanStep sc transactions numWorkers s { s with main := FanMain.fanIn 0 }
  | fanIn (s : FanState) (j : ℕ) (lane : Lane) (hp : s.panicked = false)
      (hm : s.main = FanMain.fanIn j) (hl : s.lanes[j]? = some lane) :
      FanStep sc transactions numWorkers s
        { s with wg := s.wg + 1, lanes := s.lanes.set j { lane with fwd := Forwarder.idle },
                 main := FanMain.fanIn (j + 1) }
  | fanInEnd (s : FanState) (j : ℕ) (hp : s.panicked = false)
      (hm : s.main = FanMain.fanIn j) (hl : s.lanes[j]? = none) :
      FanStep sc transactions numWorkers s { s with main := FanMain.goCloser }
  | goCloser (s : FanState) (hp : s.panicked = false) (hm : s.main = FanMain.goCloser) :
      FanStep sc transactions numWorkers s { s with closer := Closer.waiting, main := FanMain.collect }
  | ret (s : FanState) (hp : s.panicked = false) (hm : s.main = FanMain.collect)
      (hclosed : s.outClosed = true) :
      FanStep sc transactions numWorkers s { s with main := FanMain.returned }
  | send (s : FanState) (i : ℕ) (tx : Transaction) (lane : Lane) (hp : s.panicked = false)
      (hd : s.dist = Distributor.send i) (htx : transactions[i]? = some tx)
      (hw : numWorkers ≠ 0) (hl : s.lanes[i % numWorkers.toNat]? = some lane)
      (hopen : lane.jobClosed = false) (hidle : lane.worker = FanWorker.idle) :
      FanStep sc transactions numWorkers s
        { s with lanes := s.lanes.set (i % numWorkers.toNat) { lane with worker := FanWorker.take tx },
                 dist := Distributor.send (i + 1) }
  | sendPanicZero (s : FanState) (i : ℕ) (tx : Transaction) (hp : s.panicked = false)
      (hd : s.dist = Distributor.send i) (htx : transactions[i]? = some tx)
      (hw : numWorkers = 0) :
      FanStep sc transactions numWorkers s { s with panicked := true }
  | sendPanicRange (s : FanState) (i : ℕ) (tx : Transaction) (hp : s.panicked = false)
      (hd : s.dist = Distributor.send i) (htx : transactions[i]? = some tx)
      (hw : numWorkers ≠ 0) (hl : s.lanes[i % numWorkers.toNat]? = none) :
      FanStep sc transactions numWorkers s { s with panicked := true }
  | sendPanicClosed (s : FanState) (i : ℕ) (tx : Transaction) (lane : Lane) (hp : s.panicked = false)
      (hd : s.dist = Distributor.send i) (htx : transactions[i]? = some tx)
      (hw : numWorkers ≠ 0) (hl : s.lanes[i % numWorkers.toNat]? = some lane)
      (hclosed : lane.jobClosed = true) :
      FanStep sc transactions numWorkers s { s with panicked := true }
  | sendEnd (s : FanState) (i : ℕ) (hp : s.panicked = false)
      (hd : s.dist = Distributor.send i) (htx : transactions[i]? = none) :
      FanStep sc transactions numWorkers s { s with dist := Distributor.close 0 }
  | closeJob (s : FanState) (j : ℕ) (lane : Lane) (hp : s.panicked = false)
      (hd : s.dist = Distributor.close j) (hl : s.lanes[j]? = some lane)
      (hopen : lane.jobClosed = false) :
      FanStep sc transactions numWorkers s
        { s with lanes := s.lanes.set j { lane with jobClosed := true },
                 dist := Distributor.close (j + 1) }
  | closeJobPanic (s : FanState) (j : ℕ) (lane : Lane) (hp : s.panicked = false)
      (hd : s.dist = Distributor.close j) (hl : s.lanes[j]? = some lane)
      (hclosed : lane.jobClosed = true) :
      FanStep sc transactions numWorkers s { s with panicked := true }
  | closeEnd (s : FanState) (j : ℕ) (hp : s.panicked = false)
      (hd : s.dist = Distributor.close j) (hl : s.lanes[j]? = none) :
      FanStep sc transactions numWorkers s { s with dist := Distributor.done }
  | workerExit (s : FanState) (j : ℕ) (lane : Lane) (hp : s.panicked = false)
      (hl : s.lanes[j]? = some lane) (hw : lane.worker = FanWorker.idle)
      (hjc : lane.jobClosed = true) (hro : lane.resClosed = false) :
      FanStep sc transactions numWorkers s
        { s with lanes := s.lanes.set j { lane with worker := FanWorker.exited, resClosed := true } }
  | workerExitPanic (s : FanState) (j : ℕ) (lane : Lane) (hp : s.panicked = false)
      (hl : s.lanes[j]? = some lane) (hw : lane.worker = FanWorker.idle)
      (hjc : lane.jobClosed = true) (hrc : lane.resClosed = true) :
      FanStep sc transactions numWorkers s { s with panicked := true }
  | score (s : FanState) (j : ℕ) (lane : Lane) (tx : Transaction) (hp : s.panicked = false)
      (hl : s.lanes[j]? = some lane) (hw : lane.worker = FanWorker.scoring tx) :
      FanStep sc transactions numWorkers s
        { s with rand := (sc tx s.rand).rand,
                 lanes := s.lanes.set j
                   { lane with worker := FanWorker.emit (okResult tx (sc tx s.rand).score) } }
  | emit (s : FanState) (j : ℕ) (lane : Lane) (r : ProcessingResult) (hp : s.panicked = false)
      (hl : s.lanes[j]? = some lane) (hw : lane.worker = FanWorker.emit r)
      (hro : lane.resClosed = false) (hf : lane.fwd = Forwarder.idle) :
      FanStep sc transactions numWorkers s
        { s with lanes := s.lanes.set j { lane with worker := FanWorker.idle, fwd := Forwarder.hold r } }
  | emitPanic (s : FanState) (j : ℕ) (lane : Lane) (r : ProcessingResult) (hp : s.panicked = false)
      (hl : s.lanes[j]? = some lane) (hw : lane.worker = FanWorker.emit r)
      (hrc : lane.resClosed = true) :
      FanStep sc transactions numWorkers s { s with panicked := true }
  | fwdExit (s : FanState) (j : ℕ) (lane : Lane) (hp : s.panicked = false)
      (hl : s.lanes[j]? = some lane) (hf : lane.fwd = Forwarder.idle)
      (hrc : lane.resClosed = true) (hwg : s.wg ≠ 0) :
      FanStep sc transactions numWorkers s
        { s with wg := s.wg - 1, lanes := s.lanes.set j { lane with fwd := Forwarder.exited } }
  | fwdExitPanic (s : FanState) (j : ℕ) (lane : Lane) (hp : s.panicked = false)
      (hl : s.lanes[j]? = some lane) (hf : lane.fwd = Forwarder.idle)
      (hrc : lane.resClosed = true) (hwg : s.wg = 0) :
      FanStep sc transactions numWorkers s { s with panicked := true }
  | fwdSend (s : FanState) (j : ℕ) (lane : Lane) (r : ProcessingResult) (hp : s.panicked = false)
      (hl : s.lanes[j]? = some lane) (hf : lane.fwd = Forwarder.hold r)
      (hopen : s.outClosed = false) (hm : s.main = FanMain.collect) :
      FanStep sc transactions numWorkers s
        { s with lanes := s.lanes.set j { lane with fwd := Forwarder.idle },
                 success := bumpSuccess s.success r, errors := bumpErrors s.errors r,
                 results := s.results ++ [r] }
  | fwdSendPanic (s : FanState) (j : ℕ) (lane : Lane) (r : ProcessingResult) (hp : s.panicked = false)
      (hl : s.lanes[j]? = some lane) (hf : lane.fwd = Forwarder.hold r)
      (hclosed : s.outClosed = true) :
      FanStep sc transactions numWorkers s { s with panicked := true }
  | waited (s : FanState) (hp : s.panicked = false) (hc : s.closer = Closer.waiting)
      (hwg : s.wg = 0) :
      FanStep sc transactions numWorkers s { s with closer := Closer.closing }
  | closeOut (s : FanState) (hp : s.panicked = false) (hc : s.closer = Closer.closing)
      (hopen : s.outClosed = false) :
      FanStep sc transactions numWorkers s { s with outClosed := true, closer := Closer.done }
  | closeOutPanic (s : FanState) (hp : s.panicked = false) (hc : s.closer = Closer.closing)
      (hclosed : s.outClosed = true) :
      FanStep sc transactions numWorkers s { s with panicked := true }

/-! ### Invariants of the fan-out/fan-in machine -/

/-- What a fan-out worker holds is well formed. -/
def FanWorker.OK (G : Transaction → F64 → Prop) : FanWorker → Prop
  | FanWorker.scoring tx => ValidateTransaction tx = none
  | FanWorker.emit r => resultOK G r
  | _ => True

/-- What a forwarder holds is well formed. -/
def Forwarder.OK (G : Transaction → F64 → Prop) : Forwarder → Prop
  | Forwarder.hold r => resultOK G r
  | _ => True

/-- Every result collected or in flight is well formed. -/
def FanState.ResultsOK (G : Transaction → F64 → Prop) (s : FanState) : Prop :=
  (∀ r ∈ s.results, resultOK G r) ∧
    (∀ lane ∈ s.lanes, FanWorker.OK G lane.worker ∧ Forwarder.OK G lane.fwd)

/-- The transaction a fan-out worker is working on, if any. -/
def FanWorker.holding : FanWorker → Multiset Transaction
  | FanWorker.scoring tx => {tx}
  | FanWorker.emit r => {r.Transaction}
  | _ => 0

/-- The transaction whose result a forwarder is carrying, if any. -/
def Forwarder.holding : Forwarder → Multiset Transaction
  | Forwarder.hold r => {r.Transaction}
  | _ => 0

/-- The transactions in flight in a lane. -/
def Lane.holding (l : Lane) : Multiset Transaction := l.worker.holding + l.fwd.holding

/-- The transactions the goroutine of `FanOut` has not handed to a worker yet. -/
def Distributor.unsent (transactions : List Transaction) : Distributor → List Transaction
  | Distributor.notStarted => transactions
  | Distributor.send i => transactions.drop i
  | _ => []

/-- Every transaction of the batch, wherever it currently is in the run. -/
def FanState.everywhere (transactions : List Transaction) (s : FanState) : Multiset Transaction :=
  (s.results.map ProcessingResult.Transaction : Multiset Transaction) +
    (s.lanes.map Lane.holding).sum + (Distributor.unsent transactions s.dist : Multiset Transaction)

/-- No transaction is lost or duplicated. -/
def FanState.Conserved (transactions : List Transaction) (s : FanState) : Prop :=
  s.everywhere transactions = (transactions : Multiset Transaction)

/-- 1 for a forwarder that has been started and has not called `wg.Done()` yet. -/
def Forwarder.active : Forwarder → ℕ
  | Forwarder.idle => 1
  | Forwarder.hold _ => 1
  | _ => 0

/-- A result channel is closed exactly when its worker has finished; a finished worker
has seen its job channel closed; a finished forwarder has seen its result channel closed. -/
def Lane.OK (l : Lane) : Prop :=
  (l.worker = FanWorker.exited ↔ l.resClosed = true) ∧
    (l.worker = FanWorker.exited → l.jobClosed = true) ∧
    (l.fwd = Forwarder.exited → l.resClosed = true)

/-- Which workers the calling goroutine has started. -/
def FanMain.workerCond (k : ℕ) (l : Lane) : FanMain → Prop
  | FanMain.fanOut => True
  | FanMain.spawnWorker i => (l.worker = FanWorker.notStarted ↔ i ≤ k)
  | _ => l.worker ≠ FanWorker.notStarted

/-- Which forwarders the calling goroutine has started. -/
def FanMain.fwdCond (k : ℕ) (l : Lane) : FanMain → Prop
  | FanMain.fanOut => True
  | FanMain.spawnWorker _ => l.fwd = Forwarder.notStarted
  | FanMain.fanIn j => (l.fwd = Forwarder.notStarted ↔ j ≤ k)
  | _ => l.fwd ≠ Forwarder.notStarted

/-- Which job channels the goroutine of `FanOut` has closed. -/
def Distributor.jobCond (k : ℕ) (l : Lane) : Distributor → Prop
  | Distributor.notStarted => True
  | Distributor.send _ => l.jobClosed = false
  | Distributor.close j => (l.jobClosed = true ↔ k < j)
  | Distributor.done => l.jobClosed = true

/-- Invariant of lane `k` in a given phase of the calling goroutine and of the distributor. -/
def LaneInv (m : FanMain) (d : Distributor) (k : ℕ) (l : Lane) : Prop :=
  Lane.OK l ∧ FanMain.workerCond k l m ∧ FanMain.fwdCond k l m ∧ Distributor.jobCond k l d

/-- How far the calling goroutine, the distributor, the closer and the lanes have got, consistently. -/
structure FanState.Phased (numWorkers : ℤ) (s : FanState) : Prop where
  main : match s.main with
    | FanMain.fanOut => s.lanes = [] ∧ s.dist = Distributor.notStarted ∧ s.closer = Closer.idle
    | FanMain.spawnWorker i => s.lanes.length = numWorkers.toNat ∧ i ≤ numWorkers.toNat ∧
        s.dist ≠ Distributor.notStarted ∧ s.closer = Closer.idle
    | FanMain.fanIn _ => s.lanes.length = numWorkers.toNat ∧
        s.dist ≠ Distributor.notStarted ∧ s.closer = Closer.idle
    | FanMain.goCloser => s.lanes.length = numWorkers.toNat ∧
        s.dist ≠ Distributor.notStarted ∧ s.closer = Closer.idle
    | FanMain.collect => s.lanes.length = numWorkers.toNat ∧
        s.dist ≠ Distributor.notStarted ∧ s.closer ≠ Closer.idle
    | FanMain.returned => s.lanes.length = numWorkers.toNat ∧
        s.dist ≠ Distributor.notStarted ∧ s.closer = Closer.done
  closer : match s.closer with
    | Closer.idle => s.outClosed = false
    | Closer.waiting => s.outClosed = false
    | Closer.closing => s.wg = 0 ∧ s.outClosed = false
    | Closer.done => s.wg = 0 ∧ s.outClosed = true
  lanes : ∀ (k : ℕ) (l : Lane), s.lanes[k]? = some l → LaneInv s.main s.dist k l
  wg : s.wg = (s.lanes.map fun l => Forwarder.active l.fwd).sum

/-- All the invariants of the fan-out/fan-in machine together. -/
structure FanState.Inv (transactions : List Transaction) (numWorkers : ℤ) (s : FanState) : Prop where
  noPanic : s.panicked = false
  conserved : s.Conserved transactions
  phased : s.Phased numWorkers

/-- Work a fan-out worker still has in front of it (for the termination measure). -/
def FanWorker.weight : FanWorker → ℕ
  | FanWorker.notStarted => 0
  | FanWorker.idle => 1
  | FanWorker.scoring _ => 4
  | FanWorker.emit _ => 3
  | FanWorker.exited => 0

/-- Work a forwarder still has in front of it. -/
def Forwarder.weight : Forwarder → ℕ
  | Forwarder.notStarted => 0
  | Forwarder.idle => 1
  | Forwarder.hold _ => 2
  | Forwarder.exited => 0

/-- Work left in a lane. -/
def Lane.weight (l : Lane) : ℕ := l.worker.weight + l.fwd.weight

/-- Steps the distributor still has in front of it, over `L` lanes and `n` transactions. -/
def Distributor.weight (n L : ℕ) : Distributor → ℕ
  | Distributor.notStarted => 0
  | Distributor.send i => 4 * (n - i) + L + 2
  | Distributor.close j => (L - j) + 1
  | Distributor.done => 0

/-- Steps the calling goroutine still has in front of it. -/
def FanMain.weight (numWorkers : ℤ) (n : ℕ) : FanMain → ℕ
  | FanMain.fanOut => 4 * n + 5 * numWorkers.toNat + 12
  | FanMain.spawnWorker i => 2 * (numWorkers.toNat - i) + 2 * numWorkers.toNat + 8
  | FanMain.fanIn j => 2 * (numWorkers.toNat - j) + 6
  | FanMain.goCloser => 4
  | FanMain.collect => 1
  | FanMain.returned => 0

/-- Termination measure of the fan-out/fan-in machine: every step decreases it. -/
def FanState.measure (transactions : List Transaction) (numWorkers : ℤ) (s : FanState) : ℕ :=
  FanMain.weight numWorkers transactions.length s.main +
    Distributor.weight transactions.length s.lanes.length s.dist +
    (s.lanes.map Lane.weight).sum + Closer.weight s.closer + (if s.panicked then 0 else 1)

/-! ## `FanOut` on its own

`FanOut` hands the job channels to its caller; who receives from them is the caller's
business.  In this machine the receivers are the environment: a receive on channel `j`
may be offered at any moment, and the state records what has been delivered on each
channel. -/

/-- A job channel of `FanOut` as its receivers see it: what has been delivered on it so
far, in order, and whether it has been closed. -/
structure OutQueue where
  delivered : List Transaction
  closed : Bool
  deriving DecidableEq

/-- State of a call of `FanOut`: the channels, the goroutine it starts, whether the call
has returned the channels. -/
structure FanOutState where
  queues : List OutQueue
  dist : Distributor
  returned : Bool
  panicked : Bool

/-- Scheduler choices: the body of `FanOut` up to its `return`; an operation of the
distributor that needs no partner (ending the send loop, a `close`); a receiver taking
from channel `j` the transaction the distributor is sending on it. -/
inductive FanOutAct where
  | call : FanOutAct
  | dist : FanOutAct
  | recv (j : ℕ) : FanOutAct
  deriving DecidableEq

/-- The body of `FanOut`: `make` the slice (a panic on a negative length) and the
channels, start the distributor, return the channels. -/
def fanOutCallStep (numWorkers : ℤ) (s : FanOutState) : Option FanOutState :=
  if s.returned then none
  else if numWorkers < 0 then some { s with panicked := true }
  else some { s with queues := List.replicate numWorkers.toNat { delivered := [], closed := false },
                     dist := Distributor.send 0, returned := true }

/-- Operations of the distributor on its own: evaluating `channels[i%numWorkers]` (a
division by zero when `numWorkers` is 0) and then waiting for a receiver; leaving the send
loop; `close(ch)` for every channel. -/
def fanOutDistStep (transactions : List Transaction) (numWorkers : ℤ) (s : FanOutState) :
    Option FanOutState :=
  match s.dist with
  | Distributor.notStarted => none
  | Distributor.send i =>
    match transactions[i]? with
    | some _ =>
      if numWorkers = 0 then some { s with panicked := true }
      else
        match s.queues[i % numWorkers.toNat]? with
        | some q => if q.closed then some { s with panicked := true } else none
        | none => some { s with panicked := true }
    | none => some { s with dist := Distributor.close 0 }
  | Distributor.close j =>
    match s.queues[j]? with
    | some q =>
      if q.closed then some { s with panicked := true }
      else some { s with queues := s.queues.set j { q with closed := true },
                         dist := Distributor.close (j + 1) }
    | none => some { s with dist := Distributor.done }
  | Distributor.done => none

/-- The send `channels[i%numWorkers] <- tx` completing with a receive on channel `j`. -/
def fanOutRecvStep (transactions : List Transaction) (numWorkers : ℤ) (s : FanOutState) (j : ℕ) :
    Option FanOutState :=
  match s.dist with
  | Distributor.send i =>
    match transactions[i]? with
    | some tx =>
      if numWorkers = 0 then none
      else if i % numWorkers.toNat = j then
        match s.queues[j]? with
        | some q =>
          if q.closed then none
          else some { s with queues := s.queues.set j { q with delivered := q.delivered ++ [tx] },
                             dist := Distributor.send (i + 1) }
        | none => none
      else none
    | none => none
  | _ => none

/-- One step of the `FanOut` machine. -/
def fanOutMachineStep (transactions : List Transaction) (numWorkers : ℤ) (s : FanOutState)
    (a : FanOutAct) : Option FanOutState :=
  if s.panicked then none
  else
    match a with
    | FanOutAct.call => fanOutCallStep numWorkers s
    | FanOutAct.dist => fanOutDistStep transactions numWorkers s
    | FanOutAct.recv j => fanOutRecvStep transactions numWorkers s j

/-- Go `FanOut` (main.go 184-200) with receivers that take whatever is sent to them. -/
def FanOut (transactions : List Transaction) (numWorkers : ℤ) : Machine FanOutState FanOutAct :=
  { init := { queues := [], dist := Distributor.notStarted, returned := false, panicked := false }
    step := fanOutMachineStep transactions numWorkers }

/-- How many of the indices `j, j + W, j + 2W, ...` are below `k`. -/
def shareCount (W j k : ℕ) : ℕ := k / W + (if j < k % W then 1 else 0)

/-- The round-robin share of queue `j` among `W` queues once the first `k` transactions
have been sent: the transactions at input indices `j, j + W, j + 2W, ...` below `k`, in
input order. -/
def roundRobinShare (transactions : List Transaction) (W j k : ℕ) : List Transaction :=
  (List.range (shareCount W j k)).filterMap fun m => transactions[j + m * W]?

/-- How many transactions the distributor has sent. -/
def Distributor.sent (n : ℕ) : Distributor → ℕ
  | Distributor.notStarted => 0
  | Distributor.send i => i
  | Distributor.close _ => n
  | Distributor.done => n

/-- The state of `FanOut` is as far as its distributor says: before the call there is no
channel; during the send loop, having sent `i` transactions, there are `W` open channels and
channel `j` has received its round-robin share of the first `i`; during the closing loop
all shares are complete and exactly the channels below the loop index are closed; at the
end all are closed. -/
def FanOutState.Inv (transactions : List Transaction) (numWorkers : ℤ) (s : FanOutState) : Prop :=
  s.panicked = false ∧
  (match s.dist with
    | Distributor.notStarted => s.returned = false ∧ s.queues = []
    | Distributor.send i => s.returned = true ∧ i ≤ transactions.length ∧
        s.queues.length = numWorkers.toNat ∧
        ∀ (j : ℕ) (q : OutQueue), s.queues[j]? = some q →
          q = { delivered := roundRobinShare transactions numWorkers.toNat j i, closed := false }
    | Distributor.close c => s.returned = true ∧ s.queues.length = numWorkers.toNat ∧
        ∀ (j : ℕ) (q : OutQueue), s.queues[j]? = some q →
          q = { delivered := roundRobinShare transactions numWorkers.toNat j transactions.length,
                closed := decide (j < c) }
    | Distributor.done => s.returned = true ∧ s.queues.length = numWorkers.toNat ∧
        ∀ (j : ℕ) (q : OutQueue), s.queues[j]? = some q →
          q = { delivered := roundRobinShare transactions numWorkers.toNat j transactions.length,
                closed := true }) ∧
  ((s.queues.map fun q => (q.delivered : Multiset Transaction)).sum =
    ((transactions.take (Distributor.sent transactions.length s.dist) : List Transaction) :
      Multiset Transaction))

/-- Steps the distributor still has in front of it. -/
def Distributor.fanOutWeight (n W : ℕ) : Distributor → ℕ
  | Distributor.notStarted => n + W + 3
  | Distributor.send i => (n - i) + W + 2
  | Distributor.close j => (W - j) + 1
  | Distributor.done => 0

/-- What `FanOut` has done when its goroutine has finished: `W` channels, each closed,
channel `j` having received exactly the transactions at indices `j, j + W, ...` in order;
every transaction delivered once. -/
def FanOutState.Complete (transactions : List Transaction) (W : ℕ) (s : FanOutState) : Prop :=
  s.returned = true ∧ s.queues.length = W ∧
    (∀ j, j < W → s.queues[j]? =
      some { delivered := roundRobinShare transactions W j transactions.length, closed := true }) ∧
    (s.queues.map fun q => (q.delivered : Multiset Transaction)).sum =
      (transactions : Multiset Transaction)

/-! ## `FanIn` on its own

`FanIn` is given the source channels and hands back the merged one.  In this machine
the owners of the sources and the receiver of the merged channel are the environment: source
`j` offers the items it has to send, in order, and is closed by its owner once they have been
taken; the receiver of `out` takes whatever a forwarder sends, and the state records what it
has got, each item with the index of the source it came from. -/

/-- A source channel of `FanIn` with its forwarder: the items the source has still to
deliver, in order; whether its owner has closed it; where the forwarder is. -/
structure InLane where
  pending : List ProcessingResult
  closed : Bool
  fwd : Forwarder
  deriving DecidableEq

/-- Where the body of `FanIn` is: at the start of forwarder `j`; at the `go` statement of
the closer; returned. -/
inductive FanInMain where
  | spawn (j : ℕ) : FanInMain
  | goCloser : FanInMain
  | returned : FanInMain
  deriving DecidableEq

/-- State of a call of `FanIn`. -/
structure FanInState where
  lanes : List InLane
  wg : ℕ
  outClosed : Bool
  closer : Closer
  main : FanInMain
  delivered : List (ℕ × ProcessingResult)
  panicked : Bool

/-- Scheduler choices: the body of `FanIn`; the owner of source `j` closing it; forwarder
`j`; the closer. -/
inductive FanInAct where
  | main : FanInAct
  | src (j : ℕ) : FanInAct
  | fwd (j : ℕ) : FanInAct
  | closer : FanInAct
  deriving DecidableEq

/-- Next operation of the body of `FanIn`: `wg.Add(1)` and the start of a forwarder for
each source, then the start of the closer and the return of `out`. -/
def fanInMainStep (s : FanInState) : Option FanInState :=
  match s.main with
  | FanInMain.spawn j =>
    match s.lanes[j]? with
    | some lane =>
      some { s with wg := s.wg + 1, lanes := s.lanes.set j { lane with fwd := Forwarder.idle },
                    main := FanInMain.spawn (j + 1) }
    | none => some { s with main := FanInMain.goCloser }
  | FanInMain.goCloser => some { s with closer := Closer.waiting, main := FanInMain.returned }
  | FanInMain.returned => none

/-- The owner of source `j` closes it, once everything it had to send has been taken. -/
def fanInSrcStep (s : FanInState) (j : ℕ) (lane : InLane) : Option FanInState :=
  match lane.pending with
  | [] => if lane.closed then none else some { s with lanes := s.lanes.set j { lane with closed := true } }
  | _ :: _ => none

/-- Next operation of forwarder `j`: at `for result := range c` it takes the next item of
its source, or leaves the loop (and calls `wg.Done()`) when the source is closed; at
`out <- result` it hands the item to the receiver of `out`, which exists once `FanIn` has
returned. -/
def fanInFwdStep (s : FanInState) (j : ℕ) (lane : InLane) : Option FanInState :=
  match lane.fwd with
  | Forwarder.notStarted => none
  | Forwarder.idle =>
    match lane.pending with
    | r :: rest =>
      some { s with lanes := s.lanes.set j { lane with pending := rest, fwd := Forwarder.hold r } }
    | [] =>
      if lane.closed then
        match wgDone s.wg with
        | some n => some { s with wg := n, lanes := s.lanes.set j { lane with fwd := Forwarder.exited } }
        | none => some { s with panicked := true }
      else none
  | Forwarder.hold r =>
    if s.outClosed then some { s with panicked := true }
    else if s.main = FanInMain.returned then
      some { s with lanes := s.lanes.set j { lane with fwd := Forwarder.idle },
                    delivered := s.delivered ++ [(j, r)] }
    else none
  | Forwarder.exited => none

/-- Next operation of the closer goroutine of `FanIn` (`wg.Wait(); close(out)`). -/
def fanInCloserStep (s : FanInState) : Option FanInState :=
  match s.closer with
  | Closer.idle => none
  | Closer.waiting => if s.wg = 0 then some { s with closer := Closer.closing } else none
  | Closer.closing =>
    if s.outClosed then some { s with panicked := true }
    else some { s with outClosed := true, closer := Closer.done }
  | Closer.done => none

/-- One step of the `FanIn` machine. -/
def fanInMachineStep (s : FanInState) (a : FanInAct) : Option FanInState :=
  if s.panicked then none
  else
    match a with
    | FanInAct.main => fanInMainStep s
    | FanInAct.src j =>
      match s.lanes[j]? with
      | some lane => fanInSrcStep s j lane
      | none => none
    | FanInAct.fwd j =>
      match s.lanes[j]? with
      | some lane => fanInFwdStep s j lane
      | none => none
    | FanInAct.closer => fanInCloserStep s

/-- Go `FanIn` (main.go 205-225) over sources that deliver the given items, in order, and
are then closed. -/
def FanIn (sources : List (List ProcessingResult)) : Machine FanInState FanInAct :=
  { init := { lanes := sources.map fun items =>
                { pending := items, closed := false, fwd := Forwarder.notStarted },
              wg := 0, outClosed := false, closer := Closer.idle, main := FanInMain.spawn 0,
              delivered := [], panicked := false }
    step := fanInMachineStep }

/-- The steps of the `FanIn` machine as a relation (`fanInMachineStep_sound`). -/
inductive FanInStep : FanInState → FanInState → Prop where
  | spawn (s : FanInState) (j : ℕ) (lane : InLane) (hp : s.panicked = false)
      (hm : s.main = FanInMain.spawn j) (hl : s.lanes[j]? = some lane) :
      FanInStep s { s with wg := s.wg + 1, lanes := s.lanes.set j { lane with fwd := Forwarder.idle },
                           main := FanInMain.spawn (j + 1) }
  | spawnEnd (s : FanInState) (j : ℕ) (hp : s.panicked = false)
      (hm : s.main = FanInMain.spawn j) (hl : s.lanes[j]? = none) :
      FanInStep s { s with main := FanInMain.goCloser }
  | goCloser (s : FanInState) (hp : s.panicked = false) (hm : s.main = FanInMain.goCloser) :
      FanInStep s { s with closer := Closer.waiting, main := FanInMain.returned }
  | srcClose (s : FanInState) (j : ℕ) (lane : InLane) (hp : s.panicked = false)
      (hl : s.lanes[j]? = some lane) (hpend : lane.pending = []) (hopen : lane.closed = false) :
      FanInStep s { s with lanes := s.lanes.set j { lane with closed := true } }
  | recv (s : FanInState) (j : ℕ) (lane : InLane) (r : ProcessingResult)
      (rest : List ProcessingResult) (hp : s.panicked = false)
      (hl : s.lanes[j]? = some lane) (hf : lane.fwd = Forwarder.idle)
      (hpend : lane.pending = r :: rest) :
      FanInStep s
        { s with lanes := s.lanes.set j { lane with pending := rest, fwd := Forwarder.hold r } }
  | exit (s : FanInState) (j : ℕ) (lane : InLane) (hp : s.panicked = false)
      (hl : s.lanes[j]? = some lane) (hf : lane.fwd = Forwarder.idle)
      (hpend : lane.pending = []) (hclosed : lane.closed = true) (hwg : s.wg ≠ 0) :
      FanInStep s
        { s with wg := s.wg - 1, lanes := s.lanes.set j { lane with fwd := Forwarder.exited } }
  | exitPanic (s : FanInState) (j : ℕ) (lane : InLane) (hp : s.panicked = false)
      (hl : s.lanes[j]? = some lane) (hf : lane.fwd = Forwarder.idle)
      (hpend : lane.pending = []) (hclosed : lane.closed = true) (hwg : s.wg = 0) :
      FanInStep s { s with panicked := true }
  | deliver (s : FanInState) (j : ℕ) (lane : InLane) (r : ProcessingResult)
      (hp : s.panicked = false) (hl : s.lanes[j]? = some lane) (hf : lane.fwd = Forwarder.hold r)
      (hopen : s.outClosed = false) (hm : s.main = FanInMain.returned) :
      FanInStep s
        { s with lanes := s.lanes.set j { lane with fwd := Forwarder.idle },
                 delivered := s.delivered ++ [(j, r)] }
  | deliverPanic (s : FanInState) (j : ℕ) (lane : InLane) (r : ProcessingResult)
      (hp : s.panicked = false) (hl : s.lanes[j]? = some lane) (hf : lane.fwd = Forwarder.hold r)
      (hclosed : s.outClosed = true) :
      FanInStep s { s with panicked := true }
  | waited (s : FanInState) (hp : s.panicked = false) (hc : s.closer = Closer.waiting)
      (hwg : s.wg = 0) :
      FanInStep s { s with closer := Closer.closing }
  | closeOut (s : FanInState) (hp : s.panicked = false) (hc : s.closer = Closer.closing)
      (hopen : s.outClosed = false) :
      FanInStep s { s with outClosed := true, closer := Closer.done }
  | closeOutPanic (s : FanInState) (hp : s.panicked = false) (hc : s.closer = Closer.closing)
      (hclosed : s.outClosed = true) :
      FanInStep s { s with panicked := true }

/-! ### Invariants of the `FanIn` machine -/

/-- The item a forwarder has taken from its source and not yet handed on. -/
def Forwarder.held : Forwarder → List ProcessingResult
  | Forwarder.hold r => [r]
  | _ => []

/-- What the receiver of `out` has got from source `j`, in the order it got it. -/
def deliveredFrom (delivered : List (ℕ × ProcessingResult)) (j : ℕ) : List ProcessingResult :=
  (delivered.filter fun p => decide (p.1 = j)).map Prod.snd

/-- Whether the body of `FanIn` has started forwarder `j`. -/
def FanInMain.started : FanInMain → ℕ → Prop
  | FanInMain.spawn k, j => j < k
  | _, _ => True

/-- Lane `j` is consistent: what has been delivered from source `j`, then what its
forwarder holds, then what the source has still to deliver, is the source's sequence; a
closed source has nothing left; a finished forwarder has seen its source closed and
exhausted; the forwarder is not started exactly when the body has not got to it. -/
def InLane.OK (sources : List (List ProcessingResult)) (delivered : List (ℕ × ProcessingResult))
    (main : FanInMain) (j : ℕ) (lane : InLane) : Prop :=
  sources[j]? = some (deliveredFrom delivered j ++ Forwarder.held lane.fwd ++ lane.pending) ∧
    (lane.closed = true → lane.pending = []) ∧
    (lane.fwd = Forwarder.exited → lane.closed = true ∧ lane.pending = []) ∧
    (lane.fwd = Forwarder.notStarted ↔ ¬ FanInMain.started main j)

/-- The items of a family of lists, as a multiset. -/
def itemsOf (ls : List (List ProcessingResult)) : Multiset ProcessingResult :=
  (ls.map fun l => (l : Multiset ProcessingResult)).sum

/-- All the invariants of the `FanIn` machine together. -/
structure FanInState.Inv (sources : List (List ProcessingResult)) (s : FanInState) : Prop where
  noPanic : s.panicked = false
  length : s.lanes.length = sources.length
  lanes : ∀ (j : ℕ) (lane : InLane), s.lanes[j]? = some lane →
    InLane.OK sources s.delivered s.main j lane
  counted : s.wg = (s.lanes.map fun l => Forwarder.active l.fwd).sum
  main : match s.main with
    | FanInMain.spawn k => k ≤ s.lanes.length ∧ s.closer = Closer.idle
    | FanInMain.goCloser => s.closer = Closer.idle
    | FanInMain.returned => s.closer ≠ Closer.idle
  closer : match s.closer with
    | Closer.idle => s.outClosed = false
    | Closer.waiting => s.outClosed = false
    | Closer.closing => s.wg = 0 ∧ s.outClosed = false
    | Closer.done => s.wg = 0 ∧ s.outClosed = true
  conserved : ((s.delivered.map Prod.snd : List ProcessingResult) : Multiset ProcessingResult) +
    (s.lanes.map fun l => ((Forwarder.held l.fwd ++ l.pending : List ProcessingResult) :
      Multiset ProcessingResult)).sum = itemsOf sources

/-- Work left in a lane of `FanIn`. -/
def InLane.weight (l : InLane) : ℕ :=
  3 * l.pending.length + (if l.closed then 0 else 1) + Forwarder.weight l.fwd

/-- Steps the body of `FanIn` still has in front of it, for `n` sources. -/
def FanInMain.weight (n : ℕ) : FanInMain → ℕ
  | FanInMain.spawn j => 2 * (n - j) + 4
  | FanInMain.goCloser => 3
  | FanInMain.returned => 0

/-- Termination measure of the `FanIn` machine. -/
def FanInState.measure (n : ℕ) (s : FanInState) : ℕ :=
  FanInMain.weight n s.main + (s.lanes.map InLane.weight).sum + Closer.weight s.closer +
    (if s.panicked then 0 else 1)

/-- What `FanIn` has done when its closer has finished: `out` is closed, its receiver has
got exactly the items of all sources (as a multiset), those of each source in the
source's order, and every source has been closed and forwarded completely. -/
def FanInState.Complete (sources : List (List ProcessingResult)) (s : FanInState) : Prop :=
  s.main = FanInMain.returned ∧ s.outClosed = true ∧
    ((s.delivered.map Prod.snd : List ProcessingResult) : Multiset ProcessingResult) =
      itemsOf sources ∧
    (∀ (j : ℕ) (items : List ProcessingResult), sources[j]? = some items →
      deliveredFrom s.delivered j = items) ∧
    (∀ lane ∈ s.lanes, lane.pending = [] ∧ lane.closed = true ∧ lane.fwd = Forwarder.exited)

/-! ## Select strategy

A `select` with several ready cases picks one of them; the scheduler's choice says
which case a goroutine takes.  The timer is not given a duration: its case may be
taken at any pass through the collector's `select`, which covers every value of
`timeout`.  The progress line printed every 20 updates is output only and is left out. -/

/-- Where a worker of the select strategy is: at its `select`; in
`CalculateFraudScore(tx)`; at `resultsChannel <- r`; at `progress <- 1`; or returned
(with its deferred `wg.Done()`). -/
inductive SelWorker where
  | idle : SelWorker
  | scoring (tx : Transaction) : SelWorker
  | emit (r : ProcessingResult) : SelWorker
  | progress : SelWorker
  | exited : SelWorker
  deriving DecidableEq

/-- Where the goroutine that fills `jobs` is. -/
inductive Feeder where
  | notStarted : Feeder
  | feed (i : ℕ) : Feeder
  | done : Feeder
  deriving DecidableEq

/-- Where the goroutine `wg.Wait(); close(resultsChannel); close(progress)` is. -/
inductive SelCloser where
  | idle : SelCloser
  | waiting : SelCloser
  | closeResults : SelCloser
  | closeProgress : SelCloser
  | done : SelCloser
  deriving DecidableEq

/-- Where the calling goroutine is. -/
inductive SelMain where
  | spawn (w : ℕ) : SelMain
  | goFeeder : SelMain
  | goCloser : SelMain
  | loop : SelMain
  | returned : SelMain
  deriving DecidableEq

/-- State of a run of the select strategy. -/
structure SelState where
  jobs : Chan Transaction
  res : Chan ProcessingResult
  progress : Chan ℕ
  doneClosed : Bool
  wg : ℕ
  workers : List SelWorker
  feeder : Feeder
  closer : SelCloser
  main : SelMain
  success : ℕ
  errors : ℕ
  results : List ProcessingResult
  processed : ℕ
  timedOut : Bool
  rand : Rand
  panicked : Bool

/-- Scheduler choices: a goroutine, and for a `select` the case taken. -/
inductive SelAct where
  | main : SelAct
  | recvResult : SelAct
  | recvProgress : SelAct
  | timeout : SelAct
  | worker (i : ℕ) : SelAct
  | workerDone (i : ℕ) : SelAct
  | feeder : SelAct
  | closer : SelAct
  deriving DecidableEq

/-- What a worker does with a transaction it has just received, up to its next channel
operation or scorer call. -/
def SelWorker.take (tx : Transaction) : SelWorker :=
  match ValidateTransaction tx with
  | some err => SelWorker.emit (errResult tx err)
  | none => SelWorker.scoring tx

/-- Set-up operations of the calling goroutine, before its `select` loop. -/
def selMainStep (numWorkers : ℤ) (s : SelState) : Option SelState :=
  match s.main with
  | SelMain.spawn w =>
    if (w : ℤ) < numWorkers then
      some { s with wg := s.wg + 1, workers := s.workers ++ [SelWorker.idle], main := SelMain.spawn (w + 1) }
    else some { s with main := SelMain.goFeeder }
  | SelMain.goFeeder => some { s with feeder := Feeder.feed 0, main := SelMain.goCloser }
  | SelMain.goCloser => some { s with closer := SelCloser.waiting, main := SelMain.loop }
  | SelMain.loop => none
  | SelMain.returned => none

/-- Case `result, ok := <-resultsChannel` of the collector's `select`. -/
def selRecvResultStep (s : SelState) : Option SelState :=
  match s.main with
  | SelMain.loop =>
    match s.res.recv with
    | RecvResult.value r c =>
      some { s with res := c, success := bumpSuccess s.success r, errors := bumpErrors s.errors r,
                    results := s.results ++ [r] }
    | RecvResult.closed => some { s with main := SelMain.returned, timedOut := false }
    | RecvResult.blocked => none
  | _ => none

/-- Case `p := <-progress` of the collector's `select` (a closed channel yields 0). -/
def selRecvProgressStep (s : SelState) : Option SelState :=
  match s.main with
  | SelMain.loop =>
    match s.progress.recv with
    | RecvResult.value p c => some { s with progress := c, processed := s.processed + p }
    | RecvResult.closed => some { s with processed := s.processed + 0 }
    | RecvResult.blocked => none
  | _ => none

/-- Case `<-timer.C` of the collector's `select`: `close(done)` and return. -/
def selTimeoutStep (s : SelState) : Option SelState :=
  match s.main with
  | SelMain.loop =>
    if s.doneClosed then some { s with panicked := true }
    else some { s with doneClosed := true, main := SelMain.returned, timedOut := true }
  | _ => none

/-- Next operation of worker `i`, at `w`, other than the `<-done` case. -/
def selWorkerStep (sc : Scorer) (s : SelState) (i : ℕ) (w : SelWorker) : Option SelState :=
  match w with
  | SelWorker.idle =>
    match s.jobs.recv with
    | RecvResult.value tx c => some { s with jobs := c, workers := s.workers.set i (SelWorker.take tx) }
    | RecvResult.closed =>
      match wgDone s.wg with
      | some n => some { s with wg := n, workers := s.workers.set i SelWorker.exited }
      | none => some { s with panicked := true }
    | RecvResult.blocked => none
  | SelWorker.scoring tx =>
    let c := sc tx s.rand
    some { s with rand := c.rand, workers := s.workers.set i (SelWorker.emit (okResult tx c.score)) }
  | SelWorker.emit r =>
    match s.res.send r with
    | SendResult.ok c => some { s with res := c, workers := s.workers.set i SelWorker.progress }
    | SendResult.blocked => none
    | SendResult.panic => some { s with panicked := true }
  | SelWorker.progress =>
    match s.progress.send 1 with
    | SendResult.ok c => some { s with progress := c, workers := s.workers.set i SelWorker.idle }
    | SendResult.blocked => none
    | SendResult.panic => some { s with panicked := true }
  | SelWorker.exited => none

/-- Case `<-done` of the `select` of worker `i`, at `w`. -/
def selWorkerDoneStep (s : SelState) (i : ℕ) (w : SelWorker) : Option SelState :=
  match w with
  | SelWorker.idle =>
    if s.doneClosed then
      match wgDone s.wg with
      | some n => some { s with wg := n, workers := s.workers.set i SelWorker.exited }
      | none => some { s with panicked := true }
    else none
  | _ => none

/-- Next operation of the goroutine that fills `jobs` and closes it. -/
def selFeederStep (transactions : List Transaction) (s : SelState) : Option SelState :=
  match s.feeder with
  | Feeder.notStarted => none
  | Feeder.feed i =>
    match transactions[i]? with
    | some tx =>
      match s.jobs.send tx with
      | SendResult.ok c => some { s with jobs := c, feeder := Feeder.feed (i + 1) }
      | SendResult.blocked => none
      | SendResult.panic => some { s with panicked := true }
    | none =>
      match s.jobs.close with
      | some c => some { s with jobs := c, feeder := Feeder.done }
      | none => some { s with panicked := true }
  | Feeder.done => none

/-- Next operation of the goroutine `wg.Wait(); close(resultsChannel); close(progress)`. -/
def selCloserStep (s : SelState) : Option SelState :=
  match s.closer with
  | SelCloser.idle => none
  | SelCloser.waiting => if s.wg = 0 then some { s with closer := SelCloser.closeResults } else none
  | SelCloser.closeResults =>
    match s.res.close with
    | some c => some { s with res := c, closer := SelCloser.closeProgress }
    | none => some { s with panicked := true }
  | SelCloser.closeProgress =>
    match s.progress.close with
    | some c => some { s with progress := c, closer := SelCloser.done }
    | none => some { s with panicked := true }
  | SelCloser.done => none

/-- One step of the select machine. -/
def selStep (sc : Scorer) (transactions : List Transaction) (numWorkers : ℤ)
    (s : SelState) (a : SelAct) : Option SelState :=
  if s.panicked then none
  else
    match a with
    | SelAct.main => selMainStep numWorkers s
    | SelAct.recvResult => selRecvResultStep s
    | SelAct.recvProgress => selRecvProgressStep s
    | SelAct.timeout => selTimeoutStep s
    | SelAct.worker i =>
      match s.workers[i]? with
      | some w => selWorkerStep sc s i w
      | none => none
    | SelAct.workerDone i =>
      match s.workers[i]? with
      | some w => selWorkerDoneStep s i w
      | none => none
    | SelAct.feeder => selFeederStep transactions s
    | SelAct.closer => selCloserStep s

/-- State after the four `make` calls that open `ProcessTransactionsWithSelect`. -/
def selInit (transactions : List Transaction) (r : Rand) : SelState :=
  { jobs := Chan.make transactions.length, res := Chan.make transactions.length,
    progress := Chan.make 100, doneClosed := false, wg := 0, workers := [],
    feeder := Feeder.notStarted, closer := SelCloser.idle, main := SelMain.spawn 0,
    success := 0, errors := 0, results := [], processed := 0, timedOut := false,
    rand := r, panicked := false }

/-- Go `ProcessTransactionsWithSelect` (main.go 284-370), over an arbitrary scorer. -/
def ProcessTransactionsWithSelectWith (sc : Scorer) (transactions : List Transaction)
    (numWorkers : ℤ) (r : Rand) : Machine SelState SelAct :=
  { init := selInit transactions r
    step := selStep sc transactions numWorkers }

/-- Go `ProcessTransactionsWithSelect`. -/
def ProcessTransactionsWithSelect (transactions : List Transaction) (numWorkers : ℤ) (r : Rand) :
    Machine SelState SelAct :=
  ProcessTransactionsWithSelectWith CalculateFraudScore transactions numWorkers r

/-- What a worker of the select strategy holds is well formed. -/
def SelWorker.OK (G : Transaction → F64 → Prop) : SelWorker → Prop
  | SelWorker.scoring tx => ValidateTransaction tx = none
  | SelWorker.emit r => resultOK G r
  | _ => True

/-- Every result collected, queued or about to be sent is well formed. -/
def SelState.ResultsOK (G : Transaction → F64 → Prop) (s : SelState) : Prop :=
  (∀ r ∈ s.results, resultOK G r) ∧ (∀ r ∈ s.res.buf, resultOK G r) ∧
    (∀ w ∈ s.workers, SelWorker.OK G w)

/-- The steps of the select machine as a relation, one constructor per operation
(`selStep_sound`: every step of `selStep` is one of these). -/
inductive SelStep (sc : Scorer) (transactions : List Transaction) (numWorkers : ℤ) :
    SelState → SelState → Prop where
  | spawn (s : SelState) (w : ℕ) (hp : s.panicked = false) (hm : s.main = SelMain.spawn w)
      (hw : (w : ℤ) < numWorkers) :
      SelStep sc transactions numWorkers s
        { s with wg := s.wg + 1, workers := s.workers ++ [SelWorker.idle], main := SelMain.spawn (w + 1) }
  | spawnEnd (s : SelState) (w : ℕ) (hp : s.panicked = false) (hm : s.main = SelMain.spawn w)
      (hw : ¬ (w : ℤ) < numWorkers) :
      SelStep sc transactions numWorkers s { s with main := SelMain.goFeeder }
  | goFeeder (s : SelState) (hp : s.panicked = false) (hm : s.main = SelMain.goFeeder) :
      SelStep sc transactions numWorkers s { s with feeder := Feeder.feed 0, main := SelMain.goCloser }
  | goCloser (s : SelState) (hp : s.panicked = false) (hm : s.main = SelMain.goCloser) :
      SelStep sc transactions numWorkers s { s with closer := SelCloser.waiting, main := SelMain.loop }
  | collect (s : SelState) (r : ProcessingResult) (rest : List ProcessingResult)
      (hp : s.panicked = false) (hm : s.main = SelMain.loop) (hbuf : s.res.buf = r :: rest) :
      SelStep sc transactions numWorkers s
        { s with res := { s.res with buf := rest }, success := bumpSuccess s.success r,
                 errors := bumpErrors s.errors r, results := s.results ++ [r] }
  | ret (s : SelState) (hp : s.panicked = false) (hm : s.main = SelMain.loop)
      (hbuf : s.res.buf = []) (hclosed : s.res.closed = true) :
      SelStep sc transactions numWorkers s { s with main := SelMain.returned, timedOut := false }
  | progressRecv (s : SelState) (p : ℕ) (rest : List ℕ) (hp : s.panicked = false)
      (hm : s.main = SelMain.loop) (hbuf : s.progress.buf = p :: rest) :
      SelStep sc transactions numWorkers s
        { s with progress := { s.progress with buf := rest }, processed := s.processed + p }
  | progressClosed (s : SelState) (hp : s.panicked = false) (hm : s.main = SelMain.loop)
      (hbuf : s.progress.buf = []) (hclosed : s.progress.closed = true) :
      SelStep sc transactions numWorkers s { s with processed := s.processed + 0 }
  | timeout (s : SelState) (hp : s.panicked = false) (hm : s.main = SelMain.loop)
      (hd : s.doneClosed = false) :
      SelStep sc transactions numWorkers s
        { s with doneClosed := true, main := SelMain.returned, timedOut := true }
  | timeoutPanic (s : SelState) (hp : s.panicked = false) (hm : s.main = SelMain.loop)
      (hd : s.doneClosed = true) :
      SelStep sc transactions numWorkers s { s with panicked := true }
  | take (s : SelState) (i : ℕ) (tx : Transaction) (rest : List Transaction)
      (hp : s.panicked = false) (hw : s.workers[i]? = some SelWorker.idle)
      (hbuf : s.jobs.buf = tx :: rest) :
      SelStep sc transactions numWorkers s
        { s with jobs := { s.jobs with buf := rest }, workers := s.workers.set i (SelWorker.take tx) }
  | exit (s : SelState) (i : ℕ) (hp : s.panicked = false)
      (hw : s.workers[i]? = some SelWorker.idle) (hbuf : s.jobs.buf = [])
      (hclosed : s.jobs.closed = true) (hwg : s.wg ≠ 0) :
      SelStep sc transactions numWorkers s
        { s with wg := s.wg - 1, workers := s.workers.set i SelWorker.exited }
  | exitPanic (s : SelState) (i : ℕ) (hp : s.panicked = false)
      (hw : s.workers[i]? = some SelWorker.idle) (hbuf : s.jobs.buf = [])
      (hclosed : s.jobs.closed = true) (hwg : s.wg = 0) :
      SelStep sc transactions numWorkers s { s with panicked := true }
  | score (s : SelState) (i : ℕ) (tx : Transaction) (hp : s.panicked = false)
      (hw : s.workers[i]? = some (SelWorker.scoring tx)) :
      SelStep sc transactions numWorkers s
        { s with rand := (sc tx s.rand).rand,
                 workers := s.workers.set i (SelWorker.emit (okResult tx (sc tx s.rand).score)) }
  | emit (s : SelState) (i : ℕ) (r : ProcessingResult) (hp : s.panicked = false)
      (hw : s.workers[i]? = some (SelWorker.emit r))
      (hopen : s.res.closed = false) (hroom : s.res.buf.length < s.res.cap) :
      SelStep sc transactions numWorkers s
        { s with res := { s.res with buf := s.res.buf ++ [r] },
                 workers := s.workers.set i SelWorker.progress }
  | emitPanic (s : SelState) (i : ℕ) (r : ProcessingResult) (hp : s.panicked = false)
      (hw : s.workers[i]? = some (SelWorker.emit r)) (hclosed : s.res.closed = true) :
      SelStep sc transactions numWorkers s { s with panicked := true }
  | report (s : SelState) (i : ℕ) (hp : s.panicked = false)
      (hw : s.workers[i]? = some SelWorker.progress)
      (hopen : s.progress.closed = false) (hroom : s.progress.buf.length < s.progress.cap) :
      SelStep sc transactions numWorkers s
        { s with progress := { s.progress with buf := s.progress.buf ++ [1] },
                 workers := s.workers.set i SelWorker.idle }
  | reportPanic (s : SelState) (i : ℕ) (hp : s.panicked = false)
      (hw : s.workers[i]? = some SelWorker.progress) (hclosed : s.progress.closed = true) :
      SelStep sc transactions numWorkers s { s with panicked := true }
  | stop (s : SelState) (i : ℕ) (hp : s.panicked = false)
      (hw : s.workers[i]? = some SelWorker.idle) (hd : s.doneClosed = true) (hwg : s.wg ≠ 0) :
      SelStep sc transactions numWorkers s
        { s with wg := s.wg - 1, workers := s.workers.set i SelWorker.exited }
  | stopPanic (s : SelState) (i : ℕ) (hp : s.panicked = false)
      (hw : s.workers[i]? = some SelWorker.idle) (hd : s.doneClosed = true) (hwg : s.wg = 0) :
      SelStep sc transactions numWorkers s { s with panicked := true }
  | feed (s : SelState) (i : ℕ) (tx : Transaction) (hp : s.panicked = false)
      (hf : s.feeder = Feeder.feed i) (htx : transactions[i]? = some tx)
      (hopen : s.jobs.closed = false) (hroom : s.jobs.buf.length < s.jobs.cap) :
      SelStep sc transactions numWorkers s
        { s with jobs := { s.jobs with buf := s.jobs.buf ++ [tx] }, feeder := Feeder.feed (i + 1) }
  | feedPanic (s : SelState) (i : ℕ) (tx : Transaction) (hp : s.panicked = false)
      (hf : s.feeder = Feeder.feed i) (htx : transactions[i]? = some tx)
      (hclosed : s.jobs.closed = true) :
      SelStep sc transactions numWorkers s { s with panicked := true }
  | closeJobs (s : SelState) (i : ℕ) (hp : s.panicked = false)
      (hf : s.feeder = Feeder.feed i) (htx : transactions[i]? = none)
      (hopen : s.jobs.closed = false) :
      SelStep sc transactions numWorkers s
        { s with jobs := { s.jobs with closed := true }, feeder := Feeder.done }
  | closeJobsPanic (s : SelState) (i : ℕ) (hp : s.panicked = false)
      (hf : s.feeder = Feeder.feed i) (htx : transactions[i]? = none)
      (hclosed : s.jobs.closed = true) :
      SelStep sc transactions numWorkers s { s with panicked := true }
  | waited (s : SelState) (hp : s.panicked = false) (hc : s.closer = SelCloser.waiting)
      (hwg : s.wg = 0) :
      SelStep sc transactions numWorkers s { s with closer := SelCloser.closeResults }
  | closeRes (s : SelState) (hp : s.panicked = false) (hc : s.closer = SelCloser.closeResults)
      (hopen : s.res.closed = false) :
      SelStep sc transactions numWorkers s
        { s with res := { s.res with closed := true }, closer := SelCloser.closeProgress }
  | closeResPanic (s : SelState) (hp : s.panicked = false) (hc : s.closer = SelCloser.closeResults)
      (hclosed : s.res.closed = true) :
      SelStep sc transactions numWorkers s { s with panicked := true }
  | closeProg (s : SelState) (hp : s.panicked = false) (hc : s.closer = SelCloser.closeProgress)
      (hopen : s.progress.closed = false) :
      SelStep sc transactions numWorkers s
        { s with progress := { s.progress with closed := true }, closer := SelCloser.done }
  | closeProgPanic (s : SelState) (hp : s.panicked = false) (hc : s.closer = SelCloser.closeProgress)
      (hclosed : s.progress.closed = true) :
      SelStep sc transactions numWorkers s { s with panicked := true }

/-! ### Invariants of the select machine -/

/-- The transaction a worker of the select strategy is working on, if any. -/
def SelWorker.holding : SelWorker → Multiset Transaction
  | SelWorker.scoring tx => {tx}
  | SelWorker.emit r => {r.Transaction}
  | _ => 0

/-- 1 for a worker that has not called `wg.Done()` yet. -/
def SelWorker.active : SelWorker → ℕ
  | SelWorker.exited => 0
  | _ => 1

/-- The transactions the feeding goroutine has not sent to `jobs` yet. -/
def Feeder.unfed (transactions : List Transaction) : Feeder → List Transaction
  | Feeder.notStarted => transactions
  | Feeder.feed i => transactions.drop i
  | Feeder.done => []

/-- Every transaction of the batch, wherever it currently is in the run. -/
def SelState.everywhere (transactions : List Transaction) (s : SelState) : Multiset Transaction :=
  (s.results.map ProcessingResult.Transaction : Multiset Transaction) +
    (s.res.buf.map ProcessingResult.Transaction : Multiset Transaction) +
    (s.workers.map SelWorker.holding).sum + (s.jobs.buf : Multiset Transaction) +
    (Feeder.unfed transactions s.feeder : Multiset Transaction)

/-- No transaction is lost or duplicated: a time-out leaves the unprocessed ones where
they are. -/
def SelState.Conserved (transactions : List Transaction) (s : SelState) : Prop :=
  s.everywhere transactions = (transactions : Multiset Transaction)

/-- The WaitGroup counter is the number of workers that have not finished, and
the queues keep the capacity they were made with. -/
def SelState.Counted (transactions : List Transaction) (s : SelState) : Prop :=
  s.wg = (s.workers.map SelWorker.active).sum ∧
    s.jobs.cap = transactions.length ∧ s.res.cap = transactions.length ∧ s.progress.cap = 100

/-- How far the calling goroutine, the feeder, the closer and the channels have got,
consistently.  `done` is closed exactly by a return on time-out; a return with
`timedOut == false` has seen the result channel closed and drained. -/
def SelState.Phased (numWorkers : ℤ) (s : SelState) : Prop :=
  (match s.main with
    | SelMain.spawn w => s.workers.length = w ∧ w ≤ numWorkers.toNat ∧
        s.feeder = Feeder.notStarted ∧ s.closer = SelCloser.idle ∧ s.doneClosed = false
    | SelMain.goFeeder => s.workers.length = numWorkers.toNat ∧
        s.feeder = Feeder.notStarted ∧ s.closer = SelCloser.idle ∧ s.doneClosed = false
    | SelMain.goCloser => s.workers.length = numWorkers.toNat ∧
        s.feeder ≠ Feeder.notStarted ∧ s.closer = SelCloser.idle ∧ s.doneClosed = false
    | SelMain.loop => s.workers.length = numWorkers.toNat ∧
        s.feeder ≠ Feeder.notStarted ∧ s.closer ≠ SelCloser.idle ∧ s.doneClosed = false
    | SelMain.returned => s.workers.length = numWorkers.toNat ∧
        s.feeder ≠ Feeder.notStarted ∧ s.closer ≠ SelCloser.idle ∧ s.doneClosed = s.timedOut ∧
        (s.timedOut = false → s.res.closed = true ∧ s.res.buf = [])) ∧
  (match s.feeder with
    | Feeder.notStarted => s.jobs.closed = false
    | Feeder.feed _ => s.jobs.closed = false
    | Feeder.done => s.jobs.closed = true) ∧
  (match s.closer with
    | SelCloser.idle => s.res.closed = false ∧ s.progress.closed = false
    | SelCloser.waiting => s.res.closed = false ∧ s.progress.closed = false
    | SelCloser.closeResults => s.wg = 0 ∧ s.res.closed = false ∧ s.progress.closed = false
    | SelCloser.closeProgress => s.wg = 0 ∧ s.res.closed = true ∧ s.progress.closed = false
    | SelCloser.done => s.wg = 0 ∧ s.res.closed = true ∧ s.progress.closed = true) ∧
  (SelWorker.exited ∈ s.workers → (s.jobs.closed = true ∧ s.jobs.buf = []) ∨ s.doneClosed = true)

/-- All the invariants of the select machine together; in particular no goroutine has
panicked. -/
structure SelState.Inv (transactions : List Transaction) (numWorkers : ℤ) (s : SelState) : Prop where
  noPanic : s.panicked = false
  conserved : s.Conserved transactions
  counted : s.Counted transactions
  phased : s.Phased numWorkers

/-! ## Context strategy

The `context.Context` argument is modelled by whether it is already done when the
function is called and whether it can still become done (by a cancel call or a
deadline); becoming done is a step of the environment, possible at any moment. -/

/-- The `ctx` argument of `ProcessTransactionsWithContext`. -/
structure Context where
  done : Bool
  mayCancel : Bool
  deriving DecidableEq

/-- Where a worker of the context strategy is: at its outer `select`; at the
`select` with `default` that checks the context, holding `tx`; at the plain send of an
error result; in `CalculateFraudScore(tx)`; at the `select` that sends a valid result;
or returned (with its deferred `wg.Done()`). -/
inductive CtxWorker where
  | idle : CtxWorker
  | check (tx : Transaction) : CtxWorker
  | emitErr (r : ProcessingResult) : CtxWorker
  | scoring (tx : Transaction) : CtxWorker
  | emitOk (r : ProcessingResult) : CtxWorker
  | exited : CtxWorker
  deriving DecidableEq

/-- Where the calling goroutine is. -/
inductive CtxMain where
  | spawn (w : ℕ) : CtxMain
  | goFeeder : CtxMain
  | goCloser : CtxMain
  | loop : CtxMain
  | drain : CtxMain
  | returned : CtxMain
  deriving DecidableEq

/-- State of a run of the context strategy. -/
structure CtxState where
  ctxDone : Bool
  jobs : Chan Transaction
  res : Chan ProcessingResult
  wg : ℕ
  workers : List CtxWorker
  feeder : Feeder
  closer : Closer
  main : CtxMain
  success : ℕ
  errors : ℕ
  results : List ProcessingResult
  cancelled : Bool
  rand : Rand
  panicked : Bool

/-- Scheduler choices: a goroutine and, for a `select`, the case taken; `cancel` is the
environment making the context done. -/
inductive CtxAct where
  | cancel : CtxAct
  | main : CtxAct
  | recvResult : CtxAct
  | mainCancel : CtxAct
  | worker (i : ℕ) : CtxAct
  | workerCancel (i : ℕ) : CtxAct
  | feeder : CtxAct
  | feederCancel : CtxAct
  | closer : CtxAct
  deriving DecidableEq

/-- Operations of the calling goroutine outside its `select`: set-up, and the drain
loop `for result := range resultsChannel` of the `ctx.Done()` case. -/
def ctxMainStep (numWorkers : ℤ) (s : CtxState) : Option CtxState :=
  match s.main with
  | CtxMain.spawn w =>
    if (w : ℤ) < numWorkers then
      some { s with wg := s.wg + 1, workers := s.workers ++ [CtxWorker.idle], main := CtxMain.spawn (w + 1) }
    else some { s with main := CtxMain.goFeeder }
  | CtxMain.goFeeder => some { s with feeder := Feeder.feed 0, main := CtxMain.goCloser }
  | CtxMain.goCloser => some { s with closer := Closer.waiting, main := CtxMain.loop }
  | CtxMain.loop => none
  | CtxMain.drain =>
    match s.res.recv with
    | RecvResult.value r c =>
      some { s with res := c, success := bumpSuccess s.success r, errors := bumpErrors s.errors r,
                    results := s.results ++ [r] }
    | RecvResult.closed => some { s with main := CtxMain.returned, cancelled := true }
    | RecvResult.blocked => none
  | CtxMain.returned => none

/-- Case `result, ok := <-resultsChannel` of the collector's `select`; on a closed
channel the inner `select` returns `cancelled = true` exactly when the context is done. -/
def ctxRecvResultStep (s : CtxState) : Option CtxState :=
  match s.main with
  | CtxMain.loop =>
    match s.res.recv with
    | RecvResult.value r c =>
      some { s with res := c, success := bumpSuccess s.success r, errors := bumpErrors s.errors r,
                    results := s.results ++ [r] }
    | RecvResult.closed => some { s with main := CtxMain.returned, cancelled := s.ctxDone }
    | RecvResult.blocked => none
  | _ => none

/-- Case `<-ctx.Done()` of the collector's `select`. -/
def ctxMainCancelStep (s : CtxState) : Option CtxState :=
  match s.main with
  | CtxMain.loop => if s.ctxDone then some { s with main := CtxMain.drain } else none
  | _ => none

/-- Next operation of worker `i`, at `w`, other than a `<-ctx.Done()` case of a blocking `select`. -/
def ctxWorkerStep (sc : Scorer) (s : CtxState) (i : ℕ) (w : CtxWorker) : Option CtxState :=
  match w with
  | CtxWorker.idle =>
    match s.jobs.recv with
    | RecvResult.value tx c => some { s with jobs := c, workers := s.workers.set i (CtxWorker.check tx) }
    | RecvResult.closed =>
      match wgDone s.wg with
      | some n => some { s with wg := n, workers := s.workers.set i CtxWorker.exited }
      | none => some { s with panicked := true }
    | RecvResult.blocked => none
  | CtxWorker.check tx =>
    if s.ctxDone then
      match wgDone s.wg with
      | some n => some { s with wg := n, workers := s.workers.set i CtxWorker.exited }
      | none => some { s with panicked := true }
    else
      match ValidateTransaction tx with
      | some err => some { s with workers := s.workers.set i (CtxWorker.emitErr (errResult tx err)) }
      | none => some { s with workers := s.workers.set i (CtxWorker.scoring tx) }
  | CtxWorker.emitErr r =>
    match s.res.send r with
    | SendResult.ok c => some { s with res := c, workers := s.workers.set i CtxWorker.idle }
    | SendResult.blocked => none
    | SendResult.panic => some { s with panicked := true }
  | CtxWorker.scoring tx =>
    let c := sc tx s.rand
    some { s with rand := c.rand, workers := s.workers.set i (CtxWorker.emitOk (okResult tx c.score)) }
  | CtxWorker.emitOk r =>
    match s.res.send r with
    | SendResult.ok c => some { s with res := c, workers := s.workers.set i CtxWorker.idle }
    | SendResult.blocked => none
    | SendResult.panic => some { s with panicked := true }
  | CtxWorker.exited => none

/-- Case `<-ctx.Done()` of the outer `select` or of the `select` around the result send. -/
def ctxWorkerCancelStep (s : CtxState) (i : ℕ) (w : CtxWorker) : Option CtxState :=
  if s.ctxDone then
    match w with
    | CtxWorker.idle =>
      match wgDone s.wg with
      | some n => some { s with wg := n, workers := s.workers.set i CtxWorker.exited }
      | none => some { s with panicked := true }
    | CtxWorker.emitOk _ =>
      match wgDone s.wg with
      | some n => some { s with wg := n, workers := s.workers.set i CtxWorker.exited }
      | none => some { s with panicked := true }
    | _ => none
  else none

/-- Case `jobs <- tx` of the feeder's `select`, or its final `close(jobs)`. -/
def ctxFeederStep (transactions : List Transaction) (s : CtxState) : Option CtxState :=
  match s.feeder with
  | Feeder.notStarted => none
  | Feeder.feed i =>
    match transactions[i]? with
    | some tx =>
      match s.jobs.send tx with
      | SendResult.ok c => some { s with jobs := c, feeder := Feeder.feed (i + 1) }
      | SendResult.blocked => none
      | SendResult.panic => some { s with panicked := true }
    | none =>
      match s.jobs.close with
      | some c => some { s with jobs := c, feeder := Feeder.done }
      | none => some { s with panicked := true }
  | Feeder.done => none

/-- Case `<-ctx.Done()` of the feeder's `select`: `close(jobs)` and return. -/
def ctxFeederCancelStep (transactions : List Transaction) (s : CtxState) : Option CtxState :=
  match s.feeder with
  | Feeder.feed i =>
    match transactions[i]? with
    | some _ =>
      if s.ctxDone then
        match s.jobs.close with
        | some c => some { s with jobs := c, feeder := Feeder.done }
        | none => some { s with panicked := true }
      else none
    | none => none
  | _ => none

/-- Next operation of the closer goroutine (`wg.Wait(); close(resultsChannel)`). -/
def ctxCloserStep (s : CtxState) : Option CtxState :=
  match s.closer with
  | Closer.idle => none
  | Closer.waiting => if s.wg = 0 then some { s with closer := Closer.closing } else none
  | Closer.closing =>
    match s.res.close with
    | some c => some { s with res := c, closer := Closer.done }
    | none => some { s with panicked := true }
  | Closer.done => none

/-- One step of the context machine. -/
def ctxStep (sc : Scorer) (ctx : Context) (transactions : List Transaction) (numWorkers : ℤ)
    (s : CtxState) (a : CtxAct) : Option CtxState :=
  if s.panicked then none
  else
    match a with
    | CtxAct.cancel => if ctx.mayCancel && !s.ctxDone then some { s with ctxDone := true } else none
    | CtxAct.main => ctxMainStep numWorkers s
    | CtxAct.recvResult => ctxRecvResultStep s
    | CtxAct.mainCancel => ctxMainCancelStep s
    | CtxAct.worker i =>
      match s.workers[i]? with
      | some w => ctxWorkerStep sc s i w
      | none => none
    | CtxAct.workerCancel i =>
      match s.workers[i]? with
      | some w => ctxWorkerCancelStep s i w
      | none => none
    | CtxAct.feeder => ctxFeederStep transactions s
    | CtxAct.feederCancel => ctxFeederCancelStep transactions s
    | CtxAct.closer => ctxCloserStep s

/-- State after the two `make` calls that open `ProcessTransactionsWithContext`. -/
def ctxInit (ctx : Context) (transactions : List Transaction) (r : Rand) : CtxState :=
  { ctxDone := ctx.done, jobs := Chan.make transactions.length, res := Chan.make transactions.length,
    wg := 0, workers := [], feeder := Feeder.notStarted, closer := Closer.idle,
    main := CtxMain.spawn 0, success := 0, errors := 0, results := [], cancelled := false,
    rand := r, panicked := false }

/-- Go `ProcessTransactionsWithContext` (main.go 380-481), over an arbitrary scorer. -/
def ProcessTransactionsWithContextWith (sc : Scorer) (ctx : Context)
    (transactions : List Transaction) (numWorkers : ℤ) (r : Rand) : Machine CtxState CtxAct :=
  { init := ctxInit ctx transactions r
    step := ctxStep sc ctx transactions numWorkers }

/-- Go `ProcessTransactionsWithContext`. -/
def ProcessTransactionsWithContext (ctx : Context) (transactions : List Transaction)
    (numWorkers : ℤ) (r : Rand) : Machine CtxState CtxAct :=
  ProcessTransactionsWithContextWith CalculateFraudScore ctx transactions numWorkers r

/-- What a worker of the context strategy holds is well formed. -/
def CtxWorker.OK (G : Transaction → F64 → Prop) : CtxWorker → Prop
  | CtxWorker.emitErr r => resultOK G r
  | CtxWorker.scoring tx => ValidateTransaction tx = none
  | CtxWorker.emitOk r => resultOK G r
  | _ => True

/-- Every result collected, queued or about to be sent is well formed. -/
def CtxState.ResultsOK (G : Transaction → F64 → Prop) (s : CtxState) : Prop :=
  (∀ r ∈ s.results, resultOK G r) ∧ (∀ r ∈ s.res.buf, resultOK G r) ∧
    (∀ w ∈ s.workers, CtxWorker.OK G w)

/-- The steps of the context machine as a relation, one constructor per operation
(`ctxStep_sound`: every step of `ctxStep` is one of these). -/
inductive CtxStep (sc : Scorer) (ctx : Context) (transactions : List Transaction)
    (numWorkers : ℤ) : CtxState → CtxState → Prop where
  | cancel (s : CtxState) (hp : s.panicked = false) (hmay : ctx.mayCancel = true)
      (hnd : s.ctxDone = false) :
      CtxStep sc ctx transactions numWorkers s { s with ctxDone := true }
  | spawn (s : CtxState) (w : ℕ) (hp : s.panicked = false) (hm : s.main = CtxMain.spawn w)
      (hw : (w : ℤ) < numWorkers) :
      CtxStep sc ctx transactions numWorkers s
        { s with wg := s.wg + 1, workers := s.workers ++ [CtxWorker.idle], main := CtxMain.spawn (w + 1) }
  | spawnEnd (s : CtxState) (w : ℕ) (hp : s.panicked = false) (hm : s.main = CtxMain.spawn w)
      (hw : ¬ (w : ℤ) < numWorkers) :
      CtxStep sc ctx transactions numWorkers s { s with main := CtxMain.goFeeder }
  | goFeeder (s : CtxState) (hp : s.panicked = false) (hm : s.main = CtxMain.goFeeder) :
      CtxStep sc ctx transactions numWorkers s
        { s with feeder := Feeder.feed 0, main := CtxMain.goCloser }
  | goCloser (s : CtxState) (hp : s.panicked = false) (hm : s.main = CtxMain.goCloser) :
      CtxStep sc ctx transactions numWorkers s
        { s with closer := Closer.waiting, main := CtxMain.loop }
  | collect (s : CtxState) (r : ProcessingResult) (rest : List ProcessingResult)
      (hp : s.panicked = false) (hm : s.main = CtxMain.loop) (hbuf : s.res.buf = r :: rest) :
      CtxStep sc ctx transactions numWorkers s
        { s with res := { s.res with buf := rest }, success := bumpSuccess s.success r,
                 errors := bumpErrors s.errors r, results := s.results ++ [r] }
  | ret (s : CtxState) (hp : s.panicked = false) (hm : s.main = CtxMain.loop)
      (hbuf : s.res.buf = []) (hclosed : s.res.closed = true) :
      CtxStep sc ctx transactions numWorkers s
        { s with main := CtxMain.returned, cancelled := s.ctxDone }
  | mainCancel (s : CtxState) (hp : s.panicked = false) (hm : s.main = CtxMain.loop)
      (hd : s.ctxDone = true) :
      CtxStep sc ctx transactions numWorkers s { s with main := CtxMain.drain }
  | drainCollect (s : CtxState) (r : ProcessingResult) (rest : List ProcessingResult)
      (hp : s.panicked = false) (hm : s.main = CtxMain.drain) (hbuf : s.res.buf = r :: rest) :
      CtxStep sc ctx transactions numWorkers s
        { s with res := { s.res with buf := rest }, success := bumpSuccess s.success r,
                 errors := bumpErrors s.errors r, results := s.results ++ [r] }
  | drainRet (s : CtxState) (hp : s.panicked = false) (hm : s.main = CtxMain.drain)
      (hbuf : s.res.buf = []) (hclosed : s.res.closed = true) :
      CtxStep sc ctx transactions numWorkers s
        { s with main := CtxMain.returned, cancelled := true }
  | take (s : CtxState) (i : ℕ) (tx : Transaction) (rest : List Transaction)
      (hp : s.panicked = false) (hw : s.workers[i]? = some CtxWorker.idle)
      (hbuf : s.jobs.buf = tx :: rest) :
      CtxStep sc ctx transactions numWorkers s
        { s with jobs := { s.jobs with buf := rest }, workers := s.workers.set i (CtxWorker.check tx) }
  | exit (s : CtxState) (i : ℕ) (hp : s.panicked = false)
      (hw : s.workers[i]? = some CtxWorker.idle) (hbuf : s.jobs.buf = [])
      (hclosed : s.jobs.closed = true) (hwg : s.wg ≠ 0) :
      CtxStep sc ctx transactions numWorkers s
        { s with wg := s.wg - 1, workers := s.workers.set i CtxWorker.exited }
  | exitPanic (s : CtxState) (i : ℕ) (hp : s.panicked = false)
      (hw : s.workers[i]? = some CtxWorker.idle) (hbuf : s.jobs.buf = [])
      (hclosed : s.jobs.closed = true) (hwg : s.wg = 0) :
      CtxStep sc ctx transactions numWorkers s { s with panicked := true }
  | checkStop (s : CtxState) (i : ℕ) (tx : Transaction) (hp : s.panicked = false)
      (hw : s.workers[i]? = some (CtxWorker.check tx)) (hd : s.ctxDone = true) (hwg : s.wg ≠ 0) :
      CtxStep sc ctx transactions numWorkers s
        { s with wg := s.wg - 1, workers := s.workers.set i CtxWorker.exited }
  | checkStopPanic (s : CtxState) (i : ℕ) (tx : Transaction) (hp : s.panicked = false)
      (hw : s.workers[i]? = some (CtxWorker.check tx)) (hd : s.ctxDone = true) (hwg : s.wg = 0) :
      CtxStep sc ctx transactions numWorkers s { s with panicked := true }
  | checkInvalid (s : CtxState) (i : ℕ) (tx : Transaction) (err : ValidationError)
      (hp : s.panicked = false) (hw : s.workers[i]? = some (CtxWorker.check tx))
      (hd : s.ctxDone = false) (hv : ValidateTransaction tx = some err) :
      CtxStep sc ctx transactions numWorkers s
        { s with workers := s.workers.set i (CtxWorker.emitErr (errResult tx err)) }
  | checkValid (s : CtxState) (i : ℕ) (tx : Transaction)
      (hp : s.panicked = false) (hw : s.workers[i]? = some (CtxWorker.check tx))
      (hd : s.ctxDone = false) (hv : ValidateTransaction tx = none) :
      CtxStep sc ctx transactions numWorkers s
        { s with workers := s.workers.set i (CtxWorker.scoring tx) }
  | emitErr (s : CtxState) (i : ℕ) (r : ProcessingResult) (hp : s.panicked = false)
      (hw : s.workers[i]? = some (CtxWorker.emitErr r))
      (hopen : s.res.closed = false) (hroom : s.res.buf.length < s.res.cap) :
      CtxStep sc ctx transactions numWorkers s
        { s with res := { s.res with buf := s.res.buf ++ [r] },
                 workers := s.workers.set i CtxWorker.idle }
  | emitErrPanic (s : CtxState) (i : ℕ) (r : ProcessingResult) (hp : s.panicked = false)
      (hw : s.workers[i]? = some (CtxWorker.emitErr r)) (hclosed : s.res.closed = true) :
      CtxStep sc ctx transactions numWorkers s { s with panicked := true }
  | score (s : CtxState) (i : ℕ) (tx : Transaction) (hp : s.panicked = false)
      (hw : s.workers[i]? = some (CtxWorker.scoring tx)) :
      CtxStep sc ctx transactions numWorkers s
        { s with rand := (sc tx s.rand).rand,
                 workers := s.workers.set i (CtxWorker.emitOk (okResult tx (sc tx s.rand).score)) }
  | emitOk (s : CtxState) (i : ℕ) (r : ProcessingResult) (hp : s.panicked = false)
      (hw : s.workers[i]? = some (CtxWorker.emitOk r))
      (hopen : s.res.closed = false) (hroom : s.res.buf.length < s.res.cap) :
      CtxStep sc ctx transactions numWorkers s
        { s with res := { s.res with buf := s.res.buf ++ [r] },
                 workers := s.workers.set i CtxWorker.idle }
  | emitOkPanic (s : CtxState) (i : ℕ) (r : ProcessingResult) (hp : s.panicked = false)
      (hw : s.workers[i]? = some (CtxWorker.emitOk r)) (hclosed : s.res.closed = true) :
      CtxStep sc ctx transactions numWorkers s { s with panicked := true }
  | stop (s : CtxState) (i : ℕ) (hp : s.panicked = false)
      (hw : s.workers[i]? = some CtxWorker.idle) (hd : s.ctxDone = true) (hwg : s.wg ≠ 0) :
      CtxStep sc ctx transactions numWorkers s
        { s with wg := s.wg - 1, workers := s.workers.set i CtxWorker.exited }
  | stopPanic (s : CtxState) (i : ℕ) (hp : s.panicked = false)
      (hw : s.workers[i]? = some CtxWorker.idle) (hd : s.ctxDone = true) (hwg : s.wg = 0) :
      CtxStep sc ctx transactions numWorkers s { s with panicked := true }
  | abandon (s : CtxState) (i : ℕ) (r : ProcessingResult) (hp : s.panicked = false)
      (hw : s.workers[i]? = some (CtxWorker.emitOk r)) (hd : s.ctxDone = true) (hwg : s.wg ≠ 0) :
      CtxStep sc ctx transactions numWorkers s
        { s with wg := s.wg - 1, workers := s.workers.set i CtxWorker.exited }
  | abandonPanic (s : CtxState) (i : ℕ) (r : ProcessingResult) (hp : s.panicked = false)
      (hw : s.workers[i]? = some (CtxWorker.emitOk r)) (hd : s.ctxDone = true) (hwg : s.wg = 0) :
      CtxStep sc ctx transactions numWorkers s { s with panicked := true }
  | feed (s : CtxState) (i : ℕ) (tx : Transaction) (hp : s.panicked = false)
      (hf : s.feeder = Feeder.feed i) (htx : transactions[i]? = some tx)
      (hopen : s.jobs.closed = false) (hroom : s.jobs.buf.length < s.jobs.cap) :
      CtxStep sc ctx transactions numWorkers s
        { s with jobs := { s.jobs with buf := s.jobs.buf ++ [tx] }, feeder := Feeder.feed (i + 1) }
  | feedPanic (s : CtxState) (i : ℕ) (tx : Transaction) (hp : s.panicked = false)
      (hf : s.feeder = Feeder.feed i) (htx : transactions[i]? = some tx)
      (hclosed : s.jobs.closed = true) :
      CtxStep sc ctx transactions numWorkers s { s with panicked := true }
  | closeJobs (s : CtxState) (i : ℕ) (hp : s.panicked = false)
      (hf : s.feeder = Feeder.feed i) (htx : transactions[i]? = none)
      (hopen : s.jobs.closed = false) :
      CtxStep sc ctx transactions numWorkers s
        { s with jobs := { s.jobs with closed := true }, feeder := Feeder.done }
  | closeJobsPanic (s : CtxState) (i : ℕ) (hp : s.panicked = false)
      (hf : s.feeder = Feeder.feed i) (htx : transactions[i]? = none)
      (hclosed : s.jobs.closed = true) :
      CtxStep sc ctx transactions numWorkers s { s with panicked := true }
  | feedCancel (s : CtxState) (i : ℕ) (tx : Transaction) (hp : s.panicked = false)
      (hf : s.feeder = Feeder.feed i) (htx : transactions[i]? = some tx)
      (hd : s.ctxDone = true) (hopen : s.jobs.closed = false) :
      CtxStep sc ctx transactions numWorkers s
        { s with jobs := { s.jobs with closed := true }, feeder := Feeder.done }
  | feedCancelPanic (s : CtxState) (i : ℕ) (tx : Transaction) (hp : s.panicked = false)
      (hf : s.feeder = Feeder.feed i) (htx : transactions[i]? = some tx)
      (hd : s.ctxDone = true) (hclosed : s.jobs.closed = true) :
      CtxStep sc ctx transactions numWorkers s { s with panicked := true }
  | waited (s : CtxState) (hp : s.panicked = false) (hc : s.closer = Closer.waiting)
      (hwg : s.wg = 0) :
      CtxStep sc ctx transactions numWorkers s { s with closer := Closer.closing }
  | closeRes (s : CtxState) (hp : s.panicked = false) (hc : s.closer = Closer.closing)
      (hopen : s.res.closed = false) :
      CtxStep sc ctx transactions numWorkers s
        { s with res := { s.res with closed := true }, closer := Closer.done }
  | closeResPanic (s : CtxState) (hp : s.panicked = false) (hc : s.closer = Closer.closing)
      (hclosed : s.res.closed = true) :
      CtxStep sc ctx transactions numWorkers s { s with panicked := true }

/-! ### Invariants of the context machine -/

/-- The transaction a worker of the context strategy is working on, if any. -/
def CtxWorker.holding : CtxWorker → Multiset Transaction
  | CtxWorker.check tx => {tx}
  | CtxWorker.emitErr r => {r.Transaction}
  | CtxWorker.scoring tx => {tx}
  | CtxWorker.emitOk r => {r.Transaction}
  | _ => 0

/-- 1 for a worker that has not called `wg.Done()` yet. -/
def CtxWorker.active : CtxWorker → ℕ
  | CtxWorker.exited => 0
  | _ => 1

/-- Every transaction of the batch that is still somewhere in the run. -/
def CtxState.everywhere (transactions : List Transaction) (s : CtxState) : Multiset Transaction :=
  (s.results.map ProcessingResult.Transaction : Multiset Transaction) +
    (s.res.buf.map ProcessingResult.Transaction : Multiset Transaction) +
    (s.workers.map CtxWorker.holding).sum + (s.jobs.buf : Multiset Transaction) +
    (Feeder.unfed transactions s.feeder : Multiset Transaction)

/-- No transaction is duplicated, and none is lost as long as the context is not done:
the transactions still in the run together with those abandoned on cancellation (`d`) are
the batch. -/
def CtxState.Conserved (transactions : List Transaction) (s : CtxState) : Prop :=
  ∃ d : Multiset Transaction,
    s.everywhere transactions + d = (transactions : Multiset Transaction) ∧
      (s.ctxDone = false → d = 0)

/-- The WaitGroup counter is the number of workers that have not finished, and
both queues keep the capacity they were made with. -/
def CtxState.Counted (transactions : List Transaction) (s : CtxState) : Prop :=
  s.wg = (s.workers.map CtxWorker.active).sum ∧
    s.jobs.cap = transactions.length ∧ s.res.cap = transactions.length

/-- How far the calling goroutine, the feeder, the closer and the channels have got,
consistently. -/
def CtxState.Phased (numWorkers : ℤ) (s : CtxState) : Prop :=
  (match s.main with
    | CtxMain.spawn w => s.workers.length = w ∧ w ≤ numWorkers.toNat ∧
        s.feeder = Feeder.notStarted ∧ s.closer = Closer.idle
    | CtxMain.goFeeder => s.workers.length = numWorkers.toNat ∧
        s.feeder = Feeder.notStarted ∧ s.closer = Closer.idle
    | CtxMain.goCloser => s.workers.length = numWorkers.toNat ∧
        s.feeder ≠ Feeder.notStarted ∧ s.closer = Closer.idle
    | CtxMain.loop => s.workers.length = numWorkers.toNat ∧
        s.feeder ≠ Feeder.notStarted ∧ s.closer ≠ Closer.idle
    | CtxMain.drain => s.workers.length = numWorkers.toNat ∧
        s.feeder ≠ Feeder.notStarted ∧ s.closer ≠ Closer.idle ∧ s.ctxDone = true
    | CtxMain.returned => s.workers.length = numWorkers.toNat ∧
        s.feeder ≠ Feeder.notStarted ∧ s.closer = Closer.done ∧ s.res.buf = []) ∧
  (match s.feeder with
    | Feeder.notStarted => s.jobs.closed = false
    | Feeder.feed _ => s.jobs.closed = false
    | Feeder.done => s.jobs.closed = true) ∧
  (match s.closer with
    | Closer.idle => s.res.closed = false
    | Closer.waiting => s.res.closed = false
    | Closer.closing => s.wg = 0 ∧ s.res.closed = false
    | Closer.done => s.wg = 0 ∧ s.res.closed = true) ∧
  (CtxWorker.exited ∈ s.workers → (s.jobs.closed = true ∧ s.jobs.buf = []) ∨ s.ctxDone = true)

/-- What a return with `cancelled == false` has seen: with at least one worker the
feeder has finished, and with at least one worker or an empty batch a result has been
collected for every transaction of the batch. -/
def CtxState.Returned (transactions : List Transaction) (numWorkers : ℤ) (s : CtxState) : Prop :=
  s.main = CtxMain.returned → s.cancelled = false →
    (1 ≤ numWorkers → s.feeder = Feeder.done) ∧
      ((1 ≤ numWorkers ∨ transactions = []) →
        (s.results.map ProcessingResult.Transaction : Multiset Transaction) =
          (transactions : Multiset Transaction))

/-- All the invariants of the context machine together; in particular no goroutine has
panicked. -/
structure CtxState.Inv (transactions : List Transaction) (numWorkers : ℤ) (s : CtxState) : Prop where
  noPanic : s.panicked = false
  conserved : s.Conserved transactions
  counted : s.Counted transactions
  phased : s.Phased numWorkers
  returned : s.Returned transactions numWorkers

/-- Work a worker of the context strategy still has in front of it (for the termination
measure). -/
def CtxWorker.weight : CtxWorker → ℕ
  | CtxWorker.idle => 1
  | CtxWorker.check _ => 6
  | CtxWorker.emitErr _ => 3
  | CtxWorker.scoring _ => 4
  | CtxWorker.emitOk _ => 3
  | CtxWorker.exited => 0

/-- Steps the feeder still has in front of it, once started, for a batch of `n`. -/
def Feeder.weight (n : ℕ) : Feeder → ℕ
  | Feeder.notStarted => 0
  | Feeder.feed i => 1 + 7 * (n - i)
  | Feeder.done => 0

/-- Steps the calling goroutine still has in front of it, collecting apart, and those of
the goroutines it has not started yet. -/
def CtxMain.weight (numWorkers : ℤ) (n : ℕ) : CtxMain → ℕ
  | CtxMain.spawn w => 2 * (numWorkers.toNat - w) + 8 + 7 * n
  | CtxMain.goFeeder => 7 + 7 * n
  | CtxMain.goCloser => 5
  | CtxMain.loop => 2
  | CtxMain.drain => 1
  | CtxMain.returned => 0

/-- Termination measure of the context machine: every step decreases it. -/
def CtxState.measure (transactions : List Transaction) (numWorkers : ℤ) (s : CtxState) : ℕ :=
  CtxMain.weight numWorkers transactions.length s.main + Feeder.weight transactions.length s.feeder +
    6 * s.jobs.buf.length + (s.workers.map CtxWorker.weight).sum + s.res.buf.length +
    Closer.weight s.closer + (if s.panicked then 0 else 1) + (if s.ctxDone then 0 else 1)

/-! ## Notions used to state the properties of the strategies -/

/-- The invariant of `ProcessingResult`: `Valid == (Error == nil)`, and a valid result
has its `FraudScore` in `[0,1]`. -/
def ProcessingResult.WellFormed (r : ProcessingResult) : Prop :=
  r.Valid = r.Error.isNone ∧
    (r.Valid = true → F64.le (F64.fin 0) r.FraudScore = true ∧ F64.le r.FraudScore (F64.fin 1) = true)

/-- A score in the closed interval `[0,1]`. -/
def scoreInUnit (_ : Transaction) (fs : F64) : Prop :=
  F64.le (F64.fin 0) fs = true ∧ F64.le fs (F64.fin 1) = true

/-- A scorer that is a deterministic function `f` of the transaction: no delay, no draw
from the random source. -/
def detScorer (f : Transaction → F64) : Scorer :=
  fun tx r => { delay := 0, score := f tx, rand := r }

/-- The result every strategy builds for `tx` when the scorer is the function `f`. -/
def processWith (f : Transaction → F64) (tx : Transaction) : ProcessingResult :=
  match ValidateTransaction tx with
  | some err => errResult tx err
  | none => okResult tx (f tx)

/-- A machine runs to completion without deadlock and ends in `P`: every reachable
state that is not final can take a step; no schedule is longer than `bound`, so every
run stops; some schedule reaches a final state; and every reachable final state
satisfies `P`. -/
def Machine.RunsToCompletion {σ α : Type} (m : Machine σ α) (final : σ → Prop) (bound : ℕ)
    (P : σ → Prop) : Prop :=
  (∀ s, m.Reachable s → ¬ final s → m.CanStep s) ∧
    (∀ sched s, m.exec sched = some s → sched.length ≤ bound) ∧
    (∃ sched s, m.exec sched = some s ∧ final s) ∧
    (∀ s, m.Reachable s → final s → P s)

/-- The counts and results of a state of the pool machine are those of a complete run over `n` transactions. -/
def PoolState.Complete (n : ℕ) (s : PoolState) : Prop :=
  s.success + s.errors = n ∧ s.results.length = n

/-- The counts and results of a state of the fan-out/fan-in machine are those of a complete run over `n` transactions. -/
def FanState.Complete (n : ℕ) (s : FanState) : Prop :=
  s.success + s.errors = n ∧ s.results.length = n

/-- A schedule of the pool machine for a batch of two transactions and one worker:
set-up, feeding, then the worker and the collector in turn. -/
def poolSchedule2 : List PoolAct :=
  [PoolAct.main, PoolAct.main, PoolAct.main, PoolAct.main, PoolAct.main, PoolAct.main,
   PoolAct.worker 0, PoolAct.worker 0, PoolAct.main,
   PoolAct.worker 0, PoolAct.worker 0, PoolAct.worker 0, PoolAct.worker 0,
   PoolAct.closer, PoolAct.closer, PoolAct.main, PoolAct.main]

/-- A schedule of the pool machine with a semaphore for the same batch: the worker
also acquires and releases a permit around the scorer call. -/
def semSchedule2 : List PoolAct :=
  [PoolAct.main, PoolAct.main, PoolAct.main, PoolAct.main, PoolAct.main, PoolAct.main,
   PoolAct.worker 0, PoolAct.worker 0, PoolAct.main,
   PoolAct.worker 0, PoolAct.worker 0, PoolAct.worker 0, PoolAct.worker 0, PoolAct.worker 0,
   PoolAct.worker 0, PoolAct.closer, PoolAct.closer, PoolAct.main, PoolAct.main]

/-- A schedule of the fan-out/fan-in machine for the same batch and one worker. -/
def fanSchedule2 : List FanAct :=
  [FanAct.main, FanAct.main, FanAct.main, FanAct.main, FanAct.main, FanAct.main,
   FanAct.dist, FanAct.worker 0, FanAct.fwd 0,
   FanAct.dist, FanAct.worker 0, FanAct.worker 0, FanAct.fwd 0,
   FanAct.dist, FanAct.dist, FanAct.dist, FanAct.worker 0, FanAct.fwd 0,
   FanAct.closer, FanAct.closer, FanAct.main]

/-- A schedule of the select machine for the same batch and one worker, ending by the
result channel being closed. -/
def selSchedule2 : List SelAct :=
  [SelAct.main, SelAct.main, SelAct.main, SelAct.main,
   SelAct.feeder, SelAct.feeder, SelAct.feeder,
   SelAct.worker 0, SelAct.worker 0, SelAct.worker 0, SelAct.recvResult, SelAct.recvProgress,
   SelAct.worker 0, SelAct.worker 0, SelAct.worker 0, SelAct.worker 0, SelAct.worker 0,
   SelAct.closer, SelAct.closer, SelAct.closer, SelAct.recvResult, SelAct.recvResult]

/-- A schedule of the select machine for the same batch in which the timer fires after
the first result has been collected. -/
def selScheduleTimeout : List SelAct :=
  [SelAct.main, SelAct.main, SelAct.main, SelAct.main,
   SelAct.feeder, SelAct.feeder, SelAct.feeder,
   SelAct.worker 0, SelAct.worker 0, SelAct.recvResult, SelAct.timeout]

/-- A schedule of the context machine for the same batch and one worker, never cancelled. -/
def ctxSchedule2 : List CtxAct :=
  [CtxAct.main, CtxAct.main, CtxAct.main, CtxAct.main,
   CtxAct.feeder, CtxAct.feeder, CtxAct.feeder,
   CtxAct.worker 0, CtxAct.worker 0, CtxAct.worker 0, CtxAct.recvResult,
   CtxAct.worker 0, CtxAct.worker 0, CtxAct.worker 0, CtxAct.worker 0, CtxAct.worker 0,
   CtxAct.closer, CtxAct.closer, CtxAct.recvResult, CtxAct.recvResult]

/-- A schedule of the context machine for the same batch in which the context is
cancelled after the first result has been collected. -/
def ctxScheduleCancel : List CtxAct :=
  [CtxAct.main, CtxAct.main, CtxAct.main, CtxAct.main,
   CtxAct.feeder, CtxAct.feeder, CtxAct.feeder,
   CtxAct.worker 0, CtxAct.worker 0, CtxAct.worker 0, CtxAct.recvResult,
   CtxAct.worker 0, CtxAct.cancel, CtxAct.worker 0, CtxAct.closer, CtxAct.closer,
   CtxAct.mainCancel, CtxAct.main]

/-- The batch of the sample runs: a negative amount, then a valid transaction. -/
def batch2 : List Transaction := [txNeg, txUSD100]

/-- The random source of the sample runs. -/
def rand0 : Rand := Rand.const 0 half

/-- The counts and results `(success, errors, results)` are, as a collection keyed by
transaction ID, those of the outcome `seq`: the results are a permutation of
`seq.results`, the counts are equal, and when the transaction IDs of `seq.results` are
pairwise distinct, looking a transaction ID up gives the same result in both. -/
def Outcome.SameCollection (seq : Outcome) (success errors : ℕ) (results : List ProcessingResult) :
    Prop :=
  results.Perm seq.results ∧ success = seq.success ∧ errors = seq.errors ∧
    ((seq.results.map fun x => x.Transaction.ID).Nodup →
      ∀ id : Int, results.find? (fun x => x.Transaction.ID == id) =
        seq.results.find? (fun x => x.Transaction.ID == id))

/-- A constant scorer, for sample runs. -/
def constScore : Transaction → F64 := fun _ => F64.fin (1 / 2)

/-! ## Notions for the permits of the semaphore strategy -/

/-- 1 for a worker that is inside the call of `CalculateFraudScore`. -/
def PoolWorker.inScorer : PoolWorker → ℕ
  | PoolWorker.scoring _ => 1
  | _ => 0

/-- Number of workers currently executing the scorer. -/
def PoolState.scoringNow (s : PoolState) : ℕ := (s.workers.map PoolWorker.inScorer).sum

/-- Number of permits currently held: the tokens queued in the semaphore channel. -/
def PoolState.permitsHeld (s : PoolState) : ℕ :=
  match s.sem with
  | some c => c.buf.length
  | none => 0

/-- What one operation of worker `i` of the semaphore strategy, leading from `s` to
`s1`, does to the permits and to the worker: taking a job (or leaving the loop) and
sending a result leave the permits alone, and a transaction that fails validation goes
straight to the send of its error result; a valid one goes to the acquire, which adds one
permit and leads into the scorer; the scorer call leaves the permits alone and leads to the
release, which gives one permit back and leads to the send of the result. -/
def PoolState.WorkerPermitStep (sc : Scorer) (s s1 : PoolState) (i : ℕ) : Prop :=
  match s.workers[i]? with
  | some PoolWorker.idle =>
    s1.permitsHeld = s.permitsHeld ∧
      (match s.jobs.buf with
        | tx :: _ =>
          (match ValidateTransaction tx with
            | some err => s1.workers[i]? = some (PoolWorker.emit (errResult tx err))
            | none => s1.workers[i]? = some (PoolWorker.acquire tx))
        | [] => s1.workers[i]? = some PoolWorker.exited)
  | some (PoolWorker.acquire tx) =>
    s1.permitsHeld = s.permitsHeld + 1 ∧ s1.workers[i]? = some (PoolWorker.scoring tx)
  | some (PoolWorker.scoring tx) =>
    s1.permitsHeld = s.permitsHeld ∧
      s1.workers[i]? = some (PoolWorker.release tx (sc tx s.rand).score)
  | some (PoolWorker.release tx fs) =>
    s1.permitsHeld + 1 = s.permitsHeld ∧ s1.workers[i]? = some (PoolWorker.emit (okResult tx fs))
  | some (PoolWorker.emit r) =>
    s1.permitsHeld = s.permitsHeld ∧ s1.workers[i]? = some PoolWorker.idle ∧
      s1.res.buf = s.res.buf ++ [r]
  | some PoolWorker.exited => False
  | none => False

/-- A schedule of the semaphore machine for the sample batch and two workers: set-up and
feeding, then worker 0 takes the invalid transaction, worker 1 takes the valid one,
acquires a permit and is inside the scorer. -/
def semScheduleScoring : List PoolAct :=
  [PoolAct.main, PoolAct.main, PoolAct.main, PoolAct.main, PoolAct.main, PoolAct.main,
   PoolAct.main, PoolAct.worker 0, PoolAct.worker 1, PoolAct.worker 1]

/-! ## Sample runs of the select strategy -/

/-- A schedule of the select machine with no worker: set-up, then the closer finds the
WaitGroup counter at zero and closes the result channel, and the collector sees it closed. -/
def selScheduleNoWorkers : List SelAct :=
  [SelAct.main, SelAct.main, SelAct.main, SelAct.closer, SelAct.closer, SelAct.recvResult]

/-- A batch of 101 transactions, each with a negative amount. -/
def batch101 : List Transaction := List.replicate 101 txNeg

/-- A schedule of the select machine for `batch101` and one worker in which the collector
does not get to run: set-up, the feeder queues the 101 jobs and closes the queue, the worker handles 100 of them
(take, send the error result, send the progress update), then takes the last one and sends
its result. -/
def selScheduleProgressFull : List SelAct :=
  [SelAct.main, SelAct.main, SelAct.main, SelAct.main] ++ List.replicate 102 SelAct.feeder ++
    (List.replicate 100 [SelAct.worker 0, SelAct.worker 0, SelAct.worker 0]).flatten ++
    [SelAct.worker 0, SelAct.worker 0]

/-- The state `selScheduleProgressFull` leads to (`C16_progress_send_blocks` proves that it
does): the job queue is closed and empty, the 101 error results are queued, the progress
channel holds 100 updates, and the worker is at `progress <- 1`. -/
def selStateProgressFull : SelState :=
  { jobs := { buf := [], cap := 101, closed := true },
    res := { buf := List.replicate 101 (errResult txNeg (ValidationError.invalidAmount txNeg.Amount)),
             cap := 101, closed := false },
    progress := { buf := List.replicate 100 1, cap := 100, closed := false },
    doneClosed := false, wg := 1, workers := [SelWorker.progress], feeder := Feeder.done,
    closer := SelCloser.waiting, main := SelMain.loop, success := 0, errors := 0, results := [],
    processed := 0, timedOut := false, rand := rand0, panicked := false }

/-- The state after the timer fires in `selStateProgressFull`: `done` is closed and the call
has returned with `timedOut == true`. -/
def selStateProgressTimedOut : SelState :=
  { selStateProgressFull with doneClosed := true, main := SelMain.returned, timedOut := true }

/-! ## Sample runs of the context strategy -/

/-- A schedule of the context machine with no worker: set-up, then the closer finds the
WaitGroup counter at zero and closes the result channel, and the collector sees it closed. -/
def ctxScheduleNoWorkers : List CtxAct :=
  [CtxAct.main, CtxAct.main, CtxAct.main, CtxAct.closer, CtxAct.closer, CtxAct.recvResult]

/-- A schedule of the context machine for one worker and a context that is already done:
set-up, the worker takes the `ctx.Done()` case of its `select`, the closer closes the result
channel, the collector takes its `ctx.Done()` case and finds the channel closed; the feeder
has not run. -/
def ctxScheduleDone : List CtxAct :=
  [CtxAct.main, CtxAct.main, CtxAct.main, CtxAct.main, CtxAct.workerCancel 0,
   CtxAct.closer, CtxAct.closer, CtxAct.mainCancel, CtxAct.main]

/-- A context that is never cancelled. -/
def ctxBackground : Context := { done := false, mayCancel := false }

/-- A context that is already done when the function is called. -/
def ctxAlreadyDone : Context := { done := true, mayCancel := false }

/-- A batch of five transactions. -/
def batch5 : List Transaction := [txUSD100, txNaN, txNeg, txXYZ, txUSD100]

/-- A schedule of `FanOut` for `batch5` and two queues: the call, the five sends each
met by a receive on the queue it goes to, the end of the send loop, the two `close`
calls and the end of the closing loop. -/
def fanOutSchedule5 : List FanOutAct :=
  [FanOutAct.call, FanOutAct.recv 0, FanOutAct.recv 1, FanOutAct.recv 0, FanOutAct.recv 1,
   FanOutAct.recv 0, FanOutAct.dist, FanOutAct.dist, FanOutAct.dist, FanOutAct.dist]

/-! ### Sample run of `FanIn` -/

/-- The error result of the sample transaction with a negative amount. -/
def resErrNeg : ProcessingResult := errResult txNeg (ValidationError.invalidAmount (F64.fin (-1)))

/-- A scored result of the sample valid transaction. -/
def resOk100 : ProcessingResult := okResult txUSD100 (F64.fin 50)

/-- The error result of the sample transaction with an unknown currency. -/
def resErrXYZ : ProcessingResult := errResult txXYZ (ValidationError.invalidCurrency "XYZ")

/-- Two sources: the first delivers two results, the second one. -/
def sources3 : List (List ProcessingResult) := [[resErrNeg, resOk100], [resErrXYZ]]

/-- A schedule of `FanIn` over `sources3`: the two forwarders and the closer are started
and `out` is returned; forwarder 1 takes its item, forwarder 0 takes and delivers its first
item, forwarder 1 delivers, forwarder 0 takes and delivers its second item; both sources are
closed, both forwarders leave their loops, and the closer closes `out`. -/
def fanInSchedule3 : List FanInAct :=
  [FanInAct.main, FanInAct.main, FanInAct.main, FanInAct.main,
   FanInAct.fwd 1, FanInAct.fwd 0, FanInAct.fwd 0, FanInAct.fwd 1, FanInAct.fwd 0, FanInAct.fwd 0,
   FanInAct.src 0, FanInAct.src 1, FanInAct.fwd 0, FanInAct.fwd 1,
   FanInAct.closer, FanInAct.closer]

/-! ## Merchants (`common/domain/merchant.go`)

`*Merchant` arguments are taken to be non-nil and are modelled by the value they point
to; the map of the store is a list of entries with pairwise distinct keys.  The mutex
of the store has no effect on a single caller and is left out. -/

/-- Go `Merchant`. -/
structure Merchant where
  ID : String
  Name : String
  Category : String
  Country : String
  Status : String
  deriving DecidableEq

/-- Go `ValidateMerchant` (merchant.go 98-122); `none` is the nil error, `some msg` the
error made by `errors.New(msg)`. -/
def ValidateMerchant (m : Merchant) : Option String :=
  if m.ID = "" then some "id is required"
  else if m.Name = "" then some "name is required"
  else if m.Category = "" then some "category is required"
  else if m.Country = "" then some "country is required"
  else if m.Status = "" then some "status is required"
  else if m.Status ≠ "active" ∧ m.Status ≠ "inactive" then
    some "status must be 'active' or 'inactive'"
  else none

/-- Go `MerchantStore`: the map `merchants`, keyed by merchant ID. -/
structure MerchantStore where
  merchants : AList (fun _ : String => Merchant)

/-- The sample merchant stored under "MERCH-001". -/
def merch001 : Merchant :=
  { ID := "MERCH-001", Name := "Tech Solutions Inc", Category := "Technology", Country := "USA",
    Status := "active" }

/-- The sample merchant stored under "MERCH-002". -/
def merch002 : Merchant :=
  { ID := "MERCH-002", Name := "Global Retail Co", Category := "Retail", Country := "UK",
    Status := "active" }

/-- The sample merchant stored under "MERCH-003". -/
def merch003 : Merchant :=
  { ID := "MERCH-003", Name := "Food Services Ltd", Category := "Food & Beverage",
    Country := "Canada", Status := "inactive" }

/-- Go `NewMerchantStore` (merchant.go 24-54): an empty map, then the three sample
merchants assigned under their IDs. -/
def NewMerchantStore : MerchantStore :=
  { merchants := (((∅ : AList (fun _ : String => Merchant)).insert "MERCH-001" merch001).insert
      "MERCH-002" merch002).insert "MERCH-003" merch003 }

/-- Go `MerchantStore.GetAll` (merchant.go 56-67): the stored merchants.  Go leaves the
order of a map iteration open; here it is the order of the entries. -/
def MerchantStore.GetAll (s : MerchantStore) : List Merchant :=
  s.merchants.entries.map fun e => e.2

/-- Go `MerchantStore.GetByID` (merchant.go 69-80). -/
def MerchantStore.GetByID (s : MerchantStore) (id : String) : Except String Merchant :=
  match s.merchants.lookup id with
  | some merchant => Except.ok merchant
  | none => Except.error "merchant not found"

/-- Go `MerchantStore.Create` (merchant.go 82-96): the store afterwards and the error
returned (`none` is nil). -/
def MerchantStore.Create (s : MerchantStore) (merchant : Merchant) :
    MerchantStore × Option String :=
  match s.merchants.lookup merchant.ID with
  | some _ => (s, some "merchant with this ID already exists")
  | none => ({ merchants := s.merchants.insert merchant.ID merchant }, none)

/-- Go `initSampleMerchants` (lab06 helpers.go 6-28): three `Create` calls whose errors
are dropped. -/
def initSampleMerchants (store : MerchantStore) : MerchantStore :=
  (((store.Create merch001).1.Create merch002).1.Create merch003).1

/-- A sequence of `Create` calls, one after the other, their errors dropped. -/
def MerchantStore.CreateAll (s : MerchantStore) (ms : List Merchant) : MerchantStore :=
  ms.foldl (fun st m => (st.Create m).1) s

/-- A merchant that is not among the samples. -/
def merchTest : Merchant :=
  { ID := "MERCH-TEST-001", Name := "Test Merchant", Category := "Retail", Country := "USA",
    Status := "active" }

/-! ## Orders (`lab08/solution/internal/domain/order.go`, `.../service/orderservice.go`)

`OrderStatus` is a string type in the program, so every string is a status.  The
`time.Time` fields are instants counted in nanoseconds.  The repository behind the
service is an interface of the program; it is a parameter here, over an arbitrary type of
repository states and an arbitrary type of repository errors. -/

/-- Go `OrderStatus` (`type OrderStatus string`). -/
abbrev OrderStatus := String

/-- Go `StatusPending`. -/
def StatusPending : OrderStatus := "pending"

/-- Go `StatusConfirmed`. -/
def StatusConfirmed : OrderStatus := "confirmed"

/-- Go `StatusShipped`. -/
def StatusShipped : OrderStatus := "shipped"

/-- Go `StatusDelivered`. -/
def StatusDelivered : OrderStatus := "delivered"

/-- Go `StatusCancelled`. -/
def StatusCancelled : OrderStatus := "cancelled"

/-- Go `LineItem`. -/
structure LineItem where
  ProductID : String
  ProductName : String
  Quantity : ℤ
  UnitPrice : F64
  deriving DecidableEq

/-- Go `Order`. -/
structure Order where
  ID : String
  CustomerID : String
  Items : List LineItem
  Status : OrderStatus
  TotalAmount : F64
  CreatedAt : ℤ
  UpdatedAt : ℤ
  deriving DecidableEq

/-- Go `Order.CanTransitionTo` (order.go 82-97): the `switch` on the current status,
its cases tried in order. -/
def Order.CanTransitionTo (o : Order) (newStatus : OrderStatus) : Bool :=
  if o.Status = StatusPending then
    decide (newStatus = StatusConfirmed) || decide (newStatus = StatusCancelled)
  else if o.Status = StatusConfirmed then
    decide (newStatus = StatusShipped) || decide (newStatus = StatusCancelled)
  else if o.Status = StatusShipped then
    decide (newStatus = StatusDelivered)
  else if o.Status = StatusDelivered ∨ o.Status = StatusCancelled then
    false
  else
    false

/-- The two methods of the `OrderRepository` interface that `UpdateOrderStatus` calls,
over repository states `ρ` and repository errors `ε`: each takes the state before the
call and gives the state after it with what the method returns. -/
structure OrderRepository (ρ ε : Type) where
  Get : ρ → String → ρ × Except ε Order
  UpdateStatus : ρ → String → OrderStatus → ρ × Option ε

/-- What `UpdateOrderStatus` returns when it fails: an error of the repository passed
on unchanged, or `ErrInvalidStatusTransition` wrapped with the two statuses
("cannot transition from %s to %s"). -/
inductive UpdateError (ε : Type) where
  | repo (e : ε) : UpdateError ε
  | invalidStatusTransition (current newStatus : OrderStatus) : UpdateError ε
  deriving DecidableEq

/-- Go `OrderService.UpdateOrderStatus` (orderservice.go 64-81): the repository state
afterwards and the error returned (`none` is nil). -/
def UpdateOrderStatus {ρ ε : Type} (repo : OrderRepository ρ ε) (st : ρ) (id : String)
    (newStatus : OrderStatus) : ρ × Option (UpdateError ε) :=
  match repo.Get st id with
  | (st1, Except.error err) => (st1, some (UpdateError.repo err))
  | (st1, Except.ok order) =>
    if !order.CanTransitionTo newStatus then
      (st1, some (UpdateError.invalidStatusTransition order.Status newStatus))
    else
      match repo.UpdateStatus st1 id newStatus with
      | (st2, some err) => (st2, some (UpdateError.repo err))
      | (st2, none) => (st2, none)

/-- A repository kept in memory, for the sample runs: the orders by ID; `Get` looks the
order up, `UpdateStatus` sets the status of the stored order; both fail with `()` on an
unknown ID. -/
def memoryRepository : OrderRepository (List Order) Unit :=
  { Get := fun st id =>
      match st.find? fun o => decide (o.ID = id) with
      | some o => (st, Except.ok o)
      | none => (st, Except.error ())
    UpdateStatus := fun st id status =>
      match st.find? fun o => decide (o.ID = id) with
      | some _ => (st.map fun o => if o.ID = id then { o with Status := status } else o, none)
      | none => (st, some ()) }

/-- A sample order that has been cancelled. -/
def orderCancelled : Order :=
  { ID := "ORD-1", CustomerID := "CUST-1",
    Items := [{ ProductID := "P-1", ProductName := "Widget", Quantity := 2, UnitPrice := F64.fin 5 }],
    Status := StatusCancelled, TotalAmount := F64.fin 10, CreatedAt := 0, UpdatedAt := 0 }

/-- A sample order that is pending. -/
def orderPending : Order := { orderCancelled with ID := "ORD-2", Status := StatusPending }

/-! ## The workload generator -/

/-- Go `a * b` on float64. -/
def F64.mul : F64 → F64 → F64
  | F64.fin a, F64.fin b => F64.roundF64 (a * b)
  | F64.fin a, F64.inf n => if a = 0 then F64.nan else F64.inf (xor (decide (a < 0)) n)
  | F64.inf n, F64.fin b => if b = 0 then F64.nan else F64.inf (xor n (decide (b < 0)))
  | F64.inf a, F64.inf b => F64.inf (xor a b)
  | _, _ => F64.nan

/-- The rational `q` is a binary64 value: rounding leaves it as it is. -/
def F64.IsF64 (q : ℚ) : Prop := F64.roundF64 q = F64.fin q

/-- The outcomes of `rand.Float64()` are float64 values: the model of the random source
takes them from the rationals in `[0,1)`, and this says every one is a binary64 value. -/
def Rand.FloatsAreF64 (r : Rand) : Prop := ∀ k, F64.IsF64 (r.floats k).1

/-- The slice `currencies` of `GenerateTestData`. -/
def currencies : List String := ["USD", "EUR", "GBP", "JPY", "CAD"]

/-- The slice `invalidCurrencies` of `GenerateTestData`. -/
def invalidCurrencies : List String := ["XYZ", "ABC"]

/-- Go `fmt.Sprintf("%04d", n)` for `n >= 0`: the decimal digits, padded on the left with
zeros to four characters. -/
def pad04 (n : ℕ) : String :=
  String.mk (List.replicate (4 - (toString n).length) '0') ++ toString n

/-- The body of the loop of `GenerateTestData` for index `i` (main.go 35-54): the
transaction stored at `transactions[i]` and the random source afterwards.  The draws are
made in the order of the program: `Float64`, `Intn(5)`, `Intn(2)` when `i%25 == 0`,
`Intn(100)`, `Intn(10000)`.  An index drawn by `Intn(len(s))` is within the slice `s`. -/
def genTransaction (i : ℕ) (r : Rand) : Transaction × Rand :=
  let (f, r1) := r.Float64
  let amount := F64.mul f (F64.fin 10000)
  let (c, r2) := r1.Intn currencies.length
  let currency := currencies.getD c ""
  let amount := if i % 20 = 0 then F64.fin (-100) else amount
  let (currency, r3) :=
    if i % 25 = 0 then
      (invalidCurrencies.getD (r2.Intn invalidCurrencies.length).1 "",
        (r2.Intn invalidCurrencies.length).2)
    else (currency, r2)
  let (m, r4) := r3.Intn 100
  let (k, r5) := r4.Intn 10000
  ({ ID := (i : ℤ) + 1, Amount := amount, Currency := currency,
     MerchantID := "MERCHANT_" ++ toString m, CardNumber := "****" ++ pad04 k }, r5)

/-- The loop `for i := 0; i < count; i++` of `GenerateTestData` after `n` iterations: the
transactions stored so far, in index order, and the random source. -/
def genLoop : ℕ → Rand → List Transaction × Rand
  | 0, r => ([], r)
  | n + 1, r =>
    let (txs, r1) := genLoop n r
    let (tx, r2) := genTransaction n r1
    (txs ++ [tx], r2)

/-- Go `GenerateTestData` (main.go 28-57): `none` is the panic of
`make([]Transaction, count)` for a negative `count`. -/
def GenerateTestData (count : ℤ) (r : Rand) : Option (List Transaction × Rand) :=
  if count < 0 then none else some (genLoop count.toNat r)

/-- Whether `ValidateTransaction` rejects the transaction. -/
def invalidTx (tx : Transaction) : Bool := (ValidateTransaction tx).isSome

/-- The number of indices in `[0, n)` divisible by 20 or by 25. -/
def invalidIndices (n : ℕ) : ℕ :=
  (List.range n).countP fun i => decide (i % 20 = 0 ∨ i % 25 = 0)

/-- A random source whose every `Float64` draw is 0 and every `Intn` draw is 0. -/
def rand00 : Rand := Rand.const 0 ⟨0, le_refl 0, by norm_num⟩

/-- A schedule of the select machine for a batch of one invalid transaction and one
worker: set-up, the feeder queues the job and closes the queue, the worker takes it and
sends the error result, the collector takes the result, the worker sends its progress
update and leaves, the closer closes both channels and the collector sees the result
channel closed. -/
def selSchedule1 : List SelAct :=
  [SelAct.main, SelAct.main, SelAct.main, SelAct.main, SelAct.feeder, SelAct.feeder,
   SelAct.worker 0, SelAct.worker 0, SelAct.recvResult, SelAct.worker 0, SelAct.worker 0,
   SelAct.closer, SelAct.closer, SelAct.closer, SelAct.recvResult]

/-- A schedule of the context machine for a batch of one invalid transaction and one
worker, never cancelled. -/
def ctxSchedule1 : List CtxAct :=
  [CtxAct.main, CtxAct.main, CtxAct.main, CtxAct.main, CtxAct.feeder, CtxAct.feeder,
   CtxAct.worker 0, CtxAct.worker 0, CtxAct.worker 0, CtxAct.recvResult, CtxAct.worker 0,
   CtxAct.closer, CtxAct.closer, CtxAct.recvResult]

/-! ### The context strategy under a context that is done from the start -/

/-- A worker that has nothing to emit: at its outer `select`, at the check of the
context that follows the receipt of a job, or returned. -/
def CtxWorker.silent : CtxWorker → Prop
  | CtxWorker.idle => True
  | CtxWorker.check _ => True
  | CtxWorker.exited => True
  | _ => False

/-- The context is done, no worker has validated or scored a transaction or has a result
to emit, no result is queued and none has been collected. -/
def CtxState.Quiet (s : CtxState) : Prop :=
  s.ctxDone = true ∧ (∀ w ∈ s.workers, CtxWorker.silent w) ∧ s.res.buf = [] ∧ s.results = [] ∧
    s.success = 0 ∧ s.errors = 0

/-- A schedule of the context machine for one worker and a context that is already done,
in which the worker does take a job: set-up, the feeder queues the first job, the worker
receives it, finds the context done at its check and returns, the closer closes the result
channel, the collector takes its `ctx.Done()` case and finds the channel closed. -/
def ctxScheduleDoneTake : List CtxAct :=
  [CtxAct.main, CtxAct.main, CtxAct.main, CtxAct.main, CtxAct.feeder, CtxAct.worker 0,
   CtxAct.worker 0, CtxAct.closer, CtxAct.closer, CtxAct.mainCancel, CtxAct.main]

/-! ### The concurrent strategies without workers -/

/-- No worker of the pool has been started and no result has been produced. -/
def PoolState.NoWork (s : PoolState) : Prop :=
  s.workers = [] ∧ s.res.buf = [] ∧ s.results = [] ∧ s.success = 0 ∧ s.errors = 0

/-- No worker of the select strategy has been started and no result has been produced. -/
def SelState.NoWork (s : SelState) : Prop :=
  s.workers = [] ∧ s.res.buf = [] ∧ s.results = [] ∧ s.success = 0 ∧ s.errors = 0

/-- No worker of the context strategy has been started and no result has been produced. -/
def CtxState.NoWork (s : CtxState) : Prop :=
  s.workers = [] ∧ s.res.buf = [] ∧ s.results = [] ∧ s.success = 0 ∧ s.errors = 0

/-- The fan-out/fan-in strategy has no lane, no result has been produced, and on a
non-empty batch the goroutine of `FanOut` is not past its first send. -/
def FanState.NoWork (transactions : List Transaction) (s : FanState) : Prop :=
  s.lanes = [] ∧ s.results = [] ∧ s.success = 0 ∧ s.errors = 0 ∧
    (transactions ≠ [] → s.dist = Distributor.notStarted ∨ s.dist = Distributor.send 0)

/-- A schedule of the pool machine with no worker on a batch of one transaction: the
worker loop is skipped, the job is queued and the queue closed, the closer finds the
WaitGroup counter at zero and closes the result channel, and the collector sees it closed. -/
def poolScheduleNoWorkers : List PoolAct :=
  [PoolAct.main, PoolAct.main, PoolAct.main, PoolAct.main, PoolAct.closer, PoolAct.closer,
   PoolAct.main]

/-- A schedule of the fan-out/fan-in machine with no worker: the call of `FanOut`, then
the first send of its goroutine. -/
def fanScheduleNoWorkers : List FanAct := [FanAct.main, FanAct.dist]

/-! ## Properties of float64 rounding, the validator and the scorer -/

theorem F64.roundF64_of_nonneg (q : ℚ) (h : 0 ≤ q) :
    F64.roundF64 q = F64.inf false ∨ ∃ r : ℚ, 0 ≤ r ∧ F64.roundF64 q = F64.fin r := by
  unfold F64.roundF64
  have hq : ¬ q < 0 := not_lt.mpr h
  by_cases ha : |q| = 0
  · right
    exact ⟨0, le_refl _, by simp [ha]⟩
  · simp only [ha, if_false, hq, decide_False]
    split
    · left; rfl
    · right
      refine ⟨_, ?_, rfl⟩
      positivity

theorem fraudScore_bounds (tx : Transaction) (q : ℚ) (h0 : 0 ≤ q) (h1 : q < 1) :
    ∃ r : ℚ, fraudScore tx (F64.fin q) = F64.fin r ∧ 0 ≤ r ∧ r ≤ 1 := by
  unfold fraudScore
  by_cases hb : F64.gt tx.Amount (F64.fin 5000) = true
  · simp only [hb, if_true]
    rcases F64.roundF64_of_nonneg (3 / 10) (by norm_num) with hc | ⟨c, hc0, hc⟩
    · rw [hc]
      exact ⟨1, by simp [F64.add, F64.gt, F64.lt], by norm_num, le_refl _⟩
    · rw [hc]
      rcases F64.roundF64_of_nonneg (q + c) (by positivity) with hs | ⟨s, hs0, hs⟩
      · exact ⟨1, by simp [F64.add, hs, F64.gt, F64.lt], by norm_num, le_refl _⟩
      · by_cases h1s : 1 < s
        · exact ⟨1, by simp [F64.add, hs, F64.gt, F64.lt, h1s], by norm_num, le_refl _⟩
        · exact ⟨s, by simp [F64.add, hs, F64.gt, F64.lt, h1s], hs0, not_lt.mp h1s⟩
  · have h1q : ¬ 1 < q := not_lt.mpr h1.le
    have hb' : F64.gt tx.Amount (F64.fin 5000) = false := by simpa using hb
    refine ⟨q, ?_, h0, h1.le⟩
    simp only [hb']
    simp [F64.gt, F64.lt, h1q]

theorem CalculateFraudScore_score (tx : Transaction) (r : Rand) :
    (CalculateFraudScore tx r).score = fraudScore tx (r.Intn 51).2.Float64.1 := rfl

theorem CalculateFraudScore_bounds (tx : Transaction) (r : Rand) :
    ∃ s : ℚ, (CalculateFraudScore tx r).score = F64.fin s ∧ 0 ≤ s ∧ s ≤ 1 := by
  rw [CalculateFraudScore_score]
  exact fraudScore_bounds tx _ ((r.Intn 51).2.floats _).2.1 ((r.Intn 51).2.floats _).2.2

theorem ValidateTransaction_eq_none (tx : Transaction) :
    ValidateTransaction tx = none ↔
      (F64.lt tx.Amount (F64.fin 0) = false ∧ tx.Currency ∈ validCurrencies) := by
  unfold ValidateTransaction
  by_cases h1 : F64.lt tx.Amount (F64.fin 0) = true
  · simp [h1]
  · by_cases h2 : tx.Currency ∈ validCurrencies
    · simp [h1, h2]
    · simp [h1, h2]

theorem F64.not_lt_zero_iff (a : F64) :
    F64.lt a (F64.fin 0) = false ↔ (F64.ge a (F64.fin 0) = true ∨ a = F64.nan) := by
  cases a with
  | nan => simp [F64.lt, F64.ge, F64.le]
  | inf n => cases n <;> simp [F64.lt, F64.ge, F64.le]
  | fin q => simp [F64.lt, F64.ge, F64.le]

/-! ### C1 -/

/-- C1 (as stated, refuted): a transaction whose amount is NaN and whose currency is
USD is accepted by `ValidateTransaction` although `Amount >= 0` is false for it. -/
theorem C1_counterexample :
    ValidateTransaction txNaN = none ∧ F64.ge txNaN.Amount (F64.fin 0) = false ∧
      ¬ (ValidateTransaction txNaN = none ↔
          (F64.ge txNaN.Amount (F64.fin 0) = true ∧ txNaN.Currency ∈ validCurrencies)) := by
  decide

/-- C1 (amended): `ValidateTransaction tx` returns no error if and only if `tx.Amount`
is not less than 0 (that is, `Amount >= 0` or `Amount` is NaN) and `tx.Currency` is one of
USD, EUR, GBP, JPY, CAD; amount -1 is rejected, currency "XYZ" is rejected, amount 100
with currency "USD" is accepted. -/
theorem C1_validate_iff (tx : Transaction) :
    (ValidateTransaction tx = none ↔
      ((F64.ge tx.Amount (F64.fin 0) = true ∨ tx.Amount = F64.nan) ∧
        (tx.Currency = "USD" ∨ tx.Currency = "EUR" ∨ tx.Currency = "GBP" ∨
          tx.Currency = "JPY" ∨ tx.Currency = "CAD"))) ∧
    ValidateTransaction { tx with Amount := F64.fin (-1) } ≠ none ∧
    ValidateTransaction { tx with Currency := "XYZ" } ≠ none ∧
    ValidateTransaction { tx with Amount := F64.fin 100, Currency := "USD" } = none := by
  refine ⟨?_, ?_, ?_, ?_⟩
  · rw [ValidateTransaction_eq_none, F64.not_lt_zero_iff]
    simp [validCurrencies]
  · simp [ValidateTransaction, F64.lt]
  · rw [Ne, ValidateTransaction_eq_none]
    simp [validCurrencies]
  · rw [ValidateTransaction_eq_none]
    simp [validCurrencies, F64.lt]

/-! ### C2 -/

/-- C2: for every transaction and every state of the random source, the score returned
by `CalculateFraudScore` is a finite float64 in the closed interval [0,1]. -/
theorem C2_score_in_unit_interval (tx : Transaction) (r : Rand) :
    F64.le (F64.fin 0) (CalculateFraudScore tx r).score = true ∧
      F64.le (CalculateFraudScore tx r).score (F64.fin 1) = true := by
  obtain ⟨s, hs, h0, h1⟩ := CalculateFraudScore_bounds tx r
  rw [hs]
  simp [F64.le, h0, h1]

/-! ### C3 -/

theorem fraudScore_eq (tx : Transaction) (q : ℚ) (h1 : q < 1) :
    fraudScore tx (F64.fin q) =
      if F64.gt tx.Amount (F64.fin 5000) = true then
        F64.min (F64.fin 1) (F64.add (F64.fin q) (F64.roundF64 (3 / 10)))
      else F64.fin q := by
  have hb1 : ¬ (1 : ℚ) < q := not_lt.mpr h1.le
  unfold fraudScore F64.min
  by_cases hb : F64.gt tx.Amount (F64.fin 5000) = true
  · simp only [hb, if_true]
    rfl
  · have hb' : F64.gt tx.Amount (F64.fin 5000) = false := by simpa using hb
    simp only [hb']
    simp [F64.gt, F64.lt, hb1]

theorem F64.gt_false_of_le (a b : F64) (h : F64.le a b = true) : F64.gt a b = false := by
  cases a with
  | nan => simp [F64.le] at h
  | inf n =>
    cases b with
    | nan => simp [F64.le] at h
    | inf m => cases n <;> cases m <;> simp_all [F64.le, F64.gt, F64.lt]
    | fin q => cases n <;> simp_all [F64.le, F64.gt, F64.lt]
  | fin p =>
    cases b with
    | nan => simp [F64.le] at h
    | inf m => cases m <;> simp_all [F64.le, F64.gt, F64.lt]
    | fin q => simp_all [F64.le, F64.gt, F64.lt]

/-- C3: with `b` the baseline drawn by `rand.Float64()`, `CalculateFraudScore` returns
`min(1.0, b + 0.3)` (float64 addition) when `tx.Amount > 5000` and returns `b` unchanged
when `tx.Amount <= 5000`, in particular at exactly 5000 (and whenever `Amount > 5000`
is false); the result is always a float64 number, the scorer has no failure outcome. -/
theorem C3_score_formula (tx : Transaction) (r : Rand) :
    (F64.gt tx.Amount (F64.fin 5000) = true →
        (CalculateFraudScore tx r).score =
          F64.min (F64.fin 1) (F64.add (r.Intn 51).2.Float64.1 (F64.roundF64 (3 / 10)))) ∧
      (F64.le tx.Amount (F64.fin 5000) = true →
        (CalculateFraudScore tx r).score = (r.Intn 51).2.Float64.1) ∧
      (tx.Amount = F64.fin 5000 →
        (CalculateFraudScore tx r).score = (r.Intn 51).2.Float64.1) ∧
      (F64.gt tx.Amount (F64.fin 5000) = false →
        (CalculateFraudScore tx r).score = (r.Intn 51).2.Float64.1) ∧
      (CalculateFraudScore tx r).score ≠ F64.nan := by
  have key := fraudScore_eq tx ((r.Intn 51).2.floats (r.Intn 51).2.pos).1
    ((r.Intn 51).2.floats _).2.2
  have hsc : (CalculateFraudScore tx r).score =
      fraudScore tx (F64.fin ((r.Intn 51).2.floats (r.Intn 51).2.pos).1) := rfl
  have hb : (r.Intn 51).2.Float64.1 = F64.fin ((r.Intn 51).2.floats (r.Intn 51).2.pos).1 := rfl
  rw [hsc, hb, key]
  refine ⟨?_, ?_, ?_, ?_, ?_⟩
  · intro h
    rw [if_pos h]
  · intro h
    rw [if_neg (by simp [F64.gt_false_of_le _ _ h])]
  · intro h
    rw [if_neg (by simp [h, F64.gt, F64.lt])]
  · intro h
    rw [if_neg (by simp [h])]
  · rw [← key, ← hsc]
    obtain ⟨s, hs, _, _⟩ := CalculateFraudScore_bounds tx r
    rw [hs]
    simp

/-- C3 witness: amount 6000 with baseline 1/2 is boosted, amount 100 is not. -/
theorem C3_score_formula_witness :
    (F64.gt (F64.fin 6000) (F64.fin 5000) = true ∧
      (CalculateFraudScore { txUSD100 with Amount := F64.fin 6000 } (Rand.const 0 half)).score =
        F64.min (F64.fin 1) (F64.add (F64.fin (1 / 2)) (F64.roundF64 (3 / 10)))) ∧
    (F64.le (F64.fin 100) (F64.fin 5000) = true ∧
      (CalculateFraudScore txUSD100 (Rand.const 0 half)).score = F64.fin (1 / 2)) :=
  ⟨⟨by decide, (C3_score_formula { txUSD100 with Amount := F64.fin 6000 } (Rand.const 0 half)).1
      (by decide)⟩,
    ⟨by decide, (C3_score_formula txUSD100 (Rand.const 0 half)).2.1 (by decide)⟩⟩

/-! ### C4 -/

/-- C4 (as stated, refuted): when `rand.Intn(51)` yields 50 the scorer sleeps 100 ms,
which is not below 100. -/
theorem C4_counterexample :
    (CalculateFraudScore txUSD100 (Rand.const 50 half)).delay = 100 ∧
      ¬ ((CalculateFraudScore txUSD100 (Rand.const 50 half)).delay < 100) := by
  decide

/-- C4 (amended): for every state of the random source the delay `d` in milliseconds
that `CalculateFraudScore` sleeps lies in the closed interval [50ms, 100ms]. -/
theorem C4_delay_bounds (tx : Transaction) (r : Rand) :
    50 ≤ (CalculateFraudScore tx r).delay ∧ (CalculateFraudScore tx r).delay ≤ 100 := by
  have h : (CalculateFraudScore tx r).delay = 50 + r.ints r.pos % 51 := rfl
  have h51 : r.ints r.pos % 51 < 51 := Nat.mod_lt _ (by norm_num)
  omega

/-! ## Sequential strategy -/

theorem seqBody_results_map (sc : Scorer) (st : Outcome) (tx : Transaction) :
    (seqBody sc st tx).results.map ProcessingResult.Transaction =
      st.results.map ProcessingResult.Transaction ++ [tx] := by
  unfold seqBody
  cases ValidateTransaction tx <;> simp [errResult, okResult]

theorem seq_foldl_results_map (sc : Scorer) (txs : List Transaction) (st : Outcome) :
    (txs.foldl (seqBody sc) st).results.map ProcessingResult.Transaction =
      st.results.map ProcessingResult.Transaction ++ txs := by
  induction txs generalizing st with
  | nil => simp
  | cons tx txs ih => rw [List.foldl_cons, ih, seqBody_results_map]; simp

theorem seq_foldl_counts (sc : Scorer) (txs : List Transaction) (st : Outcome) :
    (txs.foldl (seqBody sc) st).success =
        st.success + txs.countP (fun tx => (ValidateTransaction tx).isNone) ∧
      (txs.foldl (seqBody sc) st).errors =
        st.errors + txs.countP (fun tx => (ValidateTransaction tx).isSome) := by
  induction txs generalizing st with
  | nil => simp
  | cons tx txs ih =>
    rw [List.foldl_cons]
    obtain ⟨h1, h2⟩ := ih (seqBody sc st tx)
    rw [h1, h2]
    unfold seqBody
    cases hv : ValidateTransaction tx <;> simp [List.countP_cons, hv] <;> omega

theorem seq_results_map (sc : Scorer) (txs : List Transaction) (r : Rand) :
    (ProcessTransactionsSequentialWith sc txs r).results.map ProcessingResult.Transaction = txs := by
  unfold ProcessTransactionsSequentialWith
  rw [seq_foldl_results_map]
  simp

theorem countP_isNone_add_isSome (txs : List Transaction) :
    txs.countP (fun tx => (ValidateTransaction tx).isNone) +
      txs.countP (fun tx => (ValidateTransaction tx).isSome) = txs.length := by
  induction txs with
  | nil => simp
  | cons tx txs ih =>
    cases hv : ValidateTransaction tx <;> simp [List.countP_cons, hv] <;> omega

/-! ### C5 -/

/-- C5: for every transaction list `txs` (and every state of the random source),
`ProcessTransactionsSequential` returns a result collection of the same length in
which the `i`-th result's `Transaction` is `txs[i]` for every index `i`. -/
theorem C5_sequential_preserves_order (txs : List Transaction) (r : Rand) :
    (ProcessTransactionsSequential txs r).results.length = txs.length ∧
      ∀ i : ℕ, ((ProcessTransactionsSequential txs r).results[i]?).map
        ProcessingResult.Transaction = txs[i]? := by
  have h := seq_results_map CalculateFraudScore txs r
  have hlen : (ProcessTransactionsSequential txs r).results.length = txs.length := by
    have := congrArg List.length h
    simpa [ProcessTransactionsSequential] using this
  refine ⟨hlen, fun i => ?_⟩
  have hi := congrArg (fun l => l[i]?) h
  simpa [ProcessTransactionsSequential, List.getElem?_map] using hi

/-! ### C6 -/

/-- C6: for every transaction list of length `N`, `ProcessTransactionsSequential`
returns `success + errors = N`, where `errors` is the number of input transactions
that fail `ValidateTransaction` and `success` the number that pass; every
transaction, also one after a validation failure, gets its result (`N` results). -/
theorem C6_sequential_counts (txs : List Transaction) (r : Rand) :
    (ProcessTransactionsSequential txs r).success + (ProcessTransactionsSequential txs r).errors
        = txs.length ∧
      (ProcessTransactionsSequential txs r).errors =
        txs.countP (fun tx => (ValidateTransaction tx).isSome) ∧
      (ProcessTransactionsSequential txs r).success =
        txs.countP (fun tx => (ValidateTransaction tx).isNone) ∧
      (ProcessTransactionsSequential txs r).results.length = txs.length := by
  obtain ⟨h1, h2⟩ := seq_foldl_counts CalculateFraudScore txs
    { success := 0, errors := 0, results := [], rand := r }
  have h1' : (ProcessTransactionsSequential txs r).success =
      txs.countP (fun tx => (ValidateTransaction tx).isNone) := by
    simpa [ProcessTransactionsSequential, ProcessTransactionsSequentialWith] using h1
  have h2' : (ProcessTransactionsSequential txs r).errors =
      txs.countP (fun tx => (ValidateTransaction tx).isSome) := by
    simpa [ProcessTransactionsSequential, ProcessTransactionsSequentialWith] using h2
  have hlen : (ProcessTransactionsSequential txs r).results.length = txs.length := by
    have := congrArg List.length (seq_results_map CalculateFraudScore txs r)
    simpa [ProcessTransactionsSequential] using this
  refine ⟨?_, h2', h1', hlen⟩
  rw [h1', h2']
  exact countP_isNone_add_isSome txs

/-! ## Machines: reachability -/

theorem Machine.run_append {σ α : Type} (m : Machine σ α) (s : σ) (as bs : List α) :
    m.run s (as ++ bs) = (m.run s as).bind fun s' => m.run s' bs := by
  induction as generalizing s with
  | nil => simp [Machine.run]
  | cons a as ih =>
    simp only [List.cons_append, Machine.run]
    cases m.step s a with
    | none => simp
    | some s1 => simp [ih]

theorem Machine.Reachable.init {σ α : Type} (m : Machine σ α) : m.Reachable m.init :=
  ⟨[], rfl⟩

theorem Machine.Reachable.step {σ α : Type} {m : Machine σ α} {s s' : σ} {a : α}
    (hs : m.Reachable s) (h : m.step s a = some s') : m.Reachable s' := by
  obtain ⟨sched, hsched⟩ := hs
  refine ⟨sched ++ [a], ?_⟩
  unfold Machine.exec at *
  rw [Machine.run_append, hsched]
  simp [Machine.run, h]

/-- Induction over reachable states: a property of the initial state that every step
preserves holds in every reachable state. -/
theorem Machine.Reachable.induct {σ α : Type} {m : Machine σ α} (P : σ → Prop)
    (h0 : P m.init) (hstep : ∀ s a s', P s → m.step s a = some s' → P s') :
    ∀ s, m.Reachable s → P s := by
  have key : ∀ (sched : List α) (s0 s : σ), P s0 → m.run s0 sched = some s → P s := by
    intro sched
    induction sched with
    | nil =>
      intro s0 s hs0 h
      simp only [Machine.run, Option.some.injEq] at h
      exact h ▸ hs0
    | cons a rest ih =>
      intro s0 s hs0 h
      simp only [Machine.run] at h
      cases hst : m.step s0 a with
      | none => simp [hst] at h
      | some s1 =>
        rw [hst] at h
        exact ih s1 s (hstep s0 a s1 hs0 hst) h
  intro s ⟨sched, hs⟩
  exact key sched m.init s h0 hs

/-- A measure that every step from a state satisfying the invariant decreases bounds
the length of every schedule. -/
theorem Machine.run_length_le {σ α : Type} (m : Machine σ α) (I : σ → Prop) (μ : σ → ℕ)
    (hstep : ∀ s a s', I s → m.step s a = some s' → I s')
    (hdec : ∀ s a s', I s → m.step s a = some s' → μ s' < μ s) :
    ∀ (sched : List α) (s s' : σ), I s → m.run s sched = some s' → sched.length + μ s' ≤ μ s := by
  intro sched
  induction sched with
  | nil =>
    intro s s' _ h
    simp only [Machine.run, Option.some.injEq] at h
    simp [h]
  | cons a rest ih =>
    intro s s' hI h
    simp only [Machine.run] at h
    cases hst : m.step s a with
    | none => simp [hst] at h
    | some s1 =>
      rw [hst] at h
      have h1 := ih s1 s' (hstep s a s1 hI hst) h
      have h2 := hdec s a s1 hI hst
      simp only [List.length_cons]
      omega

/-! ## Channel operations -/

theorem Chan.send_eq_ok {α : Type} (c c' : Chan α) (v : α) (h : c.send v = SendResult.ok c') :
    c.closed = false ∧ c.buf.length < c.cap ∧ c' = { c with buf := c.buf ++ [v] } := by
  unfold Chan.send at h
  by_cases hc : c.closed = true
  · simp [hc] at h
  · by_cases hr : c.buf.length < c.cap
    · rw [if_neg hc, if_pos hr] at h
      exact ⟨by simpa using hc, hr, (SendResult.ok.inj h).symm⟩
    · simp [hc, hr] at h

theorem Chan.send_eq_panic {α : Type} (c : Chan α) (v : α) (h : c.send v = SendResult.panic) :
    c.closed = true := by
  unfold Chan.send at h
  by_cases hc : c.closed = true
  · exact hc
  · by_cases hr : c.buf.length < c.cap <;> simp [hc, hr] at h

theorem Chan.recv_eq_value {α : Type} (c c' : Chan α) (v : α) (h : c.recv = RecvResult.value v c') :
    ∃ rest, c.buf = v :: rest ∧ c' = { c with buf := rest } := by
  unfold Chan.recv at h
  cases hb : c.buf with
  | nil =>
    rw [hb] at h
    by_cases hc : c.closed = true <;> simp [hc] at h
  | cons x rest =>
    rw [hb] at h
    simp only [RecvResult.value.injEq] at h
    exact ⟨rest, by rw [h.1], h.2.symm⟩

theorem Chan.recv_eq_closed {α : Type} (c : Chan α) (h : c.recv = RecvResult.closed) :
    c.buf = [] ∧ c.closed = true := by
  unfold Chan.recv at h
  cases hb : c.buf with
  | nil =>
    rw [hb] at h
    by_cases hc : c.closed = true
    · exact ⟨rfl, hc⟩
    · simp [hc] at h
  | cons x rest =>
    rw [hb] at h
    simp at h

theorem Chan.close_eq_some {α : Type} (c c' : Chan α) (h : c.close = some c') :
    c.closed = false ∧ c' = { c with closed := true } := by
  unfold Chan.close at h
  by_cases hc : c.closed = true
  · simp [hc] at h
  · rw [if_neg hc] at h
    exact ⟨by simpa using hc, (Option.some.inj h).symm⟩

theorem Chan.close_eq_none {α : Type} (c : Chan α) (h : c.close = none) : c.closed = true := by
  unfold Chan.close at h
  by_cases hc : c.closed = true
  · exact hc
  · simp [hc] at h

theorem wgDone_eq_some (n m : ℕ) (h : wgDone n = some m) : n ≠ 0 ∧ m = n - 1 := by
  unfold wgDone at h
  by_cases hn : n = 0
  · simp [hn] at h
  · rw [if_neg hn] at h
    exact ⟨hn, (Option.some.inj h).symm⟩

theorem wgDone_eq_none (n : ℕ) (h : wgDone n = none) : n = 0 := by
  unfold wgDone at h
  by_cases hn : n = 0
  · exact hn
  · simp [hn] at h

/-! ## Pool machine: the step function is one of the listed operations -/

theorem poolMainStep_sound (sc : Scorer) (txs : List Transaction) (numWorkers : ℤ)
    (s s' : PoolState) (hp : s.panicked = false) (h : poolMainStep txs numWorkers s = some s') :
    PoolStep sc txs numWorkers s s' := by
  unfold poolMainStep at h
  split at h
  · rename_i w hm
    split at h
    · rename_i hw
      cases h
      exact PoolStep.spawn s w hp hm hw
    · rename_i hw
      cases h
      exact PoolStep.spawnEnd s w hp hm hw
  · rename_i i hm
    split at h
    · rename_i tx htx
      split at h
      · rename_i c hc
        obtain ⟨h1, h2, h3⟩ := Chan.send_eq_ok _ _ _ hc
        subst h3
        cases h
        exact PoolStep.feed s i tx hp hm htx h1 h2
      · simp at h
      · rename_i hc
        cases h
        exact PoolStep.feedPanic s i tx hp hm htx (Chan.send_eq_panic _ _ hc)
    · rename_i htx
      split at h
      · rename_i c hc
        obtain ⟨h1, h2⟩ := Chan.close_eq_some _ _ hc
        subst h2
        cases h
        exact PoolStep.closeJobs s i hp hm htx h1
      · rename_i hc
        cases h
        exact PoolStep.closeJobsPanic s i hp hm htx (Chan.close_eq_none _ hc)
  · rename_i hm
    cases h
    exact PoolStep.goCloser s hp hm
  · rename_i hm
    split at h
    · rename_i r c hc
      obtain ⟨rest, h1, h2⟩ := Chan.recv_eq_value _ _ _ hc
      subst h2
      cases h
      exact PoolStep.collect s r rest hp hm h1
    · rename_i hc
      obtain ⟨h1, h2⟩ := Chan.recv_eq_closed _ hc
      cases h
      exact PoolStep.ret s hp hm h1 h2
    · simp at h
  · simp at h

theorem poolWorkerStep_sound (sc : Scorer) (txs : List Transaction) (numWorkers : ℤ)
    (s s' : PoolState) (i : ℕ) (w : PoolWorker) (hp : s.panicked = false)
    (hw : s.workers[i]? = some w) (h : poolWorkerStep sc s i w = some s') :
    PoolStep sc txs numWorkers s s' := by
  unfold poolWorkerStep at h
  split at h
  · split at h
    · rename_i tx c hc
      obtain ⟨rest, h1, h2⟩ := Chan.recv_eq_value _ _ _ hc
      subst h2
      split at h
      · rename_i err hv
        cases h
        exact PoolStep.takeInvalid s i tx rest err hp hw h1 hv
      · rename_i hv
        split at h
        · rename_i sem hsem
          cases h
          exact PoolStep.takeValidSem s i tx rest sem hp hw h1 hv hsem
        · rename_i hsem
          cases h
          exact PoolStep.takeValid s i tx rest hp hw h1 hv hsem
    · rename_i hc
      obtain ⟨h1, h2⟩ := Chan.recv_eq_closed _ hc
      split at h
      · rename_i n hn
        obtain ⟨h3, h4⟩ := wgDone_eq_some _ _ hn
        subst h4
        cases h
        exact PoolStep.exit s i hp hw h1 h2 h3
      · rename_i hn
        cases h
        exact PoolStep.exitPanic s i hp hw h1 h2 (wgDone_eq_none _ hn)
    · simp at h
  · rename_i tx
    split at h
    · rename_i sem hsem
      split at h
      · rename_i c hc
        obtain ⟨h1, h2, h3⟩ := Chan.send_eq_ok _ _ _ hc
        subst h3
        cases h
        exact PoolStep.acquire s i tx sem hp hw hsem h1 h2
      · simp at h
      · rename_i hc
        cases h
        exact PoolStep.acquirePanic s i tx sem hp hw hsem (Chan.send_eq_panic _ _ hc)
    · simp at h
  · rename_i tx
    simp only at h
    split at h
    · rename_i sem hsem
      cases h
      exact PoolStep.scoreSem s i tx sem hp hw hsem
    · rename_i hsem
      cases h
      exact PoolStep.score s i tx hp hw hsem
  · rename_i tx fs
    split at h
    · rename_i sem hsem
      split at h
      · rename_i u c hc
        obtain ⟨rest, h1, h2⟩ := Chan.recv_eq_value _ _ _ hc
        subst h2
        cases h
        exact PoolStep.release s i tx fs sem u rest hp hw hsem h1
      · rename_i hc
        obtain ⟨h1, h2⟩ := Chan.recv_eq_closed _ hc
        cases h
        exact PoolStep.releaseClosed s i tx fs sem hp hw hsem h1 h2
      · simp at h
    · simp at h
  · rename_i r
    split at h
    · rename_i c hc
      obtain ⟨h1, h2, h3⟩ := Chan.send_eq_ok _ _ _ hc
      subst h3
      cases h
      exact PoolStep.emit s i r hp hw h1 h2
    · simp at h
    · rename_i hc
      cases h
      exact PoolStep.emitPanic s i r hp hw (Chan.send_eq_panic _ _ hc)
  · simp at h

theorem poolCloserStep_sound (sc : Scorer) (txs : List Transaction) (numWorkers : ℤ)
    (s s' : PoolState) (hp : s.panicked = false) (h : poolCloserStep s = some s') :
    PoolStep sc txs numWorkers s s' := by
  unfold poolCloserStep at h
  split at h
  · simp at h
  · rename_i hc
    split at h
    · rename_i hwg
      cases h
      exact PoolStep.waited s hp hc hwg
    · simp at h
  · rename_i hc
    split at h
    · rename_i c hcl
      obtain ⟨h1, h2⟩ := Chan.close_eq_some _ _ hcl
      subst h2
      cases h
      exact PoolStep.closeRes s hp hc h1
    · rename_i hcl
      cases h
      exact PoolStep.closeResPanic s hp hc (Chan.close_eq_none _ hcl)
  · simp at h

theorem poolStep_sound (sc : Scorer) (txs : List Transaction) (numWorkers : ℤ)
    (s s' : PoolState) (a : PoolAct) (h : poolStep sc txs numWorkers s a = some s') :
    PoolStep sc txs numWorkers s s' := by
  unfold poolStep at h
  by_cases hp : s.panicked = true
  · simp [hp] at h
  have hp' : s.panicked = false := by simpa using hp
  simp only [hp', Bool.false_eq_true, if_false] at h
  cases a with
  | main => exact poolMainStep_sound sc txs numWorkers s s' hp' h
  | worker i =>
    simp only at h
    split at h
    · rename_i w hw
      exact poolWorkerStep_sound sc txs numWorkers s s' i w hp' hw h
    · simp at h
  | closer => exact poolCloserStep_sound sc txs numWorkers s s' hp' h

/-- If an invariant guarantees progress outside the final states and a measure decreases
with every step, then from every state satisfying the invariant some schedule reaches a
final state. -/
theorem Machine.exists_run_to_final {σ α : Type} (m : Machine σ α) (final : σ → Prop)
    (I : σ → Prop) (μ : σ → ℕ)
    (hstep : ∀ s a s', I s → m.step s a = some s' → I s')
    (hprog : ∀ s, I s → ¬ final s → m.CanStep s)
    (hdec : ∀ s a s', I s → m.step s a = some s' → μ s' < μ s) :
    ∀ s, I s → ∃ sched s', m.run s sched = some s' ∧ final s' := by
  have key : ∀ n s, μ s ≤ n → I s → ∃ sched s', m.run s sched = some s' ∧ final s' := by
    intro n
    induction n with
    | zero =>
      intro s hμ hI
      by_cases hf : final s
      · exact ⟨[], s, rfl, hf⟩
      · obtain ⟨a, s1, h1⟩ := hprog s hI hf
        have := hdec s a s1 hI h1
        omega
    | succ n ih =>
      intro s hμ hI
      by_cases hf : final s
      · exact ⟨[], s, rfl, hf⟩
      · obtain ⟨a, s1, h1⟩ := hprog s hI hf
        have hlt := hdec s a s1 hI h1
        obtain ⟨sched, s', hrun, hfin⟩ := ih s1 (by omega) (hstep s a s1 hI h1)
        exact ⟨a :: sched, s', by simp [Machine.run, h1, hrun], hfin⟩
  intro s hI
  exact key (μ s) s (le_refl _) hI

/-- Assembling `RunsToCompletion` from an invariant, progress outside the final states,
a decreasing measure, and the property of final states. -/
theorem Machine.runsToCompletion_of {σ α : Type} (m : Machine σ α) (final : σ → Prop)
    (I : σ → Prop) (μ : σ → ℕ) (P : σ → Prop) (h0 : I m.init)
    (hstep : ∀ s a s', I s → m.step s a = some s' → I s')
    (hprog : ∀ s, I s → ¬ final s → m.CanStep s)
    (hdec : ∀ s a s', I s → m.step s a = some s' → μ s' < μ s)
    (hfinal : ∀ s, I s → final s → P s) :
    m.RunsToCompletion final (μ m.init) P := by
  have hreach : ∀ s, m.Reachable s → I s := Machine.Reachable.induct I h0 hstep
  refine ⟨fun s hs hf => hprog s (hreach s hs) hf, ?_, ?_, fun s hs hf => hfinal s (hreach s hs) hf⟩
  · intro sched s hs
    have := Machine.run_length_le m I μ hstep hdec sched m.init s h0 hs
    omega
  · obtain ⟨sched, s', hrun, hfin⟩ :=
      Machine.exists_run_to_final m final I μ hstep hprog hdec m.init h0
    exact ⟨sched, s', hrun, hfin⟩

/-! ## Pool machine: results are well formed and counted -/

theorem countsOK_nil : countsOK 0 0 [] := by simp [countsOK]

theorem countsOK_snoc (success errors : ℕ) (results : List ProcessingResult) (r : ProcessingResult)
    (h : countsOK success errors results) :
    countsOK (bumpSuccess success r) (bumpErrors errors r) (results ++ [r]) := by
  obtain ⟨h1, h2⟩ := h
  unfold countsOK bumpSuccess bumpErrors
  cases hv : r.Valid <;> simp [List.countP_append, List.countP_cons, hv, h1, h2]

theorem countsOK_sum (success errors : ℕ) (results : List ProcessingResult)
    (h : countsOK success errors results) : success + errors = results.length := by
  obtain ⟨h1, h2⟩ := h
  rw [h1, h2]
  clear h1 h2
  induction results with
  | nil => simp
  | cons r rs ih =>
    rw [List.countP_cons, List.countP_cons, List.length_cons]
    cases hv : r.Valid <;> simp <;> omega

theorem PoolStep.counts {sc : Scorer} {txs : List Transaction} {numWorkers : ℤ}
    {s s' : PoolState} (h : PoolStep sc txs numWorkers s s')
    (hc : countsOK s.success s.errors s.results) : countsOK s'.success s'.errors s'.results := by
  cases h
  case collect r rest hp hm hbuf => exact countsOK_snoc _ _ _ r hc
  all_goals exact hc

theorem resultOK_errResult (G : Transaction → F64 → Prop) (tx : Transaction) (err : ValidationError)
    (hv : ValidateTransaction tx = some err) : resultOK G (errResult tx err) :=
  Or.inl ⟨err, hv, rfl⟩

theorem resultOK_okResult (G : Transaction → F64 → Prop) (tx : Transaction) (fs : F64)
    (hv : ValidateTransaction tx = none) (hg : G tx fs) : resultOK G (okResult tx fs) :=
  Or.inr ⟨hv, rfl, hg⟩

theorem forall_mem_set {β : Type} (P : β → Prop) (l : List β) (i : ℕ) (b : β)
    (hl : ∀ x ∈ l, P x) (hb : P b) : ∀ x ∈ l.set i b, P x := by
  intro x hx
  rcases List.mem_or_eq_of_mem_set hx with h | h
  · exact hl x h
  · exact h ▸ hb

theorem mem_of_getElem?_eq_some {β : Type} {l : List β} {i : ℕ} {b : β} (h : l[i]? = some b) :
    b ∈ l := by
  rw [List.getElem?_eq_some] at h
  obtain ⟨hi, rfl⟩ := h
  exact List.getElem_mem _

theorem PoolStep.resultsOK {sc : Scorer} {txs : List Transaction} {numWorkers : ℤ}
    {G : Transaction → F64 → Prop}
    (hG : ∀ tx r, ValidateTransaction tx = none → G tx (sc tx r).score)
    {s s' : PoolState} (h : PoolStep sc txs numWorkers s s')
    (hi : s.ResultsOK G) : s'.ResultsOK G := by
  obtain ⟨h1, h2, h3⟩ := hi
  cases h
  case spawn w hp hm hw =>
    refine ⟨h1, h2, ?_⟩
    intro x hx
    rcases List.mem_append.mp hx with hx | hx
    · exact h3 x hx
    · simp only [List.mem_singleton] at hx
      subst hx
      trivial
  case collect r rest hp hm hbuf =>
    refine ⟨?_, ?_, h3⟩
    · intro x hx
      rcases List.mem_append.mp hx with hx | hx
      · exact h1 x hx
      · simp only [List.mem_singleton] at hx
        subst hx
        exact h2 x (by simp [hbuf])
    · intro x hx
      exact h2 x (by simp [hbuf, hx])
  case takeInvalid i tx rest err hp hw hbuf hv =>
    exact ⟨h1, h2, forall_mem_set _ _ _ _ h3 (resultOK_errResult G tx err hv)⟩
  case takeValidSem i tx rest sem hp hw hbuf hv hsem =>
    exact ⟨h1, h2, forall_mem_set _ _ _ _ h3 hv⟩
  case takeValid i tx rest hp hw hbuf hv hsem =>
    exact ⟨h1, h2, forall_mem_set _ _ _ _ h3 hv⟩
  case exit i hp hw hbuf hclosed hwg =>
    exact ⟨h1, h2, forall_mem_set _ _ _ _ h3 trivial⟩
  case acquire i tx sem hp hw hsem hopen hroom =>
    have hv : ValidateTransaction tx = none := h3 _ (mem_of_getElem?_eq_some hw)
    exact ⟨h1, h2, forall_mem_set _ _ _ _ h3 hv⟩
  case scoreSem i tx sem hp hw hsem =>
    have hv : ValidateTransaction tx = none := h3 _ (mem_of_getElem?_eq_some hw)
    exact ⟨h1, h2, forall_mem_set _ _ _ _ h3 ⟨hv, hG tx s.rand hv⟩⟩
  case score i tx hp hw hsem =>
    have hv : ValidateTransaction tx = none := h3 _ (mem_of_getElem?_eq_some hw)
    exact ⟨h1, h2, forall_mem_set _ _ _ _ h3 (resultOK_okResult G tx _ hv (hG tx s.rand hv))⟩
  case release i tx fs sem u rest hp hw hsem hbuf =>
    have hv : ValidateTransaction tx = none ∧ G tx fs := h3 _ (mem_of_getElem?_eq_some hw)
    exact ⟨h1, h2, forall_mem_set _ _ _ _ h3 (resultOK_okResult G tx _ hv.1 hv.2)⟩
  case releaseClosed i tx fs sem hp hw hsem hbuf hclosed =>
    have hv : ValidateTransaction tx = none ∧ G tx fs := h3 _ (mem_of_getElem?_eq_some hw)
    exact ⟨h1, h2, forall_mem_set _ _ _ _ h3 (resultOK_okResult G tx _ hv.1 hv.2)⟩
  case emit i r hp hw hopen hroom =>
    have hr : resultOK G r := h3 _ (mem_of_getElem?_eq_some hw)
    refine ⟨h1, ?_, forall_mem_set _ _ _ _ h3 trivial⟩
    intro x hx
    rcases List.mem_append.mp hx with hx | hx
    · exact h2 x hx
    · simp only [List.mem_singleton] at hx
      subst hx
      exact hr
  all_goals exact ⟨h1, h2, h3⟩

/-! ## Pool machine: conservation and structure -/

theorem sum_map_set {β M : Type} [AddCommMonoid M] (f : β → M) :
    ∀ (l : List β) (i : ℕ) (a b : β), l[i]? = some a →
      ((l.set i b).map f).sum + f a = (l.map f).sum + f b := by
  intro l
  induction l with
  | nil => intro i a b h; simp at h
  | cons x xs ih =>
    intro i a b h
    cases i with
    | zero =>
      simp only [List.getElem?_cons_zero, Option.some.injEq] at h
      subst h
      simp only [List.set_cons_zero, List.map_cons, List.sum_cons]
      rw [add_comm (f b), add_assoc, add_comm (f x), add_comm (f b)]
      rw [add_assoc]
    | succ n =>
      simp only [List.getElem?_cons_succ] at h
      simp only [List.set_cons_succ, List.map_cons, List.sum_cons]
      rw [add_assoc, ih n a b h, add_assoc]

theorem errResult_Transaction (tx : Transaction) (err : ValidationError) :
    (errResult tx err).Transaction = tx := rfl

theorem okResult_Transaction (tx : Transaction) (fs : F64) :
    (okResult tx fs).Transaction = tx := rfl

theorem coe_cons_eq_add {β : Type} (a : β) (l : List β) :
    ((a :: l : List β) : Multiset β) = {a} + (l : Multiset β) := by
  rw [← Multiset.cons_coe, Multiset.singleton_add]

theorem coe_append_eq_add {β : Type} (l₁ l₂ : List β) :
    ((l₁ ++ l₂ : List β) : Multiset β) = (l₁ : Multiset β) + (l₂ : Multiset β) :=
  (Multiset.coe_add l₁ l₂).symm

theorem coe_nil_eq_zero {β : Type} : (([] : List β) : Multiset β) = 0 := rfl

theorem PoolStep.conserved {sc : Scorer} {txs : List Transaction} {numWorkers : ℤ}
    {s s' : PoolState} (h : PoolStep sc txs numWorkers s s')
    (hc : s.Conserved txs) : s'.Conserved txs := by
  unfold PoolState.Conserved PoolState.everywhere at *
  cases h
  case spawn w hp hm hw =>
    simpa [hm, PoolMain.unfed, PoolWorker.holding] using hc
  case spawnEnd w hp hm hw =>
    simpa [hm, PoolMain.unfed] using hc
  case feed i tx hp hm htx hopen hroom =>
    have hd : txs.drop i = tx :: txs.drop (i + 1) := by
      rw [List.getElem?_eq_some] at htx
      obtain ⟨hi, rfl⟩ := htx
      exact List.drop_eq_getElem_cons hi
    rw [← hc]
    simp only [hm, PoolMain.unfed, hd, coe_append_eq_add, coe_cons_eq_add, coe_nil_eq_zero]
    abel
  case closeJobs i hp hm htx hopen =>
    have hd : txs.drop i = [] := by
      rw [List.getElem?_eq_none_iff] at htx
      exact List.drop_eq_nil_of_le htx
    simpa [hm, PoolMain.unfed, hd] using hc
  case goCloser hp hm =>
    simpa [hm, PoolMain.unfed] using hc
  case collect r rest hp hm hbuf =>
    rw [← hc]
    simp only [hbuf, List.map_append, List.map_cons, List.map_nil, coe_append_eq_add,
      coe_cons_eq_add, coe_nil_eq_zero]
    abel
  case ret hp hm hbuf hclosed =>
    simpa [hm, PoolMain.unfed] using hc
  case takeInvalid i tx rest err hp hw hbuf hv =>
    have hset := sum_map_set PoolWorker.holding s.workers i _ (PoolWorker.emit (errResult tx err)) hw
    simp only [PoolWorker.holding, add_zero, errResult_Transaction] at hset
    rw [← hc]
    simp only [hset, hbuf, coe_cons_eq_add]
    abel
  case takeValidSem i tx rest sem hp hw hbuf hv hsem =>
    have hset := sum_map_set PoolWorker.holding s.workers i _ (PoolWorker.acquire tx) hw
    simp only [PoolWorker.holding, add_zero] at hset
    rw [← hc]
    simp only [hset, hbuf, coe_cons_eq_add]
    abel
  case takeValid i tx rest hp hw hbuf hv hsem =>
    have hset := sum_map_set PoolWorker.holding s.workers i _ (PoolWorker.scoring tx) hw
    simp only [PoolWorker.holding, add_zero] at hset
    rw [← hc]
    simp only [hset, hbuf, coe_cons_eq_add]
    abel
  case exit i hp hw hbuf hclosed hwg =>
    have hset := sum_map_set PoolWorker.holding s.workers i _ PoolWorker.exited hw
    simp only [PoolWorker.holding, add_zero] at hset
    rw [← hc]
    simp only [hset]
  case acquire i tx sem hp hw hsem hopen hroom =>
    have hset := sum_map_set PoolWorker.holding s.workers i _ (PoolWorker.scoring tx) hw
    simp only [PoolWorker.holding, add_left_inj] at hset
    rw [← hc]
    simp only [hset]
  case scoreSem i tx sem hp hw hsem =>
    have hset := sum_map_set PoolWorker.holding s.workers i _
      (PoolWorker.release tx (sc tx s.rand).score) hw
    simp only [PoolWorker.holding, add_left_inj] at hset
    rw [← hc]
    simp only [hset]
  case score i tx hp hw hsem =>
    have hset := sum_map_set PoolWorker.holding s.workers i _
      (PoolWorker.emit (okResult tx (sc tx s.rand).score)) hw
    simp only [PoolWorker.holding, okResult_Transaction, add_left_inj] at hset
    rw [← hc]
    simp only [hset]
  case release i tx fs sem u rest hp hw hsem hbuf =>
    have hset := sum_map_set PoolWorker.holding s.workers i _
      (PoolWorker.emit (okResult tx fs)) hw
    simp only [PoolWorker.holding, okResult_Transaction, add_left_inj] at hset
    rw [← hc]
    simp only [hset]
  case releaseClosed i tx fs sem hp hw hsem hbuf hclosed =>
    have hset := sum_map_set PoolWorker.holding s.workers i _
      (PoolWorker.emit (okResult tx fs)) hw
    simp only [PoolWorker.holding, okResult_Transaction, add_left_inj] at hset
    rw [← hc]
    simp only [hset]
  case emit i r hp hw hopen hroom =>
    have hset := sum_map_set PoolWorker.holding s.workers i _ PoolWorker.idle hw
    simp only [PoolWorker.holding, add_zero] at hset
    rw [← hc, ← hset]
    simp only [List.map_append, List.map_cons, List.map_nil, coe_append_eq_add,
      coe_cons_eq_add, coe_nil_eq_zero]
    abel
  all_goals exact hc

theorem PoolStep.counted {sc : Scorer} {txs : List Transaction} {numWorkers : ℤ}
    {s s' : PoolState} (h : PoolStep sc txs numWorkers s s')
    (hc : s.Counted txs) : s'.Counted txs := by
  obtain ⟨h1, h2, h3⟩ := hc
  unfold PoolState.Counted
  cases h
  case spawn w hp hm hw =>
    refine ⟨?_, h2, h3⟩
    simp [h1, PoolWorker.active]
  case exit i hp hw hbuf hclosed hwg =>
    have hset := sum_map_set PoolWorker.active s.workers i _ PoolWorker.exited hw
    simp only [PoolWorker.active] at hset
    exact ⟨by dsimp only; omega, h2, h3⟩
  case takeInvalid i tx rest err hp hw hbuf hv =>
    have hset := sum_map_set PoolWorker.active s.workers i _ (PoolWorker.emit (errResult tx err)) hw
    simp only [PoolWorker.active] at hset
    exact ⟨by dsimp only; omega, h2, h3⟩
  case takeValidSem i tx rest sem hp hw hbuf hv hsem =>
    have hset := sum_map_set PoolWorker.active s.workers i _ (PoolWorker.acquire tx) hw
    simp only [PoolWorker.active] at hset
    exact ⟨by dsimp only; omega, h2, h3⟩
  case takeValid i tx rest hp hw hbuf hv hsem =>
    have hset := sum_map_set PoolWorker.active s.workers i _ (PoolWorker.scoring tx) hw
    simp only [PoolWorker.active] at hset
    exact ⟨by dsimp only; omega, h2, h3⟩
  case acquire i tx sem hp hw hsem hopen hroom =>
    have hset := sum_map_set PoolWorker.active s.workers i _ (PoolWorker.scoring tx) hw
    simp only [PoolWorker.active] at hset
    exact ⟨by dsimp only; omega, h2, h3⟩
  case scoreSem i tx sem hp hw hsem =>
    have hset := sum_map_set PoolWorker.active s.workers i _
      (PoolWorker.release tx (sc tx s.rand).score) hw
    simp only [PoolWorker.active] at hset
    exact ⟨by dsimp only; omega, h2, h3⟩
  case score i tx hp hw hsem =>
    have hset := sum_map_set PoolWorker.active s.workers i _
      (PoolWorker.emit (okResult tx (sc tx s.rand).score)) hw
    simp only [PoolWorker.active] at hset
    exact ⟨by dsimp only; omega, h2, h3⟩
  case release i tx fs sem u rest hp hw hsem hbuf =>
    have hset := sum_map_set PoolWorker.active s.workers i _ (PoolWorker.emit (okResult tx fs)) hw
    simp only [PoolWorker.active] at hset
    exact ⟨by dsimp only; omega, h2, h3⟩
  case releaseClosed i tx fs sem hp hw hsem hbuf hclosed =>
    have hset := sum_map_set PoolWorker.active s.workers i _ (PoolWorker.emit (okResult tx fs)) hw
    simp only [PoolWorker.active] at hset
    exact ⟨by dsimp only; omega, h2, h3⟩
  case emit i r hp hw hopen hroom =>
    have hset := sum_map_set PoolWorker.active s.workers i _ PoolWorker.idle hw
    simp only [PoolWorker.active] at hset
    exact ⟨by dsimp only; omega, h2, h3⟩
  all_goals exact ⟨h1, h2, h3⟩

theorem PoolStep.semOK {sc : Scorer} {txs : List Transaction} {numWorkers : ℤ}
    {s s' : PoolState} (h : PoolStep sc txs numWorkers s s')
    (hc : s.SemOK) : s'.SemOK := by
  unfold PoolState.SemOK at *
  cases hsem0 : s.sem with
  | none =>
    rw [hsem0] at hc
    cases h
    case spawn w hp hm hw =>
      simp only [hsem0]
      intro x hx
      rcases List.mem_append.mp hx with hx | hx
      · exact hc x hx
      · simp only [List.mem_singleton] at hx
        subst hx
        rfl
    case takeInvalid i tx rest err hp hw hbuf hv =>
      simp only [hsem0]
      exact forall_mem_set _ _ _ _ hc rfl
    case takeValid i tx rest hp hw hbuf hv hsem =>
      simp only [hsem0]
      exact forall_mem_set _ _ _ _ hc rfl
    case exit i hp hw hbuf hclosed hwg =>
      simp only [hsem0]
      exact forall_mem_set _ _ _ _ hc rfl
    case score i tx hp hw hsem =>
      simp only [hsem0]
      exact forall_mem_set _ _ _ _ hc rfl
    case emit i r hp hw hopen hroom =>
      simp only [hsem0]
      exact forall_mem_set _ _ _ _ hc rfl
    case takeValidSem i tx rest sem hp hw hbuf hv hsem => rw [hsem0] at hsem; cases hsem
    case acquire i tx sem hp hw hsem hopen hroom => rw [hsem0] at hsem; cases hsem
    case acquirePanic i tx sem hp hw hsem hclosed => rw [hsem0] at hsem; cases hsem
    case scoreSem i tx sem hp hw hsem => rw [hsem0] at hsem; cases hsem
    case release i tx fs sem u rest hp hw hsem hbuf => rw [hsem0] at hsem; cases hsem
    case releaseClosed i tx fs sem hp hw hsem hbuf hclosed => rw [hsem0] at hsem; cases hsem
    all_goals (simp only [hsem0]; exact hc)
  | some c =>
    rw [hsem0] at hc
    obtain ⟨h1, h2, h3⟩ := hc
    cases h
    case spawn w hp hm hw =>
      simp only [hsem0]
      refine ⟨h1, ?_, h3⟩
      simp [h2, PoolWorker.permit]
    case takeInvalid i tx rest err hp hw hbuf hv =>
      have hset := sum_map_set PoolWorker.permit s.workers i _ (PoolWorker.emit (errResult tx err)) hw
      simp only [PoolWorker.permit] at hset
      simp only [hsem0]
      exact ⟨h1, by omega, h3⟩
    case takeValidSem i tx rest sem hp hw hbuf hv hsem =>
      have hset := sum_map_set PoolWorker.permit s.workers i _ (PoolWorker.acquire tx) hw
      simp only [PoolWorker.permit] at hset
      simp only [hsem0]
      exact ⟨h1, by omega, h3⟩
    case takeValid i tx rest hp hw hbuf hv hsem => rw [hsem0] at hsem; cases hsem
    case score i tx hp hw hsem => rw [hsem0] at hsem; cases hsem
    case exit i hp hw hbuf hclosed hwg =>
      have hset := sum_map_set PoolWorker.permit s.workers i _ PoolWorker.exited hw
      simp only [PoolWorker.permit] at hset
      simp only [hsem0]
      exact ⟨h1, by omega, h3⟩
    case acquire i tx sem hp hw hsem hopen hroom =>
      rw [hsem0] at hsem
      cases hsem
      have hset := sum_map_set PoolWorker.permit s.workers i _ (PoolWorker.scoring tx) hw
      simp only [PoolWorker.permit] at hset
      refine ⟨h1, ?_, ?_⟩
      · simp only [List.length_append, List.length_singleton]
        omega
      · simp only [List.length_append, List.length_singleton]
        omega
    case scoreSem i tx sem hp hw hsem =>
      have hset := sum_map_set PoolWorker.permit s.workers i _
        (PoolWorker.release tx (sc tx s.rand).score) hw
      simp only [PoolWorker.permit] at hset
      simp only [hsem0]
      exact ⟨h1, by omega, h3⟩
    case release i tx fs sem u rest hp hw hsem hbuf =>
      rw [hsem0] at hsem
      cases hsem
      have hset := sum_map_set PoolWorker.permit s.workers i _ (PoolWorker.emit (okResult tx fs)) hw
      simp only [PoolWorker.permit] at hset
      simp only [hbuf, List.length_cons] at h2 h3
      exact ⟨h1, by dsimp only; omega, by dsimp only; omega⟩
    case releaseClosed i tx fs sem hp hw hsem hbuf hclosed =>
      rw [hsem0] at hsem
      cases hsem
      rw [h1] at hclosed
      cases hclosed
    case emit i r hp hw hopen hroom =>
      have hset := sum_map_set PoolWorker.permit s.workers i _ PoolWorker.idle hw
      simp only [PoolWorker.permit] at hset
      simp only [hsem0]
      exact ⟨h1, by omega, h3⟩
    all_goals (simp only [hsem0]; exact ⟨h1, h2, h3⟩)

theorem exited_mem_of_mem_set {l : List PoolWorker} {i : ℕ} {w : PoolWorker}
    (hw : w ≠ PoolWorker.exited) (h : PoolWorker.exited ∈ l.set i w) : PoolWorker.exited ∈ l := by
  rcases List.mem_or_eq_of_mem_set h with h | h
  · exact h
  · exact absurd h.symm hw

theorem PoolState.Phased.worker_step {numWorkers : ℤ} {s : PoolState} (hc : s.Phased numWorkers)
    (workers : List PoolWorker) (jobs : Chan Transaction) (hlen : workers.length = s.workers.length)
    (hclosed : jobs.closed = s.jobs.closed)
    (hex : PoolWorker.exited ∈ workers → jobs.closed = true ∧ jobs.buf = [])
    (sem : Option (Chan Unit)) (rand : Rand) :
    PoolState.Phased numWorkers { s with jobs := jobs, workers := workers, sem := sem, rand := rand } := by
  obtain ⟨h1, h2, _⟩ := hc
  refine ⟨?_, ?_, hex⟩
  · dsimp only
    rw [hlen, hclosed]
    exact h1
  · exact h2

theorem PoolStep.phased {sc : Scorer} {txs : List Transaction} {numWorkers : ℤ}
    {s s' : PoolState} (h : PoolStep sc txs numWorkers s s')
    (hc : s.Phased numWorkers) : s'.Phased numWorkers := by
  have hc0 := hc
  obtain ⟨h1, h2, h3⟩ := hc
  cases h
  case spawn w hp hm hw =>
    rw [hm] at h1
    obtain ⟨ha, hb, hcl, hcr⟩ := h1
    refine ⟨⟨by simp [ha], by omega, hcl, hcr⟩, ?_, ?_⟩
    · rw [hcr] at h2 ⊢
      exact h2
    · intro hex
      rcases List.mem_append.mp hex with hex | hex
      · exact h3 hex
      · simp at hex
  case spawnEnd w hp hm hw =>
    rw [hm] at h1
    obtain ⟨ha, hb, hcl, hcr⟩ := h1
    exact ⟨⟨by dsimp only; omega, hcl, hcr⟩, h2, h3⟩
  case feed i tx hp hm htx hopen hroom =>
    rw [hm] at h1
    refine ⟨h1, h2, ?_⟩
    intro hex
    have := (h3 hex).1
    rw [hopen] at this
    cases this
  case closeJobs i hp hm htx hopen =>
    rw [hm] at h1
    obtain ⟨ha, hcl, hcr⟩ := h1
    refine ⟨⟨ha, rfl, hcr⟩, h2, ?_⟩
    intro hex
    have := (h3 hex).1
    rw [hopen] at this
    cases this
  case goCloser hp hm =>
    rw [hm] at h1
    obtain ⟨ha, hcl, hcr⟩ := h1
    rw [hcr] at h2
    exact ⟨⟨ha, hcl, by simp⟩, h2, h3⟩
  case collect r rest hp hm hbuf =>
    rw [hm] at h1
    exact ⟨by rw [hm]; exact h1, h2, h3⟩
  case ret hp hm hbuf hclosed =>
    rw [hm] at h1
    obtain ⟨ha, hcl, hcr⟩ := h1
    refine ⟨⟨ha, hcl, ?_, hbuf⟩, h2, h3⟩
    cases hcs : s.closer <;> rw [hcs] at h2 <;> simp_all
  case takeInvalid i tx rest err hp hw hbuf hv =>
    refine PoolState.Phased.worker_step hc0 (s.workers.set i _) { s.jobs with buf := rest }
      (List.length_set _ _ _) rfl ?_ s.sem s.rand
    intro hex
    have := (h3 (exited_mem_of_mem_set (by simp) hex)).2
    rw [hbuf] at this
    cases this
  case takeValidSem i tx rest sem hp hw hbuf hv hsem =>
    refine PoolState.Phased.worker_step hc0 (s.workers.set i _) { s.jobs with buf := rest }
      (List.length_set _ _ _) rfl ?_ s.sem s.rand
    intro hex
    have := (h3 (exited_mem_of_mem_set (by simp) hex)).2
    rw [hbuf] at this
    cases this
  case takeValid i tx rest hp hw hbuf hv hsem =>
    refine PoolState.Phased.worker_step hc0 (s.workers.set i _) { s.jobs with buf := rest }
      (List.length_set _ _ _) rfl ?_ s.sem s.rand
    intro hex
    have := (h3 (exited_mem_of_mem_set (by simp) hex)).2
    rw [hbuf] at this
    cases this
  case exit i hp hw hbuf hclosed hwg =>
    refine ⟨?_, ?_, fun _ => ⟨hclosed, hbuf⟩⟩
    · dsimp only
      rw [List.length_set]
      exact h1
    · dsimp only
      cases hcs : s.closer <;> rw [hcs] at h2 <;> simp_all
  case acquire i tx sem hp hw hsem hopen hroom =>
    exact PoolState.Phased.worker_step hc0 _ s.jobs (by simp) rfl
      (fun hex => h3 (exited_mem_of_mem_set (by simp) hex)) _ s.rand
  case scoreSem i tx sem hp hw hsem =>
    exact PoolState.Phased.worker_step hc0 _ s.jobs (by simp) rfl
      (fun hex => h3 (exited_mem_of_mem_set (by simp) hex)) s.sem _
  case score i tx hp hw hsem =>
    exact PoolState.Phased.worker_step hc0 _ s.jobs (by simp) rfl
      (fun hex => h3 (exited_mem_of_mem_set (by simp) hex)) s.sem _
  case release i tx fs sem u rest hp hw hsem hbuf =>
    exact PoolState.Phased.worker_step hc0 _ s.jobs (by simp) rfl
      (fun hex => h3 (exited_mem_of_mem_set (by simp) hex)) _ s.rand
  case releaseClosed i tx fs sem hp hw hsem hbuf hclosed =>
    exact PoolState.Phased.worker_step hc0 _ s.jobs (by simp) rfl
      (fun hex => h3 (exited_mem_of_mem_set (by simp) hex)) s.sem s.rand
  case emit i r hp hw hopen hroom =>
    refine ⟨?_, ?_, fun hex => h3 (exited_mem_of_mem_set (by simp) hex)⟩
    · dsimp only
      rw [List.length_set]
      cases hm : s.main <;> rw [hm] at h1 <;> try exact h1
      obtain ⟨_, _, hcr, _⟩ := h1
      rw [hcr] at h2
      rw [h2.2] at hopen
      cases hopen
    · exact h2
  case waited hp hcl hwg =>
    refine ⟨?_, ?_, h3⟩
    · dsimp only
      cases hm : s.main <;> rw [hm] at h1 <;> simp_all
    · rw [hcl] at h2
      exact ⟨hwg, h2⟩
  case closeRes hp hcl hopen =>
    refine ⟨?_, ?_, h3⟩
    · dsimp only
      cases hm : s.main <;> rw [hm] at h1 <;> simp_all
    · rw [hcl] at h2
      exact ⟨h2.1, rfl⟩
  all_goals exact ⟨h1, h2, h3⟩

/-! ## Pool machine: no panic, termination, progress -/

theorem le_sum_map_of_getElem? {β : Type} (f : β → ℕ) :
    ∀ (l : List β) (i : ℕ) (a : β), l[i]? = some a → f a ≤ (l.map f).sum := by
  intro l
  induction l with
  | nil => intro i a h; simp at h
  | cons x xs ih =>
    intro i a h
    cases i with
    | zero =>
      simp only [List.getElem?_cons_zero, Option.some.injEq] at h
      subst h
      simp
    | succ n =>
      simp only [List.getElem?_cons_succ] at h
      have := ih n a h
      simp only [List.map_cons, List.sum_cons]
      omega

theorem PoolStep.noPanic {sc : Scorer} {txs : List Transaction} {numWorkers : ℤ}
    {s s' : PoolState} (h : PoolStep sc txs numWorkers s s')
    (hi : s.Inv txs numWorkers) : s'.panicked = false := by
  obtain ⟨hp0, -, ⟨hwg, -, -⟩, hsem, ⟨hph, hcl, -⟩⟩ := hi
  cases h
  case feedPanic i tx hp hm htx hclosed =>
    rw [hm] at hph
    rw [hph.2.1] at hclosed
    cases hclosed
  case closeJobsPanic i hp hm htx hclosed =>
    rw [hm] at hph
    rw [hph.2.1] at hclosed
    cases hclosed
  case exitPanic i hp hw hbuf hclosed hwg0 =>
    have := le_sum_map_of_getElem? PoolWorker.active _ _ _ hw
    simp only [PoolWorker.active] at this
    omega
  case acquirePanic i tx sem hp hw hsem' hclosed =>
    unfold PoolState.SemOK at hsem
    rw [hsem'] at hsem
    rw [hsem.1] at hclosed
    cases hclosed
  case emitPanic i r hp hw hclosed =>
    have := le_sum_map_of_getElem? PoolWorker.active _ _ _ hw
    simp only [PoolWorker.active] at this
    cases hcs : s.closer <;> rw [hcs] at hcl
    · rw [hcl] at hclosed; cases hclosed
    · rw [hcl] at hclosed; cases hclosed
    · rw [hcl.2] at hclosed; cases hclosed
    · omega
  case closeResPanic hp hc hclosed =>
    rw [hc] at hcl
    rw [hcl.2] at hclosed
    cases hclosed
  all_goals exact hp0

theorem PoolStep.inv {sc : Scorer} {txs : List Transaction} {numWorkers : ℤ}
    {s s' : PoolState} (h : PoolStep sc txs numWorkers s s')
    (hi : s.Inv txs numWorkers) : s'.Inv txs numWorkers :=
  ⟨h.noPanic hi, h.conserved hi.conserved, h.counted hi.counted, h.semOK hi.semOK,
    h.phased hi.phased⟩

theorem PoolStep.semPos {sc : Scorer} {txs : List Transaction} {numWorkers : ℤ}
    {s s' : PoolState} (h : PoolStep sc txs numWorkers s s')
    (hi : s.SemPos) : s'.SemPos := by
  unfold PoolState.SemPos at *
  cases h
  case acquire i tx sem hp hw hsem hopen hroom =>
    intro c hc
    simp only [Option.some.injEq] at hc
    subst hc
    exact hi sem hsem
  case release i tx fs sem u rest hp hw hsem hbuf =>
    intro c hc
    simp only [Option.some.injEq] at hc
    subst hc
    exact hi sem hsem
  all_goals exact hi

theorem PoolStep.measure_lt {sc : Scorer} {txs : List Transaction} {numWorkers : ℤ}
    {s s' : PoolState} (h : PoolStep sc txs numWorkers s s') :
    s'.measure txs numWorkers < s.measure txs numWorkers := by
  unfold PoolState.measure
  cases h
  case spawn w hp hm hw =>
    have : w < numWorkers.toNat := by omega
    simp only [hm, hp, PoolMain.weight, List.map_append, List.sum_append, List.map_cons,
      List.map_nil, List.sum_cons, List.sum_nil, PoolWorker.weight]
    omega
  case spawnEnd w hp hm hw =>
    simp only [hm, hp, PoolMain.weight]
    omega
  case feed i tx hp hm htx hopen hroom =>
    have hi : i < txs.length := by
      rw [List.getElem?_eq_some] at htx
      exact htx.1
    simp only [hm, hp, PoolMain.weight, List.length_append, List.length_singleton]
    omega
  case closeJobs i hp hm htx hopen =>
    simp only [hm, hp, PoolMain.weight]
    omega
  case goCloser hp hm =>
    simp only [hm, hp, PoolMain.weight, Closer.weight]
    cases s.closer <;> simp <;> omega
  case collect r rest hp hm hbuf =>
    simp only [hm, hp, hbuf, List.length_cons]
    omega
  case ret hp hm hbuf hclosed =>
    simp only [hm, hp, PoolMain.weight]
    omega
  case takeInvalid i tx rest err hp hw hbuf hv =>
    have hset := sum_map_set PoolWorker.weight s.workers i _ (PoolWorker.emit (errResult tx err)) hw
    simp only [PoolWorker.weight] at hset
    simp only [hbuf, List.length_cons]
    omega
  case takeValidSem i tx rest sem hp hw hbuf hv hsem =>
    have hset := sum_map_set PoolWorker.weight s.workers i _ (PoolWorker.acquire tx) hw
    simp only [PoolWorker.weight] at hset
    simp only [hbuf, List.length_cons]
    omega
  case takeValid i tx rest hp hw hbuf hv hsem =>
    have hset := sum_map_set PoolWorker.weight s.workers i _ (PoolWorker.scoring tx) hw
    simp only [PoolWorker.weight] at hset
    simp only [hbuf, List.length_cons]
    omega
  case exit i hp hw hbuf hclosed hwg =>
    have hset := sum_map_set PoolWorker.weight s.workers i _ PoolWorker.exited hw
    simp only [PoolWorker.weight] at hset
    dsimp only
    omega
  case acquire i tx sem hp hw hsem hopen hroom =>
    have hset := sum_map_set PoolWorker.weight s.workers i _ (PoolWorker.scoring tx) hw
    simp only [PoolWorker.weight] at hset
    dsimp only
    omega
  case scoreSem i tx sem hp hw hsem =>
    have hset := sum_map_set PoolWorker.weight s.workers i _
      (PoolWorker.release tx (sc tx s.rand).score) hw
    simp only [PoolWorker.weight] at hset
    dsimp only
    omega
  case score i tx hp hw hsem =>
    have hset := sum_map_set PoolWorker.weight s.workers i _
      (PoolWorker.emit (okResult tx (sc tx s.rand).score)) hw
    simp only [PoolWorker.weight] at hset
    dsimp only
    omega
  case release i tx fs sem u rest hp hw hsem hbuf =>
    have hset := sum_map_set PoolWorker.weight s.workers i _ (PoolWorker.emit (okResult tx fs)) hw
    simp only [PoolWorker.weight] at hset
    dsimp only
    omega
  case releaseClosed i tx fs sem hp hw hsem hbuf hclosed =>
    have hset := sum_map_set PoolWorker.weight s.workers i _ (PoolWorker.emit (okResult tx fs)) hw
    simp only [PoolWorker.weight] at hset
    dsimp only
    omega
  case emit i r hp hw hopen hroom =>
    have hset := sum_map_set PoolWorker.weight s.workers i _ PoolWorker.idle hw
    simp only [PoolWorker.weight] at hset
    simp only [List.length_append, List.length_singleton]
    omega
  case waited hp hc hwg =>
    simp only [hc, hp, Closer.weight]
    omega
  case closeRes hp hc hopen =>
    simp only [hc, hp, Closer.weight]
    omega
  all_goals (simp only [*]; simp)

theorem poolStep_complete {sc : Scorer} {txs : List Transaction} {numWorkers : ℤ}
    {s s' : PoolState} (h : PoolStep sc txs numWorkers s s') :
    ∃ a, poolStep sc txs numWorkers s a = some s' := by
  cases h
  case spawn w hp hm hw =>
    exact ⟨PoolAct.main, by simp [poolStep, poolMainStep, hp, hm, hw]⟩
  case spawnEnd w hp hm hw =>
    exact ⟨PoolAct.main, by simp [poolStep, poolMainStep, hp, hm, hw]⟩
  case feed i tx hp hm htx hopen hroom =>
    exact ⟨PoolAct.main, by simp [poolStep, poolMainStep, hp, hm, htx, Chan.send, hopen, hroom]⟩
  case feedPanic i tx hp hm htx hclosed =>
    exact ⟨PoolAct.main, by simp [poolStep, poolMainStep, hp, hm, htx, Chan.send, hclosed]⟩
  case closeJobs i hp hm htx hopen =>
    exact ⟨PoolAct.main, by simp [poolStep, poolMainStep, hp, hm, htx, Chan.close, hopen]⟩
  case closeJobsPanic i hp hm htx hclosed =>
    exact ⟨PoolAct.main, by simp [poolStep, poolMainStep, hp, hm, htx, Chan.close, hclosed]⟩
  case goCloser hp hm =>
    exact ⟨PoolAct.main, by simp [poolStep, poolMainStep, hp, hm]⟩
  case collect r rest hp hm hbuf =>
    exact ⟨PoolAct.main, by simp [poolStep, poolMainStep, hp, hm, Chan.recv, hbuf]⟩
  case ret hp hm hbuf hclosed =>
    exact ⟨PoolAct.main, by simp [poolStep, poolMainStep, hp, hm, Chan.recv, hbuf, hclosed]⟩
  case takeInvalid i tx rest err hp hw hbuf hv =>
    exact ⟨PoolAct.worker i, by simp [poolStep, poolWorkerStep, hp, hw, Chan.recv, hbuf, hv]⟩
  case takeValidSem i tx rest sem hp hw hbuf hv hsem =>
    exact ⟨PoolAct.worker i, by simp [poolStep, poolWorkerStep, hp, hw, Chan.recv, hbuf, hv, hsem]⟩
  case takeValid i tx rest hp hw hbuf hv hsem =>
    exact ⟨PoolAct.worker i, by simp [poolStep, poolWorkerStep, hp, hw, Chan.recv, hbuf, hv, hsem]⟩
  case exit i hp hw hbuf hclosed hwg =>
    exact ⟨PoolAct.worker i,
      by simp [poolStep, poolWorkerStep, hp, hw, Chan.recv, hbuf, hclosed, wgDone, hwg]⟩
  case exitPanic i hp hw hbuf hclosed hwg =>
    exact ⟨PoolAct.worker i,
      by simp [poolStep, poolWorkerStep, hp, hw, Chan.recv, hbuf, hclosed, wgDone, hwg]⟩
  case acquire i tx sem hp hw hsem hopen hroom =>
    exact ⟨PoolAct.worker i,
      by simp [poolStep, poolWorkerStep, hp, hw, hsem, Chan.send, hopen, hroom]⟩
  case acquirePanic i tx sem hp hw hsem hclosed =>
    exact ⟨PoolAct.worker i, by simp [poolStep, poolWorkerStep, hp, hw, hsem, Chan.send, hclosed]⟩
  case scoreSem i tx sem hp hw hsem =>
    exact ⟨PoolAct.worker i, by simp [poolStep, poolWorkerStep, hp, hw, hsem]⟩
  case score i tx hp hw hsem =>
    exact ⟨PoolAct.worker i, by simp [poolStep, poolWorkerStep, hp, hw, hsem]⟩
  case release i tx fs sem u rest hp hw hsem hbuf =>
    exact ⟨PoolAct.worker i, by simp [poolStep, poolWorkerStep, hp, hw, hsem, Chan.recv, hbuf]⟩
  case releaseClosed i tx fs sem hp hw hsem hbuf hclosed =>
    exact ⟨PoolAct.worker i,
      by simp [poolStep, poolWorkerStep, hp, hw, hsem, Chan.recv, hbuf, hclosed]⟩
  case emit i r hp hw hopen hroom =>
    exact ⟨PoolAct.worker i, by simp [poolStep, poolWorkerStep, hp, hw, Chan.send, hopen, hroom]⟩
  case emitPanic i r hp hw hclosed =>
    exact ⟨PoolAct.worker i, by simp [poolStep, poolWorkerStep, hp, hw, Chan.send, hclosed]⟩
  case waited hp hc hwg =>
    exact ⟨PoolAct.closer, by simp [poolStep, poolCloserStep, hp, hc, hwg]⟩
  case closeRes hp hc hopen =>
    exact ⟨PoolAct.closer, by simp [poolStep, poolCloserStep, hp, hc, Chan.close, hopen]⟩
  case closeResPanic hp hc hclosed =>
    exact ⟨PoolAct.closer, by simp [poolStep, poolCloserStep, hp, hc, Chan.close, hclosed]⟩

theorem exists_of_sum_map_pos {β : Type} (f : β → ℕ) :
    ∀ (l : List β), 0 < (l.map f).sum → ∃ (i : ℕ) (a : β), l[i]? = some a ∧ 0 < f a := by
  intro l
  induction l with
  | nil => intro h; simp at h
  | cons x xs ih =>
    intro h
    by_cases hx : 0 < f x
    · exact ⟨0, x, by simp, hx⟩
    · have : 0 < (xs.map f).sum := by
        simp only [List.map_cons, List.sum_cons] at h
        omega
      obtain ⟨i, a, hia, ha⟩ := ih this
      exact ⟨i + 1, a, by simpa using hia, ha⟩

theorem card_holding_le_one (w : PoolWorker) : Multiset.card (PoolWorker.holding w) ≤ 1 := by
  cases w <;> simp [PoolWorker.holding]

/-- Counting form of conservation: the pieces of the run add up to the batch size. -/
theorem PoolState.Conserved.card {txs : List Transaction} {s : PoolState} (h : s.Conserved txs) :
    s.results.length + s.res.buf.length +
      ((s.workers.map PoolWorker.holding).map Multiset.card).sum + s.jobs.buf.length +
      (PoolMain.unfed txs s.main).length = txs.length := by
  have := congrArg Multiset.card h
  simpa [PoolState.everywhere, map_list_sum] using this

theorem PoolState.Inv.room_res {txs : List Transaction} {numWorkers : ℤ} {s : PoolState}
    (hi : s.Inv txs numWorkers) {i : ℕ} {r : ProcessingResult}
    (hw : s.workers[i]? = some (PoolWorker.emit r)) : s.res.buf.length < s.res.cap := by
  have hcard := hi.conserved.card
  have h1 : ((s.workers.map PoolWorker.holding).map Multiset.card)[i]? = some 1 := by
    simp [hw, PoolWorker.holding]
  have h2 := le_sum_map_of_getElem? id _ _ _ h1
  simp only [List.map_id, id] at h2
  rw [hi.counted.2.2]
  omega

theorem PoolState.Inv.room_jobs {txs : List Transaction} {numWorkers : ℤ} {s : PoolState}
    (hi : s.Inv txs numWorkers) {i : ℕ} {tx : Transaction}
    (hm : s.main = PoolMain.feed i) (htx : txs[i]? = some tx) :
    s.jobs.buf.length < s.jobs.cap := by
  have hcard := hi.conserved.card
  have hlt : i < txs.length := by
    rw [List.getElem?_eq_some] at htx
    exact htx.1
  rw [hm] at hcard
  simp only [PoolMain.unfed, List.length_drop] at hcard
  rw [hi.counted.2.1]
  omega

/-- Progress: with at least one worker (and at least one permit), some goroutine can
always move until the calling goroutine has returned. -/
theorem PoolState.Inv.progress (sc : Scorer) {txs : List Transaction} {numWorkers : ℤ}
    {s : PoolState} (hi : s.Inv txs numWorkers) (hsp : s.SemPos)
    (hm : s.main ≠ PoolMain.returned) : ∃ s', PoolStep sc txs numWorkers s s' := by
  have hp := hi.noPanic
  obtain ⟨hph, hcl, hex⟩ := hi.phased
  have hsem := hi.semOK
  unfold PoolState.SemOK at hsem
  cases hmain : s.main with
  | returned => exact absurd hmain hm
  | spawn w =>
    by_cases hw : (w : ℤ) < numWorkers
    · exact ⟨_, PoolStep.spawn s w hp hmain hw⟩
    · exact ⟨_, PoolStep.spawnEnd s w hp hmain hw⟩
  | feed i =>
    rw [hmain] at hph
    cases htx : txs[i]? with
    | some tx => exact ⟨_, PoolStep.feed s i tx hp hmain htx hph.2.1 (hi.room_jobs hmain htx)⟩
    | none => exact ⟨_, PoolStep.closeJobs s i hp hmain htx hph.2.1⟩
  | goCloser => exact ⟨_, PoolStep.goCloser s hp hmain⟩
  | collect =>
    rw [hmain] at hph
    obtain ⟨-, hjc, hcn⟩ := hph
    cases hbuf : s.res.buf with
    | cons r rest => exact ⟨_, PoolStep.collect s r rest hp hmain hbuf⟩
    | nil =>
      by_cases hrc : s.res.closed = true
      · exact ⟨_, PoolStep.ret s hp hmain hbuf hrc⟩
      have hro : s.res.closed = false := by simpa using hrc
      cases hcs : s.closer with
      | idle => exact absurd hcs hcn
      | done =>
        rw [hcs] at hcl
        rw [hcl.2] at hro
        cases hro
      | closing => exact ⟨_, PoolStep.closeRes s hp hcs hro⟩
      | waiting =>
        by_cases hwg : s.wg = 0
        · exact ⟨_, PoolStep.waited s hp hcs hwg⟩
        have hpos : 0 < (s.workers.map PoolWorker.active).sum := by
          have := hi.counted.1
          omega
        obtain ⟨i, w, hw, hact⟩ := exists_of_sum_map_pos _ _ hpos
        have hscore : ∀ (j : ℕ) (tx : Transaction), s.workers[j]? = some (PoolWorker.scoring tx) →
            ∃ s', PoolStep sc txs numWorkers s s' := by
          intro j tx hj
          cases hs : s.sem with
          | none => exact ⟨_, PoolStep.score s j tx hp hj hs⟩
          | some c => exact ⟨_, PoolStep.scoreSem s j tx c hp hj hs⟩
        have hrel : ∀ (j : ℕ) (tx : Transaction) (fs : F64),
            s.workers[j]? = some (PoolWorker.release tx fs) →
            ∃ s', PoolStep sc txs numWorkers s s' := by
          intro j tx fs hj
          cases hs : s.sem with
          | none =>
            rw [hs] at hsem
            have := hsem _ (mem_of_getElem?_eq_some hj)
            simp [PoolWorker.atSem] at this
          | some c =>
            rw [hs] at hsem
            have hsem2 : c.closed = false ∧
                c.buf.length = (s.workers.map PoolWorker.permit).sum ∧ c.buf.length ≤ c.cap := hsem
            have h1 := le_sum_map_of_getElem? PoolWorker.permit _ _ _ hj
            simp only [PoolWorker.permit] at h1
            cases hb : c.buf with
            | nil =>
              rw [hb] at hsem2
              simp only [List.length_nil] at hsem2
              omega
            | cons u rest => exact ⟨_, PoolStep.release s j tx fs c u rest hp hj hs hb⟩
        cases w with
        | exited => simp [PoolWorker.active] at hact
        | idle =>
          cases hjb : s.jobs.buf with
          | nil => exact ⟨_, PoolStep.exit s i hp hw hjb hjc hwg⟩
          | cons tx rest =>
            cases hv : ValidateTransaction tx with
            | some err => exact ⟨_, PoolStep.takeInvalid s i tx rest err hp hw hjb hv⟩
            | none =>
              cases hs : s.sem with
              | none => exact ⟨_, PoolStep.takeValid s i tx rest hp hw hjb hv hs⟩
              | some c => exact ⟨_, PoolStep.takeValidSem s i tx rest c hp hw hjb hv hs⟩
        | scoring tx => exact hscore i tx hw
        | release tx fs => exact hrel i tx fs hw
        | emit r => exact ⟨_, PoolStep.emit s i r hp hw hro (hi.room_res hw)⟩
        | acquire tx =>
          cases hs : s.sem with
          | none =>
            rw [hs] at hsem
            have := hsem _ (mem_of_getElem?_eq_some hw)
            simp [PoolWorker.atSem] at this
          | some c =>
            rw [hs] at hsem
            have hsem' : c.closed = false ∧
                c.buf.length = (s.workers.map PoolWorker.permit).sum ∧ c.buf.length ≤ c.cap := hsem
            by_cases hroom : c.buf.length < c.cap
            · exact ⟨_, PoolStep.acquire s i tx c hp hw hs hsem'.1 hroom⟩
            have hcap := hsp c hs
            have hpos' : 0 < (s.workers.map PoolWorker.permit).sum := by omega
            obtain ⟨j, w', hj, hper⟩ := exists_of_sum_map_pos _ _ hpos'
            cases w' with
            | scoring tx' => exact hscore j tx' hj
            | release tx' fs => exact hrel j tx' fs hj
            | idle => simp [PoolWorker.permit] at hper
            | acquire _ => simp [PoolWorker.permit] at hper
            | emit _ => simp [PoolWorker.permit] at hper
            | exited => simp [PoolWorker.permit] at hper

/-! ## Pool machine: what a completed run returns -/

theorem all_exited_of_active_zero :
    ∀ (l : List PoolWorker), (l.map PoolWorker.active).sum = 0 → ∀ w ∈ l, w = PoolWorker.exited := by
  intro l
  induction l with
  | nil => intro _ w hw; simp at hw
  | cons x xs ih =>
    intro h w hw
    simp only [List.map_cons, List.sum_cons] at h
    rcases List.mem_cons.mp hw with hw | hw
    · subst hw
      cases w <;> simp [PoolWorker.active] at h ⊢
    · exact ih (by omega) w hw

theorem holding_sum_of_all_exited :
    ∀ (l : List PoolWorker), (∀ w ∈ l, w = PoolWorker.exited) →
      (l.map PoolWorker.holding).sum = 0 := by
  intro l
  induction l with
  | nil => intro _; simp
  | cons x xs ih =>
    intro h
    have hx := h x (List.mem_cons_self _ _)
    subst hx
    simp only [List.map_cons, List.sum_cons, PoolWorker.holding, zero_add]
    exact ih (fun w hw => h w (List.mem_cons_of_mem _ hw))

/-- Once the calling goroutine has returned, with at least one worker, the collected
results carry exactly the transactions of the batch. -/
theorem PoolState.Inv.returned {txs : List Transaction} {numWorkers : ℤ} {s : PoolState}
    (hi : s.Inv txs numWorkers) (hW : 1 ≤ numWorkers) (hm : s.main = PoolMain.returned) :
    (s.results.map ProcessingResult.Transaction : Multiset Transaction) = (txs : Multiset Transaction) := by
  obtain ⟨hph, hcl, hex⟩ := hi.phased
  rw [hm] at hph
  obtain ⟨hlen, -, hcd, hrb⟩ := hph
  rw [hcd] at hcl
  have hact : (s.workers.map PoolWorker.active).sum = 0 := by
    rw [← hi.counted.1]
    exact hcl.1
  have hall := all_exited_of_active_zero _ hact
  have hne : s.workers ≠ [] := by
    intro h
    rw [h] at hlen
    simp only [List.length_nil] at hlen
    omega
  obtain ⟨w, hw⟩ := List.exists_mem_of_ne_nil _ hne
  have hw' := hall w hw
  subst hw'
  have hjb := (hex hw).2
  have hcons := hi.conserved
  unfold PoolState.Conserved PoolState.everywhere at hcons
  rw [hrb, hjb, hm, holding_sum_of_all_exited _ hall] at hcons
  simpa [PoolMain.unfed] using hcons

theorem poolInit_inv (txs : List Transaction) (numWorkers : ℤ) (sem : Option (Chan Unit)) (r : Rand)
    (hsem : ∀ c, sem = some c → c.closed = false ∧ c.buf = []) :
    (poolInit txs sem r).Inv txs numWorkers := by
  refine ⟨rfl, ?_, ?_, ?_, ?_⟩
  · simp [PoolState.Conserved, PoolState.everywhere, poolInit, Chan.make, PoolMain.unfed]
  · simp [PoolState.Counted, poolInit, Chan.make]
  · unfold PoolState.SemOK
    cases sem with
    | none => simp [poolInit]
    | some c =>
      obtain ⟨h1, h2⟩ := hsem c rfl
      simp [poolInit, h1, h2]
  · refine ⟨?_, ?_, ?_⟩
    · simp [poolInit, Chan.make]
    · simp [poolInit, Chan.make]
    · simp [poolInit]

/-- Every reachable state of a pool machine started from a state satisfying the
invariants satisfies them. -/
theorem pool_reachable_inv (sc : Scorer) (txs : List Transaction) (numWorkers : ℤ)
    (m : Machine PoolState PoolAct) (hstep : m.step = poolStep sc txs numWorkers)
    (h0 : m.init.Inv txs numWorkers) (h1 : m.init.SemPos)
    (h2 : countsOK m.init.success m.init.errors m.init.results) :
    ∀ s, m.Reachable s →
      s.Inv txs numWorkers ∧ s.SemPos ∧ countsOK s.success s.errors s.results := by
  refine Machine.Reachable.induct _ ⟨h0, h1, h2⟩ ?_
  intro s a s' ⟨ha, hb, hc⟩ hst
  rw [hstep] at hst
  have hrel := poolStep_sound sc txs numWorkers s s' a hst
  exact ⟨hrel.inv ha, hrel.semPos hb, hrel.counts hc⟩

theorem pool_reachable_resultsOK (sc : Scorer) (txs : List Transaction) (numWorkers : ℤ)
    (G : Transaction → F64 → Prop)
    (hG : ∀ tx r, ValidateTransaction tx = none → G tx (sc tx r).score)
    (m : Machine PoolState PoolAct) (hstep : m.step = poolStep sc txs numWorkers)
    (h0 : m.init.ResultsOK G) :
    ∀ s, m.Reachable s → s.ResultsOK G := by
  refine Machine.Reachable.induct _ h0 ?_
  intro s a s' ha hst
  rw [hstep] at hst
  exact (poolStep_sound sc txs numWorkers s s' a hst).resultsOK hG ha

/-! ## Fan-out/fan-in machine: the step function is one of the listed operations -/

theorem fanMainStep_sound (sc : Scorer) (txs : List Transaction) (numWorkers : ℤ)
    (s s' : FanState) (hp : s.panicked = false) (h : fanMainStep numWorkers s = some s') :
    FanStep sc txs numWorkers s s' := by
  unfold fanMainStep at h
  split at h
  · rename_i hm
    split at h
    · rename_i hw
      cases h
      exact FanStep.fanOutPanic s hp hm hw
    · rename_i hw
      cases h
      exact FanStep.fanOut s hp hm hw
  · rename_i i hm
    split at h
    · rename_i hi
      split at h
      · rename_i lane hl
        cases h
        exact FanStep.spawnWorker s i lane hp hm hi hl
      · rename_i hl
        cases h
        exact FanStep.spawnWorkerPanic s i hp hm hi hl
    · rename_i hi
      cases h
      exact FanStep.spawnWorkerEnd s i hp hm hi
  · rename_i j hm
    split at h
    · rename_i lane hl
      cases h
      exact FanStep.fanIn s j lane hp hm hl
    · rename_i hl
      cases h
      exact FanStep.fanInEnd s j hp hm hl
  · rename_i hm
    cases h
    exact FanStep.goCloser s hp hm
  · rename_i hm
    split at h
    · rename_i hc
      cases h
      exact FanStep.ret s hp hm hc
    · simp at h
  · simp at h

theorem fanOutStep_sound (sc : Scorer) (txs : List Transaction) (numWorkers : ℤ)
    (s s' : FanState) (hp : s.panicked = false) (h : fanOutStep txs numWorkers s = some s') :
    FanStep sc txs numWorkers s s' := by
  unfold fanOutStep at h
  split at h
  · simp at h
  · rename_i i hd
    split at h
    · rename_i tx htx
      split at h
      · rename_i hw
        cases h
        exact FanStep.sendPanicZero s i tx hp hd htx hw
      · rename_i hw
        split at h
        · rename_i lane hl
          split at h
          · rename_i hc
            cases h
            exact FanStep.sendPanicClosed s i tx lane hp hd htx hw hl hc
          · rename_i hc
            split at h
            · rename_i hidle
              cases h
              exact FanStep.send s i tx lane hp hd htx hw hl (by simpa using hc) hidle
            · simp at h
        · rename_i hl
          cases h
          exact FanStep.sendPanicRange s i tx hp hd htx hw hl
    · rename_i htx
      cases h
      exact FanStep.sendEnd s i hp hd htx
  · rename_i j hd
    split at h
    · rename_i lane hl
      split at h
      · rename_i hc
        cases h
        exact FanStep.closeJobPanic s j lane hp hd hl hc
      · rename_i hc
        cases h
        exact FanStep.closeJob s j lane hp hd hl (by simpa using hc)
    · rename_i hl
      cases h
      exact FanStep.closeEnd s j hp hd hl
  · simp at h

theorem fanWorkerStep_sound (sc : Scorer) (txs : List Transaction) (numWorkers : ℤ)
    (s s' : FanState) (j : ℕ) (lane : Lane) (hp : s.panicked = false)
    (hl : s.lanes[j]? = some lane) (h : fanWorkerStep sc s j lane = some s') :
    FanStep sc txs numWorkers s s' := by
  unfold fanWorkerStep at h
  split at h
  · simp at h
  · rename_i hw
    split at h
    · rename_i hjc
      split at h
      · rename_i hrc
        cases h
        exact FanStep.workerExitPanic s j lane hp hl hw hjc hrc
      · rename_i hrc
        cases h
        exact FanStep.workerExit s j lane hp hl hw hjc (by simpa using hrc)
    · simp at h
  · rename_i tx hw
    simp only at h
    cases h
    exact FanStep.score s j lane tx hp hl hw
  · rename_i r hw
    split at h
    · rename_i hrc
      cases h
      exact FanStep.emitPanic s j lane r hp hl hw hrc
    · rename_i hrc
      split at h
      · rename_i hf
        cases h
        exact FanStep.emit s j lane r hp hl hw (by simpa using hrc) hf
      · simp at h
  · simp at h

theorem fanInStep_sound (sc : Scorer) (txs : List Transaction) (numWorkers : ℤ)
    (s s' : FanState) (j : ℕ) (lane : Lane) (hp : s.panicked = false)
    (hl : s.lanes[j]? = some lane) (h : fanInStep s j lane = some s') :
    FanStep sc txs numWorkers s s' := by
  unfold fanInStep at h
  split at h
  · simp at h
  · rename_i hf
    split at h
    · rename_i hrc
      split at h
      · rename_i n hn
        obtain ⟨h1, h2⟩ := wgDone_eq_some _ _ hn
        subst h2
        cases h
        exact FanStep.fwdExit s j lane hp hl hf hrc h1
      · rename_i hn
        cases h
        exact FanStep.fwdExitPanic s j lane hp hl hf hrc (wgDone_eq_none _ hn)
    · simp at h
  · rename_i r hf
    split at h
    · rename_i hc
      cases h
      exact FanStep.fwdSendPanic s j lane r hp hl hf hc
    · rename_i hc
      split at h
      · rename_i hm
        cases h
        exact FanStep.fwdSend s j lane r hp hl hf (by simpa using hc) hm
      · simp at h
  · simp at h

theorem fanCloserStep_sound (sc : Scorer) (txs : List Transaction) (numWorkers : ℤ)
    (s s' : FanState) (hp : s.panicked = false) (h : fanCloserStep s = some s') :
    FanStep sc txs numWorkers s s' := by
  unfold fanCloserStep at h
  split at h
  · simp at h
  · rename_i hc
    split at h
    · rename_i hwg
      cases h
      exact FanStep.waited s hp hc hwg
    · simp at h
  · rename_i hc
    split at h
    · rename_i hcl
      cases h
      exact FanStep.closeOutPanic s hp hc hcl
    · rename_i hcl
      cases h
      exact FanStep.closeOut s hp hc (by simpa using hcl)
  · simp at h

theorem fanStep_sound (sc : Scorer) (txs : List Transaction) (numWorkers : ℤ)
    (s s' : FanState) (a : FanAct) (h : fanStep sc txs numWorkers s a = some s') :
    FanStep sc txs numWorkers s s' := by
  unfold fanStep at h
  by_cases hp : s.panicked = true
  · simp [hp] at h
  have hp' : s.panicked = false := by simpa using hp
  simp only [hp', Bool.false_eq_true, if_false] at h
  cases a with
  | main => exact fanMainStep_sound sc txs numWorkers s s' hp' h
  | dist => exact fanOutStep_sound sc txs numWorkers s s' hp' h
  | worker j =>
    simp only at h
    split at h
    · rename_i lane hl
      exact fanWorkerStep_sound sc txs numWorkers s s' j lane hp' hl h
    · simp at h
  | fwd j =>
    simp only at h
    split at h
    · rename_i lane hl
      exact fanInStep_sound sc txs numWorkers s s' j lane hp' hl h
    · simp at h
  | closer => exact fanCloserStep_sound sc txs numWorkers s s' hp' h

theorem fanStep_complete {sc : Scorer} {txs : List Transaction} {numWorkers : ℤ}
    {s s' : FanState} (h : FanStep sc txs numWorkers s s') :
    ∃ a, fanStep sc txs numWorkers s a = some s' := by
  cases h
  case fanOut hp hm hw => exact ⟨FanAct.main, by simp [fanStep, fanMainStep, hp, hm, hw]⟩
  case fanOutPanic hp hm hw => exact ⟨FanAct.main, by simp [fanStep, fanMainStep, hp, hm, hw]⟩
  case spawnWorker i lane hp hm hi hl =>
    exact ⟨FanAct.main, by simp [fanStep, fanMainStep, hp, hm, hi, hl]⟩
  case spawnWorkerPanic i hp hm hi hl =>
    exact ⟨FanAct.main, by simp [fanStep, fanMainStep, hp, hm, hi, hl]⟩
  case spawnWorkerEnd i hp hm hi =>
    exact ⟨FanAct.main, by simp [fanStep, fanMainStep, hp, hm, hi]⟩
  case fanIn j lane hp hm hl => exact ⟨FanAct.main, by simp [fanStep, fanMainStep, hp, hm, hl]⟩
  case fanInEnd j hp hm hl => exact ⟨FanAct.main, by simp [fanStep, fanMainStep, hp, hm, hl]⟩
  case goCloser hp hm => exact ⟨FanAct.main, by simp [fanStep, fanMainStep, hp, hm]⟩
  case ret hp hm hclosed => exact ⟨FanAct.main, by simp [fanStep, fanMainStep, hp, hm, hclosed]⟩
  case send i tx lane hp hd htx hw hl hopen hidle =>
    exact ⟨FanAct.dist, by simp [fanStep, fanOutStep, hp, hd, htx, hw, hl, hopen, hidle]⟩
  case sendPanicZero i tx hp hd htx hw =>
    exact ⟨FanAct.dist, by simp [fanStep, fanOutStep, hp, hd, htx, hw]⟩
  case sendPanicRange i tx hp hd htx hw hl =>
    exact ⟨FanAct.dist, by simp [fanStep, fanOutStep, hp, hd, htx, hw, hl]⟩
  case sendPanicClosed i tx lane hp hd htx hw hl hclosed =>
    exact ⟨FanAct.dist, by simp [fanStep, fanOutStep, hp, hd, htx, hw, hl, hclosed]⟩
  case sendEnd i hp hd htx => exact ⟨FanAct.dist, by simp [fanStep, fanOutStep, hp, hd, htx]⟩
  case closeJob j lane hp hd hl hopen =>
    exact ⟨FanAct.dist, by simp [fanStep, fanOutStep, hp, hd, hl, hopen]⟩
  case closeJobPanic j lane hp hd hl hclosed =>
    exact ⟨FanAct.dist, by simp [fanStep, fanOutStep, hp, hd, hl, hclosed]⟩
  case closeEnd j hp hd hl => exact ⟨FanAct.dist, by simp [fanStep, fanOutStep, hp, hd, hl]⟩
  case workerExit j lane hp hl hw hjc hro =>
    exact ⟨FanAct.worker j, by simp [fanStep, fanWorkerStep, hp, hl, hw, hjc, hro]⟩
  case workerExitPanic j lane hp hl hw hjc hrc =>
    exact ⟨FanAct.worker j, by simp [fanStep, fanWorkerStep, hp, hl, hw, hjc, hrc]⟩
  case score j lane tx hp hl hw =>
    exact ⟨FanAct.worker j, by simp [fanStep, fanWorkerStep, hp, hl, hw]⟩
  case emit j lane r hp hl hw hro hf =>
    exact ⟨FanAct.worker j, by simp [fanStep, fanWorkerStep, hp, hl, hw, hro, hf]⟩
  case emitPanic j lane r hp hl hw hrc =>
    exact ⟨FanAct.worker j, by simp [fanStep, fanWorkerStep, hp, hl, hw, hrc]⟩
  case fwdExit j lane hp hl hf hrc hwg =>
    exact ⟨FanAct.fwd j, by simp [fanStep, fanInStep, hp, hl, hf, hrc, wgDone, hwg]⟩
  case fwdExitPanic j lane hp hl hf hrc hwg =>
    exact ⟨FanAct.fwd j, by simp [fanStep, fanInStep, hp, hl, hf, hrc, wgDone, hwg]⟩
  case fwdSend j lane r hp hl hf hopen hm =>
    exact ⟨FanAct.fwd j, by simp [fanStep, fanInStep, hp, hl, hf, hopen, hm]⟩
  case fwdSendPanic j lane r hp hl hf hclosed =>
    exact ⟨FanAct.fwd j, by simp [fanStep, fanInStep, hp, hl, hf, hclosed]⟩
  case waited hp hc hwg => exact ⟨FanAct.closer, by simp [fanStep, fanCloserStep, hp, hc, hwg]⟩
  case closeOut hp hc hopen => exact ⟨FanAct.closer, by simp [fanStep, fanCloserStep, hp, hc, hopen]⟩
  case closeOutPanic hp hc hclosed =>
    exact ⟨FanAct.closer, by simp [fanStep, fanCloserStep, hp, hc, hclosed]⟩

/-! ## Fan-out/fan-in machine: results are well formed and counted, nothing is lost -/

theorem FanStep.fanCounts {sc : Scorer} {txs : List Transaction} {numWorkers : ℤ}
    {s s' : FanState} (h : FanStep sc txs numWorkers s s')
    (hc : countsOK s.success s.errors s.results) : countsOK s'.success s'.errors s'.results := by
  cases h
  case fwdSend j lane r hp hl hf hopen hm => exact countsOK_snoc _ _ _ r hc
  all_goals exact hc

theorem FanWorker.fan_take_OK (G : Transaction → F64 → Prop) (tx : Transaction) :
    FanWorker.OK G (FanWorker.take tx) := by
  unfold FanWorker.take
  cases hv : ValidateTransaction tx with
  | none => exact hv
  | some err => exact resultOK_errResult G tx err hv

theorem FanStep.fanResultsOK {sc : Scorer} {txs : List Transaction} {numWorkers : ℤ}
    {G : Transaction → F64 → Prop}
    (hG : ∀ tx r, ValidateTransaction tx = none → G tx (sc tx r).score)
    {s s' : FanState} (h : FanStep sc txs numWorkers s s')
    (hi : s.ResultsOK G) : s'.ResultsOK G := by
  obtain ⟨h1, h2⟩ := hi
  cases h
  case fanOut hp hm hw =>
    refine ⟨h1, ?_⟩
    intro lane hlane
    rw [List.eq_of_mem_replicate hlane]
    exact ⟨trivial, trivial⟩
  case spawnWorker i lane hp hm hi hl =>
    exact ⟨h1, forall_mem_set _ _ _ _ h2 ⟨trivial, (h2 _ (mem_of_getElem?_eq_some hl)).2⟩⟩
  case fanIn j lane hp hm hl =>
    exact ⟨h1, forall_mem_set _ _ _ _ h2 ⟨(h2 _ (mem_of_getElem?_eq_some hl)).1, trivial⟩⟩
  case send i tx lane hp hd htx hw hl hopen hidle =>
    exact ⟨h1, forall_mem_set _ _ _ _ h2
      ⟨FanWorker.fan_take_OK G tx, (h2 _ (mem_of_getElem?_eq_some hl)).2⟩⟩
  case closeJob j lane hp hd hl hopen =>
    have hlane := h2 _ (mem_of_getElem?_eq_some hl)
    exact ⟨h1, forall_mem_set _ _ _ _ h2 ⟨hlane.1, hlane.2⟩⟩
  case workerExit j lane hp hl hw hjc hro =>
    exact ⟨h1, forall_mem_set _ _ _ _ h2 ⟨trivial, (h2 _ (mem_of_getElem?_eq_some hl)).2⟩⟩
  case score j lane tx hp hl hw =>
    have hv := (h2 _ (mem_of_getElem?_eq_some hl)).1
    rw [hw] at hv
    exact ⟨h1, forall_mem_set _ _ _ _ h2
      ⟨resultOK_okResult G tx _ hv (hG tx s.rand hv), (h2 _ (mem_of_getElem?_eq_some hl)).2⟩⟩
  case emit j lane r hp hl hw hro hf =>
    have hr := (h2 _ (mem_of_getElem?_eq_some hl)).1
    rw [hw] at hr
    exact ⟨h1, forall_mem_set _ _ _ _ h2 ⟨trivial, hr⟩⟩
  case fwdExit j lane hp hl hf hrc hwg =>
    exact ⟨h1, forall_mem_set _ _ _ _ h2 ⟨(h2 _ (mem_of_getElem?_eq_some hl)).1, trivial⟩⟩
  case fwdSend j lane r hp hl hf hopen hm =>
    have hr := (h2 _ (mem_of_getElem?_eq_some hl)).2
    rw [hf] at hr
    refine ⟨?_, forall_mem_set _ _ _ _ h2 ⟨(h2 _ (mem_of_getElem?_eq_some hl)).1, trivial⟩⟩
    intro x hx
    rcases List.mem_append.mp hx with hx | hx
    · exact h1 x hx
    · simp only [List.mem_singleton] at hx
      subst hx
      exact hr
  all_goals exact ⟨h1, h2⟩

theorem FanWorker.take_holding (tx : Transaction) : (FanWorker.take tx).holding = {tx} := by
  unfold FanWorker.take
  cases ValidateTransaction tx <;> simp [FanWorker.holding, errResult_Transaction]

theorem conserve_set {M : Type} [AddCancelCommMonoid M] (R R' A B U U' x y : M)
    (hset : A + x = B + y) (h : R' + y + U' = R + x + U) : R' + A + U' = R + B + U := by
  apply add_right_cancel (b := x)
  calc R' + A + U' + x = R' + (A + x) + U' := by abel
    _ = R' + (B + y) + U' := by rw [hset]
    _ = B + (R' + y + U') := by abel
    _ = B + (R + x + U) := by rw [h]
    _ = R + B + U + x := by abel

theorem FanStep.fanConserved {sc : Scorer} {txs : List Transaction} {numWorkers : ℤ}
    {s s' : FanState} (h : FanStep sc txs numWorkers s s')
    (hc : s.Conserved txs) (hph : s.Phased numWorkers) : s'.Conserved txs := by
  unfold FanState.Conserved FanState.everywhere at *
  cases h
  case fanOut hp hm hw =>
    have hmain := hph.main
    rw [hm] at hmain
    obtain ⟨hl, hd, -⟩ := hmain
    rw [hl, hd] at hc
    rw [← hc]
    simp [Distributor.unsent, Lane.holding, Lane.fresh, FanWorker.holding, Forwarder.holding]
  case spawnWorker i lane hp hm hi hl =>
    have hset := sum_map_set Lane.holding s.lanes i _ { lane with worker := FanWorker.idle } hl
    have hli := (hph.lanes i lane hl).2.1
    rw [hm] at hli
    have hns : lane.worker = FanWorker.notStarted := hli.mpr (le_refl _)
    rw [← hc]
    refine conserve_set _ _ _ _ _ _ _ _ hset ?_
    simp [Lane.holding, hns, FanWorker.holding]
  case fanIn j lane hp hm hl =>
    have hset := sum_map_set Lane.holding s.lanes j _ { lane with fwd := Forwarder.idle } hl
    have hli := (hph.lanes j lane hl).2.2.1
    rw [hm] at hli
    have hns : lane.fwd = Forwarder.notStarted := hli.mpr (le_refl _)
    rw [← hc]
    refine conserve_set _ _ _ _ _ _ _ _ hset ?_
    simp [Lane.holding, hns, Forwarder.holding]
  case send i tx lane hp hd htx hw hl hopen hidle =>
    have hset := sum_map_set Lane.holding s.lanes _ _ { lane with worker := FanWorker.take tx } hl
    have hdrop : txs.drop i = tx :: txs.drop (i + 1) := by
      rw [List.getElem?_eq_some] at htx
      obtain ⟨hi, rfl⟩ := htx
      exact List.drop_eq_getElem_cons hi
    rw [← hc]
    refine conserve_set _ _ _ _ _ _ _ _ hset ?_
    simp only [hd, Distributor.unsent, hdrop, coe_cons_eq_add, Lane.holding]
    simp only [FanWorker.take_holding, hidle]
    simp only [FanWorker.holding]
    abel
  case sendEnd i hp hd htx =>
    have hdrop : txs.drop i = [] := by
      rw [List.getElem?_eq_none_iff] at htx
      exact List.drop_eq_nil_of_le htx
    simpa [hd, Distributor.unsent, hdrop] using hc
  case closeJob j lane hp hd hl hopen =>
    have hset := sum_map_set Lane.holding s.lanes _ _ { lane with jobClosed := true } hl
    rw [← hc]
    refine conserve_set _ _ _ _ _ _ _ _ hset ?_
    simp [hd, Distributor.unsent, Lane.holding]
  case closeEnd j hp hd hl =>
    simpa [hd, Distributor.unsent] using hc
  case workerExit j lane hp hl hw hjc hro =>
    have hset := sum_map_set Lane.holding s.lanes _ _
      { lane with worker := FanWorker.exited, resClosed := true } hl
    rw [← hc]
    refine conserve_set _ _ _ _ _ _ _ _ hset ?_
    simp [Lane.holding, hw, FanWorker.holding]
  case score j lane tx hp hl hw =>
    have hset := sum_map_set Lane.holding s.lanes _ _
      { lane with worker := FanWorker.emit (okResult tx (sc tx s.rand).score) } hl
    rw [← hc]
    refine conserve_set _ _ _ _ _ _ _ _ hset ?_
    simp [Lane.holding, hw, FanWorker.holding, okResult_Transaction]
  case emit j lane r hp hl hw hro hf =>
    have hset := sum_map_set Lane.holding s.lanes _ _
      { lane with worker := FanWorker.idle, fwd := Forwarder.hold r } hl
    rw [← hc]
    refine conserve_set _ _ _ _ _ _ _ _ hset ?_
    simp [Lane.holding, hw, hf, FanWorker.holding, Forwarder.holding]
  case fwdExit j lane hp hl hf hrc hwg =>
    have hset := sum_map_set Lane.holding s.lanes _ _ { lane with fwd := Forwarder.exited } hl
    rw [← hc]
    refine conserve_set _ _ _ _ _ _ _ _ hset ?_
    simp [Lane.holding, hf, Forwarder.holding]
  case fwdSend j lane r hp hl hf hopen hm =>
    have hset := sum_map_set Lane.holding s.lanes _ _ { lane with fwd := Forwarder.idle } hl
    rw [← hc]
    refine conserve_set _ _ _ _ _ _ _ _ hset ?_
    simp only [Lane.holding, hf, Forwarder.holding, List.map_append, List.map_cons, List.map_nil,
      coe_append_eq_add, coe_cons_eq_add, coe_nil_eq_zero]
    abel
  all_goals exact hc

/-! ## Fan-out/fan-in machine: structure -/

theorem getElem?_set_cases {β : Type} {l : List β} {j k : ℕ} {b c : β}
    (h : (l.set j b)[k]? = some c) : (k = j ∧ c = b) ∨ (k ≠ j ∧ l[k]? = some c) := by
  rw [List.getElem?_set] at h
  by_cases hjk : j = k
  · subst hjk
    simp only [if_true] at h
    split at h
    · left
      simp only [Option.some.injEq] at h
      exact ⟨rfl, h.symm⟩
    · simp at h
  · simp only [hjk, if_false] at h
    exact Or.inr ⟨fun h' => hjk h'.symm, h⟩

theorem lt_length_of_getElem? {β : Type} {l : List β} {k : ℕ} {b : β} (h : l[k]? = some b) :
    k < l.length := by
  rw [List.getElem?_eq_some] at h
  exact h.1

theorem FanMain.workerCond_congr {k : ℕ} {l l' : Lane} {m : FanMain}
    (h : l'.worker = FanWorker.notStarted ↔ l.worker = FanWorker.notStarted)
    (hc : FanMain.workerCond k l m) : FanMain.workerCond k l' m := by
  cases m <;> simp only [FanMain.workerCond, h, ne_eq] at * <;> exact hc

theorem FanMain.fwdCond_congr {k : ℕ} {l l' : Lane} {m : FanMain}
    (h : l'.fwd = Forwarder.notStarted ↔ l.fwd = Forwarder.notStarted)
    (hc : FanMain.fwdCond k l m) : FanMain.fwdCond k l' m := by
  cases m <;> simp only [FanMain.fwdCond, h, ne_eq] at * <;> exact hc

theorem Distributor.jobCond_congr {k : ℕ} {l l' : Lane} {d : Distributor}
    (h : l'.jobClosed = l.jobClosed) (hc : Distributor.jobCond k l d) :
    Distributor.jobCond k l' d := by
  cases d <;> simp only [Distributor.jobCond, h] at * <;> exact hc

theorem FanWorker.take_ne_notStarted (tx : Transaction) : FanWorker.take tx ≠ FanWorker.notStarted := by
  unfold FanWorker.take
  cases ValidateTransaction tx <;> simp

theorem FanWorker.take_ne_exited (tx : Transaction) : FanWorker.take tx ≠ FanWorker.exited := by
  unfold FanWorker.take
  cases ValidateTransaction tx <;> simp

/-- A step that rewrites one lane and leaves the phases alone preserves the structure,
provided the new lane satisfies the lane invariant and the WaitGroup counter follows. -/
theorem FanState.Phased.set_lane {numWorkers : ℤ} {s s' : FanState} (hph : s.Phased numWorkers)
    (j : ℕ) (lane lane' : Lane) (hl : s.lanes[j]? = some lane)
    (hlanes : s'.lanes = s.lanes.set j lane') (hmain : s'.main = s.main)
    (hdist : s'.dist = s.dist) (hcloser : s'.closer = s.closer)
    (hout : s'.outClosed = s.outClosed)
    (hinv : LaneInv s.main s.dist j lane')
    (hwg : s'.wg + Forwarder.active lane.fwd = s.wg + Forwarder.active lane'.fwd)
    (hwg0 : s.wg = 0 → s'.wg = 0) : s'.Phased numWorkers := by
  refine ⟨?_, ?_, ?_, ?_⟩
  · have := hph.main
    rw [hmain, hlanes, hdist, hcloser, List.length_set]
    cases hm : s.main <;> rw [hm] at this <;> try exact this
    obtain ⟨h1, -, -⟩ := this
    rw [h1] at hl
    simp at hl
  · have := hph.closer
    rw [hcloser, hout]
    cases hc : s.closer <;> rw [hc] at this
    · exact this
    · exact this
    · exact ⟨hwg0 this.1, this.2⟩
    · exact ⟨hwg0 this.1, this.2⟩
  · intro k l hk
    rw [hlanes] at hk
    rw [hmain, hdist]
    rcases getElem?_set_cases hk with ⟨rfl, rfl⟩ | ⟨-, hk'⟩
    · exact hinv
    · exact hph.lanes k l hk'
  · have hset := sum_map_set (fun l => Forwarder.active l.fwd) s.lanes j lane lane' hl
    have := hph.wg
    rw [hlanes]
    dsimp only at hset
    omega

theorem FanStep.fanPhased {sc : Scorer} {txs : List Transaction} {numWorkers : ℤ}
    {s s' : FanState} (h : FanStep sc txs numWorkers s s')
    (hph : s.Phased numWorkers) : s'.Phased numWorkers := by
  cases h
  case workerExit j lane hp hl hw hjc hro =>
    obtain ⟨hok, hwc, hfc, hjcnd⟩ := hph.lanes j lane hl
    refine hph.set_lane j lane _ hl rfl rfl rfl rfl rfl ⟨?_, ?_, ?_, ?_⟩ rfl (fun h => h)
    · exact ⟨by simp, fun _ => hjc, fun _ => rfl⟩
    · exact FanMain.workerCond_congr (by simp [hw]) hwc
    · exact FanMain.fwdCond_congr Iff.rfl hfc
    · exact Distributor.jobCond_congr rfl hjcnd
  case score j lane tx hp hl hw =>
    obtain ⟨hok, hwc, hfc, hjcnd⟩ := hph.lanes j lane hl
    refine hph.set_lane j lane _ hl rfl rfl rfl rfl rfl ⟨?_, ?_, ?_, ?_⟩ rfl (fun h => h)
    · obtain ⟨h1, h2, h3⟩ := hok
      rw [hw] at h1
      exact ⟨by simpa using h1, by simp, h3⟩
    · exact FanMain.workerCond_congr (by simp [hw]) hwc
    · exact FanMain.fwdCond_congr Iff.rfl hfc
    · exact Distributor.jobCond_congr rfl hjcnd
  case emit j lane r hp hl hw hro hf =>
    obtain ⟨hok, hwc, hfc, hjcnd⟩ := hph.lanes j lane hl
    refine hph.set_lane j lane _ hl rfl rfl rfl rfl rfl ⟨?_, ?_, ?_, ?_⟩
      (by simp [hf, Forwarder.active]) (fun h => h)
    · exact ⟨by simp [hro], by simp, by simp⟩
    · exact FanMain.workerCond_congr (by simp [hw]) hwc
    · exact FanMain.fwdCond_congr (by simp [hf]) hfc
    · exact Distributor.jobCond_congr rfl hjcnd
  case fwdSend j lane r hp hl hf hopen hm =>
    obtain ⟨hok, hwc, hfc, hjcnd⟩ := hph.lanes j lane hl
    refine hph.set_lane j lane _ hl rfl rfl rfl rfl rfl ⟨?_, ?_, ?_, ?_⟩
      (by simp [hf, Forwarder.active]) (fun h => h)
    · exact ⟨hok.1, hok.2.1, by simp⟩
    · exact FanMain.workerCond_congr Iff.rfl hwc
    · exact FanMain.fwdCond_congr (by simp [hf]) hfc
    · exact Distributor.jobCond_congr rfl hjcnd
  case fwdExit j lane hp hl hf hrc hwg =>
    obtain ⟨hok, hwc, hfc, hjcnd⟩ := hph.lanes j lane hl
    refine hph.set_lane j lane _ hl rfl rfl rfl rfl rfl ⟨?_, ?_, ?_, ?_⟩
      (by simp only [hf, Forwarder.active]; omega) (fun h => absurd h hwg)
    · exact ⟨hok.1, hok.2.1, fun _ => hrc⟩
    · exact FanMain.workerCond_congr Iff.rfl hwc
    · exact FanMain.fwdCond_congr (by simp [hf]) hfc
    · exact Distributor.jobCond_congr rfl hjcnd
  case fanOut hp hm hw =>
    have hmain := hph.main
    rw [hm] at hmain
    obtain ⟨hl, hd, hc⟩ := hmain
    have hcl := hph.closer
    have hwg := hph.wg
    rw [hl] at hwg
    refine ⟨?_, hcl, ?_, ?_⟩
    · exact ⟨by simp, by omega, by simp, hc⟩
    · intro k l hk
      simp only [List.getElem?_replicate] at hk
      split at hk
      · simp only [Option.some.injEq] at hk
        subst hk
        refine ⟨⟨by simp [Lane.fresh], by simp [Lane.fresh], by simp [Lane.fresh]⟩, ?_, ?_, ?_⟩
        · simp [FanMain.workerCond, Lane.fresh]
        · simp [FanMain.fwdCond, Lane.fresh]
        · simp [Distributor.jobCond, Lane.fresh]
      · simp at hk
    · simp only [List.map_nil, List.sum_nil] at hwg
      simp [hwg, Lane.fresh, Forwarder.active]
  case spawnWorker i lane hp hm hi hl =>
    have hmain := hph.main
    rw [hm] at hmain
    obtain ⟨hlen, hile, hd, hc⟩ := hmain
    obtain ⟨hok, hwc, hfc, hjcnd⟩ := hph.lanes i lane hl
    rw [hm] at hwc hfc
    have hns : lane.worker = FanWorker.notStarted := hwc.mpr (le_refl _)
    refine ⟨?_, hph.closer, ?_, ?_⟩
    · exact ⟨by simp [hlen], by omega, hd, hc⟩
    · intro k l hk
      rcases getElem?_set_cases hk with ⟨rfl, rfl⟩ | ⟨hne, hk'⟩
      · refine ⟨?_, ?_, hfc, Distributor.jobCond_congr rfl hjcnd⟩
        · obtain ⟨h1, h2, h3⟩ := hok
          rw [hns] at h1
          exact ⟨by simpa using h1, by simp, h3⟩
        · simp [FanMain.workerCond]
      · obtain ⟨hok', hwc', hfc', hjc'⟩ := hph.lanes k l hk'
        rw [hm] at hwc' hfc'
        refine ⟨hok', ?_, hfc', hjc'⟩
        simp only [FanMain.workerCond] at hwc' ⊢
        rw [hwc']
        omega
    · have hset := sum_map_set (fun l => Forwarder.active l.fwd) s.lanes i lane
        { lane with worker := FanWorker.idle } hl
      have := hph.wg
      dsimp only at hset ⊢
      omega
  case spawnWorkerEnd i hp hm hi =>
    have hmain := hph.main
    rw [hm] at hmain
    obtain ⟨hlen, hile, hd, hc⟩ := hmain
    refine ⟨⟨hlen, hd, hc⟩, hph.closer, ?_, hph.wg⟩
    intro k l hk
    obtain ⟨hok', hwc', hfc', hjc'⟩ := hph.lanes k l hk
    rw [hm] at hwc' hfc'
    have hklt := lt_length_of_getElem? hk
    dsimp only at hklt
    refine ⟨hok', ?_, ?_, hjc'⟩
    · simp only [FanMain.workerCond] at hwc' ⊢
      intro h
      have := hwc'.mp h
      omega
    · simp only [FanMain.fwdCond] at hfc' ⊢
      simp [hfc']
  case fanIn j lane hp hm hl =>
    have hmain := hph.main
    rw [hm] at hmain
    obtain ⟨hlen, hd, hc⟩ := hmain
    obtain ⟨hok, hwc, hfc, hjcnd⟩ := hph.lanes j lane hl
    rw [hm] at hwc hfc
    have hns : lane.fwd = Forwarder.notStarted := hfc.mpr (le_refl _)
    refine ⟨?_, ?_, ?_, ?_⟩
    · exact ⟨by simp [hlen], hd, hc⟩
    · have := hph.closer
      rw [hc] at this
      dsimp only
      rw [hc]
      exact this
    · intro k l hk
      rcases getElem?_set_cases hk with ⟨rfl, rfl⟩ | ⟨hne, hk'⟩
      · refine ⟨⟨hok.1, hok.2.1, by simp⟩, hwc, ?_, Distributor.jobCond_congr rfl hjcnd⟩
        simp [FanMain.fwdCond]
      · obtain ⟨hok', hwc', hfc', hjc'⟩ := hph.lanes k l hk'
        rw [hm] at hwc' hfc'
        refine ⟨hok', hwc', ?_, hjc'⟩
        simp only [FanMain.fwdCond] at hfc' ⊢
        rw [hfc']
        omega
    · have hset := sum_map_set (fun l => Forwarder.active l.fwd) s.lanes j lane
        { lane with fwd := Forwarder.idle } hl
      have := hph.wg
      have e1 : Forwarder.active lane.fwd = 0 := by rw [hns]; rfl
      have e2 : Forwarder.active Forwarder.idle = 1 := rfl
      dsimp only at hset ⊢
      omega
  case fanInEnd j hp hm hl =>
    have hmain := hph.main
    rw [hm] at hmain
    refine ⟨hmain, hph.closer, ?_, hph.wg⟩
    intro k l hk
    obtain ⟨hok', hwc', hfc', hjc'⟩ := hph.lanes k l hk
    rw [hm] at hwc' hfc'
    have hklt := lt_length_of_getElem? hk
    have hjge : s.lanes.length ≤ j := by
      rw [List.getElem?_eq_none_iff] at hl
      exact hl
    dsimp only at hklt
    refine ⟨hok', hwc', ?_, hjc'⟩
    simp only [FanMain.fwdCond] at hfc' ⊢
    intro h
    have := hfc'.mp h
    omega
  case goCloser hp hm =>
    have hmain := hph.main
    rw [hm] at hmain
    obtain ⟨hlen, hd, hc⟩ := hmain
    have hcl := hph.closer
    rw [hc] at hcl
    refine ⟨⟨hlen, hd, by simp⟩, hcl, ?_, hph.wg⟩
    intro k l hk
    obtain ⟨hok', hwc', hfc', hjc'⟩ := hph.lanes k l hk
    rw [hm] at hwc' hfc'
    exact ⟨hok', hwc', hfc', hjc'⟩
  case ret hp hm hclosed =>
    have hmain := hph.main
    rw [hm] at hmain
    obtain ⟨hlen, hd, hc⟩ := hmain
    have hcl := hph.closer
    refine ⟨⟨hlen, hd, ?_⟩, hcl, ?_, hph.wg⟩
    · cases hcs : s.closer <;> rw [hcs] at hcl <;> simp_all
    · intro k l hk
      obtain ⟨hok', hwc', hfc', hjc'⟩ := hph.lanes k l hk
      rw [hm] at hwc' hfc'
      exact ⟨hok', hwc', hfc', hjc'⟩
  case send i tx lane hp hd htx hw hl hopen hidle =>
    obtain ⟨hok, hwc, hfc, hjcnd⟩ := hph.lanes _ lane hl
    refine ⟨?_, hph.closer, ?_, ?_⟩
    · have := hph.main
      dsimp only
      rw [List.length_set]
      cases hm : s.main <;> rw [hm] at this <;> simp_all
    · intro k l hk
      rcases getElem?_set_cases hk with ⟨rfl, rfl⟩ | ⟨hne, hk'⟩
      · refine ⟨?_, ?_, FanMain.fwdCond_congr Iff.rfl hfc, ?_⟩
        · obtain ⟨h1, h2, h3⟩ := hok
          rw [hidle] at h1
          exact ⟨by simpa [FanWorker.take_ne_exited] using h1,
            fun h => absurd h (FanWorker.take_ne_exited tx), h3⟩
        · exact FanMain.workerCond_congr (by simp [hidle, FanWorker.take_ne_notStarted]) hwc
        · rw [hd] at hjcnd
          exact hjcnd
      · obtain ⟨hok', hwc', hfc', hjc'⟩ := hph.lanes k l hk'
        rw [hd] at hjc'
        exact ⟨hok', hwc', hfc', hjc'⟩
    · have hset := sum_map_set (fun l => Forwarder.active l.fwd) s.lanes _ lane
        { lane with worker := FanWorker.take tx } hl
      have := hph.wg
      dsimp only at hset ⊢
      omega
  case sendEnd i hp hd htx =>
    refine ⟨?_, hph.closer, ?_, hph.wg⟩
    · have := hph.main
      dsimp only
      cases hm : s.main <;> rw [hm] at this <;> simp_all
    · intro k l hk
      obtain ⟨hok', hwc', hfc', hjc'⟩ := hph.lanes k l hk
      rw [hd] at hjc'
      refine ⟨hok', hwc', hfc', ?_⟩
      simp only [Distributor.jobCond] at hjc' ⊢
      simp [hjc']
  case closeJob j lane hp hd hl hopen =>
    obtain ⟨hok, hwc, hfc, hjcnd⟩ := hph.lanes _ lane hl
    refine ⟨?_, hph.closer, ?_, ?_⟩
    · have := hph.main
      dsimp only
      rw [List.length_set]
      cases hm : s.main <;> rw [hm] at this <;> simp_all
    · intro k l hk
      rcases getElem?_set_cases hk with ⟨rfl, rfl⟩ | ⟨hne, hk'⟩
      · refine ⟨⟨hok.1, fun _ => rfl, hok.2.2⟩, FanMain.workerCond_congr Iff.rfl hwc,
          FanMain.fwdCond_congr Iff.rfl hfc, ?_⟩
        simp [Distributor.jobCond]
      · obtain ⟨hok', hwc', hfc', hjc'⟩ := hph.lanes k l hk'
        rw [hd] at hjc'
        refine ⟨hok', hwc', hfc', ?_⟩
        simp only [Distributor.jobCond] at hjc' ⊢
        rw [hjc']
        omega
    · have hset := sum_map_set (fun l => Forwarder.active l.fwd) s.lanes _ lane
        { lane with jobClosed := true } hl
      have := hph.wg
      dsimp only at hset ⊢
      omega
  case closeEnd j hp hd hl =>
    refine ⟨?_, hph.closer, ?_, hph.wg⟩
    · have := hph.main
      dsimp only
      cases hm : s.main <;> rw [hm] at this <;> simp_all
    · intro k l hk
      obtain ⟨hok', hwc', hfc', hjc'⟩ := hph.lanes k l hk
      rw [hd] at hjc'
      have hklt := lt_length_of_getElem? hk
      have hjge : s.lanes.length ≤ j := by
        rw [List.getElem?_eq_none_iff] at hl
        exact hl
      dsimp only at hklt
      refine ⟨hok', hwc', hfc', ?_⟩
      simp only [Distributor.jobCond] at hjc' ⊢
      rw [hjc']
      omega
  case waited hp hc hwg =>
    refine ⟨?_, ?_, hph.lanes, hph.wg⟩
    · have := hph.main
      dsimp only
      cases hm : s.main <;> rw [hm] at this <;> simp_all
    · have := hph.closer
      rw [hc] at this
      exact ⟨hwg, this⟩
  case closeOut hp hc hopen =>
    refine ⟨?_, ?_, hph.lanes, hph.wg⟩
    · have := hph.main
      dsimp only
      cases hm : s.main <;> rw [hm] at this <;> simp_all
    · have := hph.closer
      rw [hc] at this
      exact ⟨this.1, rfl⟩
  all_goals exact ⟨hph.main, hph.closer, hph.lanes, hph.wg⟩

/-! ## Fan-out/fan-in machine: no panic, termination, progress -/

theorem FanState.Phased.length_eq {numWorkers : ℤ} {s : FanState} (hph : s.Phased numWorkers)
    (hd : s.dist ≠ Distributor.notStarted) : s.lanes.length = numWorkers.toNat := by
  have := hph.main
  cases hm : s.main <;> rw [hm] at this
  · exact absurd this.2.1 hd
  · exact this.1
  · exact this.1
  · exact this.1
  · exact this.1
  · exact this.1

theorem FanStep.fanNoPanic {sc : Scorer} {txs : List Transaction} {numWorkers : ℤ}
    (hW : 0 < numWorkers) {s s' : FanState} (h : FanStep sc txs numWorkers s s')
    (hp0 : s.panicked = false) (hph : s.Phased numWorkers) : s'.panicked = false := by
  cases h
  case fanOutPanic hp hm hw => omega
  case spawnWorkerPanic i hp hm hi hl =>
    have := hph.main
    rw [hm] at this
    rw [List.getElem?_eq_none_iff] at hl
    omega
  case sendPanicZero i tx hp hd htx hw => omega
  case sendPanicRange i tx hp hd htx hw hl =>
    have hlen := hph.length_eq (by rw [hd]; simp)
    rw [List.getElem?_eq_none_iff] at hl
    have : i % numWorkers.toNat < numWorkers.toNat := Nat.mod_lt _ (by omega)
    omega
  case sendPanicClosed i tx lane hp hd htx hw hl hclosed =>
    have := (hph.lanes _ lane hl).2.2.2
    rw [hd] at this
    simp only [Distributor.jobCond] at this
    rw [this] at hclosed
    cases hclosed
  case closeJobPanic j lane hp hd hl hclosed =>
    have := (hph.lanes _ lane hl).2.2.2
    rw [hd] at this
    simp only [Distributor.jobCond] at this
    have := this.mp hclosed
    omega
  case workerExitPanic j lane hp hl hw hjc hrc =>
    have := (hph.lanes _ lane hl).1.1
    rw [hw] at this
    simp [hrc] at this
  case emitPanic j lane r hp hl hw hrc =>
    have := (hph.lanes _ lane hl).1.1
    rw [hw] at this
    simp [hrc] at this
  case fwdExitPanic j lane hp hl hf hrc hwg =>
    have h1 := le_sum_map_of_getElem? (fun l => Forwarder.active l.fwd) _ _ _ hl
    have h2 := hph.wg
    have e1 : Forwarder.active lane.fwd = 1 := by rw [hf]; rfl
    dsimp only at h1
    omega
  case fwdSendPanic j lane r hp hl hf hclosed =>
    have h1 := le_sum_map_of_getElem? (fun l => Forwarder.active l.fwd) _ _ _ hl
    have h2 := hph.wg
    have e1 : Forwarder.active lane.fwd = 1 := by rw [hf]; rfl
    dsimp only at h1
    have hcl := hph.closer
    cases hcs : s.closer <;> rw [hcs] at hcl
    · rw [hcl] at hclosed; cases hclosed
    · rw [hcl] at hclosed; cases hclosed
    · rw [hcl.2] at hclosed; cases hclosed
    · omega
  case closeOutPanic hp hc hclosed =>
    have hcl := hph.closer
    rw [hc] at hcl
    rw [hcl.2] at hclosed
    cases hclosed
  all_goals exact hp0

theorem FanStep.fanInv {sc : Scorer} {txs : List Transaction} {numWorkers : ℤ}
    (hW : 0 < numWorkers) {s s' : FanState} (h : FanStep sc txs numWorkers s s')
    (hi : s.Inv txs numWorkers) : s'.Inv txs numWorkers :=
  ⟨h.fanNoPanic hW hi.noPanic hi.phased, h.fanConserved hi.conserved hi.phased,
    h.fanPhased hi.phased⟩

theorem FanWorker.take_weight_le (tx : Transaction) : (FanWorker.take tx).weight ≤ 4 := by
  unfold FanWorker.take
  cases ValidateTransaction tx <;> simp [FanWorker.weight]

theorem sum_map_replicate_zero {β : Type} (f : β → ℕ) (b : β) (hb : f b = 0) :
    ∀ n, ((List.replicate n b).map f).sum = 0 := by
  intro n
  induction n with
  | zero => simp
  | succ n ih => simp [List.replicate_succ, hb, ih]

theorem FanStep.fanMeasure_lt {sc : Scorer} {txs : List Transaction} {numWorkers : ℤ}
    {s s' : FanState} (h : FanStep sc txs numWorkers s s') (hph : s.Phased numWorkers) :
    s'.measure txs numWorkers < s.measure txs numWorkers := by
  unfold FanState.measure
  cases h
  case fanOut hp hm hw =>
    have hz := sum_map_replicate_zero Lane.weight Lane.fresh rfl numWorkers.toNat
    simp only [hm, hp, FanMain.weight, Distributor.weight, hz, List.length_replicate]
    omega
  case spawnWorker i lane hp hm hi hl =>
    have hset := sum_map_set Lane.weight s.lanes i lane { lane with worker := FanWorker.idle } hl
    simp only [Lane.weight, FanWorker.weight] at hset
    simp only [hm, hp, FanMain.weight, List.length_set]
    omega
  case spawnWorkerEnd i hp hm hi =>
    simp only [hm, hp, FanMain.weight]
    omega
  case fanIn j lane hp hm hl =>
    have hset := sum_map_set Lane.weight s.lanes j lane { lane with fwd := Forwarder.idle } hl
    simp only [Lane.weight, Forwarder.weight] at hset
    have hmain := hph.main
    rw [hm] at hmain
    have := lt_length_of_getElem? hl
    simp only [hm, hp, FanMain.weight, List.length_set]
    omega
  case fanInEnd j hp hm hl =>
    simp only [hm, hp, FanMain.weight]
    omega
  case goCloser hp hm =>
    simp only [hm, hp, FanMain.weight, Closer.weight]
    cases s.closer <;> simp <;> omega
  case ret hp hm hclosed =>
    simp only [hm, hp, FanMain.weight]
    omega
  case send i tx lane hp hd htx hw hl hopen hidle =>
    have hset := sum_map_set Lane.weight s.lanes _ lane { lane with worker := FanWorker.take tx } hl
    have htw := FanWorker.take_weight_le tx
    have e1 : FanWorker.weight FanWorker.idle = 1 := rfl
    simp only [Lane.weight, hidle] at hset
    have hi : i < txs.length := lt_length_of_getElem? htx
    simp only [hd, hp, Distributor.weight, List.length_set]
    omega
  case sendEnd i hp hd htx =>
    simp only [hd, hp, Distributor.weight]
    rw [List.getElem?_eq_none_iff] at htx
    omega
  case closeJob j lane hp hd hl hopen =>
    have hset := sum_map_set Lane.weight s.lanes _ lane { lane with jobClosed := true } hl
    simp only [Lane.weight] at hset
    have := lt_length_of_getElem? hl
    simp only [hd, hp, Distributor.weight, List.length_set]
    omega
  case closeEnd j hp hd hl =>
    simp only [hd, hp, Distributor.weight]
    omega
  case workerExit j lane hp hl hw hjc hro =>
    have hset := sum_map_set Lane.weight s.lanes _ lane
      { lane with worker := FanWorker.exited, resClosed := true } hl
    simp only [Lane.weight, hw, FanWorker.weight] at hset
    simp only [List.length_set]
    omega
  case score j lane tx hp hl hw =>
    have hset := sum_map_set Lane.weight s.lanes _ lane
      { lane with worker := FanWorker.emit (okResult tx (sc tx s.rand).score) } hl
    simp only [Lane.weight, hw, FanWorker.weight] at hset
    simp only [List.length_set]
    omega
  case emit j lane r hp hl hw hro hf =>
    have hset := sum_map_set Lane.weight s.lanes _ lane
      { lane with worker := FanWorker.idle, fwd := Forwarder.hold r } hl
    simp only [Lane.weight, hw, hf, FanWorker.weight, Forwarder.weight] at hset
    simp only [List.length_set]
    omega
  case fwdExit j lane hp hl hf hrc hwg =>
    have hset := sum_map_set Lane.weight s.lanes _ lane { lane with fwd := Forwarder.exited } hl
    simp only [Lane.weight, hf, Forwarder.weight] at hset
    simp only [List.length_set]
    omega
  case fwdSend j lane r hp hl hf hopen hm =>
    have hset := sum_map_set Lane.weight s.lanes _ lane { lane with fwd := Forwarder.idle } hl
    simp only [Lane.weight, hf, Forwarder.weight] at hset
    simp only [List.length_set]
    omega
  case waited hp hc hwg =>
    simp only [hc, hp, Closer.weight]
    omega
  case closeOut hp hc hopen =>
    simp only [hc, hp, Closer.weight]
    omega
  all_goals (simp only [*]; simp)

/-- Progress: with at least one worker, some goroutine can always move until the
calling goroutine has returned. -/
theorem FanState.Inv.fanProgress (sc : Scorer) {txs : List Transaction} {numWorkers : ℤ}
    (hW : 0 < numWorkers) {s : FanState} (hi : s.Inv txs numWorkers)
    (hm : s.main ≠ FanMain.returned) : ∃ s', FanStep sc txs numWorkers s s' := by
  have hp := hi.noPanic
  have hph := hi.phased
  cases hmain : s.main with
  | returned => exact absurd hmain hm
  | fanOut => exact ⟨_, FanStep.fanOut s hp hmain (by omega)⟩
  | spawnWorker i =>
    by_cases hlt : (i : ℤ) < numWorkers
    · cases hl : s.lanes[i]? with
      | some lane => exact ⟨_, FanStep.spawnWorker s i lane hp hmain hlt hl⟩
      | none => exact ⟨_, FanStep.spawnWorkerPanic s i hp hmain hlt hl⟩
    · exact ⟨_, FanStep.spawnWorkerEnd s i hp hmain hlt⟩
  | fanIn j =>
    cases hl : s.lanes[j]? with
    | some lane => exact ⟨_, FanStep.fanIn s j lane hp hmain hl⟩
    | none => exact ⟨_, FanStep.fanInEnd s j hp hmain hl⟩
  | goCloser => exact ⟨_, FanStep.goCloser s hp hmain⟩
  | collect =>
    have hmc := hph.main
    rw [hmain] at hmc
    obtain ⟨hlen, hdn, hcn⟩ := hmc
    by_cases hoc : s.outClosed = true
    · exact ⟨_, FanStep.ret s hp hmain hoc⟩
    have hoo : s.outClosed = false := by simpa using hoc
    have hcl := hph.closer
    cases hcs : s.closer with
    | idle => exact absurd hcs hcn
    | done =>
      rw [hcs] at hcl
      rw [hcl.2] at hoo
      cases hoo
    | closing => exact ⟨_, FanStep.closeOut s hp hcs hoo⟩
    | waiting =>
      by_cases hwg : s.wg = 0
      · exact ⟨_, FanStep.waited s hp hcs hwg⟩
      have hpos : 0 < (s.lanes.map fun l => Forwarder.active l.fwd).sum := by
        have := hph.wg
        omega
      obtain ⟨j, lane, hl, hact⟩ := exists_of_sum_map_pos _ _ hpos
      obtain ⟨hok, hwc, hfc, hjc⟩ := hph.lanes j lane hl
      rw [hmain] at hwc hfc
      cases hf : lane.fwd with
      | notStarted => rw [hf] at hact; simp [Forwarder.active] at hact
      | exited => rw [hf] at hact; simp [Forwarder.active] at hact
      | hold r => exact ⟨_, FanStep.fwdSend s j lane r hp hl hf hoo hmain⟩
      | idle =>
        by_cases hrc : lane.resClosed = true
        · exact ⟨_, FanStep.fwdExit s j lane hp hl hf hrc hwg⟩
        have hro : lane.resClosed = false := by simpa using hrc
        cases hw : lane.worker with
        | notStarted => exact absurd hw hwc
        | exited => exact absurd (hok.1.mp hw) hrc
        | scoring tx => exact ⟨_, FanStep.score s j lane tx hp hl hw⟩
        | emit r => exact ⟨_, FanStep.emit s j lane r hp hl hw hro hf⟩
        | idle =>
          by_cases hjcl : lane.jobClosed = true
          · exact ⟨_, FanStep.workerExit s j lane hp hl hw hjcl hro⟩
          cases hd : s.dist with
          | notStarted => exact absurd hd hdn
          | done =>
            rw [hd] at hjc
            exact absurd hjc hjcl
          | close k =>
            cases hlk : s.lanes[k]? with
            | none => exact ⟨_, FanStep.closeEnd s k hp hd hlk⟩
            | some lk =>
              by_cases hkc : lk.jobClosed = true
              · exact ⟨_, FanStep.closeJobPanic s k lk hp hd hlk hkc⟩
              · exact ⟨_, FanStep.closeJob s k lk hp hd hlk (by simpa using hkc)⟩
          | send i =>
            cases htx : txs[i]? with
            | none => exact ⟨_, FanStep.sendEnd s i hp hd htx⟩
            | some tx =>
              have hw0 : numWorkers ≠ 0 := by omega
              cases hlt : s.lanes[i % numWorkers.toNat]? with
              | none => exact ⟨_, FanStep.sendPanicRange s i tx hp hd htx hw0 hlt⟩
              | some lt =>
                by_cases htc : lt.jobClosed = true
                · exact ⟨_, FanStep.sendPanicClosed s i tx lt hp hd htx hw0 hlt htc⟩
                have hto : lt.jobClosed = false := by simpa using htc
                obtain ⟨hok', hwc', hfc', -⟩ := hph.lanes _ lt hlt
                rw [hmain] at hwc' hfc'
                cases hwt : lt.worker with
                | notStarted => exact absurd hwt hwc'
                | exited => exact absurd (hok'.2.1 hwt) htc
                | idle => exact ⟨_, FanStep.send s i tx lt hp hd htx hw0 hlt hto hwt⟩
                | scoring tx' => exact ⟨_, FanStep.score s _ lt tx' hp hlt hwt⟩
                | emit r' =>
                  by_cases htr : lt.resClosed = true
                  · exact ⟨_, FanStep.emitPanic s _ lt r' hp hlt hwt htr⟩
                  cases hft : lt.fwd with
                  | notStarted => exact absurd hft hfc'
                  | exited => exact absurd (hok'.2.2 hft) htr
                  | idle => exact ⟨_, FanStep.emit s _ lt r' hp hlt hwt (by simpa using htr) hft⟩
                  | hold r'' => exact ⟨_, FanStep.fwdSend s _ lt r'' hp hlt hft hoo hmain⟩

theorem lane_holding_sum_zero :
    ∀ (l : List Lane), (∀ lane ∈ l, lane.worker = FanWorker.exited ∧ lane.fwd = Forwarder.exited) →
      (l.map Lane.holding).sum = 0 := by
  intro l
  induction l with
  | nil => intro _; simp
  | cons x xs ih =>
    intro h
    obtain ⟨h1, h2⟩ := h x (List.mem_cons_self _ _)
    simp only [List.map_cons, List.sum_cons, Lane.holding, h1, h2, FanWorker.holding,
      Forwarder.holding, zero_add]
    exact ih (fun w hw => h w (List.mem_cons_of_mem _ hw))

theorem forall_zero_of_sum_map_zero {β : Type} (f : β → ℕ) :
    ∀ (l : List β), (l.map f).sum = 0 → ∀ b ∈ l, f b = 0 := by
  intro l
  induction l with
  | nil => intro _ b hb; simp at hb
  | cons x xs ih =>
    intro h b hb
    simp only [List.map_cons, List.sum_cons] at h
    rcases List.mem_cons.mp hb with hb | hb
    · subst hb
      omega
    · exact ih (by omega) b hb

/-- Once the calling goroutine has returned, with at least one worker, the collected
results carry exactly the transactions of the batch. -/
theorem FanState.Inv.fanReturned {txs : List Transaction} {numWorkers : ℤ} {s : FanState}
    (hi : s.Inv txs numWorkers) (hW : 0 < numWorkers) (hm : s.main = FanMain.returned) :
    (s.results.map ProcessingResult.Transaction : Multiset Transaction) = (txs : Multiset Transaction) := by
  have hph := hi.phased
  have hmc := hph.main
  rw [hm] at hmc
  obtain ⟨hlen, hdn, hcd⟩ := hmc
  have hcl := hph.closer
  rw [hcd] at hcl
  have hact : (s.lanes.map fun l => Forwarder.active l.fwd).sum = 0 := by
    rw [← hph.wg]
    exact hcl.1
  have hzero := forall_zero_of_sum_map_zero _ _ hact
  have hall : ∀ lane ∈ s.lanes,
      (lane.worker = FanWorker.exited ∧ lane.fwd = Forwarder.exited) ∧ lane.jobClosed = true := by
    intro lane hlane
    obtain ⟨k, hk⟩ := List.mem_iff_getElem?.mp hlane
    obtain ⟨hok, hwc, hfc, hjc⟩ := hph.lanes k lane hk
    rw [hm] at hfc
    have hz := hzero lane hlane
    have hfe : lane.fwd = Forwarder.exited := by
      cases hf : lane.fwd with
      | notStarted => exact absurd hf hfc
      | idle => rw [hf] at hz; simp [Forwarder.active] at hz
      | hold r => rw [hf] at hz; simp [Forwarder.active] at hz
      | exited => rfl
    have hwe : lane.worker = FanWorker.exited := hok.1.mpr (hok.2.2 hfe)
    exact ⟨⟨hwe, hfe⟩, hok.2.1 hwe⟩
  have hne : s.lanes ≠ [] := by
    intro h
    rw [h] at hlen
    simp only [List.length_nil] at hlen
    omega
  obtain ⟨lane0, hl0⟩ := List.exists_mem_of_ne_nil _ hne
  obtain ⟨k0, hk0⟩ := List.mem_iff_getElem?.mp hl0
  have hjc0 := (hph.lanes k0 lane0 hk0).2.2.2
  have hj0 := (hall lane0 hl0).2
  have hunsent : Distributor.unsent txs s.dist = [] := by
    cases hd : s.dist with
    | notStarted => exact absurd hd hdn
    | send i =>
      rw [hd] at hjc0
      simp only [Distributor.jobCond] at hjc0
      rw [hjc0] at hj0
      cases hj0
    | close j => rfl
    | done => rfl
  have hcons := hi.conserved
  unfold FanState.Conserved FanState.everywhere at hcons
  rw [hunsent, lane_holding_sum_zero _ (fun lane hlane => (hall lane hlane).1)] at hcons
  simpa using hcons

theorem fanInit_inv (txs : List Transaction) (numWorkers : ℤ) (r : Rand) :
    (fanInit r).Inv txs numWorkers := by
  refine ⟨rfl, ?_, ⟨?_, ?_, ?_, ?_⟩⟩
  · simp [FanState.Conserved, FanState.everywhere, fanInit, Distributor.unsent]
  · simp [fanInit]
  · simp [fanInit]
  · intro k l hk
    simp [fanInit] at hk
  · simp [fanInit]

/-- Every reachable state of the fan-out/fan-in machine satisfies the invariants. -/
theorem fan_reachable_inv (sc : Scorer) (txs : List Transaction) (numWorkers : ℤ)
    (hW : 0 < numWorkers) (r : Rand) :
    ∀ s, (ProcessTransactionsWithFanOutFanInWith sc txs numWorkers r).Reachable s →
      s.Inv txs numWorkers ∧ countsOK s.success s.errors s.results := by
  refine Machine.Reachable.induct _ ⟨fanInit_inv txs numWorkers r, countsOK_nil⟩ ?_
  intro s a s' ⟨ha, hc⟩ hst
  have hrel := fanStep_sound sc txs numWorkers s s' a hst
  exact ⟨hrel.fanInv hW ha, hrel.fanCounts hc⟩

theorem fan_reachable_counts (sc : Scorer) (txs : List Transaction) (numWorkers : ℤ) (r : Rand) :
    ∀ s, (ProcessTransactionsWithFanOutFanInWith sc txs numWorkers r).Reachable s →
      countsOK s.success s.errors s.results := by
  refine Machine.Reachable.induct _ countsOK_nil ?_
  intro s a s' hc hst
  exact (fanStep_sound sc txs numWorkers s s' a hst).fanCounts hc

theorem fan_reachable_resultsOK (sc : Scorer) (txs : List Transaction) (numWorkers : ℤ)
    (G : Transaction → F64 → Prop)
    (hG : ∀ tx r, ValidateTransaction tx = none → G tx (sc tx r).score) (r : Rand) :
    ∀ s, (ProcessTransactionsWithFanOutFanInWith sc txs numWorkers r).Reachable s →
      s.ResultsOK G := by
  refine Machine.Reachable.induct _ ?_ ?_
  · exact ⟨by simp [ProcessTransactionsWithFanOutFanInWith, fanInit],
      by simp [ProcessTransactionsWithFanOutFanInWith, fanInit]⟩
  · intro s a s' ha hst
    exact (fanStep_sound sc txs numWorkers s s' a hst).fanResultsOK hG ha

/-! ## Round-robin shares -/

theorem succ_div_mod (W k : ℕ) (hW : 0 < W) :
    (k % W + 1 < W ∧ (k + 1) / W = k / W ∧ (k + 1) % W = k % W + 1) ∨
      (k % W + 1 = W ∧ (k + 1) / W = k / W + 1 ∧ (k + 1) % W = 0) := by
  have hr : k % W < W := Nat.mod_lt _ hW
  have hk : W * (k / W) + k % W = k := Nat.div_add_mod k W
  by_cases h : k % W + 1 < W
  · left
    have e : k + 1 = (k % W + 1) + W * (k / W) := by omega
    refine ⟨h, ?_, ?_⟩
    · rw [e, Nat.add_mul_div_left _ _ hW, Nat.div_eq_of_lt h, zero_add]
    · rw [e, Nat.add_mul_mod_self_left, Nat.mod_eq_of_lt h]
  · right
    have h' : k % W + 1 = W := by omega
    have e : k + 1 = W * (k / W + 1) := by
      rw [Nat.mul_add, Nat.mul_one]
      omega
    refine ⟨h', ?_, ?_⟩
    · rw [e, Nat.mul_div_cancel_left _ hW]
    · rw [e]
      simp

theorem shareCount_zero (W j : ℕ) : shareCount W j 0 = 0 := by
  simp [shareCount]

theorem shareCount_succ (W j k : ℕ) (hW : 0 < W) (hj : j < W) :
    shareCount W j (k + 1) = shareCount W j k + (if k % W = j then 1 else 0) := by
  unfold shareCount
  rcases succ_div_mod W k hW with ⟨h1, h2, h3⟩ | ⟨h1, h2, h3⟩
  · rw [h2, h3]
    split_ifs <;> omega
  · rw [h2, h3]
    split_ifs <;> omega

/-- The index the distributor is at is the next one of the queue it selects. -/
theorem shareCount_index (W j k : ℕ) (h : k % W = j) : j + shareCount W j k * W = k := by
  unfold shareCount
  have hk : W * (k / W) + k % W = k := Nat.div_add_mod k W
  rw [← h]
  simp only [lt_self_iff_false, if_false, add_zero]
  rw [Nat.mul_comm]
  omega

/-- Sending transaction `k` extends the share of queue `k % W` by it and leaves the
other shares as they are. -/
theorem roundRobinShare_succ (txs : List Transaction) (W j k : ℕ) (hW : 0 < W) (hj : j < W)
    (tx : Transaction) (htx : txs[k]? = some tx) :
    roundRobinShare txs W j (k + 1) =
      roundRobinShare txs W j k ++ (if k % W = j then [tx] else []) := by
  unfold roundRobinShare
  rw [shareCount_succ W j k hW hj]
  by_cases h : k % W = j
  · simp only [h, if_true, List.range_succ, List.filterMap_append, List.filterMap_cons,
      List.filterMap_nil]
    rw [shareCount_index W j k h, htx]
  · simp [h]

theorem roundRobinShare_zero (txs : List Transaction) (W j : ℕ) :
    roundRobinShare txs W j 0 = [] := by
  simp [roundRobinShare, shareCount_zero]

/-- Every index counted by `shareCount` is below `k`. -/
theorem shareCount_lt (W j k m : ℕ) (hj : j < W) (hm : m < shareCount W j k) :
    j + m * W < k := by
  unfold shareCount at hm
  have hk : W * (k / W) + k % W = k := Nat.div_add_mod k W
  by_cases h : j < k % W
  · simp only [h, if_true] at hm
    have : m ≤ k / W := by omega
    have h2 : m * W ≤ k / W * W := Nat.mul_le_mul_right _ this
    rw [Nat.mul_comm (k / W) W] at h2
    omega
  · simp only [h, if_false, add_zero] at hm
    have : m + 1 ≤ k / W := by omega
    have h2 : (m + 1) * W ≤ k / W * W := Nat.mul_le_mul_right _ this
    rw [Nat.mul_comm (k / W) W, Nat.add_mul, Nat.one_mul] at h2
    omega

theorem filterMap_range_of_isSome {β : Type} (f : ℕ → Option β) :
    ∀ (n : ℕ), (∀ m, m < n → (f m).isSome = true) →
      ((List.range n).filterMap f).length = n ∧
        ∀ m, m < n → ((List.range n).filterMap f)[m]? = f m := by
  intro n
  induction n with
  | zero => intro _; simp
  | succ n ih =>
    intro h
    obtain ⟨hl, hg⟩ := ih (fun m hm => h m (by omega))
    obtain ⟨b, hb⟩ := Option.isSome_iff_exists.mp (h n (by omega))
    have e : (List.range (n + 1)).filterMap f = (List.range n).filterMap f ++ [b] := by
      simp [List.range_succ, List.filterMap_append, hb]
    rw [e]
    refine ⟨by simp [hl], ?_⟩
    intro m hm
    by_cases hmn : m < n
    · rw [List.getElem?_append_left (by omega)]
      exact hg m hmn
    · have hmn' : m = n := by omega
      subst hmn'
      rw [List.getElem?_append_right (by omega), hl]
      simp [hb]

/-- The share of queue `j` has `shareCount` transactions, and its `m`-th transaction is the
one at input index `j + m * W`. -/
theorem roundRobinShare_getElem? (txs : List Transaction) (W j : ℕ) (hj : j < W) :
    (roundRobinShare txs W j txs.length).length = shareCount W j txs.length ∧
      ∀ m, m < shareCount W j txs.length →
        (roundRobinShare txs W j txs.length)[m]? = txs[j + m * W]? ∧ j + m * W < txs.length := by
  have hsome : ∀ m, m < shareCount W j txs.length → (txs[j + m * W]?).isSome = true := by
    intro m hm
    have := shareCount_lt W j txs.length m hj hm
    simp [this]
  obtain ⟨hl, hg⟩ := filterMap_range_of_isSome (fun m => txs[j + m * W]?) _ hsome
  exact ⟨hl, fun m hm => ⟨hg m hm, shareCount_lt W j txs.length m hj hm⟩⟩

/-- Transaction `i` of the batch is in the share of queue `i % W`, at position `i / W`. -/
theorem roundRobinShare_of_index (txs : List Transaction) (W i : ℕ) (hW : 0 < W)
    (hi : i < txs.length) :
    (roundRobinShare txs W (i % W) txs.length)[i / W]? = txs[i]? := by
  have hj : i % W < W := Nat.mod_lt _ hW
  have hk : W * (i / W) + i % W = i := Nat.div_add_mod i W
  have hN : W * (txs.length / W) + txs.length % W = txs.length := Nat.div_add_mod _ W
  have hm : i / W < shareCount W (i % W) txs.length := by
    unfold shareCount
    have hle : i / W ≤ txs.length / W := Nat.div_le_div_right (by omega)
    by_cases hlt : i / W < txs.length / W
    · omega
    · have heq : i / W = txs.length / W := by omega
      rw [heq] at hk
      have : i % W < txs.length % W := by omega
      simp only [this, if_true]
      omega
  have := ((roundRobinShare_getElem? txs W (i % W) hj).2 _ hm).1
  rw [this]
  congr 1
  rw [Nat.mul_comm]
  omega

/-- The first `N mod W` queues receive `ceil(N / W)` transactions and the others
`floor(N / W)`. -/
theorem shareCount_ceil_floor (W j N : ℕ) (hW : 0 < W) :
    (j < N % W → shareCount W j N = (N + W - 1) / W) ∧ (N % W ≤ j → shareCount W j N = N / W) := by
  unfold shareCount
  refine ⟨fun h => ?_, fun h => ?_⟩
  · simp only [h, if_true]
    have hN : W * (N / W) + N % W = N := Nat.div_add_mod _ W
    have hr : N % W < W := Nat.mod_lt _ hW
    have e : N + W - 1 = (N % W - 1) + W * (N / W + 1) := by
      rw [Nat.mul_add, Nat.mul_one]
      omega
    have h0 : (N % W - 1) / W = 0 := Nat.div_eq_of_lt (by omega)
    rw [e, Nat.add_mul_div_left _ _ hW, h0, zero_add]
  · have : ¬ j < N % W := by omega
    simp [this]

/-! ## `FanOut` on its own: invariant, termination, progress -/

theorem sum_map_set_eq {β M : Type} [AddCommMonoid M] [IsRightCancelAdd M] (f : β → M)
    (l : List β) (i : ℕ) (a b : β) (h : l[i]? = some a) (hf : f b = f a) :
    ((l.set i b).map f).sum = (l.map f).sum := by
  have := sum_map_set f l i a b h
  rw [hf] at this
  exact add_right_cancel this

theorem fanOutMachineStep_inv (txs : List Transaction) (numWorkers : ℤ) (hW : 1 ≤ numWorkers)
    (s s' : FanOutState) (a : FanOutAct) (hi : s.Inv txs numWorkers)
    (h : fanOutMachineStep txs numWorkers s a = some s') : s'.Inv txs numWorkers := by
  obtain ⟨hp, hd, hc⟩ := hi
  have hWpos : 0 < numWorkers.toNat := by omega
  unfold fanOutMachineStep at h
  rw [hp] at h
  simp only [Bool.false_eq_true, if_false] at h
  cases a with
  | call =>
    simp only at h
    unfold fanOutCallStep at h
    split at h
    · cases h
    · split at h
      · omega
      · cases h
        refine ⟨hp, ?_, ?_⟩
        · refine ⟨rfl, Nat.zero_le _, by simp, ?_⟩
          intro j q hq
          rw [List.getElem?_replicate] at hq
          split at hq
          · cases hq
            rw [roundRobinShare_zero]
          · cases hq
        · simp [Distributor.sent]
  | dist =>
    simp only at h
    unfold fanOutDistStep at h
    split at h
    · cases h
    · rename_i i hdist
      rw [hdist] at hd hc
      obtain ⟨hret, hle, hlen, hq⟩ := hd
      split at h
      · rename_i tx htx
        split at h
        · omega
        · split at h
          · rename_i q hqq
            have := hq _ q hqq
            subst this
            simp at h
          · rename_i hnone
            rw [List.getElem?_eq_none_iff] at hnone
            have := Nat.mod_lt i hWpos
            omega
      · rename_i htx
        cases h
        rw [List.getElem?_eq_none_iff] at htx
        have hiN : i = txs.length := by omega
        subst hiN
        refine ⟨hp, ⟨hret, hlen, ?_⟩, ?_⟩
        · intro j q hjq
          rw [hq j q hjq]
          simp
        · simpa [Distributor.sent] using hc
    · rename_i c hdist
      rw [hdist] at hd hc
      obtain ⟨hret, hlen, hq⟩ := hd
      split at h
      · rename_i q hqq
        have hqe := hq c q hqq
        split at h
        · rename_i hcl
          rw [hqe] at hcl
          simp at hcl
        · cases h
          refine ⟨hp, ⟨hret, by simp [hlen], ?_⟩, ?_⟩
          · intro j q' hjq
            rcases getElem?_set_cases hjq with ⟨rfl, rfl⟩ | ⟨hne, hjq'⟩
            · rw [hqe]
              simp
            · rw [hq j q' hjq']
              have : decide (j < c) = decide (j < c + 1) := by
                apply Bool.decide_congr
                omega
              rw [this]
          · dsimp only
            rw [sum_map_set_eq (fun q : OutQueue => (q.delivered : Multiset Transaction)) s.queues c q
              { q with closed := true } hqq rfl]
            simpa [Distributor.sent] using hc
      · rename_i hnone
        cases h
        rw [List.getElem?_eq_none_iff] at hnone
        refine ⟨hp, ⟨hret, hlen, ?_⟩, ?_⟩
        · intro j q hjq
          rw [hq j q hjq]
          have hjl : j < s.queues.length := lt_length_of_getElem? hjq
          have : decide (j < c) = true := by
            simp only [decide_eq_true_eq]
            omega
          rw [this]
        · simpa [Distributor.sent] using hc
    · cases h
  | recv j =>
    simp only at h
    unfold fanOutRecvStep at h
    split at h
    · rename_i i hdist
      rw [hdist] at hd hc
      obtain ⟨hret, hle, hlen, hq⟩ := hd
      split at h
      · rename_i tx htx
        have hiN : i < txs.length := lt_length_of_getElem? htx
        split at h
        · cases h
        · split at h
          · rename_i hmod
            split at h
            · rename_i q hqq
              have hqe := hq j q hqq
              split at h
              · cases h
              · cases h
                refine ⟨hp, ⟨hret, by omega, by simp [hlen], ?_⟩, ?_⟩
                · intro k q' hkq
                  rcases getElem?_set_cases hkq with ⟨rfl, rfl⟩ | ⟨hne, hkq'⟩
                  · rw [hqe]
                    have hk : k < numWorkers.toNat := by
                      rw [← hlen]
                      exact lt_length_of_getElem? hqq
                    rw [roundRobinShare_succ txs _ k i hWpos hk tx htx]
                    simp [hmod]
                  · have hk : k < numWorkers.toNat := by
                      rw [← hlen]
                      exact lt_length_of_getElem? hkq'
                    rw [hq k q' hkq', roundRobinShare_succ txs _ k i hWpos hk tx htx]
                    have : ¬ i % numWorkers.toNat = k := by
                      intro h
                      exact hne (by rw [← h, hmod])
                    simp [this]
                · dsimp only
                  have hset := sum_map_set (fun q : OutQueue => (q.delivered : Multiset Transaction))
                    s.queues j q { q with delivered := q.delivered ++ [tx] } hqq
                  simp only [coe_append_eq_add] at hset
                  have hset' : (List.map (fun q => (q.delivered : Multiset Transaction))
                      (s.queues.set j { q with delivered := q.delivered ++ [tx] })).sum =
                      (List.map (fun q => (q.delivered : Multiset Transaction)) s.queues).sum +
                        ([tx] : Multiset Transaction) := by
                    have e : (List.map (fun q => (q.delivered : Multiset Transaction))
                        s.queues).sum + ((q.delivered : Multiset Transaction) +
                          ([tx] : Multiset Transaction)) =
                        ((List.map (fun q => (q.delivered : Multiset Transaction)) s.queues).sum +
                          ([tx] : Multiset Transaction)) + (q.delivered : Multiset Transaction) := by
                      abel
                    rw [e] at hset
                    exact add_right_cancel hset
                  rw [hset', hc]
                  simp only [Distributor.sent]
                  rw [List.take_succ, htx]
                  simp [coe_append_eq_add]
            · cases h
          · cases h
      · cases h
    · cases h

theorem fanOutMachineStep_measure (txs : List Transaction) (numWorkers : ℤ)
    (s s' : FanOutState) (a : FanOutAct) (hi : s.Inv txs numWorkers)
    (h : fanOutMachineStep txs numWorkers s a = some s') :
    Distributor.fanOutWeight txs.length numWorkers.toNat s'.dist + (if s'.panicked then 0 else 1) <
      Distributor.fanOutWeight txs.length numWorkers.toNat s.dist + (if s.panicked then 0 else 1) := by
  obtain ⟨hp, hd, -⟩ := hi
  unfold fanOutMachineStep at h
  rw [hp] at h
  simp only [Bool.false_eq_true, if_false] at h
  cases a with
  | call =>
    simp only at h
    unfold fanOutCallStep at h
    split at h
    · cases h
    · rename_i hret
      have hns : s.dist = Distributor.notStarted := by
        cases hds : s.dist <;> rw [hds] at hd <;> simp_all
      split at h
      · cases h
        simp [hp]
      · cases h
        simp only [hns, hp, Distributor.fanOutWeight]
        simp
  | dist =>
    simp only at h
    unfold fanOutDistStep at h
    split at h
    · cases h
    · rename_i i hdist
      split at h
      · split at h
        · cases h
          simp [hp]
        · split at h
          · split at h
            · cases h
              simp [hp]
            · cases h
          · cases h
            simp [hp]
      · cases h
        simp only [hdist, hp, Distributor.fanOutWeight]
        simp
        omega
    · rename_i c hdist
      rw [hdist] at hd
      split at h
      · rename_i q hqq
        have hlt := lt_length_of_getElem? hqq
        rw [hd.2.1] at hlt
        split at h
        · cases h
          simp [hp]
        · cases h
          simp only [hdist, hp, Distributor.fanOutWeight]
          simp
          omega
      · cases h
        simp only [hdist, hp, Distributor.fanOutWeight]
        simp
    · cases h
  | recv j =>
    simp only at h
    unfold fanOutRecvStep at h
    split at h
    · rename_i i hdist
      split at h
      · rename_i tx htx
        have hiN : i < txs.length := lt_length_of_getElem? htx
        split at h
        · cases h
        · split at h
          · split at h
            · split at h
              · cases h
              · cases h
                simp only [hdist, hp, Distributor.fanOutWeight]
                simp
                omega
            · cases h
          · cases h
      · cases h
    · cases h

theorem fanOutMachineStep_progress (txs : List Transaction) (numWorkers : ℤ)
    (hW : 1 ≤ numWorkers) (s : FanOutState) (hi : s.Inv txs numWorkers)
    (hf : s.dist ≠ Distributor.done) :
    ∃ a, (fanOutMachineStep txs numWorkers s a).isSome = true := by
  obtain ⟨hp, hd, -⟩ := hi
  have hWpos : 0 < numWorkers.toNat := by omega
  have hW0 : ¬ numWorkers = 0 := by omega
  have hWneg : ¬ numWorkers < 0 := by omega
  cases hdist : s.dist with
  | done => exact absurd hdist hf
  | notStarted =>
    rw [hdist] at hd
    exact ⟨FanOutAct.call, by simp [fanOutMachineStep, hp, fanOutCallStep, hd.1, hWneg]⟩
  | send i =>
    rw [hdist] at hd
    obtain ⟨hret, hle, hlen, hq⟩ := hd
    cases htx : txs[i]? with
    | none => exact ⟨FanOutAct.dist, by simp [fanOutMachineStep, hp, fanOutDistStep, hdist, htx]⟩
    | some tx =>
      have hlt : i % numWorkers.toNat < s.queues.length := by
        rw [hlen]
        exact Nat.mod_lt _ hWpos
      have hsome : s.queues[i % numWorkers.toNat]? = some s.queues[i % numWorkers.toNat] :=
        List.getElem?_eq_getElem hlt
      have hqe := hq _ _ hsome
      refine ⟨FanOutAct.recv (i % numWorkers.toNat), ?_⟩
      have hcl : (s.queues[i % numWorkers.toNat]).closed = false := by rw [hqe]
      simp [fanOutMachineStep, hp, fanOutRecvStep, hdist, htx, hW0, hsome, hcl]
  | close c =>
    rw [hdist] at hd
    obtain ⟨hret, hlen, hq⟩ := hd
    refine ⟨FanOutAct.dist, ?_⟩
    cases hqq : s.queues[c]? with
    | none => simp [fanOutMachineStep, hp, fanOutDistStep, hdist, hqq]
    | some q =>
      have hqe := hq c q hqq
      have hcl : q.closed = false := by rw [hqe]; simp
      simp [fanOutMachineStep, hp, fanOutDistStep, hdist, hqq, hcl]

theorem fanOut_init_inv (txs : List Transaction) (numWorkers : ℤ) :
    (FanOut txs numWorkers).init.Inv txs numWorkers := by
  refine ⟨rfl, ⟨rfl, rfl⟩, ?_⟩
  simp [FanOut, Distributor.sent]

/-- Every reachable state of `FanOut` with at least one queue satisfies the invariant. -/
theorem fanOut_reachable_inv (txs : List Transaction) (numWorkers : ℤ) (hW : 1 ≤ numWorkers) :
    ∀ s, (FanOut txs numWorkers).Reachable s → s.Inv txs numWorkers := by
  refine Machine.Reachable.induct _ (fanOut_init_inv txs numWorkers) ?_
  intro s a s' hI hst
  exact fanOutMachineStep_inv txs numWorkers hW s s' a hI hst

/-! ## `FanIn` on its own: the step function is one of the listed operations -/

theorem fanInMachineStep_sound (s s' : FanInState) (a : FanInAct)
    (h : fanInMachineStep s a = some s') : FanInStep s s' := by
  unfold fanInMachineStep at h
  by_cases hp : s.panicked = true
  · simp [hp] at h
  have hp' : s.panicked = false := by simpa using hp
  rw [if_neg hp] at h
  cases a with
  | main =>
    simp only at h
    unfold fanInMainStep at h
    split at h
    · rename_i j hm
      split at h
      · rename_i lane hl
        cases h
        exact FanInStep.spawn s j lane hp' hm hl
      · rename_i hl
        cases h
        exact FanInStep.spawnEnd s j hp' hm hl
    · rename_i hm
      cases h
      exact FanInStep.goCloser s hp' hm
    · cases h
  | src j =>
    simp only at h
    split at h
    · rename_i lane hl
      unfold fanInSrcStep at h
      split at h
      · rename_i hpend
        split at h
        · cases h
        · rename_i hcl
          cases h
          exact FanInStep.srcClose s j lane hp' hl hpend (by simpa using hcl)
      · cases h
    · cases h
  | fwd j =>
    simp only at h
    split at h
    · rename_i lane hl
      unfold fanInFwdStep at h
      split at h
      · cases h
      · rename_i hf
        split at h
        · rename_i r rest hpend
          cases h
          exact FanInStep.recv s j lane r rest hp' hl hf hpend
        · rename_i hpend
          split at h
          · rename_i hcl
            split at h
            · rename_i n hn
              obtain ⟨h3, h4⟩ := wgDone_eq_some _ _ hn
              subst h4
              cases h
              exact FanInStep.exit s j lane hp' hl hf hpend hcl h3
            · rename_i hn
              cases h
              exact FanInStep.exitPanic s j lane hp' hl hf hpend hcl (wgDone_eq_none _ hn)
          · cases h
      · rename_i r hf
        split at h
        · rename_i hoc
          cases h
          exact FanInStep.deliverPanic s j lane r hp' hl hf hoc
        · rename_i hoc
          split at h
          · rename_i hm
            cases h
            exact FanInStep.deliver s j lane r hp' hl hf (by simpa using hoc) hm
          · cases h
      · cases h
    · cases h
  | closer =>
    simp only at h
    unfold fanInCloserStep at h
    split at h
    · cases h
    · rename_i hc
      split at h
      · rename_i hwg
        cases h
        exact FanInStep.waited s hp' hc hwg
      · cases h
    · rename_i hc
      split at h
      · rename_i hoc
        cases h
        exact FanInStep.closeOutPanic s hp' hc hoc
      · rename_i hoc
        cases h
        exact FanInStep.closeOut s hp' hc (by simpa using hoc)
    · cases h

/-! ## `FanIn` on its own: invariants -/

theorem deliveredFrom_append_self (d : List (ℕ × ProcessingResult)) (j : ℕ)
    (r : ProcessingResult) : deliveredFrom (d ++ [(j, r)]) j = deliveredFrom d j ++ [r] := by
  simp [deliveredFrom, List.filter_append]

theorem deliveredFrom_append_ne (d : List (ℕ × ProcessingResult)) (j k : ℕ)
    (r : ProcessingResult) (h : k ≠ j) : deliveredFrom (d ++ [(j, r)]) k = deliveredFrom d k := by
  have : ¬ j = k := fun e => h e.symm
  simp [deliveredFrom, List.filter_append, this]

theorem FanInState.Inv.lane_active {sources : List (List ProcessingResult)} {s : FanInState}
    (hi : s.Inv sources) {j : ℕ} {lane : InLane} (hl : s.lanes[j]? = some lane)
    (ha : 0 < Forwarder.active lane.fwd) : s.wg ≠ 0 := by
  have h1 := le_sum_map_of_getElem? (fun l : InLane => Forwarder.active l.fwd) s.lanes j lane hl
  have h2 := hi.counted
  simp only at h1
  omega

theorem FanInState.Inv.wg_of_outClosed {sources : List (List ProcessingResult)} {s : FanInState}
    (hi : s.Inv sources) (h : s.outClosed = true) : s.closer = Closer.done ∧ s.wg = 0 := by
  have hc := hi.closer
  cases hcl : s.closer <;> rw [hcl] at hc <;> simp_all

theorem FanInStep.fanInNoPanic {sources : List (List ProcessingResult)} {s s' : FanInState}
    (h : FanInStep s s') (hi : s.Inv sources) : s'.panicked = false := by
  have hp := hi.noPanic
  cases h
  case exitPanic j lane hp' hl hf hpend hclosed hwg =>
    exact absurd hwg (hi.lane_active hl (by rw [hf]; simp [Forwarder.active]))
  case deliverPanic j lane r hp' hl hf hclosed =>
    exact absurd (hi.wg_of_outClosed hclosed).2 (hi.lane_active hl (by rw [hf]; simp [Forwarder.active]))
  case closeOutPanic hp' hc hclosed =>
    have := (hi.wg_of_outClosed hclosed).1
    rw [hc] at this
    cases this
  all_goals exact hp

theorem FanInStep.fanInLength {sources : List (List ProcessingResult)} {s s' : FanInState}
    (h : FanInStep s s') (hi : s.Inv sources) : s'.lanes.length = sources.length := by
  have hlen := hi.length
  cases h <;> simp [hlen]

theorem FanInStep.fanInCounted {sources : List (List ProcessingResult)} {s s' : FanInState}
    (h : FanInStep s s') (hi : s.Inv sources) :
    s'.wg = (s'.lanes.map fun l => Forwarder.active l.fwd).sum := by
  have hc := hi.counted
  cases h
  case spawn j lane hp hm hl =>
    have hns : lane.fwd = Forwarder.notStarted := by
      have := (hi.lanes j lane hl).2.2.2
      rw [hm] at this
      exact this.mpr (by simp [FanInMain.started])
    have hset := sum_map_set (fun l : InLane => Forwarder.active l.fwd) s.lanes j lane
      { lane with fwd := Forwarder.idle } hl
    have e1 : Forwarder.active lane.fwd = 0 := by rw [hns]; rfl
    have e2 : Forwarder.active ({ lane with fwd := Forwarder.idle } : InLane).fwd = 1 := rfl
    beta_reduce at hset
    rw [e1, e2] at hset
    simp only
    omega
  case srcClose j lane hp hl hpend hopen =>
    simp only
    rw [sum_map_set_eq (fun l : InLane => Forwarder.active l.fwd) s.lanes j lane
      { lane with closed := true } hl rfl]
    exact hc
  case recv j lane r rest hp hl hf hpend =>
    simp only
    rw [sum_map_set_eq (fun l : InLane => Forwarder.active l.fwd) s.lanes j lane
      { lane with pending := rest, fwd := Forwarder.hold r } hl (by simp [hf, Forwarder.active])]
    exact hc
  case exit j lane hp hl hf hpend hclosed hwg =>
    have hset := sum_map_set (fun l : InLane => Forwarder.active l.fwd) s.lanes j lane
      { lane with fwd := Forwarder.exited } hl
    have e1 : Forwarder.active lane.fwd = 1 := by rw [hf]; rfl
    have e2 : Forwarder.active ({ lane with fwd := Forwarder.exited } : InLane).fwd = 0 := rfl
    beta_reduce at hset
    rw [e1, e2] at hset
    simp only
    omega
  case deliver j lane r hp hl hf hopen hm =>
    simp only
    rw [sum_map_set_eq (fun l : InLane => Forwarder.active l.fwd) s.lanes j lane
      { lane with fwd := Forwarder.idle } hl (by simp [hf, Forwarder.active])]
    exact hc
  all_goals exact hc

theorem FanInStep.fanInMain {sources : List (List ProcessingResult)} {s s' : FanInState}
    (h : FanInStep s s') (hi : s.Inv sources) :
    match s'.main with
    | FanInMain.spawn k => k ≤ s'.lanes.length ∧ s'.closer = Closer.idle
    | FanInMain.goCloser => s'.closer = Closer.idle
    | FanInMain.returned => s'.closer ≠ Closer.idle := by
  have hm0 := hi.main
  cases h
  case spawn j lane hp hm hl =>
    rw [hm] at hm0
    have := lt_length_of_getElem? hl
    simp only [List.length_set]
    exact ⟨by omega, hm0.2⟩
  case spawnEnd j hp hm hl =>
    rw [hm] at hm0
    exact hm0.2
  case goCloser hp hm =>
    simp
  case waited hp hc hwg =>
    simp only
    cases hmm : s.main <;> rw [hmm] at hm0 <;> simp_all
  case closeOut hp hc hopen =>
    simp only
    cases hmm : s.main <;> rw [hmm] at hm0 <;> simp_all
  all_goals simpa using hm0

theorem FanInStep.fanInCloser {sources : List (List ProcessingResult)} {s s' : FanInState}
    (h : FanInStep s s') (hi : s.Inv sources) :
    match s'.closer with
    | Closer.idle => s'.outClosed = false
    | Closer.waiting => s'.outClosed = false
    | Closer.closing => s'.wg = 0 ∧ s'.outClosed = false
    | Closer.done => s'.wg = 0 ∧ s'.outClosed = true := by
  have hc0 := hi.closer
  have hm0 := hi.main
  cases h
  case spawn j lane hp hm hl =>
    rw [hm] at hm0
    simp only
    rw [hm0.2] at hc0 ⊢
    exact hc0
  case goCloser hp hm =>
    rw [hm] at hm0
    simp only at hm0
    rw [hm0] at hc0
    exact hc0
  case exit j lane hp hl hf hpend hclosed hwg =>
    simp only
    cases hcl : s.closer <;> rw [hcl] at hc0 <;> simp_all
  case waited hp hc hwg =>
    rw [hc] at hc0
    exact ⟨hwg, hc0⟩
  case closeOut hp hc hopen =>
    rw [hc] at hc0
    exact ⟨hc0.1, rfl⟩
  all_goals exact hc0

/-! ## `FanIn` on its own: the lanes and conservation -/

theorem FanInStep.fanInLanes {sources : List (List ProcessingResult)} {s s' : FanInState}
    (h : FanInStep s s') (hi : s.Inv sources) :
    ∀ (k : ℕ) (x : InLane), s'.lanes[k]? = some x →
      InLane.OK sources s'.delivered s'.main k x := by
  have hl0 := hi.lanes
  cases h
  case spawn j lane hp hm hl =>
    intro k x hk
    simp only at hk ⊢
    rcases getElem?_set_cases hk with ⟨rfl, rfl⟩ | ⟨hne, hk'⟩
    · obtain ⟨h1, h2, h3, h4⟩ := hl0 k lane hl
      rw [hm] at h4
      have hns : lane.fwd = Forwarder.notStarted := h4.mpr (by simp [FanInMain.started])
      rw [hns] at h1
      refine ⟨h1, h2, ?_, ?_⟩
      · intro h
        cases h
      · simp [FanInMain.started]
    · obtain ⟨h1, h2, h3, h4⟩ := hl0 k x hk'
      rw [hm] at h4
      refine ⟨h1, h2, h3, ?_⟩
      rw [h4]
      simp only [FanInMain.started]
      omega
  case spawnEnd j hp hm hl =>
    intro k x hk
    obtain ⟨h1, h2, h3, h4⟩ := hl0 k x hk
    rw [hm] at h4
    refine ⟨h1, h2, h3, ?_⟩
    rw [h4]
    have hkl := lt_length_of_getElem? hk
    rw [List.getElem?_eq_none_iff] at hl
    simp only at hkl
    have hkj : k < j := by omega
    simp [FanInMain.started, hkj]
  case goCloser hp hm =>
    intro k x hk
    obtain ⟨h1, h2, h3, h4⟩ := hl0 k x hk
    rw [hm] at h4
    exact ⟨h1, h2, h3, h4⟩
  case srcClose j lane hp hl hpend hopen =>
    intro k x hk
    simp only at hk ⊢
    rcases getElem?_set_cases hk with ⟨rfl, rfl⟩ | ⟨hne, hk'⟩
    · obtain ⟨h1, h2, h3, h4⟩ := hl0 k lane hl
      exact ⟨h1, fun _ => hpend, fun h => ⟨rfl, hpend⟩, h4⟩
    · exact hl0 k x hk'
  case recv j lane r rest hp hl hf hpend =>
    intro k x hk
    simp only at hk ⊢
    rcases getElem?_set_cases hk with ⟨rfl, rfl⟩ | ⟨hne, hk'⟩
    · obtain ⟨h1, h2, h3, h4⟩ := hl0 k lane hl
      rw [hf, hpend] at h1
      rw [hf] at h4
      refine ⟨?_, ?_, ?_, ?_⟩
      · rw [h1]
        simp [Forwarder.held]
      · intro hc
        have := h2 hc
        rw [hpend] at this
        cases this
      · intro h
        cases h
      · rw [← h4]
        simp
    · exact hl0 k x hk'
  case exit j lane hp hl hf hpend hclosed hwg =>
    intro k x hk
    simp only at hk ⊢
    rcases getElem?_set_cases hk with ⟨rfl, rfl⟩ | ⟨hne, hk'⟩
    · obtain ⟨h1, h2, h3, h4⟩ := hl0 k lane hl
      rw [hf] at h1 h4
      refine ⟨h1, h2, fun _ => ⟨hclosed, hpend⟩, ?_⟩
      rw [← h4]
      simp
    · exact hl0 k x hk'
  case exitPanic j lane hp hl hf hpend hclosed hwg => exact hl0
  case deliver j lane r hp hl hf hopen hm =>
    intro k x hk
    simp only at hk ⊢
    rcases getElem?_set_cases hk with ⟨rfl, rfl⟩ | ⟨hne, hk'⟩
    · obtain ⟨h1, h2, h3, h4⟩ := hl0 k lane hl
      rw [hf] at h1 h4
      refine ⟨?_, h2, ?_, ?_⟩
      · rw [h1, deliveredFrom_append_self]
        simp [Forwarder.held]
      · intro h
        cases h
      · rw [← h4]
        simp
    · obtain ⟨h1, h2, h3, h4⟩ := hl0 k x hk'
      refine ⟨?_, h2, h3, h4⟩
      rw [deliveredFrom_append_ne _ _ _ _ hne]
      exact h1
  case deliverPanic j lane r hp hl hf hclosed => exact hl0
  case waited hp hc hwg => exact hl0
  case closeOut hp hc hopen => exact hl0
  case closeOutPanic hp hc hclosed => exact hl0

theorem FanInStep.fanInConserved {sources : List (List ProcessingResult)} {s s' : FanInState}
    (h : FanInStep s s') (hi : s.Inv sources) :
    ((s'.delivered.map Prod.snd : List ProcessingResult) : Multiset ProcessingResult) +
      (s'.lanes.map fun l => ((Forwarder.held l.fwd ++ l.pending : List ProcessingResult) :
        Multiset ProcessingResult)).sum = itemsOf sources := by
  have hc := hi.conserved
  cases h
  case spawn j lane hp hm hl =>
    have hns : lane.fwd = Forwarder.notStarted := by
      have := (hi.lanes j lane hl).2.2.2
      rw [hm] at this
      exact this.mpr (by simp [FanInMain.started])
    simp only
    rw [sum_map_set_eq (fun l : InLane => ((Forwarder.held l.fwd ++ l.pending :
      List ProcessingResult) : Multiset ProcessingResult)) s.lanes j lane
      { lane with fwd := Forwarder.idle } hl (by simp [hns, Forwarder.held])]
    exact hc
  case srcClose j lane hp hl hpend hopen =>
    simp only
    rw [sum_map_set_eq (fun l : InLane => ((Forwarder.held l.fwd ++ l.pending :
      List ProcessingResult) : Multiset ProcessingResult)) s.lanes j lane
      { lane with closed := true } hl rfl]
    exact hc
  case recv j lane r rest hp hl hf hpend =>
    simp only
    rw [sum_map_set_eq (fun l : InLane => ((Forwarder.held l.fwd ++ l.pending :
      List ProcessingResult) : Multiset ProcessingResult)) s.lanes j lane
      { lane with pending := rest, fwd := Forwarder.hold r } hl
      (by simp [hf, hpend, Forwarder.held])]
    exact hc
  case exit j lane hp hl hf hpend hclosed hwg =>
    simp only
    rw [sum_map_set_eq (fun l : InLane => ((Forwarder.held l.fwd ++ l.pending :
      List ProcessingResult) : Multiset ProcessingResult)) s.lanes j lane
      { lane with fwd := Forwarder.exited } hl (by simp [hf, Forwarder.held])]
    exact hc
  case deliver j lane r hp hl hf hopen hm =>
    have hset := sum_map_set (fun l : InLane => ((Forwarder.held l.fwd ++ l.pending :
      List ProcessingResult) : Multiset ProcessingResult)) s.lanes j lane
      { lane with fwd := Forwarder.idle } hl
    beta_reduce at hset
    have e1 : ((Forwarder.held lane.fwd ++ lane.pending : List ProcessingResult) :
        Multiset ProcessingResult) = {r} + (lane.pending : Multiset ProcessingResult) := by
      rw [hf]
      simp only [Forwarder.held, List.singleton_append]
      exact coe_cons_eq_add r lane.pending
    have e2 : ((Forwarder.held ({ lane with fwd := Forwarder.idle } : InLane).fwd ++
        ({ lane with fwd := Forwarder.idle } : InLane).pending : List ProcessingResult) :
        Multiset ProcessingResult) = (lane.pending : Multiset ProcessingResult) := by
      simp [Forwarder.held]
    rw [e1, e2] at hset
    simp only [List.map_append, List.map_cons, List.map_nil, coe_append_eq_add]
    rw [← hc]
    have e3 : (([r] : List ProcessingResult) : Multiset ProcessingResult) = {r} := rfl
    rw [e3]
    have hset' : (List.map (fun l : InLane => ((Forwarder.held l.fwd ++ l.pending :
        List ProcessingResult) : Multiset ProcessingResult)) s.lanes).sum =
        (List.map (fun l : InLane => ((Forwarder.held l.fwd ++ l.pending :
        List ProcessingResult) : Multiset ProcessingResult))
          (s.lanes.set j { lane with fwd := Forwarder.idle })).sum + {r} := by
      have e : (List.map (fun l : InLane => ((Forwarder.held l.fwd ++ l.pending :
          List ProcessingResult) : Multiset ProcessingResult))
          (s.lanes.set j { lane with fwd := Forwarder.idle })).sum +
          ({r} + (lane.pending : Multiset ProcessingResult)) =
          ((List.map (fun l : InLane => ((Forwarder.held l.fwd ++ l.pending :
          List ProcessingResult) : Multiset ProcessingResult))
          (s.lanes.set j { lane with fwd := Forwarder.idle })).sum + {r}) +
            (lane.pending : Multiset ProcessingResult) := by
        abel
      rw [e] at hset
      exact (add_right_cancel hset).symm
    rw [hset']
    abel
  all_goals exact hc

theorem FanInStep.fanInInv {sources : List (List ProcessingResult)} {s s' : FanInState}
    (h : FanInStep s s') (hi : s.Inv sources) : s'.Inv sources :=
  ⟨h.fanInNoPanic hi, h.fanInLength hi, h.fanInLanes hi, h.fanInCounted hi, h.fanInMain hi,
    h.fanInCloser hi, h.fanInConserved hi⟩

theorem fanIn_init_active (sources : List (List ProcessingResult)) :
    (sources.map ((fun l : InLane => Forwarder.active l.fwd) ∘ fun items =>
      ({ pending := items, closed := false, fwd := Forwarder.notStarted } : InLane))).sum = 0 := by
  induction sources with
  | nil => rfl
  | cons x xs ih =>
    simp only [List.map_cons, List.sum_cons, ih, Function.comp_apply]
    rfl

theorem fanIn_init_items (sources : List (List ProcessingResult)) :
    (sources.map ((fun l : InLane => ((Forwarder.held l.fwd ++ l.pending :
      List ProcessingResult) : Multiset ProcessingResult)) ∘ fun items =>
      ({ pending := items, closed := false, fwd := Forwarder.notStarted } : InLane))).sum =
      itemsOf sources := by
  unfold itemsOf
  induction sources with
  | nil => rfl
  | cons x xs ih =>
    simp only [List.map_cons, List.sum_cons, ih, Function.comp_apply]
    rfl

theorem fanIn_init_inv (sources : List (List ProcessingResult)) :
    (FanIn sources).init.Inv sources := by
  refine ⟨rfl, by simp [FanIn], ?_, ?_, ?_, ?_, ?_⟩
  · intro j lane hl
    simp only [FanIn, List.getElem?_map] at hl
    cases hs : sources[j]? with
    | none => simp [hs] at hl
    | some items =>
      simp only [hs, Option.map_some', Option.some.injEq] at hl
      subst hl
      refine ⟨?_, ?_, ?_, ?_⟩
      · simpa [FanIn, deliveredFrom, Forwarder.held] using hs
      · intro h
        cases h
      · intro h
        cases h
      · simp [FanIn, FanInMain.started]
  · simp only [FanIn, List.map_map]
    exact (fanIn_init_active sources).symm
  · exact ⟨Nat.zero_le _, rfl⟩
  · rfl
  · simp only [FanIn, List.map_map, List.map_nil, coe_nil_eq_zero, zero_add]
    exact fanIn_init_items sources

/-- Every reachable state of `FanIn` satisfies the invariants. -/
theorem fanIn_reachable_inv (sources : List (List ProcessingResult)) :
    ∀ s, (FanIn sources).Reachable s → s.Inv sources := by
  refine Machine.Reachable.induct _ (fanIn_init_inv sources) ?_
  intro s a s' hI hst
  exact (fanInMachineStep_sound s s' a hst).fanInInv hI

/-! ## Select and context machines: results are well formed and counted -/

theorem Chan.recv_value_mem {α : Type} {c c' : Chan α} {v : α} (h : c.recv = RecvResult.value v c') :
    v ∈ c.buf ∧ ∀ x ∈ c'.buf, x ∈ c.buf := by
  obtain ⟨rest, h1, h2⟩ := Chan.recv_eq_value _ _ _ h
  subst h2
  rw [h1]
  exact ⟨List.mem_cons_self _ _, fun x hx => List.mem_cons_of_mem _ hx⟩

theorem Chan.send_ok_mem {α : Type} {c c' : Chan α} {v : α} (h : c.send v = SendResult.ok c') :
    ∀ x ∈ c'.buf, x ∈ c.buf ∨ x = v := by
  obtain ⟨-, -, h3⟩ := Chan.send_eq_ok _ _ _ h
  subst h3
  intro x hx
  rcases List.mem_append.mp hx with hx | hx
  · exact Or.inl hx
  · exact Or.inr (by simpa using hx)

theorem Chan.close_buf {α : Type} {c c' : Chan α} (h : c.close = some c') : c'.buf = c.buf := by
  obtain ⟨-, h2⟩ := Chan.close_eq_some _ _ h
  subst h2
  rfl

theorem selStep_counts {sc : Scorer} {txs : List Transaction} {numWorkers : ℤ}
    {s s' : SelState} {a : SelAct} (h : selStep sc txs numWorkers s a = some s')
    (hc : countsOK s.success s.errors s.results) : countsOK s'.success s'.errors s'.results := by
  unfold selStep at h
  split at h
  · simp at h
  cases a
  case main =>
    simp only [selMainStep] at h
    repeat' split at h
    all_goals first
      | (simp at h; done)
      | (cases h; exact hc)
  case recvResult =>
    simp only [selRecvResultStep] at h
    repeat' split at h
    all_goals first
      | (simp at h; done)
      | (cases h; exact countsOK_snoc _ _ _ _ hc)
      | (cases h; exact hc)
  case recvProgress =>
    simp only [selRecvProgressStep] at h
    repeat' split at h
    all_goals first
      | (simp at h; done)
      | (cases h; exact hc)
  case timeout =>
    simp only [selTimeoutStep] at h
    repeat' split at h
    all_goals first
      | (simp at h; done)
      | (cases h; exact hc)
  case worker i =>
    simp only [selWorkerStep] at h
    repeat' split at h
    all_goals first
      | (simp at h; done)
      | (cases h; exact hc)
  case workerDone i =>
    simp only [selWorkerDoneStep] at h
    repeat' split at h
    all_goals first
      | (simp at h; done)
      | (cases h; exact hc)
  case feeder =>
    simp only [selFeederStep] at h
    repeat' split at h
    all_goals first
      | (simp at h; done)
      | (cases h; exact hc)
  case closer =>
    simp only [selCloserStep] at h
    repeat' split at h
    all_goals first
      | (simp at h; done)
      | (cases h; exact hc)

theorem SelWorker.sel_take_OK (G : Transaction → F64 → Prop) (tx : Transaction) :
    SelWorker.OK G (SelWorker.take tx) := by
  unfold SelWorker.take
  cases hv : ValidateTransaction tx with
  | none => exact hv
  | some err => exact resultOK_errResult G tx err hv

theorem forall_mem_snoc {β : Type} (P : β → Prop) (l : List β) (b : β)
    (hl : ∀ x ∈ l, P x) (hb : P b) : ∀ x ∈ l ++ [b], P x := by
  intro x hx
  rcases List.mem_append.mp hx with hx | hx
  · exact hl x hx
  · simp only [List.mem_singleton] at hx
    exact hx ▸ hb

theorem selStep_resultsOK {sc : Scorer} {txs : List Transaction} {numWorkers : ℤ}
    {G : Transaction → F64 → Prop}
    (hG : ∀ tx r, ValidateTransaction tx = none → G tx (sc tx r).score)
    {s s' : SelState} {a : SelAct} (h : selStep sc txs numWorkers s a = some s')
    (hi : s.ResultsOK G) : s'.ResultsOK G := by
  obtain ⟨h1, h2, h3⟩ := hi
  unfold selStep at h
  split at h
  · simp at h
  cases a
  case main =>
    simp only [selMainStep] at h
    repeat' split at h
    all_goals first
      | (simp at h; done)
      | (cases h; exact ⟨h1, h2, forall_mem_snoc _ _ _ h3 trivial⟩)
      | (cases h; exact ⟨h1, h2, h3⟩)
  case recvResult =>
    simp only [selRecvResultStep] at h
    split at h
    · split at h
      · rename_i r c hrecv
        obtain ⟨hr, hsub⟩ := Chan.recv_value_mem hrecv
        cases h
        exact ⟨forall_mem_snoc _ _ _ h1 (h2 r hr), fun x hx => h2 x (hsub x hx), h3⟩
      · cases h
        exact ⟨h1, h2, h3⟩
      · simp at h
    · simp at h
  case recvProgress =>
    simp only [selRecvProgressStep] at h
    repeat' split at h
    all_goals first
      | (simp at h; done)
      | (cases h; exact ⟨h1, h2, h3⟩)
  case timeout =>
    simp only [selTimeoutStep] at h
    repeat' split at h
    all_goals first
      | (simp at h; done)
      | (cases h; exact ⟨h1, h2, h3⟩)
  case worker i =>
    simp only at h
    split at h
    · rename_i w hw
      have hwok := h3 w (mem_of_getElem?_eq_some hw)
      unfold selWorkerStep at h
      split at h
      · repeat' split at h
        all_goals first
          | (simp at h; done)
          | (cases h; exact ⟨h1, h2, forall_mem_set _ _ _ _ h3 (SelWorker.sel_take_OK G _)⟩)
          | (cases h; exact ⟨h1, h2, forall_mem_set _ _ _ _ h3 trivial⟩)
          | (cases h; exact ⟨h1, h2, h3⟩)
      · rename_i tx
        simp only at h
        cases h
        exact ⟨h1, h2, forall_mem_set _ _ _ _ h3 (resultOK_okResult G tx _ hwok (hG tx s.rand hwok))⟩
      · rename_i r
        split at h
        · rename_i c hsend
          have hsub := Chan.send_ok_mem hsend
          cases h
          refine ⟨h1, ?_, forall_mem_set _ _ _ _ h3 trivial⟩
          intro x hx
          rcases hsub x hx with hx | hx
          · exact h2 x hx
          · exact hx ▸ hwok
        · simp at h
        · cases h
          exact ⟨h1, h2, h3⟩
      · repeat' split at h
        all_goals first
          | (simp at h; done)
          | (cases h; exact ⟨h1, h2, forall_mem_set _ _ _ _ h3 trivial⟩)
          | (cases h; exact ⟨h1, h2, h3⟩)
      · simp at h
    · simp at h
  case workerDone i =>
    simp only [selWorkerDoneStep] at h
    repeat' split at h
    all_goals first
      | (simp at h; done)
      | (cases h; exact ⟨h1, h2, forall_mem_set _ _ _ _ h3 trivial⟩)
      | (cases h; exact ⟨h1, h2, h3⟩)
  case feeder =>
    simp only [selFeederStep] at h
    repeat' split at h
    all_goals first
      | (simp at h; done)
      | (cases h; exact ⟨h1, h2, h3⟩)
  case closer =>
    simp only at h
    unfold selCloserStep at h
    split at h
    · simp at h
    · split at h
      · cases h
        exact ⟨h1, h2, h3⟩
      · simp at h
    · split at h
      · rename_i c hclose
        have hb := Chan.close_buf hclose
        cases h
        exact ⟨h1, fun x hx => h2 x (hb ▸ hx), h3⟩
      · cases h
        exact ⟨h1, h2, h3⟩
    · repeat' split at h
      all_goals first
        | (simp at h; done)
        | (cases h; exact ⟨h1, h2, h3⟩)
    · simp at h

theorem ctxStep_counts {sc : Scorer} {ctx : Context} {txs : List Transaction} {numWorkers : ℤ}
    {s s' : CtxState} {a : CtxAct} (h : ctxStep sc ctx txs numWorkers s a = some s')
    (hc : countsOK s.success s.errors s.results) : countsOK s'.success s'.errors s'.results := by
  unfold ctxStep at h
  split at h
  · simp at h
  cases a
  case cancel =>
    simp only at h
    split at h
    · cases h; exact hc
    · simp at h
  case main =>
    simp only [ctxMainStep] at h
    repeat' split at h
    all_goals first
      | (simp at h; done)
      | (cases h; exact countsOK_snoc _ _ _ _ hc)
      | (cases h; exact hc)
  case recvResult =>
    simp only [ctxRecvResultStep] at h
    repeat' split at h
    all_goals first
      | (simp at h; done)
      | (cases h; exact countsOK_snoc _ _ _ _ hc)
      | (cases h; exact hc)
  case mainCancel =>
    simp only [ctxMainCancelStep] at h
    repeat' split at h
    all_goals first
      | (simp at h; done)
      | (cases h; exact hc)
  case worker i =>
    simp only [ctxWorkerStep] at h
    repeat' split at h
    all_goals first
      | (simp at h; done)
      | (cases h; exact hc)
  case workerCancel i =>
    simp only [ctxWorkerCancelStep] at h
    repeat' split at h
    all_goals first
      | (simp at h; done)
      | (cases h; exact hc)
  case feeder =>
    simp only [ctxFeederStep] at h
    repeat' split at h
    all_goals first
      | (simp at h; done)
      | (cases h; exact hc)
  case feederCancel =>
    simp only [ctxFeederCancelStep] at h
    repeat' split at h
    all_goals first
      | (simp at h; done)
      | (cases h; exact hc)
  case closer =>
    simp only [ctxCloserStep] at h
    repeat' split at h
    all_goals first
      | (simp at h; done)
      | (cases h; exact hc)

theorem ctxStep_resultsOK {sc : Scorer} {ctx : Context} {txs : List Transaction} {numWorkers : ℤ}
    {G : Transaction → F64 → Prop}
    (hG : ∀ tx r, ValidateTransaction tx = none → G tx (sc tx r).score)
    {s s' : CtxState} {a : CtxAct} (h : ctxStep sc ctx txs numWorkers s a = some s')
    (hi : s.ResultsOK G) : s'.ResultsOK G := by
  obtain ⟨h1, h2, h3⟩ := hi
  unfold ctxStep at h
  split at h
  · simp at h
  cases a
  case cancel =>
    simp only at h
    split at h
    · cases h; exact ⟨h1, h2, h3⟩
    · simp at h
  case main =>
    simp only at h
    unfold ctxMainStep at h
    split at h
    · split at h
      · cases h; exact ⟨h1, h2, forall_mem_snoc _ _ _ h3 trivial⟩
      · cases h; exact ⟨h1, h2, h3⟩
    · cases h; exact ⟨h1, h2, h3⟩
    · cases h; exact ⟨h1, h2, h3⟩
    · simp at h
    · split at h
      · rename_i r c hrecv
        obtain ⟨hr, hsub⟩ := Chan.recv_value_mem hrecv
        cases h
        exact ⟨forall_mem_snoc _ _ _ h1 (h2 r hr), fun x hx => h2 x (hsub x hx), h3⟩
      · cases h
        exact ⟨h1, h2, h3⟩
      · simp at h
    · simp at h
  case recvResult =>
    simp only [ctxRecvResultStep] at h
    split at h
    · split at h
      · rename_i r c hrecv
        obtain ⟨hr, hsub⟩ := Chan.recv_value_mem hrecv
        cases h
        exact ⟨forall_mem_snoc _ _ _ h1 (h2 r hr), fun x hx => h2 x (hsub x hx), h3⟩
      · cases h
        exact ⟨h1, h2, h3⟩
      · simp at h
    · simp at h
  case mainCancel =>
    simp only [ctxMainCancelStep] at h
    repeat' split at h
    all_goals first
      | (simp at h; done)
      | (cases h; exact ⟨h1, h2, h3⟩)
  case worker i =>
    simp only at h
    split at h
    · rename_i w hw
      have hwok := h3 w (mem_of_getElem?_eq_some hw)
      unfold ctxWorkerStep at h
      split at h
      · repeat' split at h
        all_goals first
          | (simp at h; done)
          | (cases h; exact ⟨h1, h2, forall_mem_set _ _ _ _ h3 trivial⟩)
          | (cases h; exact ⟨h1, h2, h3⟩)
      · rename_i tx
        split at h
        · repeat' split at h
          all_goals first
            | (simp at h; done)
            | (cases h; exact ⟨h1, h2, forall_mem_set _ _ _ _ h3 trivial⟩)
            | (cases h; exact ⟨h1, h2, h3⟩)
        · split at h
          · rename_i err hv
            cases h
            exact ⟨h1, h2, forall_mem_set _ _ _ _ h3 (resultOK_errResult G tx err hv)⟩
          · rename_i hv
            cases h
            exact ⟨h1, h2, forall_mem_set _ _ _ _ h3 hv⟩
      · rename_i r
        split at h
        · rename_i c hsend
          have hsub := Chan.send_ok_mem hsend
          cases h
          refine ⟨h1, ?_, forall_mem_set _ _ _ _ h3 trivial⟩
          intro x hx
          rcases hsub x hx with hx | hx
          · exact h2 x hx
          · exact hx ▸ hwok
        · simp at h
        · cases h
          exact ⟨h1, h2, h3⟩
      · rename_i tx
        simp only at h
        cases h
        exact ⟨h1, h2, forall_mem_set _ _ _ _ h3 (resultOK_okResult G tx _ hwok (hG tx s.rand hwok))⟩
      · rename_i r
        split at h
        · rename_i c hsend
          have hsub := Chan.send_ok_mem hsend
          cases h
          refine ⟨h1, ?_, forall_mem_set _ _ _ _ h3 trivial⟩
          intro x hx
          rcases hsub x hx with hx | hx
          · exact h2 x hx
          · exact hx ▸ hwok
        · simp at h
        · cases h
          exact ⟨h1, h2, h3⟩
      · simp at h
    · simp at h
  case workerCancel i =>
    simp only [ctxWorkerCancelStep] at h
    repeat' split at h
    all_goals first
      | (simp at h; done)
      | (cases h; exact ⟨h1, h2, forall_mem_set _ _ _ _ h3 trivial⟩)
      | (cases h; exact ⟨h1, h2, h3⟩)
  case feeder =>
    simp only [ctxFeederStep] at h
    repeat' split at h
    all_goals first
      | (simp at h; done)
      | (cases h; exact ⟨h1, h2, h3⟩)
  case feederCancel =>
    simp only [ctxFeederCancelStep] at h
    repeat' split at h
    all_goals first
      | (simp at h; done)
      | (cases h; exact ⟨h1, h2, h3⟩)
  case closer =>
    simp only at h
    unfold ctxCloserStep at h
    split at h
    · simp at h
    · split at h
      · cases h
        exact ⟨h1, h2, h3⟩
      · simp at h
    · split at h
      · rename_i c hclose
        have hb := Chan.close_buf hclose
        cases h
        exact ⟨h1, fun x hx => h2 x (hb ▸ hx), h3⟩
      · cases h
        exact ⟨h1, h2, h3⟩
    · simp at h

theorem sel_reachable (sc : Scorer) (txs : List Transaction) (numWorkers : ℤ) (r : Rand)
    (G : Transaction → F64 → Prop)
    (hG : ∀ tx r, ValidateTransaction tx = none → G tx (sc tx r).score) :
    ∀ s, (ProcessTransactionsWithSelectWith sc txs numWorkers r).Reachable s →
      s.ResultsOK G ∧ countsOK s.success s.errors s.results := by
  refine Machine.Reachable.induct _ ?_ ?_
  · refine ⟨⟨?_, ?_, ?_⟩, countsOK_nil⟩ <;>
      simp [ProcessTransactionsWithSelectWith, selInit, Chan.make]
  · intro s a s' ⟨ha, hc⟩ hst
    exact ⟨selStep_resultsOK hG hst ha, selStep_counts hst hc⟩

theorem ctx_reachable (sc : Scorer) (ctx : Context) (txs : List Transaction) (numWorkers : ℤ)
    (r : Rand) (G : Transaction → F64 → Prop)
    (hG : ∀ tx r, ValidateTransaction tx = none → G tx (sc tx r).score) :
    ∀ s, (ProcessTransactionsWithContextWith sc ctx txs numWorkers r).Reachable s →
      s.ResultsOK G ∧ countsOK s.success s.errors s.results := by
  refine Machine.Reachable.induct _ ?_ ?_
  · refine ⟨⟨?_, ?_, ?_⟩, countsOK_nil⟩ <;>
      simp [ProcessTransactionsWithContextWith, ctxInit, Chan.make]
  · intro s a s' ⟨ha, hc⟩ hst
    exact ⟨ctxStep_resultsOK hG hst ha, ctxStep_counts hst hc⟩

/-! ## Select machine: the step function is one of the listed operations -/

theorem selMainStep_sound (sc : Scorer) (txs : List Transaction) (numWorkers : ℤ)
    (s s' : SelState) (hp : s.panicked = false) (h : selMainStep numWorkers s = some s') :
    SelStep sc txs numWorkers s s' := by
  unfold selMainStep at h
  split at h
  · rename_i w hm
    split at h
    · rename_i hw
      cases h
      exact SelStep.spawn s w hp hm hw
    · rename_i hw
      cases h
      exact SelStep.spawnEnd s w hp hm hw
  · rename_i hm
    cases h
    exact SelStep.goFeeder s hp hm
  · rename_i hm
    cases h
    exact SelStep.goCloser s hp hm
  · simp at h
  · simp at h

theorem selRecvResultStep_sound (sc : Scorer) (txs : List Transaction) (numWorkers : ℤ)
    (s s' : SelState) (hp : s.panicked = false) (h : selRecvResultStep s = some s') :
    SelStep sc txs numWorkers s s' := by
  unfold selRecvResultStep at h
  split at h
  · rename_i hm
    split at h
    · rename_i r c hc
      obtain ⟨rest, h1, h2⟩ := Chan.recv_eq_value _ _ _ hc
      subst h2
      cases h
      exact SelStep.collect s r rest hp hm h1
    · rename_i hc
      obtain ⟨h1, h2⟩ := Chan.recv_eq_closed _ hc
      cases h
      exact SelStep.ret s hp hm h1 h2
    · simp at h
  · simp at h

theorem selRecvProgressStep_sound (sc : Scorer) (txs : List Transaction) (numWorkers : ℤ)
    (s s' : SelState) (hp : s.panicked = false) (h : selRecvProgressStep s = some s') :
    SelStep sc txs numWorkers s s' := by
  unfold selRecvProgressStep at h
  split at h
  · rename_i hm
    split at h
    · rename_i p c hc
      obtain ⟨rest, h1, h2⟩ := Chan.recv_eq_value _ _ _ hc
      subst h2
      cases h
      exact SelStep.progressRecv s p rest hp hm h1
    · rename_i hc
      obtain ⟨h1, h2⟩ := Chan.recv_eq_closed _ hc
      cases h
      exact SelStep.progressClosed s hp hm h1 h2
    · simp at h
  · simp at h

theorem selTimeoutStep_sound (sc : Scorer) (txs : List Transaction) (numWorkers : ℤ)
    (s s' : SelState) (hp : s.panicked = false) (h : selTimeoutStep s = some s') :
    SelStep sc txs numWorkers s s' := by
  unfold selTimeoutStep at h
  split at h
  · rename_i hm
    split at h
    · rename_i hd
      cases h
      exact SelStep.timeoutPanic s hp hm hd
    · rename_i hd
      cases h
      exact SelStep.timeout s hp hm (by simpa using hd)
  · simp at h

theorem selWorkerStep_sound (sc : Scorer) (txs : List Transaction) (numWorkers : ℤ)
    (s s' : SelState) (i : ℕ) (w : SelWorker) (hp : s.panicked = false)
    (hw : s.workers[i]? = some w) (h : selWorkerStep sc s i w = some s') :
    SelStep sc txs numWorkers s s' := by
  unfold selWorkerStep at h
  split at h
  · split at h
    · rename_i tx c hc
      obtain ⟨rest, h1, h2⟩ := Chan.recv_eq_value _ _ _ hc
      subst h2
      cases h
      exact SelStep.take s i tx rest hp hw h1
    · rename_i hc
      obtain ⟨h1, h2⟩ := Chan.recv_eq_closed _ hc
      split at h
      · rename_i n hn
        obtain ⟨h3, h4⟩ := wgDone_eq_some _ _ hn
        subst h4
        cases h
        exact SelStep.exit s i hp hw h1 h2 h3
      · rename_i hn
        cases h
        exact SelStep.exitPanic s i hp hw h1 h2 (wgDone_eq_none _ hn)
    · simp at h
  · rename_i tx
    simp only at h
    cases h
    exact SelStep.score s i tx hp hw
  · rename_i r
    split at h
    · rename_i c hc
      obtain ⟨h1, h2, h3⟩ := Chan.send_eq_ok _ _ _ hc
      subst h3
      cases h
      exact SelStep.emit s i r hp hw h1 h2
    · simp at h
    · rename_i hc
      cases h
      exact SelStep.emitPanic s i r hp hw (Chan.send_eq_panic _ _ hc)
  · split at h
    · rename_i c hc
      obtain ⟨h1, h2, h3⟩ := Chan.send_eq_ok _ _ _ hc
      subst h3
      cases h
      exact SelStep.report s i hp hw h1 h2
    · simp at h
    · rename_i hc
      cases h
      exact SelStep.reportPanic s i hp hw (Chan.send_eq_panic _ _ hc)
  · simp at h

theorem selWorkerDoneStep_sound (sc : Scorer) (txs : List Transaction) (numWorkers : ℤ)
    (s s' : SelState) (i : ℕ) (w : SelWorker) (hp : s.panicked = false)
    (hw : s.workers[i]? = some w) (h : selWorkerDoneStep s i w = some s') :
    SelStep sc txs numWorkers s s' := by
  unfold selWorkerDoneStep at h
  split at h
  · split at h
    · rename_i hd
      split at h
      · rename_i n hn
        obtain ⟨h3, h4⟩ := wgDone_eq_some _ _ hn
        subst h4
        cases h
        exact SelStep.stop s i hp hw hd h3
      · rename_i hn
        cases h
        exact SelStep.stopPanic s i hp hw hd (wgDone_eq_none _ hn)
    · simp at h
  · simp at h

theorem selFeederStep_sound (sc : Scorer) (txs : List Transaction) (numWorkers : ℤ)
    (s s' : SelState) (hp : s.panicked = false) (h : selFeederStep txs s = some s') :
    SelStep sc txs numWorkers s s' := by
  unfold selFeederStep at h
  split at h
  · simp at h
  · rename_i i hf
    split at h
    · rename_i tx htx
      split at h
      · rename_i c hc
        obtain ⟨h1, h2, h3⟩ := Chan.send_eq_ok _ _ _ hc
        subst h3
        cases h
        exact SelStep.feed s i tx hp hf htx h1 h2
      · simp at h
      · rename_i hc
        cases h
        exact SelStep.feedPanic s i tx hp hf htx (Chan.send_eq_panic _ _ hc)
    · rename_i htx
      split at h
      · rename_i c hc
        obtain ⟨h1, h2⟩ := Chan.close_eq_some _ _ hc
        subst h2
        cases h
        exact SelStep.closeJobs s i hp hf htx h1
      · rename_i hc
        cases h
        exact SelStep.closeJobsPanic s i hp hf htx (Chan.close_eq_none _ hc)
  · simp at h

theorem selCloserStep_sound (sc : Scorer) (txs : List Transaction) (numWorkers : ℤ)
    (s s' : SelState) (hp : s.panicked = false) (h : selCloserStep s = some s') :
    SelStep sc txs numWorkers s s' := by
  unfold selCloserStep at h
  split at h
  · simp at h
  · rename_i hc
    split at h
    · rename_i hwg
      cases h
      exact SelStep.waited s hp hc hwg
    · simp at h
  · rename_i hc
    split at h
    · rename_i c hcl
      obtain ⟨h1, h2⟩ := Chan.close_eq_some _ _ hcl
      subst h2
      cases h
      exact SelStep.closeRes s hp hc h1
    · rename_i hcl
      cases h
      exact SelStep.closeResPanic s hp hc (Chan.close_eq_none _ hcl)
  · rename_i hc
    split at h
    · rename_i c hcl
      obtain ⟨h1, h2⟩ := Chan.close_eq_some _ _ hcl
      subst h2
      cases h
      exact SelStep.closeProg s hp hc h1
    · rename_i hcl
      cases h
      exact SelStep.closeProgPanic s hp hc (Chan.close_eq_none _ hcl)
  · simp at h

theorem selStep_sound (sc : Scorer) (txs : List Transaction) (numWorkers : ℤ)
    (s s' : SelState) (a : SelAct) (h : selStep sc txs numWorkers s a = some s') :
    SelStep sc txs numWorkers s s' := by
  unfold selStep at h
  by_cases hp : s.panicked = true
  · simp [hp] at h
  have hp' : s.panicked = false := by simpa using hp
  simp only [hp', Bool.false_eq_true, if_false] at h
  cases a with
  | main => exact selMainStep_sound sc txs numWorkers s s' hp' h
  | recvResult => exact selRecvResultStep_sound sc txs numWorkers s s' hp' h
  | recvProgress => exact selRecvProgressStep_sound sc txs numWorkers s s' hp' h
  | timeout => exact selTimeoutStep_sound sc txs numWorkers s s' hp' h
  | worker i =>
    simp only at h
    split at h
    · rename_i w hw
      exact selWorkerStep_sound sc txs numWorkers s s' i w hp' hw h
    · simp at h
  | workerDone i =>
    simp only at h
    split at h
    · rename_i w hw
      exact selWorkerDoneStep_sound sc txs numWorkers s s' i w hp' hw h
    · simp at h
  | feeder => exact selFeederStep_sound sc txs numWorkers s s' hp' h
  | closer => exact selCloserStep_sound sc txs numWorkers s s' hp' h

/-! ## Select machine: conservation, counting, structure -/

theorem mem_of_mem_set_ne {β : Type} {l : List β} {i : ℕ} {a b : β}
    (hne : b ≠ a) (h : a ∈ l.set i b) : a ∈ l := by
  rcases List.mem_or_eq_of_mem_set h with h | h
  · exact h
  · exact absurd h.symm hne

theorem SelWorker.sel_take_holding (tx : Transaction) :
    SelWorker.holding (SelWorker.take tx) = {tx} := by
  unfold SelWorker.take
  cases ValidateTransaction tx <;> rfl

theorem SelWorker.sel_take_active (tx : Transaction) :
    SelWorker.active (SelWorker.take tx) = 1 := by
  unfold SelWorker.take
  cases ValidateTransaction tx <;> rfl

theorem SelWorker.sel_take_ne_exited (tx : Transaction) :
    SelWorker.take tx ≠ SelWorker.exited := by
  unfold SelWorker.take
  cases ValidateTransaction tx <;> simp

theorem drop_eq_cons_of_getElem? {β : Type} {l : List β} {i : ℕ} {a : β} (h : l[i]? = some a) :
    l.drop i = a :: l.drop (i + 1) := by
  rw [List.getElem?_eq_some] at h
  obtain ⟨hi, rfl⟩ := h
  exact List.drop_eq_getElem_cons hi

theorem drop_eq_nil_of_getElem? {β : Type} {l : List β} {i : ℕ} (h : l[i]? = none) :
    l.drop i = [] := by
  rw [List.getElem?_eq_none_iff] at h
  exact List.drop_eq_nil_of_le h

theorem SelStep.selConserved {sc : Scorer} {txs : List Transaction} {numWorkers : ℤ}
    {s s' : SelState} (h : SelStep sc txs numWorkers s s')
    (hph : s.Phased numWorkers) (hc : s.Conserved txs) : s'.Conserved txs := by
  unfold SelState.Conserved SelState.everywhere at *
  cases h
  case spawn w hp hm hw =>
    simpa [SelWorker.holding] using hc
  case goFeeder hp hm =>
    have h1 := hph.1
    rw [hm] at h1
    have hf : s.feeder = Feeder.notStarted := h1.2.1
    rw [hf] at hc
    simpa [Feeder.unfed] using hc
  case collect r rest hp hm hbuf =>
    rw [← hc]
    simp only [hbuf, List.map_append, List.map_cons, List.map_nil, coe_append_eq_add,
      coe_cons_eq_add, coe_nil_eq_zero]
    abel
  case take i tx rest hp hw hbuf =>
    have hset := sum_map_set SelWorker.holding s.workers i _ (SelWorker.take tx) hw
    rw [SelWorker.sel_take_holding] at hset
    simp only [SelWorker.holding, add_zero] at hset
    rw [← hc]
    simp only [hset, hbuf, coe_cons_eq_add]
    abel
  case exit i hp hw hbuf hclosed hwg =>
    have hset := sum_map_set SelWorker.holding s.workers i _ SelWorker.exited hw
    simp only [SelWorker.holding, add_zero] at hset
    rw [← hc]
    simp only [hset]
  case stop i hp hw hd hwg =>
    have hset := sum_map_set SelWorker.holding s.workers i _ SelWorker.exited hw
    simp only [SelWorker.holding, add_zero] at hset
    rw [← hc]
    simp only [hset]
  case score i tx hp hw =>
    have hset := sum_map_set SelWorker.holding s.workers i _
      (SelWorker.emit (okResult tx (sc tx s.rand).score)) hw
    simp only [SelWorker.holding, okResult_Transaction, add_left_inj] at hset
    rw [← hc]
    simp only [hset]
  case emit i r hp hw hopen hroom =>
    have hset := sum_map_set SelWorker.holding s.workers i _ SelWorker.progress hw
    simp only [SelWorker.holding, add_zero] at hset
    rw [← hc, ← hset]
    simp only [List.map_append, List.map_cons, List.map_nil, coe_append_eq_add,
      coe_cons_eq_add, coe_nil_eq_zero]
    abel
  case report i hp hw hopen hroom =>
    have hset := sum_map_set SelWorker.holding s.workers i _ SelWorker.idle hw
    simp only [SelWorker.holding, add_zero] at hset
    rw [← hc]
    simp only [hset]
  case feed i tx hp hf htx hopen hroom =>
    rw [← hc]
    simp only [hf, Feeder.unfed, drop_eq_cons_of_getElem? htx, coe_append_eq_add,
      coe_cons_eq_add, coe_nil_eq_zero]
    abel
  case closeJobs i hp hf htx hopen =>
    simpa [hf, Feeder.unfed, drop_eq_nil_of_getElem? htx] using hc
  all_goals exact hc

theorem SelStep.selCounted {sc : Scorer} {txs : List Transaction} {numWorkers : ℤ}
    {s s' : SelState} (h : SelStep sc txs numWorkers s s')
    (hc : s.Counted txs) : s'.Counted txs := by
  obtain ⟨h1, h2, h3, h4⟩ := hc
  unfold SelState.Counted
  cases h
  case spawn w hp hm hw =>
    refine ⟨?_, h2, h3, h4⟩
    simp [h1, SelWorker.active]
  case take i tx rest hp hw hbuf =>
    have hset := sum_map_set SelWorker.active s.workers i _ (SelWorker.take tx) hw
    rw [SelWorker.sel_take_active] at hset
    simp only [SelWorker.active] at hset
    exact ⟨by dsimp only; omega, h2, h3, h4⟩
  case exit i hp hw hbuf hclosed hwg =>
    have hset := sum_map_set SelWorker.active s.workers i _ SelWorker.exited hw
    simp only [SelWorker.active] at hset
    exact ⟨by dsimp only; omega, h2, h3, h4⟩
  case stop i hp hw hd hwg =>
    have hset := sum_map_set SelWorker.active s.workers i _ SelWorker.exited hw
    simp only [SelWorker.active] at hset
    exact ⟨by dsimp only; omega, h2, h3, h4⟩
  case score i tx hp hw =>
    have hset := sum_map_set SelWorker.active s.workers i _
      (SelWorker.emit (okResult tx (sc tx s.rand).score)) hw
    simp only [SelWorker.active] at hset
    exact ⟨by dsimp only; omega, h2, h3, h4⟩
  case emit i r hp hw hopen hroom =>
    have hset := sum_map_set SelWorker.active s.workers i _ SelWorker.progress hw
    simp only [SelWorker.active] at hset
    exact ⟨by dsimp only; omega, h2, h3, h4⟩
  case report i hp hw hopen hroom =>
    have hset := sum_map_set SelWorker.active s.workers i _ SelWorker.idle hw
    simp only [SelWorker.active] at hset
    exact ⟨by dsimp only; omega, h2, h3, h4⟩
  all_goals exact ⟨h1, h2, h3, h4⟩

/-- A worker that has not finished keeps the WaitGroup counter positive. -/
theorem SelState.Counted.wg_pos {txs : List Transaction} {s : SelState} (hc : s.Counted txs)
    {i : ℕ} {w : SelWorker} (hw : s.workers[i]? = some w) (hne : w ≠ SelWorker.exited) :
    s.wg ≠ 0 := by
  have := le_sum_map_of_getElem? SelWorker.active _ _ _ hw
  have h1 : SelWorker.active w = 1 := by
    cases w <;> simp [SelWorker.active] at hne ⊢
  rw [← hc.1] at this
  omega

theorem SelStep.selNoPanic {sc : Scorer} {txs : List Transaction} {numWorkers : ℤ}
    {s s' : SelState} (h : SelStep sc txs numWorkers s s')
    (hi : s.Inv txs numWorkers) : s'.panicked = false := by
  obtain ⟨hp0, -, hcnt, ⟨hmain, hfeed, hcl, -⟩⟩ := hi
  cases h
  case timeoutPanic hp hm hd =>
    rw [hm] at hmain
    rw [hmain.2.2.2] at hd
    cases hd
  case exitPanic i hp hw hbuf hclosed hwg =>
    exact absurd hwg (hcnt.wg_pos hw (by simp))
  case stopPanic i hp hw hd hwg =>
    exact absurd hwg (hcnt.wg_pos hw (by simp))
  case emitPanic i r hp hw hclosed =>
    have hwg := hcnt.wg_pos hw (by simp)
    cases hcs : s.closer <;> rw [hcs] at hcl <;> simp_all
  case reportPanic i hp hw hclosed =>
    have hwg := hcnt.wg_pos hw (by simp)
    cases hcs : s.closer <;> rw [hcs] at hcl <;> simp_all
  case feedPanic i tx hp hf htx hclosed =>
    rw [hf] at hfeed
    rw [hfeed] at hclosed
    cases hclosed
  case closeJobsPanic i hp hf htx hclosed =>
    rw [hf] at hfeed
    rw [hfeed] at hclosed
    cases hclosed
  case closeResPanic hp hc hclosed =>
    rw [hc] at hcl
    rw [hcl.2.1] at hclosed
    cases hclosed
  case closeProgPanic hp hc hclosed =>
    rw [hc] at hcl
    rw [hcl.2.2] at hclosed
    cases hclosed
  all_goals exact hp0

theorem SelStep.selPhased {sc : Scorer} {txs : List Transaction} {numWorkers : ℤ}
    {s s' : SelState} (h : SelStep sc txs numWorkers s s')
    (hc : s.Phased numWorkers) : s'.Phased numWorkers := by
  obtain ⟨h1, h2, h3, h4⟩ := hc
  cases h
  case spawn w hp hm hw =>
    rw [hm] at h1
    obtain ⟨ha, hb, hf, hcr, hd⟩ := h1
    refine ⟨⟨by simp [ha], by omega, hf, hcr, hd⟩, h2, ?_, ?_⟩
    · rw [hcr] at h3 ⊢
      exact h3
    · intro hex
      rcases List.mem_append.mp hex with hex | hex
      · exact h4 hex
      · simp at hex
  case spawnEnd w hp hm hw =>
    rw [hm] at h1
    obtain ⟨ha, hb, hf, hcr, hd⟩ := h1
    exact ⟨⟨by dsimp only; omega, hf, hcr, hd⟩, h2, h3, h4⟩
  case goFeeder hp hm =>
    rw [hm] at h1
    obtain ⟨ha, hf, hcr, hd⟩ := h1
    rw [hf] at h2
    exact ⟨⟨ha, by simp, hcr, hd⟩, h2, h3, h4⟩
  case goCloser hp hm =>
    rw [hm] at h1
    obtain ⟨ha, hf, hcr, hd⟩ := h1
    rw [hcr] at h3
    exact ⟨⟨ha, hf, by simp, hd⟩, h2, h3, h4⟩
  case collect r rest hp hm hbuf =>
    rw [hm] at h1
    exact ⟨by rw [hm]; exact h1, h2, h3, h4⟩
  case ret hp hm hbuf hclosed =>
    rw [hm] at h1
    obtain ⟨ha, hf, hcr, hd⟩ := h1
    exact ⟨⟨ha, hf, hcr, hd, fun _ => ⟨hclosed, hbuf⟩⟩, h2, h3, h4⟩
  case progressRecv p rest hp hm hbuf =>
    exact ⟨h1, h2, h3, h4⟩
  case progressClosed hp hm hbuf hclosed =>
    exact ⟨h1, h2, h3, h4⟩
  case timeout hp hm hd =>
    rw [hm] at h1
    obtain ⟨ha, hf, hcr, -⟩ := h1
    exact ⟨⟨ha, hf, hcr, rfl, by simp⟩, h2, h3, fun _ => Or.inr rfl⟩
  case take i tx rest hp hw hbuf =>
    refine ⟨?_, h2, h3, ?_⟩
    · dsimp only
      rw [List.length_set]
      exact h1
    · intro hex
      rcases h4 (mem_of_mem_set_ne (SelWorker.sel_take_ne_exited tx) hex) with h | h
      · rw [hbuf] at h
        cases h.2
      · exact Or.inr h
  case exit i hp hw hbuf hclosed hwg =>
    refine ⟨?_, h2, ?_, fun _ => Or.inl ⟨hclosed, hbuf⟩⟩
    · dsimp only
      rw [List.length_set]
      exact h1
    · dsimp only
      cases hcs : s.closer <;> rw [hcs] at h3 <;> simp_all
  case stop i hp hw hd hwg =>
    refine ⟨?_, h2, ?_, fun _ => Or.inr hd⟩
    · dsimp only
      rw [List.length_set]
      exact h1
    · dsimp only
      cases hcs : s.closer <;> rw [hcs] at h3 <;> simp_all
  case score i tx hp hw =>
    refine ⟨?_, h2, h3, fun hex => h4 (mem_of_mem_set_ne (by simp) hex)⟩
    dsimp only
    rw [List.length_set]
    exact h1
  case emit i r hp hw hopen hroom =>
    refine ⟨?_, h2, h3, fun hex => h4 (mem_of_mem_set_ne (by simp) hex)⟩
    dsimp only
    rw [List.length_set]
    cases hm : s.main <;> rw [hm] at h1 <;> try exact h1
    obtain ⟨ha, hf, hcr, hd, hr⟩ := h1
    refine ⟨ha, hf, hcr, hd, fun ht => ?_⟩
    have := (hr ht).1
    rw [hopen] at this
    cases this
  case report i hp hw hopen hroom =>
    refine ⟨?_, h2, h3, fun hex => h4 (mem_of_mem_set_ne (by simp) hex)⟩
    dsimp only
    rw [List.length_set]
    exact h1
  case feed i tx hp hf htx hopen hroom =>
    refine ⟨?_, hopen, h3, ?_⟩
    · dsimp only
      cases hm : s.main <;> rw [hm] at h1 <;> simp_all
    · intro hex
      rcases h4 hex with h | h
      · rw [hopen] at h
        cases h.1
      · exact Or.inr h
  case closeJobs i hp hf htx hopen =>
    refine ⟨?_, rfl, h3, ?_⟩
    · dsimp only
      cases hm : s.main <;> rw [hm] at h1 <;> simp_all
    · intro hex
      rcases h4 hex with h | h
      · rw [hopen] at h
        cases h.1
      · exact Or.inr h
  case waited hp hcl hwg =>
    refine ⟨?_, h2, ?_, h4⟩
    · dsimp only
      cases hm : s.main <;> rw [hm] at h1 <;> simp_all
    · rw [hcl] at h3
      exact ⟨hwg, h3⟩
  case closeRes hp hcl hopen =>
    refine ⟨?_, h2, ?_, h4⟩
    · dsimp only
      cases hm : s.main <;> rw [hm] at h1 <;> simp_all
    · rw [hcl] at h3
      exact ⟨h3.1, rfl, h3.2.2⟩
  case closeProg hp hcl hopen =>
    refine ⟨?_, h2, ?_, h4⟩
    · dsimp only
      cases hm : s.main <;> rw [hm] at h1 <;> simp_all
    · rw [hcl] at h3
      exact ⟨h3.1, h3.2.1, rfl⟩
  all_goals exact ⟨h1, h2, h3, h4⟩

theorem SelStep.selInv {sc : Scorer} {txs : List Transaction} {numWorkers : ℤ}
    {s s' : SelState} (h : SelStep sc txs numWorkers s s')
    (hi : s.Inv txs numWorkers) : s'.Inv txs numWorkers :=
  ⟨h.selNoPanic hi, h.selConserved hi.phased hi.conserved, h.selCounted hi.counted,
    h.selPhased hi.phased⟩

theorem selInit_inv (txs : List Transaction) (numWorkers : ℤ) (r : Rand) :
    (selInit txs r).Inv txs numWorkers := by
  refine ⟨rfl, ?_, ?_, ?_⟩
  · simp [SelState.Conserved, SelState.everywhere, selInit, Chan.make, Feeder.unfed]
  · simp [SelState.Counted, selInit, Chan.make]
  · refine ⟨?_, ?_, ?_, ?_⟩
    · simp [selInit, Chan.make]
    · simp [selInit, Chan.make]
    · simp [selInit, Chan.make]
    · simp [selInit]

/-- Every reachable state of the select machine satisfies its invariants. -/
theorem sel_reachable_inv (sc : Scorer) (txs : List Transaction) (numWorkers : ℤ) (r : Rand) :
    ∀ s, (ProcessTransactionsWithSelectWith sc txs numWorkers r).Reachable s →
      s.Inv txs numWorkers := by
  refine Machine.Reachable.induct _ (selInit_inv txs numWorkers r) ?_
  intro s a s' ha hst
  exact (selStep_sound sc txs numWorkers s s' a hst).selInv ha

/-! ## Select machine: what a return says -/

theorem sel_all_exited_of_active_zero :
    ∀ (l : List SelWorker), (l.map SelWorker.active).sum = 0 → ∀ w ∈ l, w = SelWorker.exited := by
  intro l
  induction l with
  | nil => intro _ w hw; simp at hw
  | cons x xs ih =>
    intro h w hw
    simp only [List.map_cons, List.sum_cons] at h
    rcases List.mem_cons.mp hw with hw | hw
    · subst hw
      cases w <;> simp [SelWorker.active] at h ⊢
    · exact ih (by omega) w hw

theorem sel_holding_sum_of_all_exited :
    ∀ (l : List SelWorker), (∀ w ∈ l, w = SelWorker.exited) →
      (l.map SelWorker.holding).sum = 0 := by
  intro l
  induction l with
  | nil => intro _; simp
  | cons x xs ih =>
    intro h
    have hx := h x (List.mem_cons_self _ _)
    subst hx
    simp only [List.map_cons, List.sum_cons, SelWorker.holding, zero_add]
    exact ih (fun w hw => h w (List.mem_cons_of_mem _ hw))

/-- The results collected so far are never more than the batch. -/
theorem SelState.Conserved.results_le {txs : List Transaction} {s : SelState}
    (h : s.Conserved txs) : s.results.length ≤ txs.length := by
  have hcard := congrArg Multiset.card h
  unfold SelState.everywhere at hcard
  simp only [Multiset.card_add, Multiset.coe_card, List.length_map] at hcard
  omega

/-- A return with `timedOut == false` from a run with at least one worker has collected a
result for every transaction of the batch. -/
theorem SelState.Inv.selReturned {txs : List Transaction} {numWorkers : ℤ} {s : SelState}
    (hi : s.Inv txs numWorkers) (hW : 1 ≤ numWorkers) (hm : s.main = SelMain.returned)
    (ht : s.timedOut = false) :
    (s.results.map ProcessingResult.Transaction : Multiset Transaction) = (txs : Multiset Transaction) := by
  obtain ⟨h1, h2, h3, h4⟩ := hi.phased
  rw [hm] at h1
  obtain ⟨hlen, -, -, hd, hr⟩ := h1
  obtain ⟨hrc, hrb⟩ := hr ht
  rw [ht] at hd
  have hwg : s.wg = 0 := by
    cases hcs : s.closer <;> rw [hcs] at h3 <;> simp_all
  have hact : (s.workers.map SelWorker.active).sum = 0 := by
    rw [← hi.counted.1]
    exact hwg
  have hall := sel_all_exited_of_active_zero _ hact
  have hne : s.workers ≠ [] := by
    intro h
    rw [h] at hlen
    simp only [List.length_nil] at hlen
    omega
  obtain ⟨w, hw⟩ := List.exists_mem_of_ne_nil _ hne
  have hw' := hall w hw
  subst hw'
  have hj : s.jobs.closed = true ∧ s.jobs.buf = [] := by
    rcases h4 hw with h | h
    · exact h
    · rw [hd] at h
      cases h
  have hf : s.feeder = Feeder.done := by
    cases hfs : s.feeder <;> rw [hfs] at h2 <;> simp_all
  have hcons := hi.conserved
  unfold SelState.Conserved SelState.everywhere at hcons
  rw [hrb, hj.2, hf, sel_holding_sum_of_all_exited _ hall] at hcons
  simpa [Feeder.unfed] using hcons

/-! ## Select machine: the job and result queues never fill up -/

/-- Counting form of conservation: the pieces of the run add up to the batch size. -/
theorem SelState.Conserved.sel_card {txs : List Transaction} {s : SelState} (h : s.Conserved txs) :
    s.results.length + s.res.buf.length +
      ((s.workers.map SelWorker.holding).map Multiset.card).sum + s.jobs.buf.length +
      (Feeder.unfed txs s.feeder).length = txs.length := by
  have := congrArg Multiset.card h
  simpa [SelState.everywhere, map_list_sum] using this

theorem SelState.Inv.sel_room_res {txs : List Transaction} {numWorkers : ℤ} {s : SelState}
    (hi : s.Inv txs numWorkers) {i : ℕ} {r : ProcessingResult}
    (hw : s.workers[i]? = some (SelWorker.emit r)) :
    s.res.closed = false ∧ s.res.buf.length < s.res.cap := by
  have hcard := hi.conserved.sel_card
  have h1 : ((s.workers.map SelWorker.holding).map Multiset.card)[i]? = some 1 := by
    simp [hw, SelWorker.holding]
  have h2 := le_sum_map_of_getElem? id _ _ _ h1
  simp only [List.map_id, id] at h2
  refine ⟨?_, by rw [hi.counted.2.2.1]; omega⟩
  have hwg := hi.counted.wg_pos hw (by simp)
  have h3 := hi.phased.2.2.1
  cases hcs : s.closer <;> rw [hcs] at h3 <;> simp_all

theorem SelState.Inv.sel_room_jobs {txs : List Transaction} {numWorkers : ℤ} {s : SelState}
    (hi : s.Inv txs numWorkers) {i : ℕ} {tx : Transaction}
    (hf : s.feeder = Feeder.feed i) (htx : txs[i]? = some tx) :
    s.jobs.buf.length < s.jobs.cap := by
  have hcard := hi.conserved.sel_card
  have hlt : i < txs.length := by
    rw [List.getElem?_eq_some] at htx
    exact htx.1
  rw [hf] at hcard
  simp only [Feeder.unfed, List.length_drop] at hcard
  rw [hi.counted.2.1]
  omega

/-- When the call has returned, the feeder has finished, the closer is waiting for a
worker, and the only worker is at `progress <- 1` on a full progress channel, no
goroutine can move. -/
theorem selStep_stuck (sc : Scorer) (txs : List Transaction) (numWorkers : ℤ) (s : SelState)
    (hm : s.main = SelMain.returned) (hf : s.feeder = Feeder.done)
    (hc : s.closer = SelCloser.waiting) (hwg : s.wg ≠ 0) (hw : s.workers = [SelWorker.progress])
    (hopen : s.progress.closed = false) (hfull : s.progress.cap ≤ s.progress.buf.length) :
    ∀ a, selStep sc txs numWorkers s a = none := by
  intro a
  unfold selStep
  split
  · rfl
  · cases a with
    | main => simp [selMainStep, hm]
    | recvResult => simp [selRecvResultStep, hm]
    | recvProgress => simp [selRecvProgressStep, hm]
    | timeout => simp [selTimeoutStep, hm]
    | worker i =>
      cases i with
      | zero =>
        have : ¬ s.progress.buf.length < s.progress.cap := by omega
        simp [hw, selWorkerStep, Chan.send, hopen, this]
      | succ n => simp [hw]
    | workerDone i =>
      cases i with
      | zero => simp [hw, selWorkerDoneStep]
      | succ n => simp [hw]
    | feeder => simp [selFeederStep, hf]
    | closer => simp [selCloserStep, hc, hwg]

theorem select_stuck (txs : List Transaction) (numWorkers : ℤ) (r : Rand) (s : SelState)
    (hm : s.main = SelMain.returned) (hf : s.feeder = Feeder.done)
    (hc : s.closer = SelCloser.waiting) (hwg : s.wg ≠ 0) (hw : s.workers = [SelWorker.progress])
    (hopen : s.progress.closed = false) (hfull : s.progress.cap ≤ s.progress.buf.length) :
    ∀ a, (ProcessTransactionsWithSelect txs numWorkers r).step s a = none :=
  selStep_stuck CalculateFraudScore txs numWorkers s hm hf hc hwg hw hopen hfull

/-! ## Context machine: the step function is one of the listed operations -/

theorem ctxMainStep_sound (sc : Scorer) (ctx : Context) (txs : List Transaction) (numWorkers : ℤ)
    (s s' : CtxState) (hp : s.panicked = false) (h : ctxMainStep numWorkers s = some s') :
    CtxStep sc ctx txs numWorkers s s' := by
  unfold ctxMainStep at h
  split at h
  · rename_i w hm
    split at h
    · rename_i hw
      cases h
      exact CtxStep.spawn s w hp hm hw
    · rename_i hw
      cases h
      exact CtxStep.spawnEnd s w hp hm hw
  · rename_i hm
    cases h
    exact CtxStep.goFeeder s hp hm
  · rename_i hm
    cases h
    exact CtxStep.goCloser s hp hm
  · simp at h
  · rename_i hm
    split at h
    · rename_i r c hc
      obtain ⟨rest, h1, h2⟩ := Chan.recv_eq_value _ _ _ hc
      subst h2
      cases h
      exact CtxStep.drainCollect s r rest hp hm h1
    · rename_i hc
      obtain ⟨h1, h2⟩ := Chan.recv_eq_closed _ hc
      cases h
      exact CtxStep.drainRet s hp hm h1 h2
    · simp at h
  · simp at h

theorem ctxRecvResultStep_sound (sc : Scorer) (ctx : Context) (txs : List Transaction)
    (numWorkers : ℤ) (s s' : CtxState) (hp : s.panicked = false)
    (h : ctxRecvResultStep s = some s') : CtxStep sc ctx txs numWorkers s s' := by
  unfold ctxRecvResultStep at h
  split at h
  · rename_i hm
    split at h
    · rename_i r c hc
      obtain ⟨rest, h1, h2⟩ := Chan.recv_eq_value _ _ _ hc
      subst h2
      cases h
      exact CtxStep.collect s r rest hp hm h1
    · rename_i hc
      obtain ⟨h1, h2⟩ := Chan.recv_eq_closed _ hc
      cases h
      exact CtxStep.ret s hp hm h1 h2
    · simp at h
  · simp at h

theorem ctxMainCancelStep_sound (sc : Scorer) (ctx : Context) (txs : List Transaction)
    (numWorkers : ℤ) (s s' : CtxState) (hp : s.panicked = false)
    (h : ctxMainCancelStep s = some s') : CtxStep sc ctx txs numWorkers s s' := by
  unfold ctxMainCancelStep at h
  split at h
  · rename_i hm
    split at h
    · rename_i hd
      cases h
      exact CtxStep.mainCancel s hp hm hd
    · simp at h
  · simp at h

theorem ctxWorkerStep_sound (sc : Scorer) (ctx : Context) (txs : List Transaction)
    (numWorkers : ℤ) (s s' : CtxState) (i : ℕ) (w : CtxWorker) (hp : s.panicked = false)
    (hw : s.workers[i]? = some w) (h : ctxWorkerStep sc s i w = some s') :
    CtxStep sc ctx txs numWorkers s s' := by
  unfold ctxWorkerStep at h
  split at h
  · split at h
    · rename_i tx c hc
      obtain ⟨rest, h1, h2⟩ := Chan.recv_eq_value _ _ _ hc
      subst h2
      cases h
      exact CtxStep.take s i tx rest hp hw h1
    · rename_i hc
      obtain ⟨h1, h2⟩ := Chan.recv_eq_closed _ hc
      split at h
      · rename_i n hn
        obtain ⟨h3, h4⟩ := wgDone_eq_some _ _ hn
        subst h4
        cases h
        exact CtxStep.exit s i hp hw h1 h2 h3
      · rename_i hn
        cases h
        exact CtxStep.exitPanic s i hp hw h1 h2 (wgDone_eq_none _ hn)
    · simp at h
  · rename_i tx
    split at h
    · rename_i hd
      split at h
      · rename_i n hn
        obtain ⟨h3, h4⟩ := wgDone_eq_some _ _ hn
        subst h4
        cases h
        exact CtxStep.checkStop s i tx hp hw hd h3
      · rename_i hn
        cases h
        exact CtxStep.checkStopPanic s i tx hp hw hd (wgDone_eq_none _ hn)
    · rename_i hd
      have hd' : s.ctxDone = false := by simpa using hd
      split at h
      · rename_i err hv
        cases h
        exact CtxStep.checkInvalid s i tx err hp hw hd' hv
      · rename_i hv
        cases h
        exact CtxStep.checkValid s i tx hp hw hd' hv
  · rename_i r
    split at h
    · rename_i c hc
      obtain ⟨h1, h2, h3⟩ := Chan.send_eq_ok _ _ _ hc
      subst h3
      cases h
      exact CtxStep.emitErr s i r hp hw h1 h2
    · simp at h
    · rename_i hc
      cases h
      exact CtxStep.emitErrPanic s i r hp hw (Chan.send_eq_panic _ _ hc)
  · rename_i tx
    simp only at h
    cases h
    exact CtxStep.score s i tx hp hw
  · rename_i r
    split at h
    · rename_i c hc
      obtain ⟨h1, h2, h3⟩ := Chan.send_eq_ok _ _ _ hc
      subst h3
      cases h
      exact CtxStep.emitOk s i r hp hw h1 h2
    · simp at h
    · rename_i hc
      cases h
      exact CtxStep.emitOkPanic s i r hp hw (Chan.send_eq_panic _ _ hc)
  · simp at h

theorem ctxWorkerCancelStep_sound (sc : Scorer) (ctx : Context) (txs : List Transaction)
    (numWorkers : ℤ) (s s' : CtxState) (i : ℕ) (w : CtxWorker) (hp : s.panicked = false)
    (hw : s.workers[i]? = some w) (h : ctxWorkerCancelStep s i w = some s') :
    CtxStep sc ctx txs numWorkers s s' := by
  unfold ctxWorkerCancelStep at h
  split at h
  · rename_i hd
    split at h
    · split at h
      · rename_i n hn
        obtain ⟨h3, h4⟩ := wgDone_eq_some _ _ hn
        subst h4
        cases h
        exact CtxStep.stop s i hp hw hd h3
      · rename_i hn
        cases h
        exact CtxStep.stopPanic s i hp hw hd (wgDone_eq_none _ hn)
    · rename_i r
      split at h
      · rename_i n hn
        obtain ⟨h3, h4⟩ := wgDone_eq_some _ _ hn
        subst h4
        cases h
        exact CtxStep.abandon s i r hp hw hd h3
      · rename_i hn
        cases h
        exact CtxStep.abandonPanic s i r hp hw hd (wgDone_eq_none _ hn)
    · simp at h
  · simp at h

theorem ctxFeederStep_sound (sc : Scorer) (ctx : Context) (txs : List Transaction)
    (numWorkers : ℤ) (s s' : CtxState) (hp : s.panicked = false)
    (h : ctxFeederStep txs s = some s') : CtxStep sc ctx txs numWorkers s s' := by
  unfold ctxFeederStep at h
  split at h
  · simp at h
  · rename_i i hf
    split at h
    · rename_i tx htx
      split at h
      · rename_i c hc
        obtain ⟨h1, h2, h3⟩ := Chan.send_eq_ok _ _ _ hc
        subst h3
        cases h
        exact CtxStep.feed s i tx hp hf htx h1 h2
      · simp at h
      · rename_i hc
        cases h
        exact CtxStep.feedPanic s i tx hp hf htx (Chan.send_eq_panic _ _ hc)
    · rename_i htx
      split at h
      · rename_i c hc
        obtain ⟨h1, h2⟩ := Chan.close_eq_some _ _ hc
        subst h2
        cases h
        exact CtxStep.closeJobs s i hp hf htx h1
      · rename_i hc
        cases h
        exact CtxStep.closeJobsPanic s i hp hf htx (Chan.close_eq_none _ hc)
  · simp at h

theorem ctxFeederCancelStep_sound (sc : Scorer) (ctx : Context) (txs : List Transaction)
    (numWorkers : ℤ) (s s' : CtxState) (hp : s.panicked = false)
    (h : ctxFeederCancelStep txs s = some s') : CtxStep sc ctx txs numWorkers s s' := by
  unfold ctxFeederCancelStep at h
  split at h
  · rename_i i hf
    split at h
    · rename_i tx htx
      split at h
      · rename_i hd
        split at h
        · rename_i c hc
          obtain ⟨h1, h2⟩ := Chan.close_eq_some _ _ hc
          subst h2
          cases h
          exact CtxStep.feedCancel s i tx hp hf htx hd h1
        · rename_i hc
          cases h
          exact CtxStep.feedCancelPanic s i tx hp hf htx hd (Chan.close_eq_none _ hc)
      · simp at h
    · simp at h
  · simp at h

theorem ctxCloserStep_sound (sc : Scorer) (ctx : Context) (txs : List Transaction)
    (numWorkers : ℤ) (s s' : CtxState) (hp : s.panicked = false)
    (h : ctxCloserStep s = some s') : CtxStep sc ctx txs numWorkers s s' := by
  unfold ctxCloserStep at h
  split at h
  · simp at h
  · rename_i hc
    split at h
    · rename_i hwg
      cases h
      exact CtxStep.waited s hp hc hwg
    · simp at h
  · rename_i hc
    split at h
    · rename_i c hcl
      obtain ⟨h1, h2⟩ := Chan.close_eq_some _ _ hcl
      subst h2
      cases h
      exact CtxStep.closeRes s hp hc h1
    · rename_i hcl
      cases h
      exact CtxStep.closeResPanic s hp hc (Chan.close_eq_none _ hcl)
  · simp at h

theorem ctxStep_sound (sc : Scorer) (ctx : Context) (txs : List Transaction) (numWorkers : ℤ)
    (s s' : CtxState) (a : CtxAct) (h : ctxStep sc ctx txs numWorkers s a = some s') :
    CtxStep sc ctx txs numWorkers s s' := by
  unfold ctxStep at h
  by_cases hp : s.panicked = true
  · simp [hp] at h
  have hp' : s.panicked = false := by simpa using hp
  rw [if_neg hp] at h
  cases a with
  | cancel =>
    simp only at h
    split at h
    · rename_i hc
      simp only [Bool.and_eq_true, Bool.not_eq_true'] at hc
      cases h
      exact CtxStep.cancel s hp' hc.1 hc.2
    · simp at h
  | main => exact ctxMainStep_sound sc ctx txs numWorkers s s' hp' h
  | recvResult => exact ctxRecvResultStep_sound sc ctx txs numWorkers s s' hp' h
  | mainCancel => exact ctxMainCancelStep_sound sc ctx txs numWorkers s s' hp' h
  | worker i =>
    simp only at h
    split at h
    · rename_i w hw
      exact ctxWorkerStep_sound sc ctx txs numWorkers s s' i w hp' hw h
    · simp at h
  | workerCancel i =>
    simp only at h
    split at h
    · rename_i w hw
      exact ctxWorkerCancelStep_sound sc ctx txs numWorkers s s' i w hp' hw h
    · simp at h
  | feeder => exact ctxFeederStep_sound sc ctx txs numWorkers s s' hp' h
  | feederCancel => exact ctxFeederCancelStep_sound sc ctx txs numWorkers s s' hp' h
  | closer => exact ctxCloserStep_sound sc ctx txs numWorkers s s' hp' h

/-! ## Context machine: conservation, counting, structure -/

theorem CtxStep.ctxConserved {sc : Scorer} {ctx : Context} {txs : List Transaction}
    {numWorkers : ℤ} {s s' : CtxState} (h : CtxStep sc ctx txs numWorkers s s')
    (hph : s.Phased numWorkers) (hc : s.Conserved txs) : s'.Conserved txs := by
  obtain ⟨d, hc, hd0⟩ := hc
  unfold CtxState.Conserved CtxState.everywhere at *
  cases h
  case cancel hp hmay hnd =>
    exact ⟨d, hc, by simp⟩
  case spawn w hp hm hw =>
    exact ⟨d, by simpa [CtxWorker.holding] using hc, hd0⟩
  case goFeeder hp hm =>
    have h1 := hph.1
    rw [hm] at h1
    have hf : s.feeder = Feeder.notStarted := h1.2.1
    rw [hf] at hc
    exact ⟨d, by simpa [Feeder.unfed] using hc, hd0⟩
  case collect r rest hp hm hbuf =>
    refine ⟨d, ?_, hd0⟩
    rw [← hc]
    simp only [hbuf, List.map_append, List.map_cons, List.map_nil, coe_append_eq_add,
      coe_cons_eq_add, coe_nil_eq_zero]
    abel
  case drainCollect r rest hp hm hbuf =>
    refine ⟨d, ?_, hd0⟩
    rw [← hc]
    simp only [hbuf, List.map_append, List.map_cons, List.map_nil, coe_append_eq_add,
      coe_cons_eq_add, coe_nil_eq_zero]
    abel
  case take i tx rest hp hw hbuf =>
    have hset := sum_map_set CtxWorker.holding s.workers i _ (CtxWorker.check tx) hw
    simp only [CtxWorker.holding, add_zero] at hset
    refine ⟨d, ?_, hd0⟩
    rw [← hc]
    simp only [hset, hbuf, coe_cons_eq_add]
    abel
  case exit i hp hw hbuf hclosed hwg =>
    have hset := sum_map_set CtxWorker.holding s.workers i _ CtxWorker.exited hw
    simp only [CtxWorker.holding, add_zero] at hset
    refine ⟨d, ?_, hd0⟩
    rw [← hc]
    simp only [hset]
  case stop i hp hw hd hwg =>
    have hset := sum_map_set CtxWorker.holding s.workers i _ CtxWorker.exited hw
    simp only [CtxWorker.holding, add_zero] at hset
    refine ⟨d, ?_, hd0⟩
    rw [← hc]
    simp only [hset]
  case checkStop i tx hp hw hd hwg =>
    have hset := sum_map_set CtxWorker.holding s.workers i _ CtxWorker.exited hw
    simp only [CtxWorker.holding, add_zero] at hset
    refine ⟨d + {tx}, ?_, by simp [hd]⟩
    rw [← hc, ← hset]
    abel
  case abandon i r hp hw hd hwg =>
    have hset := sum_map_set CtxWorker.holding s.workers i _ CtxWorker.exited hw
    simp only [CtxWorker.holding, add_zero] at hset
    refine ⟨d + {r.Transaction}, ?_, by simp [hd]⟩
    rw [← hc, ← hset]
    abel
  case checkInvalid i tx err hp hw hd hv =>
    have hset := sum_map_set CtxWorker.holding s.workers i _
      (CtxWorker.emitErr (errResult tx err)) hw
    simp only [CtxWorker.holding, errResult_Transaction, add_left_inj] at hset
    refine ⟨d, ?_, hd0⟩
    rw [← hc]
    simp only [hset]
  case checkValid i tx hp hw hd hv =>
    have hset := sum_map_set CtxWorker.holding s.workers i _ (CtxWorker.scoring tx) hw
    simp only [CtxWorker.holding, add_left_inj] at hset
    refine ⟨d, ?_, hd0⟩
    rw [← hc]
    simp only [hset]
  case score i tx hp hw =>
    have hset := sum_map_set CtxWorker.holding s.workers i _
      (CtxWorker.emitOk (okResult tx (sc tx s.rand).score)) hw
    simp only [CtxWorker.holding, okResult_Transaction, add_left_inj] at hset
    refine ⟨d, ?_, hd0⟩
    rw [← hc]
    simp only [hset]
  case emitErr i r hp hw hopen hroom =>
    have hset := sum_map_set CtxWorker.holding s.workers i _ CtxWorker.idle hw
    simp only [CtxWorker.holding, add_zero] at hset
    refine ⟨d, ?_, hd0⟩
    rw [← hc, ← hset]
    simp only [List.map_append, List.map_cons, List.map_nil, coe_append_eq_add,
      coe_cons_eq_add, coe_nil_eq_zero]
    abel
  case emitOk i r hp hw hopen hroom =>
    have hset := sum_map_set CtxWorker.holding s.workers i _ CtxWorker.idle hw
    simp only [CtxWorker.holding, add_zero] at hset
    refine ⟨d, ?_, hd0⟩
    rw [← hc, ← hset]
    simp only [List.map_append, List.map_cons, List.map_nil, coe_append_eq_add,
      coe_cons_eq_add, coe_nil_eq_zero]
    abel
  case feed i tx hp hf htx hopen hroom =>
    refine ⟨d, ?_, hd0⟩
    rw [← hc]
    simp only [hf, Feeder.unfed, drop_eq_cons_of_getElem? htx, coe_append_eq_add,
      coe_cons_eq_add, coe_nil_eq_zero]
    abel
  case closeJobs i hp hf htx hopen =>
    exact ⟨d, by simpa [hf, Feeder.unfed, drop_eq_nil_of_getElem? htx] using hc, hd0⟩
  case feedCancel i tx hp hf htx hd hopen =>
    refine ⟨d + (txs.drop i : Multiset Transaction), ?_, by simp [hd]⟩
    rw [← hc]
    simp only [hf, Feeder.unfed, coe_nil_eq_zero]
    abel
  all_goals exact ⟨d, hc, hd0⟩

theorem CtxStep.ctxCounted {sc : Scorer} {ctx : Context} {txs : List Transaction}
    {numWorkers : ℤ} {s s' : CtxState} (h : CtxStep sc ctx txs numWorkers s s')
    (hc : s.Counted txs) : s'.Counted txs := by
  obtain ⟨h1, h2, h3⟩ := hc
  unfold CtxState.Counted
  cases h
  case spawn w hp hm hw =>
    refine ⟨?_, h2, h3⟩
    simp [h1, CtxWorker.active]
  case take i tx rest hp hw hbuf =>
    have hset := sum_map_set CtxWorker.active s.workers i _ (CtxWorker.check tx) hw
    simp only [CtxWorker.active] at hset
    exact ⟨by dsimp only; omega, h2, h3⟩
  case exit i hp hw hbuf hclosed hwg =>
    have hset := sum_map_set CtxWorker.active s.workers i _ CtxWorker.exited hw
    simp only [CtxWorker.active] at hset
    exact ⟨by dsimp only; omega, h2, h3⟩
  case stop i hp hw hd hwg =>
    have hset := sum_map_set CtxWorker.active s.workers i _ CtxWorker.exited hw
    simp only [CtxWorker.active] at hset
    exact ⟨by dsimp only; omega, h2, h3⟩
  case checkStop i tx hp hw hd hwg =>
    have hset := sum_map_set CtxWorker.active s.workers i _ CtxWorker.exited hw
    simp only [CtxWorker.active] at hset
    exact ⟨by dsimp only; omega, h2, h3⟩
  case abandon i r hp hw hd hwg =>
    have hset := sum_map_set CtxWorker.active s.workers i _ CtxWorker.exited hw
    simp only [CtxWorker.active] at hset
    exact ⟨by dsimp only; omega, h2, h3⟩
  case checkInvalid i tx err hp hw hd hv =>
    have hset := sum_map_set CtxWorker.active s.workers i _
      (CtxWorker.emitErr (errResult tx err)) hw
    simp only [CtxWorker.active] at hset
    exact ⟨by dsimp only; omega, h2, h3⟩
  case checkValid i tx hp hw hd hv =>
    have hset := sum_map_set CtxWorker.active s.workers i _ (CtxWorker.scoring tx) hw
    simp only [CtxWorker.active] at hset
    exact ⟨by dsimp only; omega, h2, h3⟩
  case score i tx hp hw =>
    have hset := sum_map_set CtxWorker.active s.workers i _
      (CtxWorker.emitOk (okResult tx (sc tx s.rand).score)) hw
    simp only [CtxWorker.active] at hset
    exact ⟨by dsimp only; omega, h2, h3⟩
  case emitErr i r hp hw hopen hroom =>
    have hset := sum_map_set CtxWorker.active s.workers i _ CtxWorker.idle hw
    simp only [CtxWorker.active] at hset
    exact ⟨by dsimp only; omega, h2, h3⟩
  case emitOk i r hp hw hopen hroom =>
    have hset := sum_map_set CtxWorker.active s.workers i _ CtxWorker.idle hw
    simp only [CtxWorker.active] at hset
    exact ⟨by dsimp only; omega, h2, h3⟩
  all_goals exact ⟨h1, h2, h3⟩

/-- A worker that has not finished keeps the WaitGroup counter positive. -/
theorem CtxState.Counted.ctx_wg_pos {txs : List Transaction} {s : CtxState} (hc : s.Counted txs)
    {i : ℕ} {w : CtxWorker} (hw : s.workers[i]? = some w) (hne : w ≠ CtxWorker.exited) :
    s.wg ≠ 0 := by
  have := le_sum_map_of_getElem? CtxWorker.active _ _ _ hw
  have h1 : CtxWorker.active w = 1 := by
    cases w <;> simp [CtxWorker.active] at hne ⊢
  rw [← hc.1] at this
  omega

/-- While a worker has not finished the result channel is open. -/
theorem CtxState.Phased.res_open {numWorkers : ℤ} {s : CtxState} (hph : s.Phased numWorkers)
    (hwg : s.wg ≠ 0) : s.res.closed = false := by
  have h3 := hph.2.2.1
  cases hcs : s.closer <;> rw [hcs] at h3 <;> simp_all

theorem CtxStep.ctxNoPanic {sc : Scorer} {ctx : Context} {txs : List Transaction}
    {numWorkers : ℤ} {s s' : CtxState} (h : CtxStep sc ctx txs numWorkers s s')
    (hcnt : s.Counted txs) (hph : s.Phased numWorkers) (hp0 : s.panicked = false) :
    s'.panicked = false := by
  have hfeed := hph.2.1
  have hcl := hph.2.2.1
  cases h
  case exitPanic i hp hw hbuf hclosed hwg =>
    exact absurd hwg (hcnt.ctx_wg_pos hw (by simp))
  case stopPanic i hp hw hd hwg =>
    exact absurd hwg (hcnt.ctx_wg_pos hw (by simp))
  case checkStopPanic i tx hp hw hd hwg =>
    exact absurd hwg (hcnt.ctx_wg_pos hw (by simp))
  case abandonPanic i r hp hw hd hwg =>
    exact absurd hwg (hcnt.ctx_wg_pos hw (by simp))
  case emitErrPanic i r hp hw hclosed =>
    have := hph.res_open (hcnt.ctx_wg_pos hw (by simp))
    rw [this] at hclosed
    cases hclosed
  case emitOkPanic i r hp hw hclosed =>
    have := hph.res_open (hcnt.ctx_wg_pos hw (by simp))
    rw [this] at hclosed
    cases hclosed
  case feedPanic i tx hp hf htx hclosed =>
    rw [hf] at hfeed
    rw [hfeed] at hclosed
    cases hclosed
  case closeJobsPanic i hp hf htx hclosed =>
    rw [hf] at hfeed
    rw [hfeed] at hclosed
    cases hclosed
  case feedCancelPanic i tx hp hf htx hd hclosed =>
    rw [hf] at hfeed
    rw [hfeed] at hclosed
    cases hclosed
  case closeResPanic hp hc hclosed =>
    rw [hc] at hcl
    rw [hcl.2] at hclosed
    cases hclosed
  all_goals exact hp0

theorem CtxStep.ctxPhased {sc : Scorer} {ctx : Context} {txs : List Transaction}
    {numWorkers : ℤ} {s s' : CtxState} (h : CtxStep sc ctx txs numWorkers s s')
    (hc : s.Phased numWorkers) : s'.Phased numWorkers := by
  obtain ⟨h1, h2, h3, h4⟩ := hc
  cases h
  case cancel hp hmay hnd =>
    refine ⟨?_, h2, h3, fun _ => Or.inr rfl⟩
    dsimp only
    cases hm : s.main <;> rw [hm] at h1 <;> simp_all
  case spawn w hp hm hw =>
    rw [hm] at h1
    obtain ⟨ha, hb, hf, hcr⟩ := h1
    refine ⟨⟨by simp [ha], by omega, hf, hcr⟩, h2, ?_, ?_⟩
    · rw [hcr] at h3 ⊢
      exact h3
    · intro hex
      rcases List.mem_append.mp hex with hex | hex
      · exact h4 hex
      · simp at hex
  case spawnEnd w hp hm hw =>
    rw [hm] at h1
    obtain ⟨ha, hb, hf, hcr⟩ := h1
    exact ⟨⟨by dsimp only; omega, hf, hcr⟩, h2, h3, h4⟩
  case goFeeder hp hm =>
    rw [hm] at h1
    obtain ⟨ha, hf, hcr⟩ := h1
    rw [hf] at h2
    exact ⟨⟨ha, by simp, hcr⟩, h2, h3, h4⟩
  case goCloser hp hm =>
    rw [hm] at h1
    obtain ⟨ha, hf, hcr⟩ := h1
    rw [hcr] at h3
    exact ⟨⟨ha, hf, by simp⟩, h2, h3, h4⟩
  case collect r rest hp hm hbuf =>
    rw [hm] at h1
    exact ⟨by rw [hm]; exact h1, h2, h3, h4⟩
  case ret hp hm hbuf hclosed =>
    rw [hm] at h1
    obtain ⟨ha, hf, hcr⟩ := h1
    refine ⟨⟨ha, hf, ?_, hbuf⟩, h2, h3, h4⟩
    cases hcs : s.closer <;> rw [hcs] at h3 <;> simp_all
  case mainCancel hp hm hd =>
    rw [hm] at h1
    obtain ⟨ha, hf, hcr⟩ := h1
    exact ⟨⟨ha, hf, hcr, hd⟩, h2, h3, h4⟩
  case drainCollect r rest hp hm hbuf =>
    rw [hm] at h1
    exact ⟨by rw [hm]; exact h1, h2, h3, h4⟩
  case drainRet hp hm hbuf hclosed =>
    rw [hm] at h1
    obtain ⟨ha, hf, hcr, -⟩ := h1
    refine ⟨⟨ha, hf, ?_, hbuf⟩, h2, h3, h4⟩
    cases hcs : s.closer <;> rw [hcs] at h3 <;> simp_all
  case take i tx rest hp hw hbuf =>
    refine ⟨?_, h2, h3, ?_⟩
    · dsimp only
      rw [List.length_set]
      exact h1
    · intro hex
      rcases h4 (mem_of_mem_set_ne (by simp) hex) with h | h
      · rw [hbuf] at h
        cases h.2
      · exact Or.inr h
  case exit i hp hw hbuf hclosed hwg =>
    refine ⟨?_, h2, ?_, fun _ => Or.inl ⟨hclosed, hbuf⟩⟩
    · dsimp only
      rw [List.length_set]
      exact h1
    · dsimp only
      cases hcs : s.closer <;> rw [hcs] at h3 <;> simp_all
  case stop i hp hw hd hwg =>
    refine ⟨?_, h2, ?_, fun _ => Or.inr hd⟩
    · dsimp only
      rw [List.length_set]
      exact h1
    · dsimp only
      cases hcs : s.closer <;> rw [hcs] at h3 <;> simp_all
  case checkStop i tx hp hw hd hwg =>
    refine ⟨?_, h2, ?_, fun _ => Or.inr hd⟩
    · dsimp only
      rw [List.length_set]
      exact h1
    · dsimp only
      cases hcs : s.closer <;> rw [hcs] at h3 <;> simp_all
  case abandon i r hp hw hd hwg =>
    refine ⟨?_, h2, ?_, fun _ => Or.inr hd⟩
    · dsimp only
      rw [List.length_set]
      exact h1
    · dsimp only
      cases hcs : s.closer <;> rw [hcs] at h3 <;> simp_all
  case checkInvalid i tx err hp hw hd hv =>
    refine ⟨?_, h2, h3, fun hex => h4 (mem_of_mem_set_ne (by simp) hex)⟩
    dsimp only
    rw [List.length_set]
    exact h1
  case checkValid i tx hp hw hd hv =>
    refine ⟨?_, h2, h3, fun hex => h4 (mem_of_mem_set_ne (by simp) hex)⟩
    dsimp only
    rw [List.length_set]
    exact h1
  case score i tx hp hw =>
    refine ⟨?_, h2, h3, fun hex => h4 (mem_of_mem_set_ne (by simp) hex)⟩
    dsimp only
    rw [List.length_set]
    exact h1
  case emitErr i r hp hw hopen hroom =>
    refine ⟨?_, h2, h3, fun hex => h4 (mem_of_mem_set_ne (by simp) hex)⟩
    dsimp only
    rw [List.length_set]
    cases hm : s.main <;> rw [hm] at h1 <;> try exact h1
    obtain ⟨ha, hf, hcr, hb⟩ := h1
    rw [hcr] at h3
    rw [h3.2] at hopen
    cases hopen
  case emitOk i r hp hw hopen hroom =>
    refine ⟨?_, h2, h3, fun hex => h4 (mem_of_mem_set_ne (by simp) hex)⟩
    dsimp only
    rw [List.length_set]
    cases hm : s.main <;> rw [hm] at h1 <;> try exact h1
    obtain ⟨ha, hf, hcr, hb⟩ := h1
    rw [hcr] at h3
    rw [h3.2] at hopen
    cases hopen
  case feed i tx hp hf htx hopen hroom =>
    refine ⟨?_, hopen, h3, ?_⟩
    · dsimp only
      cases hm : s.main <;> rw [hm] at h1 <;> simp_all
    · intro hex
      rcases h4 hex with h | h
      · rw [hopen] at h
        cases h.1
      · exact Or.inr h
  case closeJobs i hp hf htx hopen =>
    refine ⟨?_, rfl, h3, ?_⟩
    · dsimp only
      cases hm : s.main <;> rw [hm] at h1 <;> simp_all
    · intro hex
      rcases h4 hex with h | h
      · rw [hopen] at h
        cases h.1
      · exact Or.inr h
  case feedCancel i tx hp hf htx hd hopen =>
    refine ⟨?_, rfl, h3, fun _ => Or.inr hd⟩
    dsimp only
    cases hm : s.main <;> rw [hm] at h1 <;> simp_all
  case waited hp hcl hwg =>
    refine ⟨?_, h2, ?_, h4⟩
    · dsimp only
      cases hm : s.main <;> rw [hm] at h1 <;> simp_all
    · rw [hcl] at h3
      exact ⟨hwg, h3⟩
  case closeRes hp hcl hopen =>
    refine ⟨?_, h2, ?_, h4⟩
    · dsimp only
      cases hm : s.main <;> rw [hm] at h1 <;> simp_all
    · rw [hcl] at h3
      exact ⟨h3.1, rfl⟩
  all_goals exact ⟨h1, h2, h3, h4⟩

/-! ## Context machine: what a return says -/

theorem ctx_all_exited_of_active_zero :
    ∀ (l : List CtxWorker), (l.map CtxWorker.active).sum = 0 → ∀ w ∈ l, w = CtxWorker.exited := by
  intro l
  induction l with
  | nil => intro _ w hw; simp at hw
  | cons x xs ih =>
    intro h w hw
    simp only [List.map_cons, List.sum_cons] at h
    rcases List.mem_cons.mp hw with hw | hw
    · subst hw
      cases w <;> simp [CtxWorker.active] at h ⊢
    · exact ih (by omega) w hw

theorem ctx_holding_sum_of_all_exited :
    ∀ (l : List CtxWorker), (∀ w ∈ l, w = CtxWorker.exited) →
      (l.map CtxWorker.holding).sum = 0 := by
  intro l
  induction l with
  | nil => intro _; simp
  | cons x xs ih =>
    intro h
    have hx := h x (List.mem_cons_self _ _)
    subst hx
    simp only [List.map_cons, List.sum_cons, CtxWorker.holding, zero_add]
    exact ih (fun w hw => h w (List.mem_cons_of_mem _ hw))

/-- Counting form of conservation: the pieces of the run add up to at most the batch size. -/
theorem CtxState.Conserved.ctx_card {txs : List Transaction} {s : CtxState} (h : s.Conserved txs) :
    s.results.length + s.res.buf.length +
      ((s.workers.map CtxWorker.holding).map Multiset.card).sum + s.jobs.buf.length +
      (Feeder.unfed txs s.feeder).length ≤ txs.length := by
  obtain ⟨d, hd, -⟩ := h
  have := congrArg Multiset.card hd
  simp only [CtxState.everywhere, Multiset.card_add, Multiset.coe_card, List.length_map,
    map_list_sum] at this
  omega

/-- When the closer has finished, every worker has finished. -/
theorem CtxState.all_exited_of_closer_done {txs : List Transaction} {numWorkers : ℤ}
    {s : CtxState} (hcnt : s.Counted txs) (hph : s.Phased numWorkers)
    (hc : s.closer = Closer.done) : ∀ w ∈ s.workers, w = CtxWorker.exited := by
  have h3 := hph.2.2.1
  rw [hc] at h3
  have hact : (s.workers.map CtxWorker.active).sum = 0 := by
    rw [← hcnt.1]
    exact h3.1
  exact ctx_all_exited_of_active_zero _ hact

theorem CtxStep.ctxReturned {sc : Scorer} {ctx : Context} {txs : List Transaction}
    {numWorkers : ℤ} {s s' : CtxState} (h : CtxStep sc ctx txs numWorkers s s')
    (hcons : s.Conserved txs) (hcnt : s.Counted txs) (hph : s.Phased numWorkers)
    (hr : s.Returned txs numWorkers) : s'.Returned txs numWorkers := by
  unfold CtxState.Returned at *
  cases h
  case ret hp hm hbuf hclosed =>
    intro _ hcf
    have hcf' : s.ctxDone = false := hcf
    obtain ⟨h1, h2, h3, h4⟩ := hph
    rw [hm] at h1
    have hcd : s.closer = Closer.done := by
      cases hcs : s.closer <;> rw [hcs] at h3 <;> simp_all
    have hall := CtxState.all_exited_of_closer_done hcnt ⟨by rw [hm]; exact h1, h2, h3, h4⟩ hcd
    obtain ⟨d, hd, hd0⟩ := hcons
    have hdz := hd0 hcf'
    subst hdz
    unfold CtxState.everywhere at hd
    rw [hbuf, ctx_holding_sum_of_all_exited _ hall] at hd
    have key : 1 ≤ numWorkers → s.feeder = Feeder.done ∧ s.jobs.buf = [] := by
      intro hW
      have hne : s.workers ≠ [] := by
        intro h
        have hlen := h1.1
        rw [h] at hlen
        simp only [List.length_nil] at hlen
        omega
      obtain ⟨w, hw⟩ := List.exists_mem_of_ne_nil _ hne
      have hw' := hall w hw
      subst hw'
      have hj : s.jobs.closed = true ∧ s.jobs.buf = [] := by
        rcases h4 hw with h | h
        · exact h
        · rw [hcf'] at h
          cases h
      refine ⟨?_, hj.2⟩
      cases hfs : s.feeder <;> rw [hfs] at h2 <;> simp_all
    refine ⟨fun hW => (key hW).1, ?_⟩
    intro hW
    rcases hW with hW | hW
    · obtain ⟨hf, hjb⟩ := key hW
      rw [hf, hjb] at hd
      simpa [Feeder.unfed] using hd
    · subst hW
      have hcard := congrArg Multiset.card hd
      simp only [Multiset.card_add, Multiset.coe_card, List.length_map, List.length_nil,
        Multiset.card_zero] at hcard
      have : s.results = [] := List.eq_nil_of_length_eq_zero (by omega)
      simp [this]
  case drainRet hp hm hbuf hclosed =>
    intro _ hcf
    cases hcf
  case spawn w hp hm hw => intro hm'; cases hm'
  case spawnEnd w hp hm hw => intro hm'; cases hm'
  case goFeeder hp hm => intro hm'; cases hm'
  case goCloser hp hm => intro hm'; cases hm'
  case mainCancel hp hm hd => intro hm'; cases hm'
  case feed i tx hp hf htx hopen hroom =>
    intro hm' hc'
    obtain ⟨a, b⟩ := hr hm' hc'
    refine ⟨fun hW => ?_, b⟩
    have := a hW
    rw [hf] at this
    cases this
  case closeJobs i hp hf htx hopen =>
    intro hm' hc'
    exact ⟨fun _ => rfl, (hr hm' hc').2⟩
  case feedCancel i tx hp hf htx hd hopen =>
    intro hm' hc'
    exact ⟨fun _ => rfl, (hr hm' hc').2⟩
  case collect r rest hp hm hbuf =>
    intro hm'
    have hm2 : s.main = CtxMain.returned := hm'
    rw [hm] at hm2
    cases hm2
  case drainCollect r rest hp hm hbuf =>
    intro hm'
    have hm2 : s.main = CtxMain.returned := hm'
    rw [hm] at hm2
    cases hm2
  all_goals exact hr

theorem CtxStep.ctxInv {sc : Scorer} {ctx : Context} {txs : List Transaction}
    {numWorkers : ℤ} {s s' : CtxState} (h : CtxStep sc ctx txs numWorkers s s')
    (hi : s.Inv txs numWorkers) : s'.Inv txs numWorkers :=
  ⟨h.ctxNoPanic hi.counted hi.phased hi.noPanic, h.ctxConserved hi.phased hi.conserved,
    h.ctxCounted hi.counted, h.ctxPhased hi.phased,
    h.ctxReturned hi.conserved hi.counted hi.phased hi.returned⟩

theorem ctxInit_inv (ctx : Context) (txs : List Transaction) (numWorkers : ℤ) (r : Rand) :
    (ctxInit ctx txs r).Inv txs numWorkers := by
  refine ⟨rfl, ⟨0, ?_, fun _ => rfl⟩, ?_, ?_, ?_⟩
  · simp [CtxState.everywhere, ctxInit, Chan.make, Feeder.unfed]
  · simp [CtxState.Counted, ctxInit, Chan.make]
  · refine ⟨?_, ?_, ?_, ?_⟩
    · simp [ctxInit, Chan.make]
    · simp [ctxInit, Chan.make]
    · simp [ctxInit, Chan.make]
    · simp [ctxInit]
  · intro hm
    simp [ctxInit] at hm

/-- Every reachable state of the context machine satisfies its invariants. -/
theorem ctx_reachable_inv (sc : Scorer) (ctx : Context) (txs : List Transaction)
    (numWorkers : ℤ) (r : Rand) :
    ∀ s, (ProcessTransactionsWithContextWith sc ctx txs numWorkers r).Reachable s →
      s.Inv txs numWorkers := by
  refine Machine.Reachable.induct _ (ctxInit_inv ctx txs numWorkers r) ?_
  intro s a s' ha hst
  exact (ctxStep_sound sc ctx txs numWorkers s s' a hst).ctxInv ha

/-! ## Context machine: termination and progress -/

theorem CtxStep.ctxMeasure_lt {sc : Scorer} {ctx : Context} {txs : List Transaction}
    {numWorkers : ℤ} {s s' : CtxState} (h : CtxStep sc ctx txs numWorkers s s') :
    s'.measure txs numWorkers < s.measure txs numWorkers := by
  unfold CtxState.measure
  cases h
  case cancel hp hmay hnd =>
    simp only [hnd, hp]
    simp
  case spawn w hp hm hw =>
    have : w < numWorkers.toNat := by omega
    simp only [hm, hp, CtxMain.weight, List.map_append, List.sum_append, List.map_cons,
      List.map_nil, List.sum_cons, List.sum_nil, CtxWorker.weight]
    omega
  case spawnEnd w hp hm hw =>
    simp only [hm, hp, CtxMain.weight]
    omega
  case goFeeder hp hm =>
    simp only [hm, hp, CtxMain.weight, Feeder.weight]
    omega
  case goCloser hp hm =>
    simp only [hm, hp, CtxMain.weight, Closer.weight]
    cases s.closer <;> simp <;> omega
  case collect r rest hp hm hbuf =>
    simp only [hm, hp, hbuf, List.length_cons]
    omega
  case drainCollect r rest hp hm hbuf =>
    simp only [hm, hp, hbuf, List.length_cons]
    omega
  case ret hp hm hbuf hclosed =>
    simp only [hm, hp, CtxMain.weight]
    omega
  case mainCancel hp hm hd =>
    simp only [hm, hp, CtxMain.weight]
    omega
  case drainRet hp hm hbuf hclosed =>
    simp only [hm, hp, CtxMain.weight]
    omega
  case take i tx rest hp hw hbuf =>
    have hset := sum_map_set CtxWorker.weight s.workers i _ (CtxWorker.check tx) hw
    simp only [CtxWorker.weight] at hset
    simp only [hbuf, List.length_cons]
    omega
  case exit i hp hw hbuf hclosed hwg =>
    have hset := sum_map_set CtxWorker.weight s.workers i _ CtxWorker.exited hw
    simp only [CtxWorker.weight] at hset
    dsimp only
    omega
  case stop i hp hw hd hwg =>
    have hset := sum_map_set CtxWorker.weight s.workers i _ CtxWorker.exited hw
    simp only [CtxWorker.weight] at hset
    dsimp only
    omega
  case checkStop i tx hp hw hd hwg =>
    have hset := sum_map_set CtxWorker.weight s.workers i _ CtxWorker.exited hw
    simp only [CtxWorker.weight] at hset
    dsimp only
    omega
  case abandon i r hp hw hd hwg =>
    have hset := sum_map_set CtxWorker.weight s.workers i _ CtxWorker.exited hw
    simp only [CtxWorker.weight] at hset
    dsimp only
    omega
  case checkInvalid i tx err hp hw hd hv =>
    have hset := sum_map_set CtxWorker.weight s.workers i _
      (CtxWorker.emitErr (errResult tx err)) hw
    simp only [CtxWorker.weight] at hset
    dsimp only
    omega
  case checkValid i tx hp hw hd hv =>
    have hset := sum_map_set CtxWorker.weight s.workers i _ (CtxWorker.scoring tx) hw
    simp only [CtxWorker.weight] at hset
    dsimp only
    omega
  case score i tx hp hw =>
    have hset := sum_map_set CtxWorker.weight s.workers i _
      (CtxWorker.emitOk (okResult tx (sc tx s.rand).score)) hw
    simp only [CtxWorker.weight] at hset
    dsimp only
    omega
  case emitErr i r hp hw hopen hroom =>
    have hset := sum_map_set CtxWorker.weight s.workers i _ CtxWorker.idle hw
    simp only [CtxWorker.weight] at hset
    simp only [List.length_append, List.length_singleton]
    omega
  case emitOk i r hp hw hopen hroom =>
    have hset := sum_map_set CtxWorker.weight s.workers i _ CtxWorker.idle hw
    simp only [CtxWorker.weight] at hset
    simp only [List.length_append, List.length_singleton]
    omega
  case feed i tx hp hf htx hopen hroom =>
    have hi : i < txs.length := by
      rw [List.getElem?_eq_some] at htx
      exact htx.1
    simp only [hf, hp, Feeder.weight, List.length_append, List.length_singleton]
    omega
  case closeJobs i hp hf htx hopen =>
    simp only [hf, hp, Feeder.weight]
    omega
  case feedCancel i tx hp hf htx hd hopen =>
    simp only [hf, hp, Feeder.weight]
    omega
  case waited hp hc hwg =>
    simp only [hc, hp, Closer.weight]
    omega
  case closeRes hp hc hopen =>
    simp only [hc, hp, Closer.weight]
    omega
  all_goals (simp only [*]; simp)

theorem CtxState.Inv.ctx_room_res {txs : List Transaction} {numWorkers : ℤ} {s : CtxState}
    (hi : s.Inv txs numWorkers) {i : ℕ} {w : CtxWorker}
    (hw : s.workers[i]? = some w) (hh : Multiset.card (CtxWorker.holding w) = 1) :
    s.res.closed = false ∧ s.res.buf.length < s.res.cap := by
  have hcard := hi.conserved.ctx_card
  have h1 : ((s.workers.map CtxWorker.holding).map Multiset.card)[i]? = some 1 := by
    simp [hw, hh]
  have h2 := le_sum_map_of_getElem? id _ _ _ h1
  simp only [List.map_id, id] at h2
  refine ⟨?_, by rw [hi.counted.2.2]; omega⟩
  have hne : w ≠ CtxWorker.exited := by
    intro h
    subst h
    simp [CtxWorker.holding] at hh
  exact hi.phased.res_open (hi.counted.ctx_wg_pos hw hne)

theorem CtxState.Inv.ctx_room_jobs {txs : List Transaction} {numWorkers : ℤ} {s : CtxState}
    (hi : s.Inv txs numWorkers) {i : ℕ} {tx : Transaction}
    (hf : s.feeder = Feeder.feed i) (htx : txs[i]? = some tx) :
    s.jobs.buf.length < s.jobs.cap := by
  have hcard := hi.conserved.ctx_card
  have hlt : i < txs.length := by
    rw [List.getElem?_eq_some] at htx
    exact htx.1
  rw [hf] at hcard
  simp only [Feeder.unfed, List.length_drop] at hcard
  rw [hi.counted.2.1]
  omega

theorem canStep_of_isSome {σ α : Type} (m : Machine σ α) (s : σ) (a : α)
    (h : (m.step s a).isSome = true) : m.CanStep s := by
  cases hs : m.step s a with
  | none => simp [hs] at h
  | some s' => exact ⟨a, s', hs⟩

/-- The feeder, once started and not finished, is never blocked: its send finds room in the
job queue, and at the end of the batch it closes the queue. -/
theorem CtxState.Inv.feeder_canStep (sc : Scorer) (ctx : Context) {txs : List Transaction}
    {numWorkers : ℤ} {s : CtxState} (hi : s.Inv txs numWorkers) {i : ℕ}
    (hf : s.feeder = Feeder.feed i) :
    (ctxStep sc ctx txs numWorkers s CtxAct.feeder).isSome = true := by
  have h2 := hi.phased.2.1
  rw [hf] at h2
  cases htx : txs[i]? with
  | some tx =>
    have hroom := hi.ctx_room_jobs hf htx
    simp [ctxStep, hi.noPanic, ctxFeederStep, hf, htx, Chan.send, h2, hroom]
  | none =>
    simp [ctxStep, hi.noPanic, ctxFeederStep, hf, htx, Chan.close, h2]

/-- A worker that has not finished is never blocked on the result queue, and is blocked on
the job queue only while it is empty and open and the context is not done. -/
theorem CtxState.Inv.worker_canStep (sc : Scorer) (ctx : Context) {txs : List Transaction}
    {numWorkers : ℤ} {s : CtxState} (hi : s.Inv txs numWorkers) {i : ℕ} {w : CtxWorker}
    (hw : s.workers[i]? = some w) (hne : w ≠ CtxWorker.exited)
    (hidle : w = CtxWorker.idle → s.jobs.buf ≠ [] ∨ s.jobs.closed = true ∨ s.ctxDone = true) :
    (ctxStep sc ctx txs numWorkers s (CtxAct.worker i)).isSome = true ∨
      (ctxStep sc ctx txs numWorkers s (CtxAct.workerCancel i)).isSome = true := by
  have hp := hi.noPanic
  have hwg := hi.counted.ctx_wg_pos hw hne
  cases w with
  | exited => exact absurd rfl hne
  | idle =>
    rcases hidle rfl with h | h | h
    · left
      cases hb : s.jobs.buf with
      | nil => exact absurd hb h
      | cons tx rest => simp [ctxStep, hp, hw, ctxWorkerStep, Chan.recv, hb]
    · left
      cases hb : s.jobs.buf with
      | nil => simp [ctxStep, hp, hw, ctxWorkerStep, Chan.recv, hb, h, wgDone, hwg]
      | cons tx rest => simp [ctxStep, hp, hw, ctxWorkerStep, Chan.recv, hb]
    · right
      simp [ctxStep, hp, hw, ctxWorkerCancelStep, h, wgDone, hwg]
  | check tx =>
    left
    cases hd : s.ctxDone with
    | true => simp [ctxStep, hp, hw, ctxWorkerStep, hd, wgDone, hwg]
    | false =>
      cases hv : ValidateTransaction tx <;> simp [ctxStep, hp, hw, ctxWorkerStep, hd, hv]
  | emitErr x =>
    left
    obtain ⟨hopen, hroom⟩ := hi.ctx_room_res hw (by simp [CtxWorker.holding])
    simp [ctxStep, hp, hw, ctxWorkerStep, Chan.send, hopen, hroom]
  | scoring tx =>
    left
    simp [ctxStep, hp, hw, ctxWorkerStep]
  | emitOk x =>
    left
    obtain ⟨hopen, hroom⟩ := hi.ctx_room_res hw (by simp [CtxWorker.holding])
    simp [ctxStep, hp, hw, ctxWorkerStep, Chan.send, hopen, hroom]

/-- Progress: until the calling goroutine has returned, some goroutine can always move,
whatever the worker count and whether or not the context is done. -/
theorem CtxState.Inv.ctxProgress (sc : Scorer) (ctx : Context) {txs : List Transaction}
    {numWorkers : ℤ} {s : CtxState} (hi : s.Inv txs numWorkers)
    (hm : s.main ≠ CtxMain.returned) :
    ∃ a, (ctxStep sc ctx txs numWorkers s a).isSome = true := by
  have hp := hi.noPanic
  obtain ⟨h1, h2, h3, h4⟩ := hi.phased
  -- the collector waits on an open, empty result channel: someone else can move
  have others : s.closer ≠ Closer.idle → s.feeder ≠ Feeder.notStarted → s.res.closed = false →
      ∃ a, (ctxStep sc ctx txs numWorkers s a).isSome = true := by
    intro hci hfn hopen
    cases hcs : s.closer with
    | idle => exact absurd hcs hci
    | done =>
      rw [hcs] at h3
      rw [h3.2] at hopen
      cases hopen
    | closing =>
      exact ⟨CtxAct.closer, by simp [ctxStep, hp, ctxCloserStep, hcs, Chan.close, hopen]⟩
    | waiting =>
      by_cases hwg : s.wg = 0
      · exact ⟨CtxAct.closer, by simp [ctxStep, hp, ctxCloserStep, hcs, hwg]⟩
      · have hpos : 0 < (s.workers.map CtxWorker.active).sum := by
          rw [← hi.counted.1]
          omega
        obtain ⟨i, w, hw, hact⟩ := exists_of_sum_map_pos CtxWorker.active _ hpos
        have hne : w ≠ CtxWorker.exited := by
          intro h
          subst h
          simp [CtxWorker.active] at hact
        by_cases hblk : s.jobs.buf ≠ [] ∨ s.jobs.closed = true ∨ s.ctxDone = true
        · rcases hi.worker_canStep sc ctx hw hne (fun _ => hblk) with h | h
          · exact ⟨_, h⟩
          · exact ⟨_, h⟩
        · by_cases hwi : w = CtxWorker.idle
          · have hjo : s.jobs.closed = false := by
              cases hjc : s.jobs.closed with
              | true => exact absurd (Or.inr (Or.inl hjc)) hblk
              | false => rfl
            cases hfs : s.feeder with
            | notStarted => exact absurd hfs hfn
            | done =>
              rw [hfs] at h2
              rw [h2] at hjo
              cases hjo
            | feed k => exact ⟨CtxAct.feeder, hi.feeder_canStep sc ctx hfs⟩
          · rcases hi.worker_canStep sc ctx hw hne (fun h => absurd h hwi) with h | h
            · exact ⟨_, h⟩
            · exact ⟨_, h⟩
  cases hmain : s.main with
  | returned => exact absurd hmain hm
  | spawn w =>
    refine ⟨CtxAct.main, ?_⟩
    by_cases hw : (w : ℤ) < numWorkers <;> simp [ctxStep, hp, ctxMainStep, hmain, hw]
  | goFeeder => exact ⟨CtxAct.main, by simp [ctxStep, hp, ctxMainStep, hmain]⟩
  | goCloser => exact ⟨CtxAct.main, by simp [ctxStep, hp, ctxMainStep, hmain]⟩
  | loop =>
    rw [hmain] at h1
    cases hb : s.res.buf with
    | cons x rest =>
      exact ⟨CtxAct.recvResult, by simp [ctxStep, hp, ctxRecvResultStep, hmain, Chan.recv, hb]⟩
    | nil =>
      cases hrc : s.res.closed with
      | true =>
        exact ⟨CtxAct.recvResult, by
          simp [ctxStep, hp, ctxRecvResultStep, hmain, Chan.recv, hb, hrc]⟩
      | false => exact others h1.2.2 h1.2.1 hrc
  | drain =>
    rw [hmain] at h1
    cases hb : s.res.buf with
    | cons x rest =>
      exact ⟨CtxAct.main, by simp [ctxStep, hp, ctxMainStep, hmain, Chan.recv, hb]⟩
    | nil =>
      cases hrc : s.res.closed with
      | true =>
        exact ⟨CtxAct.main, by simp [ctxStep, hp, ctxMainStep, hmain, Chan.recv, hb, hrc]⟩
      | false => exact others h1.2.2.1 h1.2.1 hrc

/-- The context strategy runs to completion for every context, batch and worker count: no
reachable state short of the return is stuck, every schedule is finite, the return is
reached, and the invariants hold there. -/
theorem ctx_runsToCompletion (sc : Scorer) (ctx : Context) (txs : List Transaction)
    (numWorkers : ℤ) (r : Rand) :
    (ProcessTransactionsWithContextWith sc ctx txs numWorkers r).RunsToCompletion
      (fun s => s.main = CtxMain.returned) ((ctxInit ctx txs r).measure txs numWorkers)
      (fun s => s.Inv txs numWorkers) := by
  refine Machine.runsToCompletion_of _ _ (fun s : CtxState => s.Inv txs numWorkers)
    (fun s : CtxState => s.measure txs numWorkers) _ (ctxInit_inv ctx txs numWorkers r) ?_ ?_ ?_ ?_
  · intro s a s' hI hst
    exact (ctxStep_sound sc ctx txs numWorkers s s' a hst).ctxInv hI
  · intro s hI hf
    obtain ⟨a, ha⟩ := hI.ctxProgress sc ctx hf
    exact canStep_of_isSome _ s a ha
  · intro s a s' _ hst
    exact (ctxStep_sound sc ctx txs numWorkers s s' a hst).ctxMeasure_lt
  · intro s hI _
    exact hI

/-! ## `FanIn` on its own: termination, progress, the final state -/

theorem FanInStep.fanInMeasure_lt {sources : List (List ProcessingResult)} {s s' : FanInState}
    (h : FanInStep s s') (hi : s.Inv sources) :
    s'.measure sources.length < s.measure sources.length := by
  have hlen := hi.length
  unfold FanInState.measure
  cases h
  case spawn j lane hp hm hl =>
    have hns : lane.fwd = Forwarder.notStarted := by
      have := (hi.lanes j lane hl).2.2.2
      rw [hm] at this
      exact this.mpr (by simp [FanInMain.started])
    have hj := lt_length_of_getElem? hl
    have hset := sum_map_set InLane.weight s.lanes j lane { lane with fwd := Forwarder.idle } hl
    simp only [InLane.weight, hns, Forwarder.weight] at hset
    simp only [hm, hp, FanInMain.weight]
    simp only [Bool.false_eq_true, if_false]
    omega
  case spawnEnd j hp hm hl =>
    simp only [hm, hp, FanInMain.weight]
    omega
  case goCloser hp hm =>
    simp only [hm, hp, FanInMain.weight, Closer.weight]
    omega
  case srcClose j lane hp hl hpend hopen =>
    have hset := sum_map_set InLane.weight s.lanes j lane { lane with closed := true } hl
    simp only [InLane.weight, hopen, Bool.false_eq_true, if_false, if_true] at hset
    simp only [hp]
    omega
  case recv j lane r rest hp hl hf hpend =>
    have hset := sum_map_set InLane.weight s.lanes j lane
      { lane with pending := rest, fwd := Forwarder.hold r } hl
    simp only [InLane.weight, hf, hpend, Forwarder.weight, List.length_cons] at hset
    simp only [hp]
    omega
  case exit j lane hp hl hf hpend hclosed hwg =>
    have hset := sum_map_set InLane.weight s.lanes j lane { lane with fwd := Forwarder.exited } hl
    simp only [InLane.weight, hf, Forwarder.weight] at hset
    simp only [hp]
    omega
  case exitPanic j lane hp hl hf hpend hclosed hwg =>
    simp [hp]
  case deliver j lane r hp hl hf hopen hm =>
    have hset := sum_map_set InLane.weight s.lanes j lane { lane with fwd := Forwarder.idle } hl
    simp only [InLane.weight, hf, Forwarder.weight] at hset
    simp only [hp]
    omega
  case deliverPanic j lane r hp hl hf hclosed =>
    simp [hp]
  case waited hp hc hwg =>
    simp only [hc, hp, Closer.weight]
    omega
  case closeOut hp hc hopen =>
    simp only [hc, hp, Closer.weight]
    omega
  case closeOutPanic hp hc hclosed =>
    simp [hp]

theorem FanInState.Inv.fanInProgress {sources : List (List ProcessingResult)} {s : FanInState}
    (hi : s.Inv sources) (hf : s.closer ≠ Closer.done) :
    ∃ a, (fanInMachineStep s a).isSome = true := by
  have hp := hi.noPanic
  have hm0 := hi.main
  have hc0 := hi.closer
  cases hm : s.main with
  | spawn k =>
    refine ⟨FanInAct.main, ?_⟩
    cases hl : s.lanes[k]? <;> simp [fanInMachineStep, hp, fanInMainStep, hm, hl]
  | goCloser =>
    exact ⟨FanInAct.main, by simp [fanInMachineStep, hp, fanInMainStep, hm]⟩
  | returned =>
    rw [hm] at hm0
    cases hc : s.closer with
    | idle => exact absurd hc hm0
    | done => exact absurd hc hf
    | closing =>
      refine ⟨FanInAct.closer, ?_⟩
      cases ho : s.outClosed <;> simp [fanInMachineStep, hp, fanInCloserStep, hc, ho]
    | waiting =>
      rw [hc] at hc0
      by_cases hwg : s.wg = 0
      · exact ⟨FanInAct.closer, by simp [fanInMachineStep, hp, fanInCloserStep, hc, hwg]⟩
      · have hpos : 0 < (s.lanes.map fun l : InLane => Forwarder.active l.fwd).sum := by
          have := hi.counted
          omega
        obtain ⟨j, lane, hl, ha⟩ := exists_of_sum_map_pos _ _ hpos
        cases hfw : lane.fwd with
        | notStarted => simp [hfw, Forwarder.active] at ha
        | exited => simp [hfw, Forwarder.active] at ha
        | hold r =>
          exact ⟨FanInAct.fwd j, by simp [fanInMachineStep, hp, hl, fanInFwdStep, hfw, hc0, hm]⟩
        | idle =>
          cases hpend : lane.pending with
          | cons r rest =>
            exact ⟨FanInAct.fwd j, by simp [fanInMachineStep, hp, hl, fanInFwdStep, hfw, hpend]⟩
          | nil =>
            cases hcl : lane.closed with
            | false =>
              exact ⟨FanInAct.src j, by simp [fanInMachineStep, hp, hl, fanInSrcStep, hpend, hcl]⟩
            | true =>
              refine ⟨FanInAct.fwd j, ?_⟩
              cases hw : wgDone s.wg <;>
                simp [fanInMachineStep, hp, hl, fanInFwdStep, hfw, hpend, hcl, hw]

theorem sum_multiset_eq_zero {β γ : Type} (f : β → Multiset γ) :
    ∀ (l : List β), (∀ x ∈ l, f x = 0) → (l.map f).sum = 0 := by
  intro l
  induction l with
  | nil => intro _; rfl
  | cons x xs ih =>
    intro h
    simp only [List.map_cons, List.sum_cons]
    rw [h x (List.mem_cons_self x xs), ih (fun y hy => h y (List.mem_cons_of_mem x hy))]
    rfl

/-- Once `out` is closed, every source has been closed and forwarded completely. -/
theorem FanInState.Inv.fanInComplete {sources : List (List ProcessingResult)} {s : FanInState}
    (hi : s.Inv sources) (hf : s.closer = Closer.done) : s.Complete sources := by
  have hm0 := hi.main
  have hc0 := hi.closer
  rw [hf] at hc0
  have hm : s.main = FanInMain.returned := by
    cases hmm : s.main <;> rw [hmm] at hm0 <;> simp_all
  have hlane : ∀ (j : ℕ) (lane : InLane), s.lanes[j]? = some lane →
      lane.pending = [] ∧ lane.closed = true ∧ lane.fwd = Forwarder.exited := by
    intro j lane hl
    obtain ⟨h1, h2, h3, h4⟩ := hi.lanes j lane hl
    rw [hm] at h4
    have hns : lane.fwd ≠ Forwarder.notStarted := fun h => (h4.mp h) trivial
    have ha : ¬ 0 < Forwarder.active lane.fwd := fun h => hi.lane_active hl h hc0.1
    have hex : lane.fwd = Forwarder.exited := by
      cases hfw : lane.fwd with
      | notStarted => exact absurd hfw hns
      | exited => rfl
      | idle => rw [hfw] at ha; simp [Forwarder.active] at ha
      | hold r => rw [hfw] at ha; simp [Forwarder.active] at ha
    exact ⟨(h3 hex).2, (h3 hex).1, hex⟩
  refine ⟨hm, hc0.2, ?_, ?_, ?_⟩
  · have hc := hi.conserved
    rw [sum_multiset_eq_zero] at hc
    · simpa using hc
    · intro x hx
      obtain ⟨j, hj⟩ := List.getElem?_of_mem hx
      obtain ⟨h1, -, h3⟩ := hlane j x hj
      rw [h1, h3]
      rfl
  · intro j items hj
    have hjl : j < s.lanes.length := by
      rw [hi.length]
      exact lt_length_of_getElem? hj
    have hl : s.lanes[j]? = some s.lanes[j] := List.getElem?_eq_getElem hjl
    obtain ⟨h1, -, h3⟩ := hlane j _ hl
    have h4 := (hi.lanes j _ hl).1
    rw [h1, h3, hj] at h4
    simp only [Forwarder.held, List.append_nil, Option.some.injEq] at h4
    exact h4.symm
  · intro lane hlm
    obtain ⟨j, hj⟩ := List.getElem?_of_mem hlm
    exact hlane j lane hj

theorem fanIn_init_measure (sources : List (List ProcessingResult)) :
    (FanIn sources).init.measure sources.length =
      3 * sources.length + 3 * (sources.map List.length).sum + 7 := by
  have h : ∀ (l : List (List ProcessingResult)),
      ((l.map fun items => ({ pending := items, closed := false, fwd := Forwarder.notStarted } :
        InLane)).map InLane.weight).sum = l.length + 3 * (l.map List.length).sum := by
    intro l
    induction l with
    | nil => rfl
    | cons x xs ih =>
      simp only [List.map_cons, List.sum_cons, ih, List.length_cons]
      simp only [InLane.weight, Forwarder.weight, Bool.false_eq_true, if_false]
      omega
  simp only [FanInState.measure, FanIn, h, FanInMain.weight, Closer.weight]
  simp only [Bool.false_eq_true, if_false]
  omega

/-- `FanIn` runs to completion: a step is always possible until the closer has finished,
every run ends within the bound, and at the end the merge is complete. -/
theorem fanIn_runsToCompletion (sources : List (List ProcessingResult)) :
    (FanIn sources).RunsToCompletion (fun s => s.closer = Closer.done)
      (3 * sources.length + 3 * (sources.map List.length).sum + 7)
      (FanInState.Complete sources) := by
  have h := Machine.runsToCompletion_of (FanIn sources)
    (fun s => s.closer = Closer.done)
    (fun s : FanInState => s.Inv sources)
    (fun s : FanInState => s.measure sources.length)
    (FanInState.Complete sources)
    (fanIn_init_inv sources)
    (fun s a s' hI hst => (fanInMachineStep_sound s s' a hst).fanInInv hI)
    (fun s hI hf => by
      obtain ⟨a, ha⟩ := FanInState.Inv.fanInProgress hI hf
      exact canStep_of_isSome _ s a ha)
    (fun s a s' hI hst => (fanInMachineStep_sound s s' a hst).fanInMeasure_lt hI)
    (fun s hI hf => FanInState.Inv.fanInComplete hI hf)
  simp only [fanIn_init_measure] at h
  exact h

/-! ## The feeder of the context strategy finishes on its own -/

/-- The feeder of the context strategy, once started, finishes on its own: from every
reachable state in which it is about to handle index `i`, its remaining sends and its
`close(jobs)`, `N - i + 1` operations, all go through, and they change nothing but the job
queue and the feeder itself. -/
theorem ctx_feeder_finishes (ctx : Context) (txs : List Transaction) (numWorkers : ℤ)
    (r : Rand) :
    ∀ k i s, (ProcessTransactionsWithContext ctx txs numWorkers r).Reachable s →
      s.feeder = Feeder.feed i → txs.length - i = k →
      ∃ s', (ProcessTransactionsWithContext ctx txs numWorkers r).run s
          (List.replicate (k + 1) CtxAct.feeder) = some s' ∧
        s'.feeder = Feeder.done ∧ s'.main = s.main ∧ s'.workers = s.workers ∧
        s'.closer = s.closer ∧ s'.wg = s.wg ∧ s'.res = s.res ∧ s'.results = s.results ∧
        s'.success = s.success ∧ s'.errors = s.errors ∧ s'.cancelled = s.cancelled ∧
        s'.panicked = false := by
  intro k
  induction k with
  | zero =>
    intro i s hs hf hk
    have hi := ctx_reachable_inv CalculateFraudScore ctx txs numWorkers r s hs
    have h2 := hi.phased.2.1
    rw [hf] at h2
    have htx : txs[i]? = none := List.getElem?_eq_none (by omega)
    refine ⟨{ s with jobs := { s.jobs with closed := true }, feeder := Feeder.done }, ?_,
      rfl, rfl, rfl, rfl, rfl, rfl, rfl, rfl, rfl, rfl, hi.noPanic⟩
    simp [Machine.run, ProcessTransactionsWithContext, ProcessTransactionsWithContextWith,
      ctxStep, hi.noPanic, ctxFeederStep, hf, htx, Chan.close, h2]
  | succ k ih =>
    intro i s hs hf hk
    have hi := ctx_reachable_inv CalculateFraudScore ctx txs numWorkers r s hs
    have h2 := hi.phased.2.1
    rw [hf] at h2
    have hlt : i < txs.length := by omega
    have htx : txs[i]? = some txs[i] := List.getElem?_eq_getElem hlt
    have hroom := hi.ctx_room_jobs hf htx
    have hstep : (ProcessTransactionsWithContext ctx txs numWorkers r).step s CtxAct.feeder =
        some { s with jobs := { s.jobs with buf := s.jobs.buf ++ [txs[i]] },
                      feeder := Feeder.feed (i + 1) } := by
      simp [ProcessTransactionsWithContext, ProcessTransactionsWithContextWith,
        ctxStep, hi.noPanic, ctxFeederStep, hf, htx, Chan.send, h2, hroom]
    obtain ⟨s', hrun, h⟩ := ih (i + 1) _ (hs.step hstep) rfl (by omega)
    refine ⟨s', ?_, h⟩
    rw [List.replicate_succ]
    simp only [Machine.run, hstep, Option.bind_some]
    exact hrun

/-! ## Results of every strategy -/

theorem seqBody_counts (sc : Scorer) (st : Outcome) (tx : Transaction)
    (h : countsOK st.success st.errors st.results) :
    countsOK (seqBody sc st tx).success (seqBody sc st tx).errors (seqBody sc st tx).results := by
  obtain ⟨h1, h2⟩ := h
  unfold seqBody countsOK
  cases ValidateTransaction tx <;>
    simp [List.countP_append, List.countP_cons, errResult, okResult, h1, h2]

theorem seq_foldl_countsOK (sc : Scorer) (txs : List Transaction) (st : Outcome)
    (h : countsOK st.success st.errors st.results) :
    countsOK (txs.foldl (seqBody sc) st).success (txs.foldl (seqBody sc) st).errors
      (txs.foldl (seqBody sc) st).results := by
  induction txs generalizing st with
  | nil => exact h
  | cons tx txs ih => exact ih _ (seqBody_counts sc st tx h)

theorem seqBody_resultsOK (sc : Scorer) (G : Transaction → F64 → Prop)
    (hG : ∀ tx r, ValidateTransaction tx = none → G tx (sc tx r).score)
    (st : Outcome) (tx : Transaction) (h : ∀ r ∈ st.results, resultOK G r) :
    ∀ r ∈ (seqBody sc st tx).results, resultOK G r := by
  unfold seqBody
  cases hv : ValidateTransaction tx with
  | some err => exact forall_mem_snoc _ _ _ h (resultOK_errResult G tx err hv)
  | none => exact forall_mem_snoc _ _ _ h (resultOK_okResult G tx _ hv (hG tx st.rand hv))

theorem seq_foldl_resultsOK (sc : Scorer) (G : Transaction → F64 → Prop)
    (hG : ∀ tx r, ValidateTransaction tx = none → G tx (sc tx r).score)
    (txs : List Transaction) (st : Outcome) (h : ∀ r ∈ st.results, resultOK G r) :
    ∀ r ∈ (txs.foldl (seqBody sc) st).results, resultOK G r := by
  induction txs generalizing st with
  | nil => exact h
  | cons tx txs ih => exact ih _ (seqBody_resultsOK sc G hG st tx h)

theorem scoreInUnit_CalculateFraudScore (tx : Transaction) (r : Rand)
    (_ : ValidateTransaction tx = none) : scoreInUnit tx (CalculateFraudScore tx r).score := by
  obtain ⟨s, hs, h0, h1⟩ := CalculateFraudScore_bounds tx r
  unfold scoreInUnit
  rw [hs]
  simp [F64.le, h0, h1]

theorem resultOK.wellFormed {r : ProcessingResult} (h : resultOK scoreInUnit r) : r.WellFormed := by
  rcases h with ⟨err, -, hr⟩ | ⟨-, hr, hg⟩
  · rw [hr]
    exact ⟨rfl, fun h => by simp [errResult] at h⟩
  · refine ⟨by rw [hr]; rfl, fun _ => hg⟩

theorem pool_reachable_counts (sc : Scorer) (txs : List Transaction) (numWorkers : ℤ)
    (m : Machine PoolState PoolAct) (hstep : m.step = poolStep sc txs numWorkers)
    (h0 : countsOK m.init.success m.init.errors m.init.results) :
    ∀ s, m.Reachable s → countsOK s.success s.errors s.results := by
  refine Machine.Reachable.induct _ h0 ?_
  intro s a s' hc hst
  rw [hstep] at hst
  exact (poolStep_sound sc txs numWorkers s s' a hst).counts hc

/-! ### C7 -/

/-- C7: every `ProcessingResult` in the collection returned by any of the six strategies
(Sequential, WorkerPool, FanOutFanIn, Select, Context, Semaphore), on every run and
every return path, satisfies `Valid == (Error == nil)`, and when `Valid` is true its
`FraudScore` is in `[0,1]`. -/
theorem C7_results_well_formed (txs : List Transaction) (numWorkers semaphoreSize : ℤ)
    (ctx : Context) (r : Rand) :
    (∀ x ∈ (ProcessTransactionsSequential txs r).results, x.WellFormed) ∧
    (∀ s, (ProcessTransactionsWithWorkerPool txs numWorkers r).Reachable s →
      s.main = PoolMain.returned → ∀ x ∈ s.results, x.WellFormed) ∧
    (∀ s, (ProcessTransactionsWithFanOutFanIn txs numWorkers r).Reachable s →
      s.main = FanMain.returned → ∀ x ∈ s.results, x.WellFormed) ∧
    (∀ s, (ProcessTransactionsWithSelect txs numWorkers r).Reachable s →
      s.main = SelMain.returned → ∀ x ∈ s.results, x.WellFormed) ∧
    (∀ s, (ProcessTransactionsWithContext ctx txs numWorkers r).Reachable s →
      s.main = CtxMain.returned → ∀ x ∈ s.results, x.WellFormed) ∧
    (∀ s, (ProcessTransactionsWithSemaphore txs numWorkers semaphoreSize r).Reachable s →
      s.main = PoolMain.returned → ∀ x ∈ s.results, x.WellFormed) := by
  refine ⟨?_, ?_, ?_, ?_, ?_, ?_⟩
  · intro x hx
    exact (seq_foldl_resultsOK CalculateFraudScore scoreInUnit scoreInUnit_CalculateFraudScore txs _
      (by simp) x hx).wellFormed
  · intro s hs _ x hx
    have := pool_reachable_resultsOK CalculateFraudScore txs numWorkers scoreInUnit
      scoreInUnit_CalculateFraudScore (ProcessTransactionsWithWorkerPool txs numWorkers r) rfl
      ⟨by simp [ProcessTransactionsWithWorkerPool, ProcessTransactionsWithWorkerPoolWith, poolInit],
        by simp [ProcessTransactionsWithWorkerPool, ProcessTransactionsWithWorkerPoolWith, poolInit,
          Chan.make],
        by simp [ProcessTransactionsWithWorkerPool, ProcessTransactionsWithWorkerPoolWith, poolInit]⟩
      s hs
    exact (this.1 x hx).wellFormed
  · intro s hs _ x hx
    have := fan_reachable_resultsOK CalculateFraudScore txs numWorkers scoreInUnit
      scoreInUnit_CalculateFraudScore r s hs
    exact (this.1 x hx).wellFormed
  · intro s hs _ x hx
    have := sel_reachable CalculateFraudScore txs numWorkers r scoreInUnit
      scoreInUnit_CalculateFraudScore s hs
    exact (this.1.1 x hx).wellFormed
  · intro s hs _ x hx
    have := ctx_reachable CalculateFraudScore ctx txs numWorkers r scoreInUnit
      scoreInUnit_CalculateFraudScore s hs
    exact (this.1.1 x hx).wellFormed
  · intro s hs _ x hx
    have := pool_reachable_resultsOK CalculateFraudScore txs numWorkers scoreInUnit
      scoreInUnit_CalculateFraudScore
      (ProcessTransactionsWithSemaphore txs numWorkers semaphoreSize r) rfl
      ⟨by simp [ProcessTransactionsWithSemaphore, ProcessTransactionsWithSemaphoreWith, poolInit],
        by simp [ProcessTransactionsWithSemaphore, ProcessTransactionsWithSemaphoreWith, poolInit,
          Chan.make],
        by simp [ProcessTransactionsWithSemaphore, ProcessTransactionsWithSemaphoreWith, poolInit]⟩
      s hs
    exact (this.1 x hx).wellFormed

/-- C7 witness: complete runs of the worker pool, fan-out/fan-in and semaphore
strategies, a timed-out run of the select strategy and a cancelled run of the context
strategy over a batch with one invalid and one valid transaction. -/
theorem C7_results_well_formed_witness :
    (∃ s, (ProcessTransactionsWithWorkerPool batch2 1 rand0).exec poolSchedule2 = some s ∧
      s.main = PoolMain.returned ∧ s.results.length = 2 ∧ ∀ x ∈ s.results, x.WellFormed) ∧
    (∃ s, (ProcessTransactionsWithFanOutFanIn batch2 1 rand0).exec fanSchedule2 = some s ∧
      s.main = FanMain.returned ∧ s.results.length = 2 ∧ ∀ x ∈ s.results, x.WellFormed) ∧
    (∃ s, (ProcessTransactionsWithSelect batch2 1 rand0).exec selScheduleTimeout = some s ∧
      s.main = SelMain.returned ∧ s.results.length = 1 ∧ ∀ x ∈ s.results, x.WellFormed) ∧
    (∃ s, (ProcessTransactionsWithContext ⟨false, true⟩ batch2 1 rand0).exec ctxScheduleCancel = some s ∧
      s.main = CtxMain.returned ∧ s.results.length = 1 ∧ ∀ x ∈ s.results, x.WellFormed) ∧
    (∃ s, (ProcessTransactionsWithSemaphore batch2 1 1 rand0).exec semSchedule2 = some s ∧
      s.main = PoolMain.returned ∧ s.results.length = 2 ∧ ∀ x ∈ s.results, x.WellFormed) :=
  ⟨⟨_, rfl, rfl, rfl,
      (C7_results_well_formed batch2 1 1 ⟨false, true⟩ rand0).2.1 _ ⟨poolSchedule2, rfl⟩ rfl⟩,
    ⟨_, rfl, rfl, rfl,
      (C7_results_well_formed batch2 1 1 ⟨false, true⟩ rand0).2.2.1 _ ⟨fanSchedule2, rfl⟩ rfl⟩,
    ⟨_, rfl, rfl, rfl,
      (C7_results_well_formed batch2 1 1 ⟨false, true⟩ rand0).2.2.2.1 _ ⟨selScheduleTimeout, rfl⟩ rfl⟩,
    ⟨_, rfl, rfl, rfl,
      (C7_results_well_formed batch2 1 1 ⟨false, true⟩ rand0).2.2.2.2.1 _ ⟨ctxScheduleCancel, rfl⟩ rfl⟩,
    ⟨_, rfl, rfl, rfl,
      (C7_results_well_formed batch2 1 1 ⟨false, true⟩ rand0).2.2.2.2.2 _ ⟨semSchedule2, rfl⟩ rfl⟩⟩

/-! ### C8 -/

/-- C8: on every return path of every strategy, including timeout and cancellation,
`success + errors` equals the length of the returned result collection, `success` is
the number of returned results with `Valid == true` and `errors` the number with
`Valid == false`. -/
theorem C8_counts_match_results (txs : List Transaction) (numWorkers semaphoreSize : ℤ)
    (ctx : Context) (r : Rand) :
    ((ProcessTransactionsSequential txs r).success + (ProcessTransactionsSequential txs r).errors =
        (ProcessTransactionsSequential txs r).results.length ∧
      countsOK (ProcessTransactionsSequential txs r).success
        (ProcessTransactionsSequential txs r).errors (ProcessTransactionsSequential txs r).results) ∧
    (∀ s, (ProcessTransactionsWithWorkerPool txs numWorkers r).Reachable s →
      s.main = PoolMain.returned →
      s.success + s.errors = s.results.length ∧ countsOK s.success s.errors s.results) ∧
    (∀ s, (ProcessTransactionsWithFanOutFanIn txs numWorkers r).Reachable s →
      s.main = FanMain.returned →
      s.success + s.errors = s.results.length ∧ countsOK s.success s.errors s.results) ∧
    (∀ s, (ProcessTransactionsWithSelect txs numWorkers r).Reachable s →
      s.main = SelMain.returned →
      s.success + s.errors = s.results.length ∧ countsOK s.success s.errors s.results) ∧
    (∀ s, (ProcessTransactionsWithContext ctx txs numWorkers r).Reachable s →
      s.main = CtxMain.returned →
      s.success + s.errors = s.results.length ∧ countsOK s.success s.errors s.results) ∧
    (∀ s, (ProcessTransactionsWithSemaphore txs numWorkers semaphoreSize r).Reachable s →
      s.main = PoolMain.returned →
      s.success + s.errors = s.results.length ∧ countsOK s.success s.errors s.results) := by
  refine ⟨?_, ?_, ?_, ?_, ?_, ?_⟩
  · have h := seq_foldl_countsOK CalculateFraudScore txs
      { success := 0, errors := 0, results := [], rand := r } countsOK_nil
    exact ⟨countsOK_sum _ _ _ h, h⟩
  · intro s hs _
    have h := pool_reachable_counts CalculateFraudScore txs numWorkers
      (ProcessTransactionsWithWorkerPool txs numWorkers r) rfl countsOK_nil s hs
    exact ⟨countsOK_sum _ _ _ h, h⟩
  · intro s hs _
    have h := fan_reachable_counts CalculateFraudScore txs numWorkers r s hs
    exact ⟨countsOK_sum _ _ _ h, h⟩
  · intro s hs _
    have h := (sel_reachable CalculateFraudScore txs numWorkers r scoreInUnit
      scoreInUnit_CalculateFraudScore s hs).2
    exact ⟨countsOK_sum _ _ _ h, h⟩
  · intro s hs _
    have h := (ctx_reachable CalculateFraudScore ctx txs numWorkers r scoreInUnit
      scoreInUnit_CalculateFraudScore s hs).2
    exact ⟨countsOK_sum _ _ _ h, h⟩
  · intro s hs _
    have h := pool_reachable_counts CalculateFraudScore txs numWorkers
      (ProcessTransactionsWithSemaphore txs numWorkers semaphoreSize r) rfl countsOK_nil s hs
    exact ⟨countsOK_sum _ _ _ h, h⟩

/-- C8 witness: a complete run of the worker pool, a timed-out run of the select
strategy and a cancelled run of the context strategy; in the last two one result of
two had been collected when the function returned. -/
theorem C8_counts_match_results_witness :
    (∃ s, (ProcessTransactionsWithWorkerPool batch2 1 rand0).exec poolSchedule2 = some s ∧
      s.main = PoolMain.returned ∧ s.results.length = 2 ∧
      s.success + s.errors = s.results.length ∧ countsOK s.success s.errors s.results) ∧
    (∃ s, (ProcessTransactionsWithSelect batch2 1 rand0).exec selScheduleTimeout = some s ∧
      s.main = SelMain.returned ∧ s.timedOut = true ∧ s.results.length = 1 ∧
      s.success + s.errors = s.results.length ∧ countsOK s.success s.errors s.results) ∧
    (∃ s, (ProcessTransactionsWithContext ⟨false, true⟩ batch2 1 rand0).exec ctxScheduleCancel = some s ∧
      s.main = CtxMain.returned ∧ s.cancelled = true ∧ s.results.length = 1 ∧
      s.success + s.errors = s.results.length ∧ countsOK s.success s.errors s.results) :=
  ⟨⟨_, rfl, rfl, rfl,
      (C8_counts_match_results batch2 1 1 ⟨false, true⟩ rand0).2.1 _ ⟨poolSchedule2, rfl⟩ rfl⟩,
    ⟨_, rfl, rfl, rfl, rfl,
      (C8_counts_match_results batch2 1 1 ⟨false, true⟩ rand0).2.2.2.1 _ ⟨selScheduleTimeout, rfl⟩ rfl⟩,
    ⟨_, rfl, rfl, rfl, rfl,
      (C8_counts_match_results batch2 1 1 ⟨false, true⟩ rand0).2.2.2.2.1 _ ⟨ctxScheduleCancel, rfl⟩ rfl⟩⟩

/-! ## Completion of the worker pool, fan-out/fan-in and semaphore strategies -/

theorem length_eq_of_map_coe_eq {β γ : Type} (f : β → γ) (l : List β) (l' : List γ)
    (h : ((l.map f : List γ) : Multiset γ) = (l' : Multiset γ)) : l.length = l'.length := by
  have := congrArg Multiset.card h
  simpa using this

/-- The pool machine, started in a state satisfying the invariants, runs to completion. -/
theorem pool_runsToCompletion (sc : Scorer) (txs : List Transaction) (numWorkers : ℤ)
    (hW : 1 ≤ numWorkers) (m : Machine PoolState PoolAct)
    (hstep : m.step = poolStep sc txs numWorkers)
    (h0 : m.init.Inv txs numWorkers) (h1 : m.init.SemPos)
    (h2 : countsOK m.init.success m.init.errors m.init.results) :
    m.RunsToCompletion (fun s => s.main = PoolMain.returned) (m.init.measure txs numWorkers)
      (PoolState.Complete txs.length) := by
  refine Machine.runsToCompletion_of m _
    (fun s => s.Inv txs numWorkers ∧ s.SemPos ∧ countsOK s.success s.errors s.results)
    (PoolState.measure txs numWorkers) _ ⟨h0, h1, h2⟩ ?_ ?_ ?_ ?_
  · intro s a s' ⟨ha, hb, hc⟩ hst
    rw [hstep] at hst
    have hrel := poolStep_sound sc txs numWorkers s s' a hst
    exact ⟨hrel.inv ha, hrel.semPos hb, hrel.counts hc⟩
  · intro s ⟨ha, hb, _⟩ hf
    obtain ⟨s', hs'⟩ := ha.progress sc hb hf
    obtain ⟨a, hst⟩ := poolStep_complete hs'
    exact ⟨a, s', by rw [hstep]; exact hst⟩
  · intro s a s' _ hst
    rw [hstep] at hst
    exact (poolStep_sound sc txs numWorkers s s' a hst).measure_lt
  · intro s ⟨ha, _, hc⟩ hf
    have hlen := length_eq_of_map_coe_eq _ _ _ (ha.returned hW hf)
    have hsum := countsOK_sum _ _ _ hc
    exact ⟨by omega, hlen⟩

/-- The fan-out/fan-in machine runs to completion. -/
theorem fan_runsToCompletion (sc : Scorer) (txs : List Transaction) (numWorkers : ℤ)
    (hW : 1 ≤ numWorkers) (r : Rand) :
    (ProcessTransactionsWithFanOutFanInWith sc txs numWorkers r).RunsToCompletion
      (fun s => s.main = FanMain.returned) ((fanInit r).measure txs numWorkers)
      (FanState.Complete txs.length) := by
  refine Machine.runsToCompletion_of _ _
    (fun s => s.Inv txs numWorkers ∧ countsOK s.success s.errors s.results)
    (FanState.measure txs numWorkers) _ ⟨fanInit_inv txs numWorkers r, countsOK_nil⟩ ?_ ?_ ?_ ?_
  · intro s a s' ⟨ha, hc⟩ hst
    have hrel := fanStep_sound sc txs numWorkers s s' a hst
    exact ⟨hrel.fanInv (by omega) ha, hrel.fanCounts hc⟩
  · intro s ⟨ha, _⟩ hf
    obtain ⟨s', hs'⟩ := ha.fanProgress sc (by omega) hf
    obtain ⟨a, hst⟩ := fanStep_complete hs'
    exact ⟨a, s', hst⟩
  · intro s a s' ⟨ha, _⟩ hst
    exact (fanStep_sound sc txs numWorkers s s' a hst).fanMeasure_lt ha.phased
  · intro s ⟨ha, hc⟩ hf
    have hlen := length_eq_of_map_coe_eq _ _ _ (ha.fanReturned (by omega) hf)
    have hsum := countsOK_sum _ _ _ hc
    exact ⟨by omega, hlen⟩

theorem workerPool_init_inv (sc : Scorer) (txs : List Transaction) (numWorkers : ℤ) (r : Rand) :
    (ProcessTransactionsWithWorkerPoolWith sc txs numWorkers r).init.Inv txs numWorkers ∧
      (ProcessTransactionsWithWorkerPoolWith sc txs numWorkers r).init.SemPos :=
  ⟨poolInit_inv txs numWorkers none r (by simp), by
    intro c hc
    simp [ProcessTransactionsWithWorkerPoolWith, poolInit] at hc⟩

theorem semaphore_init_inv (sc : Scorer) (txs : List Transaction) (numWorkers semaphoreSize : ℤ)
    (hS : 1 ≤ semaphoreSize) (r : Rand) :
    (ProcessTransactionsWithSemaphoreWith sc txs numWorkers semaphoreSize r).init.Inv txs numWorkers ∧
      (ProcessTransactionsWithSemaphoreWith sc txs numWorkers semaphoreSize r).init.SemPos := by
  have hinit : (ProcessTransactionsWithSemaphoreWith sc txs numWorkers semaphoreSize r).init =
      poolInit txs (some (Chan.make semaphoreSize.toNat)) r := by
    have hd : decide (semaphoreSize < 0) = false := by simp; omega
    simp [ProcessTransactionsWithSemaphoreWith, poolInit, hd]
  rw [hinit]
  refine ⟨poolInit_inv txs numWorkers _ r ?_, ?_⟩
  · intro c hc
    simp only [Option.some.injEq] at hc
    subst hc
    exact ⟨rfl, rfl⟩
  · intro c hc
    simp only [poolInit, Option.some.injEq] at hc
    subst hc
    simp only [Chan.make]
    omega

/-! ### C9 -/

/-- C9: for every transaction list of length `N` (also `N = 0` and `N` smaller than the
worker count), every `numWorkers >= 1` (and `semaphoreSize >= 1` for the semaphore
strategy) and every state of the random source, `ProcessTransactionsWithWorkerPool`,
`ProcessTransactionsWithFanOutFanIn` and `ProcessTransactionsWithSemaphore` run to
completion without deadlock (no reachable state short of the return is stuck, no goroutine
panics, every schedule is finite, and the return is reached) and return
`success + errors = N` with exactly `N` results. -/
theorem C9_runs_to_completion (txs : List Transaction) (numWorkers semaphoreSize : ℤ) (r : Rand)
    (hW : 1 ≤ numWorkers) :
    (ProcessTransactionsWithWorkerPool txs numWorkers r).RunsToCompletion
      (fun s => s.main = PoolMain.returned) (2 * numWorkers.toNat + 7 * txs.length + 9)
      (PoolState.Complete txs.length) ∧
    (ProcessTransactionsWithFanOutFanIn txs numWorkers r).RunsToCompletion
      (fun s => s.main = FanMain.returned) (5 * numWorkers.toNat + 4 * txs.length + 15)
      (FanState.Complete txs.length) ∧
    (1 ≤ semaphoreSize →
      (ProcessTransactionsWithSemaphore txs numWorkers semaphoreSize r).RunsToCompletion
        (fun s => s.main = PoolMain.returned) (2 * numWorkers.toNat + 7 * txs.length + 9)
        (PoolState.Complete txs.length)) := by
  refine ⟨?_, ?_, ?_⟩
  · have h := pool_runsToCompletion CalculateFraudScore txs numWorkers hW
      (ProcessTransactionsWithWorkerPool txs numWorkers r) rfl
      (workerPool_init_inv CalculateFraudScore txs numWorkers r).1
      (workerPool_init_inv CalculateFraudScore txs numWorkers r).2 countsOK_nil
    have hμ : (ProcessTransactionsWithWorkerPool txs numWorkers r).init.measure txs numWorkers =
        2 * numWorkers.toNat + 7 * txs.length + 9 := by
      simp [ProcessTransactionsWithWorkerPool, ProcessTransactionsWithWorkerPoolWith, poolInit,
        PoolState.measure, PoolMain.weight, Closer.weight, Chan.make]
      omega
    rw [hμ] at h
    exact h
  · have h := fan_runsToCompletion CalculateFraudScore txs numWorkers hW r
    have hμ : (fanInit r).measure txs numWorkers = 5 * numWorkers.toNat + 4 * txs.length + 15 := by
      simp [fanInit, FanState.measure, FanMain.weight, Closer.weight, Distributor.weight]
      omega
    rw [hμ] at h
    exact h
  · intro hS
    have h := pool_runsToCompletion CalculateFraudScore txs numWorkers hW
      (ProcessTransactionsWithSemaphore txs numWorkers semaphoreSize r) rfl
      (semaphore_init_inv CalculateFraudScore txs numWorkers semaphoreSize hS r).1
      (semaphore_init_inv CalculateFraudScore txs numWorkers semaphoreSize hS r).2 countsOK_nil
    have hd : decide (semaphoreSize < 0) = false := by simp; omega
    have hμ : (ProcessTransactionsWithSemaphore txs numWorkers semaphoreSize r).init.measure txs
        numWorkers = 2 * numWorkers.toNat + 7 * txs.length + 9 := by
      simp [ProcessTransactionsWithSemaphore, ProcessTransactionsWithSemaphoreWith, poolInit,
        PoolState.measure, PoolMain.weight, Closer.weight, Chan.make, hd]
      omega
    rw [hμ] at h
    exact h

/-- C9 witness: one worker and one permit on a batch of two transactions, and three
workers on an empty batch. -/
theorem C9_runs_to_completion_witness :
    ((1 : ℤ) ≤ 1 ∧
      (ProcessTransactionsWithWorkerPool batch2 1 rand0).RunsToCompletion
        (fun s => s.main = PoolMain.returned) (2 * (1 : ℤ).toNat + 7 * batch2.length + 9)
        (PoolState.Complete batch2.length) ∧
      (ProcessTransactionsWithFanOutFanIn batch2 1 rand0).RunsToCompletion
        (fun s => s.main = FanMain.returned) (5 * (1 : ℤ).toNat + 4 * batch2.length + 15)
        (FanState.Complete batch2.length) ∧
      (ProcessTransactionsWithSemaphore batch2 1 1 rand0).RunsToCompletion
        (fun s => s.main = PoolMain.returned) (2 * (1 : ℤ).toNat + 7 * batch2.length + 9)
        (PoolState.Complete batch2.length)) ∧
    ((1 : ℤ) ≤ 3 ∧
      (ProcessTransactionsWithWorkerPool [] 3 rand0).RunsToCompletion
        (fun s => s.main = PoolMain.returned) (2 * (3 : ℤ).toNat + 7 * ([] : List Transaction).length + 9)
        (PoolState.Complete 0)) :=
  ⟨⟨by decide, (C9_runs_to_completion batch2 1 1 rand0 (by decide)).1,
      (C9_runs_to_completion batch2 1 1 rand0 (by decide)).2.1,
      (C9_runs_to_completion batch2 1 1 rand0 (by decide)).2.2 (by decide)⟩,
    ⟨by decide, (C9_runs_to_completion [] 3 1 rand0 (by decide)).1⟩⟩

/-! ## Equivalence with the sequential strategy under a deterministic scorer -/

theorem perm_find?_key_eq {β κ : Type} [DecidableEq κ] (key : β → κ) {l₁ l₂ : List β}
    (hp : l₁.Perm l₂) (hnd : (l₁.map key).Nodup) (k : κ) :
    l₁.find? (fun b => key b == k) = l₂.find? (fun b => key b == k) := by
  induction hp with
  | nil => rfl
  | cons x _ ih =>
    simp only [List.map_cons, List.nodup_cons] at hnd
    simp only [List.find?_cons]
    rw [ih hnd.2]
  | swap x y l =>
    simp only [List.map_cons, List.nodup_cons, List.mem_cons, not_or] at hnd
    simp only [List.find?_cons]
    by_cases hx : key x = k
    · by_cases hy : key y = k
      · exact absurd (hy.trans hx.symm) hnd.1.1
      · have hxb : (key x == k) = true := by simpa using hx
        have hyb : (key y == k) = false := by simpa using hy
        simp only [hxb, hyb]
    · by_cases hy : key y = k
      · have hxb : (key x == k) = false := by simpa using hx
        have hyb : (key y == k) = true := by simpa using hy
        simp only [hxb, hyb]
      · have hxb : (key x == k) = false := by simpa using hx
        have hyb : (key y == k) = false := by simpa using hy
        simp only [hxb, hyb]
  | trans h1 _ ih1 ih2 =>
    rw [ih1 hnd]
    exact ih2 ((h1.map key).nodup_iff.mp hnd)

theorem seq_foldl_results_det (f : Transaction → F64) (txs : List Transaction) (st : Outcome) :
    (txs.foldl (seqBody (detScorer f)) st).results = st.results ++ txs.map (processWith f) := by
  induction txs generalizing st with
  | nil => simp
  | cons tx txs ih =>
    rw [List.foldl_cons, ih]
    unfold seqBody
    cases hv : ValidateTransaction tx <;> simp [detScorer, processWith, hv]

theorem seq_results_det (f : Transaction → F64) (txs : List Transaction) (r : Rand) :
    (ProcessTransactionsSequentialWith (detScorer f) txs r).results = txs.map (processWith f) := by
  unfold ProcessTransactionsSequentialWith
  rw [seq_foldl_results_det]
  simp

theorem resultOK_det_eq (f : Transaction → F64) (x : ProcessingResult)
    (h : resultOK (fun tx fs => fs = f tx) x) : x = processWith f x.Transaction := by
  unfold processWith
  rcases h with ⟨err, hv, hx⟩ | ⟨hv, hx, hg⟩
  · rw [hv]
    exact hx
  · rw [hv]
    dsimp only at hg ⊢
    rw [← hg]
    exact hx

theorem map_processWith_of_resultsOK (f : Transaction → F64) (l : List ProcessingResult)
    (h : ∀ x ∈ l, resultOK (fun tx fs => fs = f tx) x) :
    (l.map ProcessingResult.Transaction).map (processWith f) = l := by
  induction l with
  | nil => rfl
  | cons x xs ih =>
    simp only [List.map_cons]
    rw [ih (fun y hy => h y (List.mem_cons_of_mem _ hy)),
      ← resultOK_det_eq f x (h x (List.mem_cons_self _ _))]

/-- Results that are well formed for the scorer `f`, carry the transactions of the batch
and are counted form the same collection as the sequential outcome. -/
theorem sameCollection_of (f : Transaction → F64) (txs : List Transaction) (r : Rand)
    (success errors : ℕ) (results : List ProcessingResult)
    (hok : ∀ x ∈ results, resultOK (fun tx fs => fs = f tx) x)
    (htx : ((results.map ProcessingResult.Transaction : List Transaction) : Multiset Transaction) =
      (txs : Multiset Transaction))
    (hc : countsOK success errors results) :
    (ProcessTransactionsSequentialWith (detScorer f) txs r).SameCollection success errors results := by
  have hperm : results.Perm (ProcessTransactionsSequentialWith (detScorer f) txs r).results := by
    rw [seq_results_det, ← map_processWith_of_resultsOK f results hok]
    exact (Multiset.coe_eq_coe.mp htx).map _
  have hseq := seq_foldl_countsOK (detScorer f) txs
    { success := 0, errors := 0, results := [], rand := r } countsOK_nil
  refine ⟨hperm, ?_, ?_, ?_⟩
  · rw [hc.1, hperm.countP_eq]
    exact hseq.1.symm
  · rw [hc.2, hperm.countP_eq]
    exact hseq.2.symm
  · intro hnd id
    refine perm_find?_key_eq (fun x => x.Transaction.ID) hperm ?_ id
    exact ((hperm.map fun x => x.Transaction.ID).nodup_iff).mpr hnd

theorem detScorer_spec (f : Transaction → F64) (tx : Transaction) (r : Rand)
    (_ : ValidateTransaction tx = none) : (fun tx fs => fs = f tx) tx (detScorer f tx r).score := rfl

/-- The pool machine with a deterministic scorer returns the sequential collection. -/
theorem pool_det_sameCollection (f : Transaction → F64) (txs : List Transaction) (numWorkers : ℤ)
    (hW : 1 ≤ numWorkers) (r : Rand) (m : Machine PoolState PoolAct)
    (hstep : m.step = poolStep (detScorer f) txs numWorkers)
    (h0 : m.init.Inv txs numWorkers) (h1 : m.init.SemPos)
    (h2 : countsOK m.init.success m.init.errors m.init.results)
    (h3 : m.init.ResultsOK fun tx fs => fs = f tx) :
    m.RunsToCompletion (fun s => s.main = PoolMain.returned) (m.init.measure txs numWorkers)
      (fun s => (ProcessTransactionsSequentialWith (detScorer f) txs r).SameCollection
        s.success s.errors s.results) := by
  obtain ⟨ha, hb, hc, -⟩ := pool_runsToCompletion (detScorer f) txs numWorkers hW m hstep h0 h1 h2
  refine ⟨ha, hb, hc, ?_⟩
  intro s hs hf
  obtain ⟨hinv, -, hcnt⟩ := pool_reachable_inv (detScorer f) txs numWorkers m hstep h0 h1 h2 s hs
  have hok := pool_reachable_resultsOK (detScorer f) txs numWorkers (fun tx fs => fs = f tx)
    (detScorer_spec f) m hstep h3 s hs
  exact sameCollection_of f txs r _ _ _ hok.1 (hinv.returned hW hf) hcnt

/-- The fan-out/fan-in machine with a deterministic scorer returns the sequential collection. -/
theorem fan_det_sameCollection (f : Transaction → F64) (txs : List Transaction) (numWorkers : ℤ)
    (hW : 1 ≤ numWorkers) (r : Rand) :
    (ProcessTransactionsWithFanOutFanInWith (detScorer f) txs numWorkers r).RunsToCompletion
      (fun s => s.main = FanMain.returned) ((fanInit r).measure txs numWorkers)
      (fun s => (ProcessTransactionsSequentialWith (detScorer f) txs r).SameCollection
        s.success s.errors s.results) := by
  obtain ⟨ha, hb, hc, -⟩ := fan_runsToCompletion (detScorer f) txs numWorkers hW r
  refine ⟨ha, hb, hc, ?_⟩
  intro s hs hf
  obtain ⟨hinv, hcnt⟩ := fan_reachable_inv (detScorer f) txs numWorkers (by omega) r s hs
  have hok := fan_reachable_resultsOK (detScorer f) txs numWorkers (fun tx fs => fs = f tx)
    (detScorer_spec f) r s hs
  exact sameCollection_of f txs r _ _ _ hok.1 (hinv.fanReturned (by omega) hf) hcnt

/-! ### C10 -/

/-- C10: with the scorer a deterministic function `f` of the transaction, for every
transaction list, every `numWorkers >= 1` (and `semaphoreSize >= 1`), every run of
`ProcessTransactionsWithWorkerPool`, `ProcessTransactionsWithFanOutFanIn` and
`ProcessTransactionsWithSemaphore` completes and returns results that are a permutation
of the results of `ProcessTransactionsSequential`, with equal `success` and `errors`
counts; when the transaction IDs are pairwise distinct, looking a transaction ID up in
the returned results gives the same result as in the sequential ones. -/
theorem C10_same_collection_as_sequential (f : Transaction → F64) (txs : List Transaction)
    (numWorkers semaphoreSize : ℤ) (r : Rand) (hW : 1 ≤ numWorkers) :
    (ProcessTransactionsWithWorkerPoolWith (detScorer f) txs numWorkers r).RunsToCompletion
      (fun s => s.main = PoolMain.returned) (2 * numWorkers.toNat + 7 * txs.length + 9)
      (fun s => (ProcessTransactionsSequentialWith (detScorer f) txs r).SameCollection
        s.success s.errors s.results) ∧
    (ProcessTransactionsWithFanOutFanInWith (detScorer f) txs numWorkers r).RunsToCompletion
      (fun s => s.main = FanMain.returned) (5 * numWorkers.toNat + 4 * txs.length + 15)
      (fun s => (ProcessTransactionsSequentialWith (detScorer f) txs r).SameCollection
        s.success s.errors s.results) ∧
    (1 ≤ semaphoreSize →
      (ProcessTransactionsWithSemaphoreWith (detScorer f) txs numWorkers semaphoreSize r).RunsToCompletion
        (fun s => s.main = PoolMain.returned) (2 * numWorkers.toNat + 7 * txs.length + 9)
        (fun s => (ProcessTransactionsSequentialWith (detScorer f) txs r).SameCollection
          s.success s.errors s.results)) ∧
    ((txs.map fun tx => tx.ID).Nodup →
      ((ProcessTransactionsSequentialWith (detScorer f) txs r).results.map
        fun x => x.Transaction.ID).Nodup) := by
  refine ⟨?_, ?_, ?_, ?_⟩
  · have h := pool_det_sameCollection f txs numWorkers hW r
      (ProcessTransactionsWithWorkerPoolWith (detScorer f) txs numWorkers r) rfl
      (workerPool_init_inv (detScorer f) txs numWorkers r).1
      (workerPool_init_inv (detScorer f) txs numWorkers r).2 countsOK_nil
      ⟨by simp [ProcessTransactionsWithWorkerPoolWith, poolInit],
        by simp [ProcessTransactionsWithWorkerPoolWith, poolInit, Chan.make],
        by simp [ProcessTransactionsWithWorkerPoolWith, poolInit]⟩
    have hμ : (ProcessTransactionsWithWorkerPoolWith (detScorer f) txs numWorkers r).init.measure txs
        numWorkers = 2 * numWorkers.toNat + 7 * txs.length + 9 := by
      simp [ProcessTransactionsWithWorkerPoolWith, poolInit,
        PoolState.measure, PoolMain.weight, Closer.weight, Chan.make]
      omega
    rw [hμ] at h
    exact h
  · have h := fan_det_sameCollection f txs numWorkers hW r
    have hμ : (fanInit r).measure txs numWorkers = 5 * numWorkers.toNat + 4 * txs.length + 15 := by
      simp [fanInit, FanState.measure, FanMain.weight, Closer.weight, Distributor.weight]
      omega
    rw [hμ] at h
    exact h
  · intro hS
    have hd : decide (semaphoreSize < 0) = false := by simp; omega
    have h := pool_det_sameCollection f txs numWorkers hW r
      (ProcessTransactionsWithSemaphoreWith (detScorer f) txs numWorkers semaphoreSize r) rfl
      (semaphore_init_inv (detScorer f) txs numWorkers semaphoreSize hS r).1
      (semaphore_init_inv (detScorer f) txs numWorkers semaphoreSize hS r).2 countsOK_nil
      ⟨by simp [ProcessTransactionsWithSemaphoreWith, poolInit],
        by simp [ProcessTransactionsWithSemaphoreWith, poolInit, Chan.make],
        by simp [ProcessTransactionsWithSemaphoreWith, poolInit]⟩
    have hμ : (ProcessTransactionsWithSemaphoreWith (detScorer f) txs numWorkers semaphoreSize
        r).init.measure txs numWorkers = 2 * numWorkers.toNat + 7 * txs.length + 9 := by
      simp [ProcessTransactionsWithSemaphoreWith, poolInit,
        PoolState.measure, PoolMain.weight, Closer.weight, Chan.make, hd]
      omega
    rw [hμ] at h
    exact h
  · intro hnd
    have h := seq_results_map (detScorer f) txs r
    have h2 : (ProcessTransactionsSequentialWith (detScorer f) txs r).results.map
        (fun x => x.Transaction.ID) =
        ((ProcessTransactionsSequentialWith (detScorer f) txs r).results.map
          ProcessingResult.Transaction).map fun tx => tx.ID := by
      simp
    rw [h2, h]
    exact hnd

/-- C10 witness: one worker and one permit on a batch of two transactions with distinct
IDs and a constant scorer; the completed worker-pool run returns the two results in the
sequential order here. -/
theorem C10_same_collection_as_sequential_witness :
    (1 : ℤ) ≤ 1 ∧ (batch2.map fun tx => tx.ID).Nodup ∧
    (ProcessTransactionsWithWorkerPoolWith (detScorer constScore) batch2 1 rand0).RunsToCompletion
      (fun s => s.main = PoolMain.returned) (2 * (1 : ℤ).toNat + 7 * batch2.length + 9)
      (fun s => (ProcessTransactionsSequentialWith (detScorer constScore) batch2 rand0).SameCollection
        s.success s.errors s.results) ∧
    (ProcessTransactionsWithSemaphoreWith (detScorer constScore) batch2 1 1 rand0).RunsToCompletion
      (fun s => s.main = PoolMain.returned) (2 * (1 : ℤ).toNat + 7 * batch2.length + 9)
      (fun s => (ProcessTransactionsSequentialWith (detScorer constScore) batch2 rand0).SameCollection
        s.success s.errors s.results) ∧
    ((ProcessTransactionsSequentialWith (detScorer constScore) batch2 rand0).results.map
      fun x => x.Transaction.ID).Nodup ∧
    (∃ s, (ProcessTransactionsWithWorkerPoolWith (detScorer constScore) batch2 1 rand0).exec
        poolSchedule2 = some s ∧ s.main = PoolMain.returned ∧
      s.results = (ProcessTransactionsSequentialWith (detScorer constScore) batch2 rand0).results) :=
  ⟨by decide, by decide,
    (C10_same_collection_as_sequential constScore batch2 1 1 rand0 (by decide)).1,
    (C10_same_collection_as_sequential constScore batch2 1 1 rand0 (by decide)).2.2.1 (by decide),
    (C10_same_collection_as_sequential constScore batch2 1 1 rand0 (by decide)).2.2.2 (by decide),
    ⟨_, rfl, rfl, rfl⟩⟩

/-! ## Semaphore strategy: permits -/

theorem PoolStep.semCap {sc : Scorer} {txs : List Transaction} {numWorkers : ℤ}
    {s s' : PoolState} (h : PoolStep sc txs numWorkers s s') (n : ℕ)
    (hi : ∃ c, s.sem = some c ∧ c.cap = n) : ∃ c, s'.sem = some c ∧ c.cap = n := by
  cases h
  case acquire i tx sem hp hw hsem hopen hroom =>
    obtain ⟨c, hc, hn⟩ := hi
    rw [hsem] at hc
    cases hc
    exact ⟨_, rfl, hn⟩
  case release i tx fs sem u rest hp hw hsem hbuf =>
    obtain ⟨c, hc, hn⟩ := hi
    rw [hsem] at hc
    cases hc
    exact ⟨_, rfl, hn⟩
  all_goals exact hi

theorem sum_inScorer_le_sum_permit :
    ∀ (l : List PoolWorker), (l.map PoolWorker.inScorer).sum ≤ (l.map PoolWorker.permit).sum := by
  intro l
  induction l with
  | nil => simp
  | cons x xs ih =>
    simp only [List.map_cons, List.sum_cons]
    have : PoolWorker.inScorer x ≤ PoolWorker.permit x := by
      cases x <;> simp [PoolWorker.inScorer, PoolWorker.permit]
    omega

theorem semaphore_init_inv_of_nonneg (sc : Scorer) (txs : List Transaction)
    (numWorkers semaphoreSize : ℤ) (hS : 0 ≤ semaphoreSize) (r : Rand) :
    (ProcessTransactionsWithSemaphoreWith sc txs numWorkers semaphoreSize r).init.Inv txs numWorkers ∧
      ∃ c, (ProcessTransactionsWithSemaphoreWith sc txs numWorkers semaphoreSize r).init.sem = some c ∧
        c.cap = semaphoreSize.toNat := by
  have hinit : (ProcessTransactionsWithSemaphoreWith sc txs numWorkers semaphoreSize r).init =
      poolInit txs (some (Chan.make semaphoreSize.toNat)) r := by
    have hd : decide (semaphoreSize < 0) = false := by simp; omega
    simp [ProcessTransactionsWithSemaphoreWith, poolInit, hd]
  rw [hinit]
  refine ⟨poolInit_inv txs numWorkers _ r ?_, ⟨_, rfl, rfl⟩⟩
  intro c hc
  simp only [Option.some.injEq] at hc
  subst hc
  exact ⟨rfl, rfl⟩

/-- Every reachable state of the semaphore strategy with a non-negative size satisfies the
invariants of the pool machine, and the semaphore keeps its capacity. -/
theorem semaphore_reachable_inv (sc : Scorer) (txs : List Transaction)
    (numWorkers semaphoreSize : ℤ) (hS : 0 ≤ semaphoreSize) (r : Rand) :
    ∀ s, (ProcessTransactionsWithSemaphoreWith sc txs numWorkers semaphoreSize r).Reachable s →
      s.Inv txs numWorkers ∧ ∃ c, s.sem = some c ∧ c.cap = semaphoreSize.toNat := by
  refine Machine.Reachable.induct _
    (semaphore_init_inv_of_nonneg sc txs numWorkers semaphoreSize hS r) ?_
  intro s a s' ⟨ha, hb⟩ hst
  have hrel := poolStep_sound sc txs numWorkers s s' a hst
  exact ⟨hrel.inv ha, hrel.semCap _ hb⟩

/-- With a negative size the `make` of the semaphore panics: nothing runs. -/
theorem semaphore_reachable_of_neg (sc : Scorer) (txs : List Transaction)
    (numWorkers semaphoreSize : ℤ) (hS : semaphoreSize < 0) (r : Rand) :
    ∀ s, (ProcessTransactionsWithSemaphoreWith sc txs numWorkers semaphoreSize r).Reachable s →
      s = (ProcessTransactionsWithSemaphoreWith sc txs numWorkers semaphoreSize r).init := by
  refine Machine.Reachable.induct _ rfl ?_
  intro s a s' hs hst
  subst hs
  have hd : decide (semaphoreSize < 0) = true := by simpa using hS
  simp [ProcessTransactionsWithSemaphoreWith, poolStep, hd] at hst

/-! ### C13 -/

/-- C13: in every reachable state of a run of `ProcessTransactionsWithSemaphore` with
`semaphoreSize >= 1` and any number of workers, the number of workers currently executing
`CalculateFraudScore` is at most `semaphoreSize`. -/
theorem C13_scorers_at_most_permits (txs : List Transaction) (numWorkers semaphoreSize : ℤ)
    (r : Rand) (hS : 1 ≤ semaphoreSize) :
    ∀ s, (ProcessTransactionsWithSemaphore txs numWorkers semaphoreSize r).Reachable s →
      (s.scoringNow : ℤ) ≤ semaphoreSize := by
  intro s hs
  obtain ⟨hi, c, hc, hcap⟩ :=
    semaphore_reachable_inv CalculateFraudScore txs numWorkers semaphoreSize (by omega) r s hs
  have hsem := hi.semOK
  unfold PoolState.SemOK at hsem
  rw [hc] at hsem
  have h1 := sum_inScorer_le_sum_permit s.workers
  have h2 : s.scoringNow ≤ semaphoreSize.toNat := by
    unfold PoolState.scoringNow
    have := hsem.2.1
    have := hsem.2.2
    omega
  have h3 : ((semaphoreSize.toNat : ℕ) : ℤ) = semaphoreSize := Int.toNat_of_nonneg (by omega)
  omega

/-- C13 witness: one permit, two workers, the sample batch, in a state where one worker is
inside the scorer. -/
theorem C13_scorers_at_most_permits_witness :
    (1 : ℤ) ≤ 1 ∧
      ∃ s, (ProcessTransactionsWithSemaphore batch2 2 1 rand0).exec semScheduleScoring = some s ∧
        s.scoringNow = 1 ∧ (s.scoringNow : ℤ) ≤ 1 :=
  ⟨by decide, _, rfl, rfl,
    C13_scorers_at_most_permits batch2 2 1 rand0 (by decide) _ ⟨semScheduleScoring, rfl⟩⟩

/-! ### C14 -/

theorem getElem?_set_self_of_getElem? {β : Type} {l : List β} {i : ℕ} {a b : β}
    (h : l[i]? = some a) : (l.set i b)[i]? = some b := by
  have hlt := lt_length_of_getElem? h
  simp [List.getElem?_set, hlt]

/-- One operation of a worker of the semaphore strategy, from a state satisfying the
invariants, is as `WorkerPermitStep` describes. -/
theorem poolWorkerStep_permits (sc : Scorer) (txs : List Transaction) (numWorkers : ℤ)
    (s s' : PoolState) (i : ℕ) (hi : s.Inv txs numWorkers) (c : Chan Unit) (hc : s.sem = some c)
    (h : poolStep sc txs numWorkers s (PoolAct.worker i) = some s') :
    s.WorkerPermitStep sc s' i := by
  have hnp' : s'.panicked = false := (poolStep_sound sc txs numWorkers s s' _ h).noPanic hi
  have hsem := hi.semOK
  unfold PoolState.SemOK at hsem
  rw [hc] at hsem
  simp only at hsem
  unfold poolStep at h
  rw [hi.noPanic] at h
  simp only [Bool.false_eq_true, if_false] at h
  unfold PoolState.WorkerPermitStep
  cases hw : s.workers[i]? with
  | none => simp [hw] at h
  | some w =>
    rw [hw] at h
    simp only at h
    cases w with
    | idle =>
      simp only
      unfold poolWorkerStep at h
      simp only at h
      split at h
      · rename_i tx c' hrecv
        obtain ⟨rest, hbuf, -⟩ := Chan.recv_eq_value _ _ _ hrecv
        rw [hbuf]
        simp only
        split at h
        · rename_i err hv
          cases h
          exact ⟨by simp [PoolState.permitsHeld, hc], getElem?_set_self_of_getElem? hw⟩
        · rename_i hv
          rw [hc] at h
          simp only at h
          cases h
          exact ⟨by simp [PoolState.permitsHeld, hc], getElem?_set_self_of_getElem? hw⟩
      · rename_i hrecv
        obtain ⟨hbuf, -⟩ := Chan.recv_eq_closed _ hrecv
        rw [hbuf]
        simp only
        split at h
        · cases h
          exact ⟨by simp [PoolState.permitsHeld, hc], getElem?_set_self_of_getElem? hw⟩
        · cases h
          simp at hnp'
      · cases h
    | acquire tx =>
      simp only
      unfold poolWorkerStep at h
      rw [hc] at h
      simp only at h
      split at h
      · rename_i c' hsend
        obtain ⟨-, -, hc'⟩ := Chan.send_eq_ok _ _ _ hsend
        cases h
        subst hc'
        exact ⟨by simp [PoolState.permitsHeld, hc], getElem?_set_self_of_getElem? hw⟩
      · cases h
      · cases h
        simp at hnp'
    | scoring tx =>
      simp only
      unfold poolWorkerStep at h
      rw [hc] at h
      simp only at h
      cases h
      exact ⟨by simp [PoolState.permitsHeld, hc], getElem?_set_self_of_getElem? hw⟩
    | release tx fs =>
      simp only
      unfold poolWorkerStep at h
      rw [hc] at h
      simp only at h
      split at h
      · rename_i u c' hrecv
        obtain ⟨rest, hbuf, hc'⟩ := Chan.recv_eq_value _ _ _ hrecv
        cases h
        subst hc'
        exact ⟨by simp [PoolState.permitsHeld, hc, hbuf], getElem?_set_self_of_getElem? hw⟩
      · rename_i hrecv
        obtain ⟨-, hcl⟩ := Chan.recv_eq_closed _ hrecv
        rw [hsem.1] at hcl
        cases hcl
      · cases h
    | emit r =>
      simp only
      unfold poolWorkerStep at h
      simp only at h
      split at h
      · rename_i c' hsend
        obtain ⟨-, -, hc'⟩ := Chan.send_eq_ok _ _ _ hsend
        cases h
        subst hc'
        exact ⟨by simp [PoolState.permitsHeld], getElem?_set_self_of_getElem? hw, rfl⟩
      · cases h
      · cases h
        simp at hnp'
    | exited =>
      unfold poolWorkerStep at h
      cases h

/-- The calling goroutine and the closer never touch the semaphore. -/
theorem poolStep_permits_frame (sc : Scorer) (txs : List Transaction) (numWorkers : ℤ)
    (s s' : PoolState) (a : PoolAct) (ha : a = PoolAct.main ∨ a = PoolAct.closer)
    (h : poolStep sc txs numWorkers s a = some s') : s'.sem = s.sem := by
  unfold poolStep at h
  split at h
  · cases h
  · rcases ha with rfl | rfl
    · simp only at h
      unfold poolMainStep at h
      repeat' split at h
      all_goals first
        | cases h; rfl
        | cases h
    · simp only at h
      unfold poolCloserStep at h
      repeat' split at h
      all_goals first
        | cases h; rfl
        | cases h

/-- C14: in `ProcessTransactionsWithSemaphore` (any batch, worker count and semaphore size),
in every reachable state the permits held are those of the workers between their acquire and
their release; a worker taking a transaction that fails validation goes straight to the send
of its error result, and neither that step nor the send changes the permits held; a worker
taking a valid transaction goes to the acquire, which adds exactly one permit and leads into
the scorer call, whose return leads to the release, which gives exactly one permit back;
the calling goroutine and the closer leave the permits alone; and once the call has
returned no permit is held. -/
theorem C14_permits_frame (txs : List Transaction) (numWorkers semaphoreSize : ℤ) (r : Rand) :
    ∀ s, (ProcessTransactionsWithSemaphore txs numWorkers semaphoreSize r).Reachable s →
      s.permitsHeld = (s.workers.map PoolWorker.permit).sum ∧
      (∀ i s', (ProcessTransactionsWithSemaphore txs numWorkers semaphoreSize r).step s
          (PoolAct.worker i) = some s' → s.WorkerPermitStep CalculateFraudScore s' i) ∧
      (∀ s', (ProcessTransactionsWithSemaphore txs numWorkers semaphoreSize r).step s
          PoolAct.main = some s' → s'.permitsHeld = s.permitsHeld) ∧
      (∀ s', (ProcessTransactionsWithSemaphore txs numWorkers semaphoreSize r).step s
          PoolAct.closer = some s' → s'.permitsHeld = s.permitsHeld) ∧
      (s.main = PoolMain.returned → s.permitsHeld = 0) := by
  intro s hs
  have hframe : ∀ a s', a = PoolAct.main ∨ a = PoolAct.closer →
      (ProcessTransactionsWithSemaphore txs numWorkers semaphoreSize r).step s a = some s' →
      s'.permitsHeld = s.permitsHeld := by
    intro a s' ha h
    have := poolStep_permits_frame CalculateFraudScore txs numWorkers s s' a ha h
    unfold PoolState.permitsHeld
    rw [this]
  by_cases hS : semaphoreSize < 0
  · have h0 := semaphore_reachable_of_neg CalculateFraudScore txs numWorkers semaphoreSize hS r s hs
    have hd : decide (semaphoreSize < 0) = true := by simpa using hS
    have hp : s.panicked = true := by
      rw [h0]
      simp [ProcessTransactionsWithSemaphoreWith, hd]
    refine ⟨?_, ?_, fun s' h => hframe _ s' (Or.inl rfl) h, fun s' h => hframe _ s' (Or.inr rfl) h, ?_⟩
    · rw [h0]
      simp [ProcessTransactionsWithSemaphoreWith, poolInit, PoolState.permitsHeld, Chan.make]
    · intro i s' h
      simp [ProcessTransactionsWithSemaphore, ProcessTransactionsWithSemaphoreWith, poolStep, hp] at h
    · intro hm
      rw [h0] at hm
      simp [ProcessTransactionsWithSemaphoreWith, poolInit] at hm
  · obtain ⟨hi, c, hc, -⟩ :=
      semaphore_reachable_inv CalculateFraudScore txs numWorkers semaphoreSize (by omega) r s hs
    have hsem := hi.semOK
    unfold PoolState.SemOK at hsem
    rw [hc] at hsem
    simp only at hsem
    have hheld : s.permitsHeld = (s.workers.map PoolWorker.permit).sum := by
      unfold PoolState.permitsHeld
      rw [hc]
      exact hsem.2.1
    refine ⟨hheld, ?_, fun s' h => hframe _ s' (Or.inl rfl) h,
      fun s' h => hframe _ s' (Or.inr rfl) h, ?_⟩
    · intro i s' h
      exact poolWorkerStep_permits CalculateFraudScore txs numWorkers s s' i hi c hc h
    · intro hm
      rw [hheld]
      obtain ⟨hph, hcl, -⟩ := hi.phased
      rw [hm] at hph
      rw [hph.2.2.1] at hcl
      have hact : (s.workers.map PoolWorker.active).sum = 0 := by
        rw [← hi.counted.1]
        exact hcl.1
      have hall := all_exited_of_active_zero _ hact
      have : ∀ (l : List PoolWorker), (∀ w ∈ l, w = PoolWorker.exited) →
          (l.map PoolWorker.permit).sum = 0 := by
        intro l
        induction l with
        | nil => intro _; simp
        | cons x xs ih =>
          intro h
          have hx := h x (List.mem_cons_self _ _)
          subst hx
          simp only [List.map_cons, List.sum_cons, PoolWorker.permit, zero_add]
          exact ih (fun w hw => h w (List.mem_cons_of_mem _ hw))
      exact this _ hall

/-- C14 witness: in the state of the sample run where worker 1 is inside the scorer one
permit is held, its next operation leads to the release with the permits unchanged, and
after the complete sample run no permit is held. -/
theorem C14_permits_frame_witness :
    (∃ s, (ProcessTransactionsWithSemaphore batch2 2 1 rand0).exec semScheduleScoring = some s ∧
      s.permitsHeld = 1 ∧
      ∀ s', (ProcessTransactionsWithSemaphore batch2 2 1 rand0).step s (PoolAct.worker 1) = some s' →
        s.WorkerPermitStep CalculateFraudScore s' 1) ∧
    (∃ s, (ProcessTransactionsWithSemaphore batch2 1 1 rand0).exec semSchedule2 = some s ∧
      s.main = PoolMain.returned ∧ s.permitsHeld = 0) :=
  ⟨⟨_, rfl, rfl,
      (C14_permits_frame batch2 2 1 rand0 _ ⟨semScheduleScoring, rfl⟩).2.1 1⟩,
    ⟨_, rfl, rfl, (C14_permits_frame batch2 1 1 rand0 _ ⟨semSchedule2, rfl⟩).2.2.2.2 rfl⟩⟩

/-! ### C15 -/

/-- C15 (as stated, refuted): with a worker count of 0 and a batch of one transaction,
`ProcessTransactionsWithSelect` returns `timedOut == false` with `success + errors == 0`,
which is not the length of the batch. -/
theorem C15_counterexample :
    ∃ s, (ProcessTransactionsWithSelect [txUSD100] 0 rand0).exec selScheduleNoWorkers = some s ∧
      s.main = SelMain.returned ∧ s.timedOut = false ∧ s.success + s.errors = 0 ∧
      ¬ (s.success + s.errors = [txUSD100].length) :=
  ⟨_, rfl, rfl, rfl, rfl, by decide⟩

/-- C15 (amended): for every transaction list of length `N`, every worker count and every
timeout (the timer may fire at any pass through the collector's `select`), whenever
`ProcessTransactionsWithSelect` has returned, `timedOut == false` comes with
`success + errors == N` provided the worker count is at least 1 or the batch is empty, and
in every case, in particular with `timedOut == true`, `success + errors <= N`. -/
theorem C15_select_counts (txs : List Transaction) (numWorkers : ℤ) (r : Rand) :
    ∀ s, (ProcessTransactionsWithSelect txs numWorkers r).Reachable s →
      s.main = SelMain.returned →
      (s.timedOut = false → 1 ≤ numWorkers ∨ txs = [] → s.success + s.errors = txs.length) ∧
      (s.timedOut = true → s.success + s.errors ≤ txs.length) ∧
      s.success + s.errors ≤ txs.length := by
  intro s hs hm
  have hi := sel_reachable_inv CalculateFraudScore txs numWorkers r s hs
  have hc := (sel_reachable CalculateFraudScore txs numWorkers r (fun _ _ => True)
    (fun _ _ _ => trivial) s hs).2
  have hsum := countsOK_sum _ _ _ hc
  have hle := hi.conserved.results_le
  refine ⟨?_, fun _ => by omega, by omega⟩
  intro ht hW
  rcases hW with hW | hW
  · have := hi.selReturned hW hm ht
    have hlen := length_eq_of_map_coe_eq _ _ _ this
    omega
  · subst hW
    simp only [List.length_nil] at hle ⊢
    omega

/-- C15 witness: the sample run that ends by the result channel being closed, and the one
in which the timer fires after the first result. -/
theorem C15_select_counts_witness :
    (∃ s, (ProcessTransactionsWithSelect batch2 1 rand0).exec selSchedule2 = some s ∧
      s.main = SelMain.returned ∧ s.timedOut = false ∧ s.success + s.errors = batch2.length) ∧
    (∃ s, (ProcessTransactionsWithSelect batch2 1 rand0).exec selScheduleTimeout = some s ∧
      s.main = SelMain.returned ∧ s.timedOut = true ∧ s.success + s.errors = 1 ∧
      s.success + s.errors ≤ batch2.length) :=
  ⟨⟨_, rfl, rfl, rfl,
      (C15_select_counts batch2 1 rand0 _ ⟨selSchedule2, rfl⟩ rfl).1 rfl (Or.inl (by decide))⟩,
    ⟨_, rfl, rfl, rfl, rfl,
      (C15_select_counts batch2 1 rand0 _ ⟨selScheduleTimeout, rfl⟩ rfl).2.1 rfl⟩⟩

/-! ### C16 -/

set_option maxRecDepth 100000 in
/-- C16 (the code blocks where its own comments promise a non-blocking progress update):
on a batch of 101 transactions with one worker, when the collector has not run since the
set-up, the worker is at `progress <- 1` with the 100 slots of the progress channel taken,
and neither the send nor the `done` case is available to it: it waits, and the update is
not dropped; if the timer then fires, the call returns `timedOut == true` and no goroutine
can move any more, so the worker waits at that send for ever. -/
theorem C16_progress_send_blocks :
    (∃ s, (ProcessTransactionsWithSelect batch101 1 rand0).exec selScheduleProgressFull = some s ∧
      s.workers = [SelWorker.progress] ∧ s.progress.buf.length = 100 ∧
      s.progress.cap = 100 ∧ s.panicked = false ∧
      (ProcessTransactionsWithSelect batch101 1 rand0).step s (SelAct.worker 0) = none ∧
      (ProcessTransactionsWithSelect batch101 1 rand0).step s (SelAct.workerDone 0) = none) ∧
    (∃ s, (ProcessTransactionsWithSelect batch101 1 rand0).exec
        (selScheduleProgressFull ++ [SelAct.timeout]) = some s ∧
      s.main = SelMain.returned ∧ s.timedOut = true ∧ s.panicked = false ∧
      s.workers = [SelWorker.progress] ∧ s.progress.buf.length = 100 ∧
      ∀ a, (ProcessTransactionsWithSelect batch101 1 rand0).step s a = none) :=
  ⟨⟨selStateProgressFull, rfl, rfl, rfl, rfl, rfl, rfl, rfl⟩,
    ⟨selStateProgressTimedOut, rfl, rfl, rfl, rfl, rfl, rfl,
      select_stuck batch101 1 rand0 selStateProgressTimedOut rfl rfl rfl (by decide) rfl rfl
        (Nat.le_of_eq rfl)⟩⟩

/-! ### C17 -/

/-- C17 (as stated, refuted): in the sample run in which the timer fires after the first
result, `ProcessTransactionsWithSelect` has returned `timedOut == true` while its worker is
still running (its next operation, the progress update, is available) and the closer is
still waiting for it. -/
theorem C17_counterexample :
    ∃ s, (ProcessTransactionsWithSelect batch2 1 rand0).exec selScheduleTimeout = some s ∧
      s.main = SelMain.returned ∧ s.timedOut = true ∧ s.workers = [SelWorker.progress] ∧
      s.closer = SelCloser.waiting ∧
      ((ProcessTransactionsWithSelect batch2 1 rand0).step s (SelAct.worker 0)).isSome = true ∧
      ¬ (∀ w ∈ s.workers, w = SelWorker.exited) :=
  ⟨_, rfl, rfl, rfl, rfl, rfl, rfl, by decide⟩

/-- C17 (amended): when `ProcessTransactionsWithSelect` has returned with
`timedOut == true` it has closed `done` and has not waited for the goroutines it started,
which may still be running; from then on every worker that is at its `select` can return
through the `done` case, and no goroutine is blocked on the job queue or on the result
queue: a worker in the scorer or at the send of a result can perform it, and so can the
feeder its send or its `close(jobs)`. -/
theorem C17_timeout_signals_stop (txs : List Transaction) (numWorkers : ℤ) (r : Rand) :
    ∀ s, (ProcessTransactionsWithSelect txs numWorkers r).Reachable s →
      s.main = SelMain.returned → s.timedOut = true →
      s.doneClosed = true ∧
      (∀ i, s.workers[i]? = some SelWorker.idle →
        ∃ s', (ProcessTransactionsWithSelect txs numWorkers r).step s (SelAct.workerDone i) = some s' ∧
          s'.workers[i]? = some SelWorker.exited ∧ s'.panicked = false) ∧
      (∀ i tx, s.workers[i]? = some (SelWorker.scoring tx) →
        ∃ s', (ProcessTransactionsWithSelect txs numWorkers r).step s (SelAct.worker i) = some s' ∧
          s'.panicked = false) ∧
      (∀ i x, s.workers[i]? = some (SelWorker.emit x) →
        ∃ s', (ProcessTransactionsWithSelect txs numWorkers r).step s (SelAct.worker i) = some s' ∧
          s'.workers[i]? = some SelWorker.progress ∧ s'.panicked = false) ∧
      (∀ i, s.feeder = Feeder.feed i →
        ∃ s', (ProcessTransactionsWithSelect txs numWorkers r).step s SelAct.feeder = some s' ∧
          s'.panicked = false) := by
  intro s hs hm ht
  have hi := sel_reachable_inv CalculateFraudScore txs numWorkers r s hs
  have hp := hi.noPanic
  obtain ⟨h1, h2, h3, h4⟩ := hi.phased
  rw [hm] at h1
  have hd : s.doneClosed = true := by rw [h1.2.2.2.1]; exact ht
  have hstep : ∀ a, (ProcessTransactionsWithSelect txs numWorkers r).step s a =
      selStep CalculateFraudScore txs numWorkers s a := fun _ => rfl
  refine ⟨hd, ?_, ?_, ?_, ?_⟩
  · intro i hw
    have hwg := hi.counted.wg_pos hw (by simp)
    refine ⟨{ s with wg := s.wg - 1, workers := s.workers.set i SelWorker.exited }, ?_,
      getElem?_set_self_of_getElem? hw, hp⟩
    rw [hstep]
    simp [selStep, hp, hw, selWorkerDoneStep, hd, wgDone, hwg]
  · intro i tx hw
    refine ⟨{ s with rand := (CalculateFraudScore tx s.rand).rand,
                     workers := s.workers.set i
                       (SelWorker.emit (okResult tx (CalculateFraudScore tx s.rand).score)) }, ?_, hp⟩
    rw [hstep]
    simp [selStep, hp, hw, selWorkerStep]
  · intro i x hw
    obtain ⟨hopen, hroom⟩ := hi.sel_room_res hw
    refine ⟨{ s with res := { s.res with buf := s.res.buf ++ [x] },
                     workers := s.workers.set i SelWorker.progress }, ?_,
      getElem?_set_self_of_getElem? hw, hp⟩
    rw [hstep]
    simp [selStep, hp, hw, selWorkerStep, Chan.send, hopen, hroom]
  · intro i hf
    rw [hf] at h2
    cases htx : txs[i]? with
    | some tx =>
      have hroom := hi.sel_room_jobs hf htx
      refine ⟨{ s with jobs := { s.jobs with buf := s.jobs.buf ++ [tx] },
                       feeder := Feeder.feed (i + 1) }, ?_, hp⟩
      rw [hstep]
      simp [selStep, hp, selFeederStep, hf, htx, Chan.send, h2, hroom]
    | none =>
      refine ⟨{ s with jobs := { s.jobs with closed := true }, feeder := Feeder.done }, ?_, hp⟩
      rw [hstep]
      simp [selStep, hp, selFeederStep, hf, htx, Chan.close, h2]

/-- C17 witness: the sample run in which the timer fires after the first result, and the
same run continued until the worker is back at its `select`, where it can return through
the `done` case. -/
theorem C17_timeout_signals_stop_witness :
    (∃ s, (ProcessTransactionsWithSelect batch2 1 rand0).exec selScheduleTimeout = some s ∧
      s.main = SelMain.returned ∧ s.timedOut = true ∧ s.doneClosed = true) ∧
    (∃ s, (ProcessTransactionsWithSelect batch2 1 rand0).exec
        (selScheduleTimeout ++ [SelAct.worker 0]) = some s ∧
      s.workers[0]? = some SelWorker.idle ∧
      ∃ s', (ProcessTransactionsWithSelect batch2 1 rand0).step s (SelAct.workerDone 0) = some s' ∧
        s'.workers[0]? = some SelWorker.exited ∧ s'.panicked = false) :=
  ⟨⟨_, rfl, rfl, rfl,
      (C17_timeout_signals_stop batch2 1 rand0 _ ⟨selScheduleTimeout, rfl⟩ rfl rfl).1⟩,
    ⟨_, rfl, rfl,
      (C17_timeout_signals_stop batch2 1 rand0 _ ⟨selScheduleTimeout ++ [SelAct.worker 0], rfl⟩
        rfl rfl).2.1 0 rfl⟩⟩

/-! ### C18 -/

/-- C18 (as stated, refuted): in the sample run with one worker whose context is done from
the start, `ProcessTransactionsWithContext` has returned `cancelled == true` while the
feeder goroutine it started has not finished: it is still at its first send, which is
available, so a task remains running after the call returns.  The same holds for the run
with no worker and a context that is never cancelled, which returns
`cancelled == false`. -/
theorem C18_counterexample :
    (∃ s, (ProcessTransactionsWithContext ctxAlreadyDone batch2 1 rand0).exec ctxScheduleDone = some s ∧
      s.main = CtxMain.returned ∧ s.cancelled = true ∧ s.feeder = Feeder.feed 0 ∧
      ((ProcessTransactionsWithContext ctxAlreadyDone batch2 1 rand0).step s CtxAct.feeder).isSome = true ∧
      ¬ ((∀ w ∈ s.workers, w = CtxWorker.exited) ∧ s.feeder = Feeder.done ∧
          s.closer = Closer.done)) ∧
    (∃ s, (ProcessTransactionsWithContext ctxBackground [txUSD100] 0 rand0).exec
        ctxScheduleNoWorkers = some s ∧
      s.main = CtxMain.returned ∧ s.cancelled = false ∧ s.feeder = Feeder.feed 0 ∧
      ((ProcessTransactionsWithContext ctxBackground [txUSD100] 0 rand0).step s CtxAct.feeder).isSome = true ∧
      ¬ ((∀ w ∈ s.workers, w = CtxWorker.exited) ∧ s.feeder = Feeder.done ∧
          s.closer = Closer.done)) :=
  ⟨⟨_, rfl, rfl, rfl, rfl, rfl, by decide⟩, ⟨_, rfl, rfl, rfl, rfl, rfl, by decide⟩⟩

/-- C18 (amended): whenever `ProcessTransactionsWithContext` has returned, with `cancelled`
true or false, every worker it started has finished (so none is blocked on the job or
result queue), the WaitGroup counter is zero, the closer has finished, no result is left in
the result channel and nothing has panicked.  The feeder, which the function does not wait
for, has been started and may still be running: it has finished when `cancelled == false`
and there is at least one worker, and otherwise it is never blocked, its next operation (a
send to the job queue or `close(jobs)`) is available, and its remaining `N - i + 1`
operations all go through and leave it finished, with the workers, the closer and the
returned results untouched, after which no task is running. -/
theorem C18_context_workers_done (ctx : Context) (txs : List Transaction) (numWorkers : ℤ)
    (r : Rand) :
    ∀ s, (ProcessTransactionsWithContext ctx txs numWorkers r).Reachable s →
      s.main = CtxMain.returned →
      (∀ w ∈ s.workers, w = CtxWorker.exited) ∧ s.workers.length = numWorkers.toNat ∧
      s.wg = 0 ∧ s.closer = Closer.done ∧ s.res.buf = [] ∧ s.panicked = false ∧
      (s.cancelled = false → 1 ≤ numWorkers → s.feeder = Feeder.done) ∧
      (∀ i, s.feeder = Feeder.feed i →
        ((ProcessTransactionsWithContext ctx txs numWorkers r).step s CtxAct.feeder).isSome = true) ∧
      s.feeder ≠ Feeder.notStarted ∧
      (∀ i, s.feeder = Feeder.feed i →
        ∃ s', (ProcessTransactionsWithContext ctx txs numWorkers r).run s
            (List.replicate (txs.length - i + 1) CtxAct.feeder) = some s' ∧
          s'.feeder = Feeder.done ∧ s'.main = CtxMain.returned ∧
          (∀ w ∈ s'.workers, w = CtxWorker.exited) ∧ s'.closer = Closer.done ∧
          s'.results = s.results ∧ s'.success = s.success ∧ s'.errors = s.errors ∧
          s'.cancelled = s.cancelled ∧ s'.panicked = false) := by
  intro s hs hm
  have hi := ctx_reachable_inv CalculateFraudScore ctx txs numWorkers r s hs
  obtain ⟨h1, h2, h3, h4⟩ := hi.phased
  rw [hm] at h1
  obtain ⟨hlen, hns, hcd, hrb⟩ := h1
  have hall := CtxState.all_exited_of_closer_done hi.counted hi.phased hcd
  rw [hcd] at h3
  refine ⟨hall, hlen, h3.1, hcd, hrb, hi.noPanic, fun hc hW => (hi.returned hm hc).1 hW,
    fun i hf => hi.feeder_canStep CalculateFraudScore ctx hf, hns, ?_⟩
  intro i hf
  obtain ⟨s', hrun, hfd, e1, e2, e3, -, -, e4, e5, e6, e7, hp⟩ :=
    ctx_feeder_finishes ctx txs numWorkers r (txs.length - i) i s hs hf rfl
  exact ⟨s', hrun, hfd, e1.trans hm, by rw [e2]; exact hall, e3.trans hcd, e4, e5, e6, e7, hp⟩

/-- C18 witness: the sample run that is never cancelled, the one cancelled after the first
result, and the one whose context is done from the start, in which the feeder has not run
when the call returns and finishes with its three remaining operations. -/
theorem C18_context_workers_done_witness :
    (∃ s, (ProcessTransactionsWithContext ctxBackground batch2 1 rand0).exec ctxSchedule2 = some s ∧
      s.main = CtxMain.returned ∧ s.cancelled = false ∧ s.workers = [CtxWorker.exited] ∧
      ∀ w ∈ s.workers, w = CtxWorker.exited) ∧
    (∃ s, (ProcessTransactionsWithContext ⟨false, true⟩ batch2 1 rand0).exec ctxScheduleCancel = some s ∧
      s.main = CtxMain.returned ∧ s.cancelled = true ∧ s.workers = [CtxWorker.exited] ∧
      ∀ w ∈ s.workers, w = CtxWorker.exited) ∧
    (∃ s, (ProcessTransactionsWithContext ctxAlreadyDone batch2 1 rand0).exec ctxScheduleDone = some s ∧
      s.main = CtxMain.returned ∧ s.cancelled = true ∧ s.feeder = Feeder.feed 0 ∧
      (∀ w ∈ s.workers, w = CtxWorker.exited) ∧
      ((ProcessTransactionsWithContext ctxAlreadyDone batch2 1 rand0).step s CtxAct.feeder).isSome = true ∧
      ∃ s', (ProcessTransactionsWithContext ctxAlreadyDone batch2 1 rand0).run s
          (List.replicate 3 CtxAct.feeder) = some s' ∧
        s'.feeder = Feeder.done ∧ s'.main = CtxMain.returned ∧
        (∀ w ∈ s'.workers, w = CtxWorker.exited) ∧ s'.closer = Closer.done ∧
        s'.results = s.results ∧ s'.success = s.success ∧ s'.errors = s.errors ∧
        s'.cancelled = s.cancelled ∧ s'.panicked = false) :=
  ⟨⟨_, rfl, rfl, rfl, rfl,
      (C18_context_workers_done ctxBackground batch2 1 rand0 _ ⟨ctxSchedule2, rfl⟩ rfl).1⟩,
    ⟨_, rfl, rfl, rfl, rfl,
      (C18_context_workers_done ⟨false, true⟩ batch2 1 rand0 _ ⟨ctxScheduleCancel, rfl⟩ rfl).1⟩,
    ⟨_, rfl, rfl, rfl, rfl,
      (C18_context_workers_done ctxAlreadyDone batch2 1 rand0 _ ⟨ctxScheduleDone, rfl⟩ rfl).1,
      (C18_context_workers_done ctxAlreadyDone batch2 1 rand0 _ ⟨ctxScheduleDone, rfl⟩ rfl).2.2.2.2.2.2.2.1
        0 rfl,
      (C18_context_workers_done ctxAlreadyDone batch2 1 rand0 _ ⟨ctxScheduleDone, rfl⟩ rfl).2.2.2.2.2.2.2.2.2
        0 rfl⟩⟩

/-! ### C19 -/

/-- With a context that is done from the start the context stays done, and a return
reports `cancelled == true`. -/
theorem CtxStep.ctxDoneKept {sc : Scorer} {ctx : Context} {txs : List Transaction}
    {numWorkers : ℤ} {s s' : CtxState} (h : CtxStep sc ctx txs numWorkers s s')
    (hd : s.ctxDone = true ∧ (s.main = CtxMain.returned → s.cancelled = true)) :
    s'.ctxDone = true ∧ (s'.main = CtxMain.returned → s'.cancelled = true) := by
  obtain ⟨h1, h2⟩ := hd
  cases h
  case cancel hp hmay hnd => exact ⟨rfl, h2⟩
  case ret hp hm hbuf hclosed => exact ⟨h1, fun _ => h1⟩
  case drainRet hp hm hbuf hclosed => exact ⟨h1, fun _ => rfl⟩
  case spawn w hp hm hw => exact ⟨h1, fun h => by cases h⟩
  case spawnEnd w hp hm hw => exact ⟨h1, fun h => by cases h⟩
  case goFeeder hp hm => exact ⟨h1, fun h => by cases h⟩
  case goCloser hp hm => exact ⟨h1, fun h => by cases h⟩
  case mainCancel hp hm hd => exact ⟨h1, fun h => by cases h⟩
  all_goals exact ⟨h1, h2⟩

/-- C19: if the context is already done when `ProcessTransactionsWithContext` is called,
then for every transaction list of length `N`, every worker count and every state of the
random source the call returns (no reachable state short of the return is stuck, no
schedule is longer than `2 * numWorkers + 7 * N + 11` steps, the return is reached), and
every return has `cancelled == true` and `success + errors <= N`. -/
theorem C19_done_context_returns_cancelled (ctx : Context) (txs : List Transaction)
    (numWorkers : ℤ) (r : Rand) (hd : ctx.done = true) :
    (ProcessTransactionsWithContext ctx txs numWorkers r).RunsToCompletion
      (fun s => s.main = CtxMain.returned) (2 * numWorkers.toNat + 7 * txs.length + 11)
      (fun s => s.cancelled = true ∧ s.success + s.errors ≤ txs.length) := by
  have hμ : (ctxInit ctx txs r).measure txs numWorkers =
      2 * numWorkers.toNat + 7 * txs.length + 11 := by
    simp [ctxInit, CtxState.measure, CtxMain.weight, Feeder.weight, Closer.weight, Chan.make, hd]
    omega
  have h := Machine.runsToCompletion_of (ProcessTransactionsWithContext ctx txs numWorkers r)
    (fun s => s.main = CtxMain.returned)
    (fun s : CtxState => s.Inv txs numWorkers ∧ countsOK s.success s.errors s.results ∧
      (s.ctxDone = true ∧ (s.main = CtxMain.returned → s.cancelled = true)))
    (fun s : CtxState => s.measure txs numWorkers)
    (fun s => s.cancelled = true ∧ s.success + s.errors ≤ txs.length)
    ⟨ctxInit_inv ctx txs numWorkers r, countsOK_nil, hd, fun h => by cases h⟩
    (fun s a s' hI hst =>
      ⟨(ctxStep_sound _ ctx txs numWorkers s s' a hst).ctxInv hI.1, ctxStep_counts hst hI.2.1,
        (ctxStep_sound _ ctx txs numWorkers s s' a hst).ctxDoneKept hI.2.2⟩)
    (fun s hI hf => by
      obtain ⟨a, ha⟩ := hI.1.ctxProgress CalculateFraudScore ctx hf
      exact canStep_of_isSome _ s a ha)
    (fun s a s' _ hst => (ctxStep_sound _ ctx txs numWorkers s s' a hst).ctxMeasure_lt)
    (fun s hI hf => by
      refine ⟨hI.2.2.2 hf, ?_⟩
      have hsum := countsOK_sum _ _ _ hI.2.1
      have hcard := hI.1.conserved.ctx_card
      omega)
  have hμ' : (ProcessTransactionsWithContext ctx txs numWorkers r).init.measure txs numWorkers =
      2 * numWorkers.toNat + 7 * txs.length + 11 := hμ
  simp only [hμ'] at h
  exact h

/-- C19 witness: the sample batch with one worker and a context that is done from the
start. -/
theorem C19_done_context_returns_cancelled_witness :
    ctxAlreadyDone.done = true ∧
      (ProcessTransactionsWithContext ctxAlreadyDone batch2 1 rand0).RunsToCompletion
        (fun s => s.main = CtxMain.returned) (2 * (1 : ℤ).toNat + 7 * batch2.length + 11)
        (fun s => s.cancelled = true ∧ s.success + s.errors ≤ batch2.length) ∧
      ∃ s, (ProcessTransactionsWithContext ctxAlreadyDone batch2 1 rand0).exec ctxScheduleDone = some s ∧
        s.main = CtxMain.returned ∧ s.cancelled = true ∧ s.success + s.errors = 0 :=
  ⟨rfl, C19_done_context_returns_cancelled ctxAlreadyDone batch2 1 rand0 rfl, _, rfl, rfl, rfl, rfl⟩

/-! ### C20 -/

/-- C20 (as stated, refuted): with a worker count of 0, a batch of one transaction and a
context that is never cancelled, `ProcessTransactionsWithContext` returns
`cancelled == false` with `success + errors == 0`, which is not the length of the batch. -/
theorem C20_counterexample :
    ∃ s, (ProcessTransactionsWithContext ctxBackground [txUSD100] 0 rand0).exec
        ctxScheduleNoWorkers = some s ∧
      s.main = CtxMain.returned ∧ s.cancelled = false ∧ s.success + s.errors = 0 ∧
      ¬ (s.success + s.errors = [txUSD100].length) :=
  ⟨_, rfl, rfl, rfl, rfl, by decide⟩

/-- C20 (amended): for every transaction list of length `N`, every worker count and every
context (done from the start, cancelled at any moment, or never), whenever
`ProcessTransactionsWithContext` has returned, `cancelled == false` comes with
`success + errors == N` provided the worker count is at least 1 or the batch is empty, and
in every case, in particular with `cancelled == true`, `success + errors <= N`. -/
theorem C20_context_counts (ctx : Context) (txs : List Transaction) (numWorkers : ℤ) (r : Rand) :
    ∀ s, (ProcessTransactionsWithContext ctx txs numWorkers r).Reachable s →
      s.main = CtxMain.returned →
      (s.cancelled = false → 1 ≤ numWorkers ∨ txs = [] → s.success + s.errors = txs.length) ∧
      (s.cancelled = true → s.success + s.errors ≤ txs.length) ∧
      s.success + s.errors ≤ txs.length := by
  intro s hs hm
  have hi := ctx_reachable_inv CalculateFraudScore ctx txs numWorkers r s hs
  have hc := (ctx_reachable CalculateFraudScore ctx txs numWorkers r (fun _ _ => True)
    (fun _ _ _ => trivial) s hs).2
  have hsum := countsOK_sum _ _ _ hc
  have hle := hi.conserved.ctx_card
  refine ⟨?_, fun _ => by omega, by omega⟩
  intro hcf hW
  have := (hi.returned hm hcf).2 hW
  have hlen := length_eq_of_map_coe_eq _ _ _ this
  omega

/-- C20 witness: the sample run that is never cancelled and the one cancelled after the
first result. -/
theorem C20_context_counts_witness :
    (∃ s, (ProcessTransactionsWithContext ctxBackground batch2 1 rand0).exec ctxSchedule2 = some s ∧
      s.main = CtxMain.returned ∧ s.cancelled = false ∧ s.success + s.errors = batch2.length) ∧
    (∃ s, (ProcessTransactionsWithContext ⟨false, true⟩ batch2 1 rand0).exec ctxScheduleCancel = some s ∧
      s.main = CtxMain.returned ∧ s.cancelled = true ∧ s.success + s.errors = 1 ∧
      s.success + s.errors ≤ batch2.length) :=
  ⟨⟨_, rfl, rfl, rfl,
      (C20_context_counts ctxBackground batch2 1 rand0 _ ⟨ctxSchedule2, rfl⟩ rfl).1 rfl
        (Or.inl (by decide))⟩,
    ⟨_, rfl, rfl, rfl, rfl,
      (C20_context_counts ⟨false, true⟩ batch2 1 rand0 _ ⟨ctxScheduleCancel, rfl⟩ rfl).2.1 rfl⟩⟩

/-! ### C11 -/

/-- C11: for every transaction list of length `N` and every `numWorkers = W >= 1`, with
receivers that take what is sent to them, `FanOut` runs to completion (no deadlock, no
panic, at most `N + W + 4` steps) and ends with exactly `W` queues, all closed, queue `j`
having received exactly the transactions at input indices `j, j + W, j + 2W, ...` in input
order, the queues together having received every transaction exactly once; the call
returns exactly `W` queues; a queue is closed only once every transaction has been
delivered; queue `j` receives `N / W + 1 = ceil(N / W)` transactions if `j < N mod W` and
`N / W` otherwise, its `m`-th one being the transaction at index `j + m * W`; and the
transaction at index `i` is the one at position `i / W` of queue `i mod W`. -/
theorem C11_fanOut_round_robin (txs : List Transaction) (numWorkers : ℤ) (hW : 1 ≤ numWorkers) :
    (FanOut txs numWorkers).RunsToCompletion (fun s => s.dist = Distributor.done)
      (txs.length + numWorkers.toNat + 4) (FanOutState.Complete txs numWorkers.toNat) ∧
    (∀ s, (FanOut txs numWorkers).Reachable s → s.returned = true →
      s.queues.length = numWorkers.toNat) ∧
    (∀ s, (FanOut txs numWorkers).Reachable s → ∀ q ∈ s.queues, q.closed = true →
      Distributor.sent txs.length s.dist = txs.length ∧
        ∀ (j : ℕ) (x : OutQueue), s.queues[j]? = some x →
          x.delivered = roundRobinShare txs numWorkers.toNat j txs.length) ∧
    (∀ j, j < numWorkers.toNat →
      (roundRobinShare txs numWorkers.toNat j txs.length).length =
        shareCount numWorkers.toNat j txs.length ∧
      (∀ m, m < shareCount numWorkers.toNat j txs.length →
        (roundRobinShare txs numWorkers.toNat j txs.length)[m]? = txs[j + m * numWorkers.toNat]? ∧
          j + m * numWorkers.toNat < txs.length) ∧
      (j < txs.length % numWorkers.toNat →
        shareCount numWorkers.toNat j txs.length =
          (txs.length + numWorkers.toNat - 1) / numWorkers.toNat ∧
        shareCount numWorkers.toNat j txs.length = txs.length / numWorkers.toNat + 1) ∧
      (txs.length % numWorkers.toNat ≤ j →
        shareCount numWorkers.toNat j txs.length = txs.length / numWorkers.toNat)) ∧
    (∀ i, i < txs.length →
      (roundRobinShare txs numWorkers.toNat (i % numWorkers.toNat) txs.length)[i / numWorkers.toNat]? =
        txs[i]?) := by
  have hWpos : 0 < numWorkers.toNat := by omega
  refine ⟨?_, ?_, ?_, ?_, ?_⟩
  · have h := Machine.runsToCompletion_of (FanOut txs numWorkers)
      (fun s => s.dist = Distributor.done)
      (fun s : FanOutState => s.Inv txs numWorkers)
      (fun s : FanOutState => Distributor.fanOutWeight txs.length numWorkers.toNat s.dist +
        (if s.panicked then 0 else 1))
      (FanOutState.Complete txs numWorkers.toNat)
      (fanOut_init_inv txs numWorkers)
      (fun s a s' hI hst => fanOutMachineStep_inv txs numWorkers hW s s' a hI hst)
      (fun s hI hf => by
        obtain ⟨a, ha⟩ := fanOutMachineStep_progress txs numWorkers hW s hI hf
        exact canStep_of_isSome _ s a ha)
      (fun s a s' hI hst => fanOutMachineStep_measure txs numWorkers s s' a hI hst)
      (fun s hI hf => by
        obtain ⟨hp, hd, hc⟩ := hI
        have hf' : s.dist = Distributor.done := hf
        rw [hf'] at hd hc
        obtain ⟨hret, hlen, hq⟩ := hd
        refine ⟨hret, hlen, ?_, ?_⟩
        · intro j hj
          have hlt : j < s.queues.length := by omega
          rw [List.getElem?_eq_getElem hlt]
          rw [hq j _ (List.getElem?_eq_getElem hlt)]
        · simpa [Distributor.sent] using hc)
    have hμ : Distributor.fanOutWeight txs.length numWorkers.toNat (FanOut txs numWorkers).init.dist +
        (if (FanOut txs numWorkers).init.panicked then 0 else 1) =
        txs.length + numWorkers.toNat + 4 := by
      simp [FanOut, Distributor.fanOutWeight]
    simp only [hμ] at h
    exact h
  · intro s hs hret
    obtain ⟨-, hd, -⟩ := fanOut_reachable_inv txs numWorkers hW s hs
    cases hds : s.dist <;> rw [hds] at hd
    · rw [hd.1] at hret
      cases hret
    · exact hd.2.2.1
    · exact hd.2.1
    · exact hd.2.1
  · intro s hs q hq hcl
    obtain ⟨-, hd, -⟩ := fanOut_reachable_inv txs numWorkers hW s hs
    obtain ⟨j, hj⟩ := List.getElem?_of_mem hq
    cases hds : s.dist <;> rw [hds] at hd
    · rw [hd.2] at hq
      simp at hq
    · have := hd.2.2.2 j q hj
      rw [this] at hcl
      simp at hcl
    · exact ⟨rfl, fun k x hk => by rw [hd.2.2 k x hk]⟩
    · exact ⟨rfl, fun k x hk => by rw [hd.2.2 k x hk]⟩
  · intro j hj
    obtain ⟨h1, h2⟩ := roundRobinShare_getElem? txs numWorkers.toNat j hj
    obtain ⟨h3, h4⟩ := shareCount_ceil_floor numWorkers.toNat j txs.length hWpos
    refine ⟨h1, h2, fun h => ⟨h3 h, ?_⟩, h4⟩
    simp [shareCount, h]
  · intro i hi
    exact roundRobinShare_of_index txs numWorkers.toNat i hWpos hi

/-- C11 witness: five transactions over two queues; queue 0 receives indices 0, 2, 4 and
queue 1 receives indices 1, 3. -/
theorem C11_fanOut_round_robin_witness :
    (1 : ℤ) ≤ 2 ∧
    (FanOut batch5 2).RunsToCompletion (fun s => s.dist = Distributor.done)
      (batch5.length + (2 : ℤ).toNat + 4) (FanOutState.Complete batch5 (2 : ℤ).toNat) ∧
    (∃ s, (FanOut batch5 2).exec fanOutSchedule5 = some s ∧ s.dist = Distributor.done ∧
      s.queues = [{ delivered := [txUSD100, txNeg, txUSD100], closed := true },
                  { delivered := [txNaN, txXYZ], closed := true }]) ∧
    roundRobinShare batch5 2 0 5 = [txUSD100, txNeg, txUSD100] ∧
    roundRobinShare batch5 2 1 5 = [txNaN, txXYZ] :=
  ⟨by decide, (C11_fanOut_round_robin batch5 2 (by decide)).1, ⟨_, rfl, rfl, rfl⟩, rfl, rfl⟩

/-! ### C12 -/

/-- C12: for every finite family of sources, each delivering its items in order and then
closed by its owner, and a receiver that takes what is sent on the merged queue, `FanIn`
runs to completion (no deadlock, no panic, a bounded number of steps) and ends with the
merged queue closed, its receiver having got exactly the multiset union of the items of all
sources and, from each source, exactly that source's items in that source's order, every
source closed and fully forwarded; at every moment of every run what has been delivered is
a sub-multiset of the union and what has come from source `j` is a prefix of the items of
source `j`; the merged queue is closed only when every source has been fully forwarded; and
with zero sources nothing is ever delivered. -/
theorem C12_fanIn_merges (sources : List (List ProcessingResult)) :
    (FanIn sources).RunsToCompletion (fun s => s.closer = Closer.done)
      (3 * sources.length + 3 * (sources.map List.length).sum + 7)
      (FanInState.Complete sources) ∧
    (∀ s, (FanIn sources).Reachable s →
      s.panicked = false ∧
      ((s.delivered.map Prod.snd : List ProcessingResult) : Multiset ProcessingResult) ≤
        itemsOf sources ∧
      (∀ (j : ℕ) (items : List ProcessingResult), sources[j]? = some items →
        ∃ rest, items = deliveredFrom s.delivered j ++ rest) ∧
      (s.outClosed = true → s.Complete sources)) ∧
    (sources = [] → ∀ s, (FanIn sources).Reachable s → s.delivered = [] ∧ s.lanes = []) := by
  have hle : ∀ s, (FanIn sources).Reachable s →
      ((s.delivered.map Prod.snd : List ProcessingResult) : Multiset ProcessingResult) ≤
        itemsOf sources := by
    intro s hs
    have hc := (fanIn_reachable_inv sources s hs).conserved
    rw [← hc]
    exact Multiset.le_add_right _ _
  refine ⟨fanIn_runsToCompletion sources, ?_, ?_⟩
  · intro s hs
    have hi := fanIn_reachable_inv sources s hs
    refine ⟨hi.noPanic, hle s hs, ?_, ?_⟩
    · intro j items hj
      have hjl : j < s.lanes.length := by
        rw [hi.length]
        exact lt_length_of_getElem? hj
      have h1 := (hi.lanes j _ (List.getElem?_eq_getElem hjl)).1
      rw [hj] at h1
      simp only [Option.some.injEq] at h1
      exact ⟨_, by rw [h1, List.append_assoc]⟩
    · intro ho
      exact hi.fanInComplete (hi.wg_of_outClosed ho).1
  · intro he s hs
    have hi := fanIn_reachable_inv sources s hs
    have h := hle s hs
    subst he
    have h0 : ((s.delivered.map Prod.snd : List ProcessingResult) : Multiset ProcessingResult) = 0 :=
      le_antisymm h (Multiset.zero_le _)
    have h1 : s.delivered.map Prod.snd = [] := by simpa using h0
    have h2 : s.lanes.length = 0 := hi.length
    exact ⟨by simpa using h1, List.length_eq_zero.mp h2⟩

/-- C12 witness: two sources with two items and one item, merged in an interleaved order;
and the case of zero sources. -/
theorem C12_fanIn_merges_witness :
    (∃ s, (FanIn sources3).exec fanInSchedule3 = some s ∧ s.closer = Closer.done ∧
      s.outClosed = true ∧
      s.delivered = [(0, resErrNeg), (1, resErrXYZ), (0, resOk100)] ∧
      s.Complete sources3) ∧
    (∃ s, (FanIn []).exec [FanInAct.main, FanInAct.main, FanInAct.closer, FanInAct.closer] =
      some s ∧ s.outClosed = true ∧ s.delivered = [] ∧ s.lanes = []) :=
  ⟨⟨_, rfl, rfl, rfl, rfl,
      ((C12_fanIn_merges sources3).2.1 _ ⟨fanInSchedule3, rfl⟩).2.2.2 rfl⟩,
    ⟨_, rfl, rfl,
      ((C12_fanIn_merges []).2.2 rfl _
        ⟨[FanInAct.main, FanInAct.main, FanInAct.closer, FanInAct.closer], rfl⟩).1,
      ((C12_fanIn_merges []).2.2 rfl _
        ⟨[FanInAct.main, FanInAct.main, FanInAct.closer, FanInAct.closer], rfl⟩).2⟩⟩

/-! ### C22 -/

/-- C22: whenever `ValidateTransaction` fails, the error names the offending field: it is
the "invalid amount" error carrying the amount when `Amount < 0` (whatever the currency, so a
transaction that breaks both rules yields the single amount error), and the "invalid
currency" error carrying the currency when `Amount >= 0` and the currency is outside the
allow-list; and every error it returns is one of these two, the amount error only for
`Amount < 0` and the currency error only for a currency outside the allow-list. -/
theorem C22_error_names_field (tx : Transaction) :
    (F64.lt tx.Amount (F64.fin 0) = true →
      ValidateTransaction tx = some (ValidationError.invalidAmount tx.Amount)) ∧
    (F64.ge tx.Amount (F64.fin 0) = true → tx.Currency ∉ validCurrencies →
      ValidateTransaction tx = some (ValidationError.invalidCurrency tx.Currency)) ∧
    (∀ err, ValidateTransaction tx = some err →
      (err = ValidationError.invalidAmount tx.Amount ∧ F64.lt tx.Amount (F64.fin 0) = true) ∨
      (err = ValidationError.invalidCurrency tx.Currency ∧ F64.lt tx.Amount (F64.fin 0) = false ∧
        tx.Currency ∉ validCurrencies)) := by
  refine ⟨?_, ?_, ?_⟩
  · intro h
    simp [ValidateTransaction, h]
  · intro h hc
    have hlt : F64.lt tx.Amount (F64.fin 0) = false :=
      (F64.not_lt_zero_iff tx.Amount).mpr (Or.inl h)
    simp [ValidateTransaction, hlt, hc]
  · intro err herr
    unfold ValidateTransaction at herr
    by_cases h1 : F64.lt tx.Amount (F64.fin 0) = true
    · left
      rw [if_pos h1] at herr
      exact ⟨(Option.some.inj herr).symm, h1⟩
    · right
      rw [if_neg h1] at herr
      by_cases h2 : tx.Currency ∈ validCurrencies
      · simp [h2] at herr
      · have h3 : (!(validCurrencies.contains tx.Currency)) = true := by simpa using h2
        rw [if_pos h3] at herr
        exact ⟨(Option.some.inj herr).symm, by simpa using h1, h2⟩

/-- C22 witness: amount -1 with currency "XYZ" (both rules broken) yields the amount
error; amount 100 with currency "XYZ" yields the currency error. -/
theorem C22_error_names_field_witness :
    (F64.lt (F64.fin (-1)) (F64.fin 0) = true ∧
      ValidateTransaction { txNeg with Currency := "XYZ" } =
        some (ValidationError.invalidAmount (F64.fin (-1)))) ∧
    (F64.ge txXYZ.Amount (F64.fin 0) = true ∧ txXYZ.Currency ∉ validCurrencies ∧
      ValidateTransaction txXYZ = some (ValidationError.invalidCurrency "XYZ")) :=
  ⟨⟨by decide, (C22_error_names_field { txNeg with Currency := "XYZ" }).1 (by decide)⟩,
    ⟨by decide, by decide, (C22_error_names_field txXYZ).2.1 (by decide) (by decide)⟩⟩

/-! ### C26 -/

/-- C26: `ValidateMerchant m` returns no error if and only if `ID`, `Name`, `Category`,
`Country` and `Status` are all non-empty and `Status` is "active" or "inactive"; otherwise
it returns the message of the first failing check, in the order "id is required", "name is
required", "category is required", "country is required", "status is required", "status
must be 'active' or 'inactive'". -/
theorem C26_validate_merchant (m : Merchant) :
    (ValidateMerchant m = none ↔
      (m.ID ≠ "" ∧ m.Name ≠ "" ∧ m.Category ≠ "" ∧ m.Country ≠ "" ∧ m.Status ≠ "" ∧
        (m.Status = "active" ∨ m.Status = "inactive"))) ∧
    (m.ID = "" → ValidateMerchant m = some "id is required") ∧
    (m.ID ≠ "" → m.Name = "" → ValidateMerchant m = some "name is required") ∧
    (m.ID ≠ "" → m.Name ≠ "" → m.Category = "" →
      ValidateMerchant m = some "category is required") ∧
    (m.ID ≠ "" → m.Name ≠ "" → m.Category ≠ "" → m.Country = "" →
      ValidateMerchant m = some "country is required") ∧
    (m.ID ≠ "" → m.Name ≠ "" → m.Category ≠ "" → m.Country ≠ "" → m.Status = "" →
      ValidateMerchant m = some "status is required") ∧
    (m.ID ≠ "" → m.Name ≠ "" → m.Category ≠ "" → m.Country ≠ "" → m.Status ≠ "" →
      m.Status ≠ "active" → m.Status ≠ "inactive" →
      ValidateMerchant m = some "status must be 'active' or 'inactive'") := by
  unfold ValidateMerchant
  refine ⟨?_, ?_, ?_, ?_, ?_, ?_, ?_⟩
  · by_cases h1 : m.ID = ""
    · simp [h1]
    by_cases h2 : m.Name = ""
    · simp [h1, h2]
    by_cases h3 : m.Category = ""
    · simp [h1, h2, h3]
    by_cases h4 : m.Country = ""
    · simp [h1, h2, h3, h4]
    by_cases h5 : m.Status = ""
    · simp [h1, h2, h3, h4, h5]
    by_cases h6 : m.Status = "active"
    · simp [h1, h2, h3, h4, h5, h6]
    by_cases h7 : m.Status = "inactive"
    · simp [h1, h2, h3, h4, h5, h6, h7]
    · simp [h1, h2, h3, h4, h5, h6, h7]
  · intro h1
    simp [h1]
  · intro h1 h2
    simp [h1, h2]
  · intro h1 h2 h3
    simp [h1, h2, h3]
  · intro h1 h2 h3 h4
    simp [h1, h2, h3, h4]
  · intro h1 h2 h3 h4 h5
    simp [h1, h2, h3, h4, h5]
  · intro h1 h2 h3 h4 h5 h6 h7
    simp [h1, h2, h3, h4, h5, h6, h7]

/-- C26 witness: the cases of the table-driven test: a merchant with no ID, with no name,
with the status "pending", and a valid one. -/
theorem C26_validate_merchant_witness :
    ValidateMerchant { merch001 with ID := "" } = some "id is required" ∧
    ValidateMerchant { merch001 with Name := "" } = some "name is required" ∧
    ValidateMerchant { merch001 with Status := "pending" } =
      some "status must be 'active' or 'inactive'" ∧
    ValidateMerchant merch001 = none :=
  ⟨(C26_validate_merchant { merch001 with ID := "" }).2.1 rfl,
    (C26_validate_merchant { merch001 with Name := "" }).2.2.1 (by decide) rfl,
    (C26_validate_merchant { merch001 with Status := "pending" }).2.2.2.2.2.2
      (by decide) (by decide) (by decide) (by decide) (by decide) (by decide) (by decide),
    (C26_validate_merchant merch001).1.mpr
      ⟨by decide, by decide, by decide, by decide, by decide, Or.inl rfl⟩⟩

/-! ### C27 -/

theorem MerchantStore.create_of_mem (s : MerchantStore) (m : Merchant)
    (h : m.ID ∈ s.merchants) :
    s.Create m = (s, some "merchant with this ID already exists") := by
  unfold MerchantStore.Create
  cases hl : s.merchants.lookup m.ID with
  | none =>
    exact absurd h ((@AList.lookup_eq_none String (fun _ => Merchant) _ m.ID s.merchants).mp hl)
  | some x => rfl

theorem MerchantStore.create_of_not_mem (s : MerchantStore) (m : Merchant)
    (h : m.ID ∉ s.merchants) :
    s.Create m = ({ merchants := s.merchants.insert m.ID m }, none) := by
  unfold MerchantStore.Create
  rw [AList.lookup_eq_none.mpr h]

theorem MerchantStore.mem_create (s : MerchantStore) (m : Merchant) (id : String) :
    id ∈ (s.Create m).1.merchants ↔ id = m.ID ∨ id ∈ s.merchants := by
  by_cases h : m.ID ∈ s.merchants
  · rw [MerchantStore.create_of_mem s m h]
    constructor
    · exact Or.inr
    · rintro (rfl | h')
      · exact h
      · exact h'
  · rw [MerchantStore.create_of_not_mem s m h]
    exact @AList.mem_insert String (fun _ => Merchant) _ id m.ID m s.merchants

theorem MerchantStore.mem_createAll (ms : List Merchant) :
    ∀ (s : MerchantStore) (id : String),
      id ∈ (s.CreateAll ms).merchants ↔ id ∈ s.merchants ∨ id ∈ ms.map Merchant.ID := by
  induction ms with
  | nil =>
    intro s id
    simp [MerchantStore.CreateAll]
  | cons m rest ih =>
    intro s id
    have h := ih (s.Create m).1 id
    simp only [MerchantStore.CreateAll, List.foldl_cons] at h ⊢
    rw [h, MerchantStore.mem_create]
    simp only [List.map_cons, List.mem_cons]
    tauto

theorem MerchantStore.getByID_of_not_mem (s : MerchantStore) (id : String)
    (h : id ∉ s.merchants) : s.GetByID id = Except.error "merchant not found" := by
  unfold MerchantStore.GetByID
  rw [AList.lookup_eq_none.mpr h]

/-- C27: for every store and merchant `m`, `Create(m)` fails if and only if a merchant is
already stored under `m.ID`, and then leaves the store unchanged; when it succeeds,
`GetByID(m.ID)` returns `m`, `GetAll` has exactly one more element and `GetByID` of every
other ID returns what it returned before; `GetByID` of an ID under which nothing is stored
returns an error, in particular of an ID that is neither a sample ID nor the ID of a merchant
passed to `Create` since the store was made; the new store holds 3 merchants and holds the
same 3 after the three samples are added again. -/
theorem C27_store_create (s : MerchantStore) (m : Merchant) :
    ((s.Create m).2 ≠ none ↔ ∃ x, s.GetByID m.ID = Except.ok x) ∧
    ((s.Create m).2 ≠ none → (s.Create m).1 = s) ∧
    ((s.Create m).2 = none →
      (s.Create m).1.GetByID m.ID = Except.ok m ∧
      (s.Create m).1.GetAll.length = s.GetAll.length + 1 ∧
      ∀ id, id ≠ m.ID → (s.Create m).1.GetByID id = s.GetByID id) ∧
    (∀ id, s.merchants.lookup id = none →
      s.GetByID id = Except.error "merchant not found") ∧
    (∀ (ms : List Merchant) (id : String), id ∉ ["MERCH-001", "MERCH-002", "MERCH-003"] →
      id ∉ ms.map Merchant.ID →
      (NewMerchantStore.CreateAll ms).GetByID id = Except.error "merchant not found") ∧
    NewMerchantStore.GetAll.length = 3 ∧
    (initSampleMerchants NewMerchantStore).GetAll = NewMerchantStore.GetAll := by
  have hfail : (s.Create m).2 ≠ none ↔ m.ID ∈ s.merchants := by
    by_cases h : m.ID ∈ s.merchants
    · rw [MerchantStore.create_of_mem s m h]
      simp [h]
    · rw [MerchantStore.create_of_not_mem s m h]
      simp [h]
  refine ⟨?_, ?_, ?_, ?_, ?_, ?_, ?_⟩
  · rw [hfail, ← AList.lookup_isSome]
    unfold MerchantStore.GetByID
    cases s.merchants.lookup m.ID <;> simp
  · intro h
    rw [MerchantStore.create_of_mem s m (hfail.mp h)]
  · intro h
    have hn : m.ID ∉ s.merchants := fun hm => (hfail.mpr hm) h
    rw [MerchantStore.create_of_not_mem s m hn]
    refine ⟨?_, ?_, ?_⟩
    · simp [MerchantStore.GetByID, AList.lookup_insert]
    · unfold MerchantStore.GetAll
      rw [AList.insert_entries_of_neg hn]
      simp
    · intro id hid
      simp [MerchantStore.GetByID, AList.lookup_insert_ne hid]
  · intro id h
    exact MerchantStore.getByID_of_not_mem s id (AList.lookup_eq_none.mp h)
  · intro ms id h1 h2
    apply MerchantStore.getByID_of_not_mem
    rw [MerchantStore.mem_createAll]
    rintro (h | h)
    · apply h1
      simp only [NewMerchantStore, AList.mem_insert] at h
      rcases h with h | h | h | h
      · simp [h]
      · simp [h]
      · simp [h]
      · exact absurd h (AList.not_mem_empty _)
    · exact h2 h
  · decide
  · decide

/-- C27 witness: on the new store, creating the sample "MERCH-001" again fails and
changes nothing, creating a new merchant succeeds and makes it retrievable, and an unknown
ID is not found. -/
theorem C27_store_create_witness :
    ((NewMerchantStore.Create merch001).2 ≠ none ∧
      (NewMerchantStore.Create merch001).1 = NewMerchantStore) ∧
    ((NewMerchantStore.Create merchTest).2 = none ∧
      (NewMerchantStore.Create merchTest).1.GetByID "MERCH-TEST-001" = Except.ok merchTest ∧
      (NewMerchantStore.Create merchTest).1.GetAll.length = 4) ∧
    NewMerchantStore.GetByID "NON-EXISTENT" = Except.error "merchant not found" :=
  ⟨⟨by decide, (C27_store_create NewMerchantStore merch001).2.1 (by decide)⟩,
    ⟨by decide, ((C27_store_create NewMerchantStore merchTest).2.2.1 (by decide)).1,
      ((C27_store_create NewMerchantStore merchTest).2.2.1 (by decide)).2.1⟩,
    (C27_store_create NewMerchantStore merchTest).2.2.2.1 "NON-EXISTENT" (by decide)⟩

/-! ### C28 -/

theorem canTransitionTo_iff (o : Order) (newStatus : OrderStatus) :
    o.CanTransitionTo newStatus = true ↔
      ((o.Status = "pending" ∧ newStatus = "confirmed") ∨
        (o.Status = "pending" ∧ newStatus = "cancelled") ∨
        (o.Status = "confirmed" ∧ newStatus = "shipped") ∨
        (o.Status = "confirmed" ∧ newStatus = "cancelled") ∨
        (o.Status = "shipped" ∧ newStatus = "delivered")) := by
  unfold Order.CanTransitionTo StatusPending StatusConfirmed StatusShipped StatusDelivered
    StatusCancelled
  by_cases h1 : o.Status = "pending"
  · simp [h1]
  by_cases h2 : o.Status = "confirmed"
  · simp [h2]
  by_cases h3 : o.Status = "shipped"
  · simp [h3]
  · simp [h1, h2, h3]

/-- C28: `Order.CanTransitionTo` returns true exactly for the status pairs
pending->confirmed, pending->cancelled, confirmed->shipped, confirmed->cancelled and
shipped->delivered, and false for every other pair of strings; delivered and cancelled are
terminal (a cancelled order cannot be shipped); and over every repository,
`OrderService.UpdateOrderStatus` answers a transition for which it returns false with the
invalid-transition error naming the two statuses and does not call `UpdateStatus`: the
repository is as `Get` left it; a transition for which it returns true is passed to
`UpdateStatus`. -/
theorem C28_order_lifecycle (o : Order) (newStatus : OrderStatus) :
    (o.CanTransitionTo newStatus = true ↔
      ((o.Status = "pending" ∧ newStatus = "confirmed") ∨
        (o.Status = "pending" ∧ newStatus = "cancelled") ∨
        (o.Status = "confirmed" ∧ newStatus = "shipped") ∨
        (o.Status = "confirmed" ∧ newStatus = "cancelled") ∨
        (o.Status = "shipped" ∧ newStatus = "delivered"))) ∧
    (o.Status = "delivered" ∨ o.Status = "cancelled" → o.CanTransitionTo newStatus = false) ∧
    (o.Status = "cancelled" → o.CanTransitionTo "shipped" = false) ∧
    (∀ (ρ ε : Type) (repo : OrderRepository ρ ε) (st st1 : ρ) (id : String),
      repo.Get st id = (st1, Except.ok o) →
      (o.CanTransitionTo newStatus = false →
        UpdateOrderStatus repo st id newStatus =
          (st1, some (UpdateError.invalidStatusTransition o.Status newStatus))) ∧
      (o.CanTransitionTo newStatus = true →
        UpdateOrderStatus repo st id newStatus =
          ((repo.UpdateStatus st1 id newStatus).1,
            (repo.UpdateStatus st1 id newStatus).2.map UpdateError.repo))) := by
  have hterm : ∀ ns : OrderStatus, o.Status = "delivered" ∨ o.Status = "cancelled" →
      o.CanTransitionTo ns = false := by
    intro ns h
    cases hc : o.CanTransitionTo ns with
    | false => rfl
    | true =>
      rw [canTransitionTo_iff] at hc
      rcases h with h | h <;> rw [h] at hc <;> simp at hc
  refine ⟨canTransitionTo_iff o newStatus, hterm newStatus, fun h => hterm _ (Or.inr h), ?_⟩
  intro ρ ε repo st st1 id hget
  constructor
  · intro hc
    simp [UpdateOrderStatus, hget, hc]
  · intro hc
    unfold UpdateOrderStatus
    simp only [hget, hc, Bool.not_true, Bool.false_eq_true, if_false]
    cases hu : repo.UpdateStatus st1 id newStatus with
    | mk st2 e =>
      cases e <;> rfl

/-- C28 witness: over the repository kept in memory, shipping the cancelled sample order
is rejected and the repository is unchanged; confirming the pending one is carried out. -/
theorem C28_order_lifecycle_witness :
    (orderCancelled.CanTransitionTo "shipped" = false ∧
      UpdateOrderStatus memoryRepository [orderCancelled, orderPending] "ORD-1" "shipped" =
        ([orderCancelled, orderPending],
          some (UpdateError.invalidStatusTransition "cancelled" "shipped"))) ∧
    (orderPending.CanTransitionTo "confirmed" = true ∧
      UpdateOrderStatus memoryRepository [orderCancelled, orderPending] "ORD-2" "confirmed" =
        ([orderCancelled, { orderPending with Status := "confirmed" }], none)) :=
  ⟨⟨by decide,
      ((C28_order_lifecycle orderCancelled "shipped").2.2.2 (List Order) Unit memoryRepository
        [orderCancelled, orderPending] [orderCancelled, orderPending] "ORD-1" rfl).1
        (by decide)⟩,
    ⟨by decide,
      ((C28_order_lifecycle orderPending "confirmed").2.2.2 (List Order) Unit memoryRepository
        [orderCancelled, orderPending] [orderCancelled, orderPending] "ORD-2" rfl).2
        (by decide)⟩⟩

/-! ## Rounding: the exponent and the bound on a generated amount -/

theorem F64.binExp_le (q : ℚ) (hq : 0 < q) : (2 : ℚ) ^ F64.binExp q ≤ q := by
  unfold F64.binExp
  simp only
  split
  · have hnum : 0 < q.num := Rat.num_pos.mpr hq
    have hn0 : q.num.natAbs ≠ 0 := by omega
    have h1 : (2 : ℚ) ^ (Nat.log2 q.num.natAbs) ≤ (q.num.natAbs : ℚ) := by
      exact_mod_cast Nat.log2_self_le hn0
    have h2 : (q.den : ℚ) < (2 : ℚ) ^ (Nat.log2 q.den + 1) := by
      exact_mod_cast (Nat.lt_log2_self : q.den < 2 ^ (Nat.log2 q.den + 1))
    have hd : (0 : ℚ) < q.den := by exact_mod_cast q.den_pos
    have hqe : q = (q.num.natAbs : ℚ) / (q.den : ℚ) := by
      have h3 : ((q.num.natAbs : ℤ) : ℚ) = (q.num : ℚ) := by
        rw [Int.natAbs_of_nonneg hnum.le]
      have h4 : ((q.num.natAbs : ℕ) : ℚ) = ((q.num.natAbs : ℤ) : ℚ) :=
        (Int.cast_natCast q.num.natAbs).symm
      rw [h4, h3]
      exact (Rat.num_div_den q).symm
    have he : (2 : ℚ) ^ ((Nat.log2 q.num.natAbs : ℤ) - (Nat.log2 q.den : ℤ) - 1) =
        (2 : ℚ) ^ (Nat.log2 q.num.natAbs) / (2 : ℚ) ^ (Nat.log2 q.den + 1) := by
      have : ((Nat.log2 q.num.natAbs : ℤ) - (Nat.log2 q.den : ℤ) - 1) =
          (Nat.log2 q.num.natAbs : ℤ) - ((Nat.log2 q.den + 1 : ℕ) : ℤ) := by push_cast; ring
      rw [this, zpow_sub₀ (by norm_num : (2 : ℚ) ≠ 0), zpow_natCast, zpow_natCast]
    rw [he]
    have hp : (0 : ℚ) < (2 : ℚ) ^ (Nat.log2 q.den + 1) := by positivity
    calc (2 : ℚ) ^ (Nat.log2 q.num.natAbs) / (2 : ℚ) ^ (Nat.log2 q.den + 1)
        ≤ (q.num.natAbs : ℚ) / (2 : ℚ) ^ (Nat.log2 q.den + 1) :=
          div_le_div_of_nonneg_right h1 hp.le
      _ ≤ (q.num.natAbs : ℚ) / (q.den : ℚ) :=
          div_le_div_of_nonneg_left (by positivity) hd h2.le
      _ = q := hqe.symm
  · rename_i h
    exact not_lt.mp h

theorem F64.lt_binExp (q : ℚ) (hq : 0 < q) : q < (2 : ℚ) ^ (F64.binExp q + 1) := by
  unfold F64.binExp
  simp only
  split
  · rename_i h
    have : (Nat.log2 q.num.natAbs : ℤ) - (Nat.log2 q.den : ℤ) - 1 + 1 =
        (Nat.log2 q.num.natAbs : ℤ) - (Nat.log2 q.den : ℤ) := by ring
    rw [this]
    exact h
  · have hnum : 0 < q.num := Rat.num_pos.mpr hq
    have hdn : q.den ≠ 0 := q.den_nz
    have h1 : (q.num.natAbs : ℚ) < (2 : ℚ) ^ (Nat.log2 q.num.natAbs + 1) := by
      exact_mod_cast (Nat.lt_log2_self : q.num.natAbs < 2 ^ (Nat.log2 q.num.natAbs + 1))
    have h2 : (2 : ℚ) ^ (Nat.log2 q.den) ≤ (q.den : ℚ) := by
      exact_mod_cast Nat.log2_self_le hdn
    have hd : (0 : ℚ) < q.den := by exact_mod_cast q.den_pos
    have hqe : q = (q.num.natAbs : ℚ) / (q.den : ℚ) := by
      have h3 : ((q.num.natAbs : ℤ) : ℚ) = (q.num : ℚ) := by
        rw [Int.natAbs_of_nonneg hnum.le]
      have h4 : ((q.num.natAbs : ℕ) : ℚ) = ((q.num.natAbs : ℤ) : ℚ) :=
        (Int.cast_natCast q.num.natAbs).symm
      rw [h4, h3]
      exact (Rat.num_div_den q).symm
    have he : (2 : ℚ) ^ ((Nat.log2 q.num.natAbs : ℤ) - (Nat.log2 q.den : ℤ) + 1) =
        (2 : ℚ) ^ (Nat.log2 q.num.natAbs + 1) / (2 : ℚ) ^ (Nat.log2 q.den) := by
      have : ((Nat.log2 q.num.natAbs : ℤ) - (Nat.log2 q.den : ℤ) + 1) =
          ((Nat.log2 q.num.natAbs + 1 : ℕ) : ℤ) - (Nat.log2 q.den : ℤ) := by push_cast; ring
      rw [this, zpow_sub₀ (by norm_num : (2 : ℚ) ≠ 0), zpow_natCast, zpow_natCast]
    rw [he]
    have hp : (0 : ℚ) < (2 : ℚ) ^ (Nat.log2 q.den) := by positivity
    calc q = (q.num.natAbs : ℚ) / (q.den : ℚ) := hqe
      _ ≤ (q.num.natAbs : ℚ) / (2 : ℚ) ^ (Nat.log2 q.den) :=
          div_le_div_of_nonneg_left (by positivity) hp h2
      _ < (2 : ℚ) ^ (Nat.log2 q.num.natAbs + 1) / (2 : ℚ) ^ (Nat.log2 q.den) :=
          div_lt_div_of_pos_right h1 hp

theorem F64.roundHalfEven_le (y : ℚ) (hy : 0 ≤ y) (K : ℕ) (h : y < (K : ℚ) + 1 / 2) :
    F64.roundHalfEven y ≤ K := by
  unfold F64.roundHalfEven
  simp only
  have hfz : (0 : ℤ) ≤ y.floor := Rat.le_floor.mpr (by simpa using hy)
  have hle : ((y.floor : ℤ) : ℚ) ≤ y := Rat.le_floor.mp (le_refl _)
  have hcast : ((y.floor.toNat : ℕ) : ℚ) = ((y.floor : ℤ) : ℚ) := by
    have : ((y.floor.toNat : ℕ) : ℤ) = y.floor := Int.toNat_of_nonneg hfz
    exact_mod_cast this
  have hfK : y.floor.toNat ≤ K := by
    have : ((y.floor.toNat : ℕ) : ℚ) < (K : ℚ) + 1 / 2 := by
      rw [hcast]
      exact lt_of_le_of_lt hle h
    by_contra hc
    have hc' : K + 1 ≤ y.floor.toNat := by omega
    have : ((K + 1 : ℕ) : ℚ) ≤ ((y.floor.toNat : ℕ) : ℚ) := by exact_mod_cast hc'
    push_cast at this
    linarith
  by_cases h1 : y - (y.floor.toNat : ℚ) < 1 / 2
  · rw [if_pos h1]
    exact hfK
  · rw [if_neg h1]
    have hlt : y.floor.toNat < K := by
      by_contra hc
      have hc' : K ≤ y.floor.toNat := by omega
      have : ((K : ℕ) : ℚ) ≤ ((y.floor.toNat : ℕ) : ℚ) := by exact_mod_cast hc'
      have h1' := not_lt.mp h1
      linarith
    split
    · omega
    · split
      · exact hfK
      · omega

/-- Rounding a value of `[0, 10000 * (1 - 2^-53)]` gives a finite value below 10000: the
value is at least 0.61 units of the last place below 10000. -/
theorem F64.roundF64_lt_10000 (x : ℚ) (h0 : 0 ≤ x) (h1 : x ≤ 10000 * (1 - 1 / 2 ^ 53)) :
    ∃ r : ℚ, F64.roundF64 x = F64.fin r ∧ 0 ≤ r ∧ r < 10000 := by
  by_cases hx : x = 0
  · subst hx
    exact ⟨0, by simp [F64.roundF64], le_refl _, by norm_num⟩
  have hpos : 0 < x := lt_of_le_of_ne h0 (Ne.symm hx)
  have habs : |x| = x := abs_of_pos hpos
  have hxlt : x < 10000 := by
    have : (10000 : ℚ) * (1 - 1 / 2 ^ 53) < 10000 := by norm_num
    linarith
  have hb : F64.binExp x ≤ 13 := by
    by_contra hc
    have hc' : (14 : ℤ) ≤ F64.binExp x := by omega
    have h2 : (2 : ℚ) ^ (14 : ℤ) ≤ (2 : ℚ) ^ (F64.binExp x) :=
      zpow_le_zpow_right₀ (by norm_num) hc'
    have h3 := F64.binExp_le x hpos
    have h4 : (2 : ℚ) ^ (14 : ℤ) = 16384 := by norm_num
    linarith
  obtain ⟨n, hn, he⟩ : ∃ n : ℕ, 39 ≤ n ∧ max (F64.binExp x) (-1022) - 52 = -(n : ℤ) := by
    refine ⟨(52 - max (F64.binExp x) (-1022)).toNat, ?_, ?_⟩
    · omega
    · omega
  have hP : (0 : ℚ) < (2 : ℚ) ^ n := by positivity
  have h2n : (2 : ℚ) ^ 39 ≤ (2 : ℚ) ^ n := pow_le_pow_right₀ (by norm_num) hn
  have hz : (2 : ℚ) ^ (-(n : ℤ)) = ((2 : ℚ) ^ n)⁻¹ := by rw [zpow_neg, zpow_natCast]
  obtain ⟨K, hK⟩ : ∃ K : ℕ, K + 1 = 10000 * 2 ^ n :=
    ⟨10000 * 2 ^ n - 1, by have := Nat.two_pow_pos n; omega⟩
  have hKq : (K : ℚ) + 1 = 10000 * (2 : ℚ) ^ n := by exact_mod_cast hK
  have hy : x / ((2 : ℚ) ^ n)⁻¹ = x * (2 : ℚ) ^ n := by
    rw [div_eq_mul_inv, inv_inv]
  have hylt : x * (2 : ℚ) ^ n < (K : ℚ) + 1 / 2 := by
    have h5 : x * (2 : ℚ) ^ n ≤ 10000 * (1 - 1 / 2 ^ 53) * (2 : ℚ) ^ n :=
      mul_le_mul_of_nonneg_right h1 hP.le
    have h6 : (10000 : ℚ) * (1 - 1 / 2 ^ 53) * (2 : ℚ) ^ n =
        10000 * (2 : ℚ) ^ n - (10000 / 2 ^ 53) * (2 : ℚ) ^ n := by ring
    have h7 : (10000 / 2 ^ 53 : ℚ) * (2 : ℚ) ^ 39 ≤ (10000 / 2 ^ 53) * (2 : ℚ) ^ n :=
      mul_le_mul_of_nonneg_left h2n (by norm_num)
    have h8 : (1 / 2 : ℚ) < (10000 / 2 ^ 53 : ℚ) * (2 : ℚ) ^ 39 := by norm_num
    linarith
  have hm := F64.roundHalfEven_le (x * (2 : ℚ) ^ n) (by positivity) K hylt
  have hmq : ((F64.roundHalfEven (x * (2 : ℚ) ^ n) : ℕ) : ℚ) ≤ (K : ℚ) := by exact_mod_cast hm
  have hr : ((F64.roundHalfEven (x * (2 : ℚ) ^ n) : ℕ) : ℚ) * ((2 : ℚ) ^ n)⁻¹ < 10000 := by
    rw [← div_eq_mul_inv, div_lt_iff₀ hP]
    linarith
  have hr0 : (0 : ℚ) ≤ ((F64.roundHalfEven (x * (2 : ℚ) ^ n) : ℕ) : ℚ) * ((2 : ℚ) ^ n)⁻¹ := by
    positivity
  have hbig : ¬ (2 : ℚ) ^ (1024 : ℤ) ≤
      ((F64.roundHalfEven (x * (2 : ℚ) ^ n) : ℕ) : ℚ) * ((2 : ℚ) ^ n)⁻¹ := by
    have : (10000 : ℚ) < (2 : ℚ) ^ (1024 : ℤ) := by norm_num
    intro h
    linarith
  have hneg : ¬ x < 0 := not_lt.mpr h0
  refine ⟨((F64.roundHalfEven (x * (2 : ℚ) ^ n) : ℕ) : ℚ) * ((2 : ℚ) ^ n)⁻¹, ?_, hr0, hr⟩
  unfold F64.roundF64
  simp only [habs, hx, if_false, he, hz, hy, hbig, hneg]

/-- A binary64 value of `[0,1)` is at most `1 - 2^-53`, the largest binary64 value below 1. -/
theorem F64.le_of_isF64 (q : ℚ) (h0 : 0 ≤ q) (h1 : q < 1) (h : F64.IsF64 q) :
    q ≤ 1 - 1 / 2 ^ 53 := by
  by_cases hhalf : q < 1 / 2
  · have : (1 / 2 : ℚ) ≤ 1 - 1 / 2 ^ 53 := by norm_num
    linarith
  have hge : (1 / 2 : ℚ) ≤ q := not_lt.mp hhalf
  have hpos : 0 < q := by linarith
  have hq0 : q ≠ 0 := ne_of_gt hpos
  have habs : |q| = q := abs_of_pos hpos
  have hb1 : F64.binExp q ≤ -1 := by
    by_contra hc
    have hc' : (0 : ℤ) ≤ F64.binExp q := by omega
    have h2 : (2 : ℚ) ^ (0 : ℤ) ≤ (2 : ℚ) ^ (F64.binExp q) :=
      zpow_le_zpow_right₀ (by norm_num) hc'
    have h3 := F64.binExp_le q hpos
    simp only [zpow_zero] at h2
    linarith
  have hb2 : -1 ≤ F64.binExp q := by
    by_contra hc
    have hc' : F64.binExp q + 1 ≤ -1 := by omega
    have h2 : (2 : ℚ) ^ (F64.binExp q + 1) ≤ (2 : ℚ) ^ (-1 : ℤ) :=
      zpow_le_zpow_right₀ (by norm_num) hc'
    have h3 := F64.lt_binExp q hpos
    have h4 : (2 : ℚ) ^ (-1 : ℤ) = 1 / 2 := by norm_num
    exact absurd (lt_of_lt_of_le h3 (h2.trans h4.le)) (not_lt.mpr hge)
  have he : max (F64.binExp q) (-1022) - 52 = -((53 : ℕ) : ℤ) := by
    have : F64.binExp q = -1 := by omega
    rw [this]
    norm_num
  have hz : (2 : ℚ) ^ (-((53 : ℕ) : ℤ)) = ((2 : ℚ) ^ 53)⁻¹ := by rw [zpow_neg, zpow_natCast]
  have hneg : ¬ q < 0 := not_lt.mpr h0
  unfold F64.IsF64 F64.roundF64 at h
  simp only [habs, hq0, if_false, he, hz, hneg] at h
  split at h
  · cases h
  · have hm := F64.fin.inj h
    have hP : (0 : ℚ) < (2 : ℚ) ^ 53 := by positivity
    have hlt : ((F64.roundHalfEven (q / ((2 : ℚ) ^ 53)⁻¹) : ℕ) : ℚ) < (2 : ℚ) ^ 53 := by
      have : ((F64.roundHalfEven (q / ((2 : ℚ) ^ 53)⁻¹) : ℕ) : ℚ) * ((2 : ℚ) ^ 53)⁻¹ < 1 := by
        rw [hm]
        exact h1
      rwa [← div_eq_mul_inv, div_lt_iff₀ hP, one_mul] at this
    have hltn : F64.roundHalfEven (q / ((2 : ℚ) ^ 53)⁻¹) < 2 ^ 53 := by exact_mod_cast hlt
    have hle : F64.roundHalfEven (q / ((2 : ℚ) ^ 53)⁻¹) + 1 ≤ 2 ^ 53 := hltn
    have hleq : ((F64.roundHalfEven (q / ((2 : ℚ) ^ 53)⁻¹) : ℕ) : ℚ) + 1 ≤ (2 : ℚ) ^ 53 := by
      exact_mod_cast hle
    rw [← hm, ← div_eq_mul_inv, div_le_iff₀ hP]
    have : ((1 : ℚ) - 1 / 2 ^ 53) * 2 ^ 53 = 2 ^ 53 - 1 := by norm_num
    rw [this]
    linarith

/-! ## The workload generator: what each transaction looks like -/

theorem genLoop_succ (n : ℕ) (r : Rand) :
    genLoop (n + 1) r =
      ((genLoop n r).1 ++ [(genTransaction n (genLoop n r).2).1],
        (genTransaction n (genLoop n r).2).2) := rfl

theorem genLoop_length (n : ℕ) (r : Rand) : (genLoop n r).1.length = n := by
  induction n with
  | zero => rfl
  | succ n ih => rw [genLoop_succ]; simp [ih]

theorem genLoop_getElem? (n : ℕ) (r : Rand) :
    ∀ i, i < n → (genLoop n r).1[i]? = some (genTransaction i (genLoop i r).2).1 := by
  induction n with
  | zero => intro i hi; omega
  | succ n ih =>
    intro i hi
    rw [genLoop_succ]
    by_cases h : i < n
    · rw [List.getElem?_append_left (by rw [genLoop_length]; exact h)]
      exact ih i h
    · have hin : i = n := by omega
      subst hin
      rw [List.getElem?_append_right (by rw [genLoop_length])]
      simp [genLoop_length]

theorem genTransaction_floats (i : ℕ) (r : Rand) : (genTransaction i r).2.floats = r.floats := by
  unfold genTransaction
  by_cases h : i % 25 = 0 <;> simp [h, Rand.Float64, Rand.Intn]

theorem genLoop_floats (n : ℕ) (r : Rand) : (genLoop n r).2.floats = r.floats := by
  induction n with
  | zero => rfl
  | succ n ih => rw [genLoop_succ]; simp only; rw [genTransaction_floats, ih]

theorem genTransaction_ID (i : ℕ) (r : Rand) : (genTransaction i r).1.ID = (i : ℤ) + 1 := by
  unfold genTransaction
  by_cases h : i % 25 = 0 <;> simp [h]

theorem genTransaction_Amount (i : ℕ) (r : Rand) :
    (genTransaction i r).1.Amount =
      if i % 20 = 0 then F64.fin (-100)
      else F64.mul (F64.fin (r.floats r.pos).1) (F64.fin 10000) := by
  unfold genTransaction
  by_cases h : i % 25 = 0 <;> simp [h, Rand.Float64]

theorem genTransaction_Currency (i : ℕ) (r : Rand) :
    (i % 25 = 0 → (genTransaction i r).1.Currency ∈ invalidCurrencies) ∧
    (i % 25 ≠ 0 → (genTransaction i r).1.Currency ∈ currencies) := by
  unfold genTransaction
  constructor
  · intro h
    simp only [h, if_true, Rand.Intn, Rand.Float64, invalidCurrencies, List.length_cons,
      List.length_nil]
    have hlt : r.ints (r.pos + 1 + 1) % 2 < 2 := Nat.mod_lt _ (by norm_num)
    generalize r.ints (r.pos + 1 + 1) % 2 = k at hlt
    interval_cases k <;> simp
  · intro h
    simp only [h, if_false, Rand.Intn, Rand.Float64, currencies, List.length_cons,
      List.length_nil]
    have hlt : r.ints (r.pos + 1) % 5 < 5 := Nat.mod_lt _ (by norm_num)
    generalize r.ints (r.pos + 1) % 5 = k at hlt
    interval_cases k <;> simp

theorem genTransaction_Currency_valid (i : ℕ) (r : Rand) :
    (genTransaction i r).1.Currency ∉ validCurrencies ↔ i % 25 = 0 := by
  obtain ⟨h1, h2⟩ := genTransaction_Currency i r
  by_cases h : i % 25 = 0
  · have := h1 h
    simp only [invalidCurrencies, List.mem_cons, List.mem_singleton, List.not_mem_nil,
      or_false] at this
    rcases this with e | e <;> simp [e, h, validCurrencies]
  · have := h2 h
    simp only [currencies] at this
    simp [h, validCurrencies, this]

theorem F64.lt_mul_10000 (q : ℚ) (h0 : 0 ≤ q) :
    F64.lt (F64.mul (F64.fin q) (F64.fin 10000)) (F64.fin 0) = false := by
  have hm : F64.mul (F64.fin q) (F64.fin 10000) = F64.roundF64 (q * 10000) := rfl
  rw [hm]
  rcases F64.roundF64_of_nonneg (q * 10000) (by positivity) with h | ⟨x, hx, h⟩
  · rw [h]
    rfl
  · rw [h]
    simp [F64.lt, hx]

theorem genTransaction_Amount_lt (i : ℕ) (r : Rand) :
    F64.lt (genTransaction i r).1.Amount (F64.fin 0) = true ↔ i % 20 = 0 := by
  rw [genTransaction_Amount]
  by_cases h : i % 20 = 0
  · simp [h, F64.lt]
  · simp [h, F64.lt_mul_10000 _ (r.floats r.pos).2.1]

theorem genTransaction_invalid (i : ℕ) (r : Rand) :
    invalidTx (genTransaction i r).1 = decide (i % 20 = 0 ∨ i % 25 = 0) := by
  have h1 := genTransaction_Amount_lt i r
  have h2 := genTransaction_Currency_valid i r
  have hv := ValidateTransaction_eq_none (genTransaction i r).1
  unfold invalidTx
  by_cases ha : i % 20 = 0
  · have hlt := h1.mpr ha
    have : ValidateTransaction (genTransaction i r).1 ≠ none := by
      intro hn
      rw [hv] at hn
      rw [hn.1] at hlt
      cases hlt
    cases hval : ValidateTransaction (genTransaction i r).1 with
    | none => exact absurd hval this
    | some e => simp [ha]
  · by_cases hc : i % 25 = 0
    · have hnot := h2.mpr hc
      have : ValidateTransaction (genTransaction i r).1 ≠ none := by
        intro hn
        rw [hv] at hn
        exact hnot hn.2
      cases hval : ValidateTransaction (genTransaction i r).1 with
      | none => exact absurd hval this
      | some e => simp [hc]
    · have hlt : F64.lt (genTransaction i r).1.Amount (F64.fin 0) = false := by
        cases hb : F64.lt (genTransaction i r).1.Amount (F64.fin 0) with
        | false => rfl
        | true => exact absurd (h1.mp hb) ha
      have hmem : (genTransaction i r).1.Currency ∈ validCurrencies := by
        by_contra hn
        exact hc (h2.mp hn)
      rw [hv.mpr ⟨hlt, hmem⟩]
      simp [ha, hc]

theorem genLoop_countP_invalid (n : ℕ) (r : Rand) :
    (genLoop n r).1.countP invalidTx = invalidIndices n := by
  induction n with
  | zero => rfl
  | succ n ih =>
    rw [genLoop_succ]
    simp only [List.countP_append, ih, invalidIndices, List.range_succ, List.countP_cons,
      List.countP_nil, genTransaction_invalid]

theorem invalidIndices_formula (n : ℕ) :
    invalidIndices n + (n + 99) / 100 = (n + 19) / 20 + (n + 24) / 25 := by
  induction n with
  | zero => rfl
  | succ n ih =>
    have hs : invalidIndices (n + 1) =
        invalidIndices n + (if n % 20 = 0 ∨ n % 25 = 0 then 1 else 0) := by
      simp only [invalidIndices, List.range_succ, List.countP_append, List.countP_cons,
        List.countP_nil, decide_eq_true_eq, zero_add]
    rw [hs]
    clear hs
    have h100 : n % 20 = 0 → n % 25 = 0 → n % 100 = 0 := by
      intro h20 h25
      have h4 : 4 ∣ n := Nat.dvd_of_mod_eq_zero (by omega)
      have hd : 4 * 25 ∣ n :=
        Nat.Coprime.mul_dvd_of_dvd_of_dvd (by decide) h4 (Nat.dvd_of_mod_eq_zero h25)
      exact Nat.mod_eq_zero_of_dvd hd
    have a20 : (n + 1 + 19) / 20 = (n + 19) / 20 + (if n % 20 = 0 then 1 else 0) := by
      split <;> omega
    have a25 : (n + 1 + 24) / 25 = (n + 24) / 25 + (if n % 25 = 0 then 1 else 0) := by
      split <;> omega
    have a100 : (n + 1 + 99) / 100 = (n + 99) / 100 + (if n % 100 = 0 then 1 else 0) := by
      split <;> omega
    have b20 : n % 100 = 0 → n % 20 = 0 := by omega
    have b25 : n % 100 = 0 → n % 25 = 0 := by omega
    rw [a20, a25, a100]
    clear a20 a25 a100
    by_cases h20 : n % 20 = 0
    · by_cases h25 : n % 25 = 0
      · simp only [h20, h25, h100 h20 h25, or_self, if_true]
        omega
      · have h : ¬ n % 100 = 0 := fun h => h25 (b25 h)
        simp only [h20, h25, h, or_false, if_true, if_false]
        omega
    · have h : ¬ n % 100 = 0 := fun h => h20 (b20 h)
      by_cases h25 : n % 25 = 0
      · simp only [h20, h25, h, false_or, if_true, if_false]
        omega
      · simp only [h20, h25, h, or_self, if_false]
        omega

/-! ## The errors count of a complete run is the number of invalid transactions -/

theorem resultOK_not_valid {G : Transaction → F64 → Prop} {r : ProcessingResult}
    (h : resultOK G r) : (!r.Valid) = invalidTx r.Transaction := by
  unfold invalidTx
  rcases h with ⟨err, hv, hr⟩ | ⟨hv, hr, -⟩
  · rw [hv, hr]
    rfl
  · rw [hv, hr]
    rfl

theorem errors_eq_countP_invalid (G : Transaction → F64 → Prop) (success errors : ℕ)
    (results : List ProcessingResult) (txs : List Transaction)
    (hc : countsOK success errors results) (hr : ∀ r ∈ results, resultOK G r)
    (hm : ((results.map ProcessingResult.Transaction : List Transaction) : Multiset Transaction) =
      (txs : Multiset Transaction)) :
    errors = txs.countP invalidTx := by
  rw [hc.2]
  have h1 : results.countP (fun r => !r.Valid) =
      results.countP (invalidTx ∘ ProcessingResult.Transaction) := by
    apply List.countP_congr
    intro r hrm
    simp only [Function.comp_apply]
    rw [resultOK_not_valid (hr r hrm)]
  rw [h1, ← List.countP_map]
  exact List.Perm.countP_eq _ (Multiset.coe_eq_coe.mp hm)

theorem sequential_errors (txs : List Transaction) (r : Rand) :
    (ProcessTransactionsSequential txs r).errors = txs.countP invalidTx := by
  have h := (seq_foldl_counts CalculateFraudScore txs
    { success := 0, errors := 0, results := [], rand := r }).2
  simp only [zero_add] at h
  exact h

theorem pool_errors (txs : List Transaction) (numWorkers : ℤ) (hW : 1 ≤ numWorkers)
    (m : Machine PoolState PoolAct) (hstep : m.step = poolStep CalculateFraudScore txs numWorkers)
    (h0 : m.init.Inv txs numWorkers) (h1 : m.init.SemPos)
    (h2 : countsOK m.init.success m.init.errors m.init.results)
    (h3 : m.init.ResultsOK fun _ _ => True) :
    ∀ s, m.Reachable s → s.main = PoolMain.returned → s.errors = txs.countP invalidTx := by
  intro s hs hm
  obtain ⟨hi, -, hc⟩ := pool_reachable_inv CalculateFraudScore txs numWorkers m hstep h0 h1 h2 s hs
  have hr := pool_reachable_resultsOK CalculateFraudScore txs numWorkers (fun _ _ => True)
    (fun _ _ _ => trivial) m hstep h3 s hs
  exact errors_eq_countP_invalid _ _ _ _ _ hc hr.1 (hi.returned hW hm)

theorem workerPool_errors (txs : List Transaction) (numWorkers : ℤ) (r : Rand)
    (hW : 1 ≤ numWorkers) :
    ∀ s, (ProcessTransactionsWithWorkerPool txs numWorkers r).Reachable s →
      s.main = PoolMain.returned → s.errors = txs.countP invalidTx :=
  pool_errors txs numWorkers hW _ rfl
    (workerPool_init_inv CalculateFraudScore txs numWorkers r).1
    (workerPool_init_inv CalculateFraudScore txs numWorkers r).2 countsOK_nil
    ⟨by simp [ProcessTransactionsWithWorkerPool, ProcessTransactionsWithWorkerPoolWith, poolInit],
      by simp [ProcessTransactionsWithWorkerPool, ProcessTransactionsWithWorkerPoolWith, poolInit,
        Chan.make],
      by simp [ProcessTransactionsWithWorkerPool, ProcessTransactionsWithWorkerPoolWith, poolInit]⟩

theorem semaphore_errors (txs : List Transaction) (numWorkers semaphoreSize : ℤ) (r : Rand)
    (hW : 1 ≤ numWorkers) (hS : 1 ≤ semaphoreSize) :
    ∀ s, (ProcessTransactionsWithSemaphore txs numWorkers semaphoreSize r).Reachable s →
      s.main = PoolMain.returned → s.errors = txs.countP invalidTx :=
  pool_errors txs numWorkers hW _ rfl
    (semaphore_init_inv CalculateFraudScore txs numWorkers semaphoreSize hS r).1
    (semaphore_init_inv CalculateFraudScore txs numWorkers semaphoreSize hS r).2 countsOK_nil
    ⟨by simp [ProcessTransactionsWithSemaphore, ProcessTransactionsWithSemaphoreWith, poolInit],
      by simp [ProcessTransactionsWithSemaphore, ProcessTransactionsWithSemaphoreWith, poolInit,
        Chan.make],
      by simp [ProcessTransactionsWithSemaphore, ProcessTransactionsWithSemaphoreWith, poolInit]⟩

theorem fanOutFanIn_errors (txs : List Transaction) (numWorkers : ℤ) (r : Rand)
    (hW : 1 ≤ numWorkers) :
    ∀ s, (ProcessTransactionsWithFanOutFanIn txs numWorkers r).Reachable s →
      s.main = FanMain.returned → s.errors = txs.countP invalidTx := by
  intro s hs hm
  obtain ⟨hi, hc⟩ := fan_reachable_inv CalculateFraudScore txs numWorkers (by omega) r s hs
  have hr := fan_reachable_resultsOK CalculateFraudScore txs numWorkers (fun _ _ => True)
    (fun _ _ _ => trivial) r s hs
  exact errors_eq_countP_invalid _ _ _ _ _ hc hr.1 (hi.fanReturned (by omega) hm)

theorem select_errors (txs : List Transaction) (numWorkers : ℤ) (r : Rand)
    (hW : 1 ≤ numWorkers) :
    ∀ s, (ProcessTransactionsWithSelect txs numWorkers r).Reachable s →
      s.main = SelMain.returned → s.timedOut = false → s.errors = txs.countP invalidTx := by
  intro s hs hm ht
  have hi := sel_reachable_inv CalculateFraudScore txs numWorkers r s hs
  obtain ⟨hr, hc⟩ := sel_reachable CalculateFraudScore txs numWorkers r (fun _ _ => True)
    (fun _ _ _ => trivial) s hs
  exact errors_eq_countP_invalid _ _ _ _ _ hc hr.1 (hi.selReturned hW hm ht)

theorem context_errors (ctx : Context) (txs : List Transaction) (numWorkers : ℤ) (r : Rand)
    (hW : 1 ≤ numWorkers) :
    ∀ s, (ProcessTransactionsWithContext ctx txs numWorkers r).Reachable s →
      s.main = CtxMain.returned → s.cancelled = false → s.errors = txs.countP invalidTx := by
  intro s hs hm hcf
  have hi := ctx_reachable_inv CalculateFraudScore ctx txs numWorkers r s hs
  obtain ⟨hr, hc⟩ := ctx_reachable CalculateFraudScore ctx txs numWorkers r (fun _ _ => True)
    (fun _ _ _ => trivial) s hs
  exact errors_eq_countP_invalid _ _ _ _ _ hc hr.1 ((hi.returned hm hcf).2 (Or.inl hW))

theorem invalidIndices_100 : invalidIndices 100 = 8 := by
  have h := invalidIndices_formula 100
  omega

/-! ## Complete runs with their errors count -/

theorem Machine.RunsToCompletion.and_of_reachable {σ α : Type} {m : Machine σ α}
    {final : σ → Prop} {bound : ℕ} {P Q : σ → Prop} (h : m.RunsToCompletion final bound P)
    (hq : ∀ s, m.Reachable s → final s → Q s) :
    m.RunsToCompletion final bound (fun s => P s ∧ Q s) :=
  ⟨h.1, h.2.1, h.2.2.1, fun s hs hf => ⟨h.2.2.2 s hs hf, hq s hs hf⟩⟩

theorem workerPool_runs_errors (txs : List Transaction) (numWorkers : ℤ) (r : Rand)
    (hW : 1 ≤ numWorkers) :
    (ProcessTransactionsWithWorkerPool txs numWorkers r).RunsToCompletion
      (fun s => s.main = PoolMain.returned) (2 * numWorkers.toNat + 7 * txs.length + 9)
      (fun s => PoolState.Complete txs.length s ∧ s.errors = txs.countP invalidTx) := by
  have h := pool_runsToCompletion CalculateFraudScore txs numWorkers hW
    (ProcessTransactionsWithWorkerPool txs numWorkers r) rfl
    (workerPool_init_inv CalculateFraudScore txs numWorkers r).1
    (workerPool_init_inv CalculateFraudScore txs numWorkers r).2 countsOK_nil
  have hμ : (ProcessTransactionsWithWorkerPool txs numWorkers r).init.measure txs numWorkers =
      2 * numWorkers.toNat + 7 * txs.length + 9 := by
    simp [ProcessTransactionsWithWorkerPool, ProcessTransactionsWithWorkerPoolWith, poolInit,
      PoolState.measure, PoolMain.weight, Closer.weight, Chan.make]
    omega
  rw [hμ] at h
  exact h.and_of_reachable (workerPool_errors txs numWorkers r hW)

theorem semaphore_runs_errors (txs : List Transaction) (numWorkers semaphoreSize : ℤ) (r : Rand)
    (hW : 1 ≤ numWorkers) (hS : 1 ≤ semaphoreSize) :
    (ProcessTransactionsWithSemaphore txs numWorkers semaphoreSize r).RunsToCompletion
      (fun s => s.main = PoolMain.returned) (2 * numWorkers.toNat + 7 * txs.length + 9)
      (fun s => PoolState.Complete txs.length s ∧ s.errors = txs.countP invalidTx) := by
  have h := pool_runsToCompletion CalculateFraudScore txs numWorkers hW
    (ProcessTransactionsWithSemaphore txs numWorkers semaphoreSize r) rfl
    (semaphore_init_inv CalculateFraudScore txs numWorkers semaphoreSize hS r).1
    (semaphore_init_inv CalculateFraudScore txs numWorkers semaphoreSize hS r).2 countsOK_nil
  have hd : decide (semaphoreSize < 0) = false := by simp; omega
  have hμ : (ProcessTransactionsWithSemaphore txs numWorkers semaphoreSize r).init.measure txs
      numWorkers = 2 * numWorkers.toNat + 7 * txs.length + 9 := by
    simp [ProcessTransactionsWithSemaphore, ProcessTransactionsWithSemaphoreWith, poolInit,
      PoolState.measure, PoolMain.weight, Closer.weight, Chan.make, hd]
    omega
  rw [hμ] at h
  exact h.and_of_reachable (semaphore_errors txs numWorkers semaphoreSize r hW hS)

theorem fanOutFanIn_runs_errors (txs : List Transaction) (numWorkers : ℤ) (r : Rand)
    (hW : 1 ≤ numWorkers) :
    (ProcessTransactionsWithFanOutFanIn txs numWorkers r).RunsToCompletion
      (fun s => s.main = FanMain.returned) (5 * numWorkers.toNat + 4 * txs.length + 15)
      (fun s => FanState.Complete txs.length s ∧ s.errors = txs.countP invalidTx) := by
  have h := fan_runsToCompletion CalculateFraudScore txs numWorkers hW r
  have hμ : (fanInit r).measure txs numWorkers = 5 * numWorkers.toNat + 4 * txs.length + 15 := by
    simp [fanInit, FanState.measure, FanMain.weight, Closer.weight, Distributor.weight]
    omega
  rw [hμ] at h
  exact h.and_of_reachable (fanOutFanIn_errors txs numWorkers r hW)

theorem generateTestData_natCast (n : ℕ) (r : Rand) :
    GenerateTestData (n : ℤ) r = some (genLoop n r) := by
  unfold GenerateTestData
  have h : ¬ ((n : ℤ) < 0) := by omega
  rw [if_neg h, Int.toNat_natCast]

/-! ### C23 -/

theorem genLoop_map_ID (n : ℕ) (r : Rand) :
    (genLoop n r).1.map Transaction.ID = (List.range n).map fun (i : ℕ) => (i : ℤ) + 1 := by
  induction n with
  | zero => rfl
  | succ n ih =>
    rw [genLoop_succ]
    simp only [List.map_append, ih, List.range_succ, List.map_cons, List.map_nil,
      genTransaction_ID]

/-- C23: for every `count >= 0` and every state of the random source, `GenerateTestData(count)`
returns (it does not panic) exactly `count` transactions, the transaction at index `i` has
ID `i + 1`, and so the IDs are pairwise distinct. -/
theorem C23_generate_ids (count : ℤ) (r : Rand) (h : 0 ≤ count) :
    ∃ txs r1, GenerateTestData count r = some (txs, r1) ∧ (txs.length : ℤ) = count ∧
      txs.map Transaction.ID = (List.range txs.length).map (fun (i : ℕ) => (i : ℤ) + 1) ∧
      (∀ i, i < txs.length → ∃ tx, txs[i]? = some tx ∧ tx.ID = (i : ℤ) + 1) ∧
      (txs.map Transaction.ID).Nodup := by
  have hlen := genLoop_length count.toNat r
  have hmap := genLoop_map_ID count.toNat r
  refine ⟨(genLoop count.toNat r).1, (genLoop count.toNat r).2, ?_, ?_, ?_, ?_, ?_⟩
  · unfold GenerateTestData
    rw [if_neg (by omega)]
  · rw [hlen]
    exact Int.toNat_of_nonneg h
  · rw [hlen]
    exact hmap
  · intro i hi
    rw [hlen] at hi
    refine ⟨_, genLoop_getElem? _ r i hi, genTransaction_ID i _⟩
  · rw [hmap]
    apply List.Nodup.map
    · intro a b hab
      simp only at hab
      omega
    · exact List.nodup_range _

/-- C23 witness: a count of 3. -/
theorem C23_generate_ids_witness :
    (0 : ℤ) ≤ 3 ∧
      ∃ txs r1, GenerateTestData 3 rand00 = some (txs, r1) ∧ (txs.length : ℤ) = 3 ∧
        txs.map Transaction.ID = (List.range txs.length).map (fun (i : ℕ) => (i : ℤ) + 1) ∧
        (∀ i, i < txs.length → ∃ tx, txs[i]? = some tx ∧ tx.ID = (i : ℤ) + 1) ∧
        (txs.map Transaction.ID).Nodup :=
  ⟨by decide, C23_generate_ids 3 rand00 (by decide)⟩

/-! ### C24 -/

theorem genTransaction_Amount_bound (i : ℕ) (r : Rand) (hF : r.FloatsAreF64) (hi : i % 20 ≠ 0) :
    ∃ x : ℚ, (genTransaction i r).1.Amount = F64.fin x ∧ 0 ≤ x ∧ x < 10000 := by
  rw [genTransaction_Amount, if_neg hi]
  have hm : F64.mul (F64.fin (r.floats r.pos).1) (F64.fin 10000) =
      F64.roundF64 ((r.floats r.pos).1 * 10000) := rfl
  rw [hm]
  have hq := F64.le_of_isF64 _ (r.floats r.pos).2.1 (r.floats r.pos).2.2 (hF r.pos)
  apply F64.roundF64_lt_10000
  · have := (r.floats r.pos).2.1
    positivity
  · have h : (r.floats r.pos).1 * 10000 = 10000 * (r.floats r.pos).1 := by ring
    rw [h]
    exact mul_le_mul_of_nonneg_left hq (by norm_num)

theorem genTransaction_Amount_eq (i : ℕ) (r : Rand) :
    (genTransaction i r).1.Amount = F64.fin (-100) ↔ i % 20 = 0 := by
  rw [genTransaction_Amount]
  by_cases h : i % 20 = 0
  · simp [h]
  · simp only [h, if_false, iff_false]
    intro he
    have hl := F64.lt_mul_10000 _ (r.floats r.pos).2.1
    rw [he] at hl
    simp [F64.lt] at hl

theorem rand00_floatsAreF64 : rand00.FloatsAreF64 := by
  intro k
  simp [rand00, Rand.const, F64.IsF64, F64.roundF64]

/-- C24: for every count and every state of the random source, the transaction at index
`i` of `GenerateTestData(count)` has a negative amount, namely -100, if and only if
`i mod 20 == 0`; otherwise its amount is not negative, and lies in `[0, 10000)` given that
the draws of `rand.Float64()` are float64 values; it has a currency outside the allow-list
(XYZ or ABC) if and only if `i mod 25 == 0`, and otherwise one of USD, EUR, GBP, JPY, CAD;
hence it fails `ValidateTransaction` if and only if `i` is a multiple of 20 or of 25. -/
theorem C24_generate_invalid (count : ℤ) (r r1 : Rand) (txs : List Transaction)
    (h : GenerateTestData count r = some (txs, r1)) (i : ℕ) (tx : Transaction)
    (hi : txs[i]? = some tx) :
    (tx.Amount = F64.fin (-100) ↔ i % 20 = 0) ∧
    (F64.lt tx.Amount (F64.fin 0) = true ↔ i % 20 = 0) ∧
    (i % 20 ≠ 0 → F64.ge tx.Amount (F64.fin 0) = true) ∧
    (r.FloatsAreF64 → i % 20 ≠ 0 → ∃ x : ℚ, tx.Amount = F64.fin x ∧ 0 ≤ x ∧ x < 10000) ∧
    (i % 25 = 0 → tx.Currency = "XYZ" ∨ tx.Currency = "ABC") ∧
    (i % 25 ≠ 0 → tx.Currency = "USD" ∨ tx.Currency = "EUR" ∨ tx.Currency = "GBP" ∨
      tx.Currency = "JPY" ∨ tx.Currency = "CAD") ∧
    (tx.Currency ∉ validCurrencies ↔ i % 25 = 0) ∧
    (ValidateTransaction tx ≠ none ↔ (i % 20 = 0 ∨ i % 25 = 0)) := by
  unfold GenerateTestData at h
  by_cases hc : count < 0
  · rw [if_pos hc] at h
    cases h
  rw [if_neg hc] at h
  have h' := Option.some.inj h
  have htx : txs = (genLoop count.toNat r).1 := by rw [h']
  have hlt : i < count.toNat := by
    have := lt_length_of_getElem? hi
    rw [htx, genLoop_length] at this
    exact this
  have he : tx = (genTransaction i (genLoop i r).2).1 := by
    rw [htx, genLoop_getElem? _ r i hlt] at hi
    exact (Option.some.inj hi).symm
  subst he
  have hfl : r.FloatsAreF64 → (genLoop i r).2.FloatsAreF64 := by
    intro hF k
    rw [genLoop_floats]
    exact hF k
  obtain ⟨hc1, hc2⟩ := genTransaction_Currency i (genLoop i r).2
  refine ⟨genTransaction_Amount_eq i _, genTransaction_Amount_lt i _, ?_, ?_, ?_, ?_,
    genTransaction_Currency_valid i _, ?_⟩
  · intro h20
    have hl : F64.lt (genTransaction i (genLoop i r).2).1.Amount (F64.fin 0) = false := by
      cases hb : F64.lt (genTransaction i (genLoop i r).2).1.Amount (F64.fin 0) with
      | false => rfl
      | true => exact absurd ((genTransaction_Amount_lt i _).mp hb) h20
    rcases (F64.not_lt_zero_iff _).mp hl with hge | hnan
    · exact hge
    · rw [genTransaction_Amount, if_neg h20] at hnan
      have hm : F64.mul (F64.fin ((genLoop i r).2.floats (genLoop i r).2.pos).1) (F64.fin 10000) =
          F64.roundF64 (((genLoop i r).2.floats (genLoop i r).2.pos).1 * 10000) := rfl
      rw [hm] at hnan
      have h0 := ((genLoop i r).2.floats (genLoop i r).2.pos).2.1
      rcases F64.roundF64_of_nonneg (((genLoop i r).2.floats (genLoop i r).2.pos).1 * 10000)
        (by positivity) with hx | ⟨x, -, hx⟩
      · rw [hx] at hnan
        cases hnan
      · rw [hx] at hnan
        cases hnan
  · intro hF h20
    exact genTransaction_Amount_bound i _ (hfl hF) h20
  · intro h25
    have := hc1 h25
    simpa [invalidCurrencies] using this
  · intro h25
    have := hc2 h25
    simpa [currencies] using this
  · have hinv := genTransaction_invalid i (genLoop i r).2
    unfold invalidTx at hinv
    constructor
    · intro hne
      cases hv : ValidateTransaction (genTransaction i (genLoop i r).2).1 with
      | none => exact absurd hv hne
      | some e =>
        rw [hv] at hinv
        simpa using hinv.symm
    · intro hor hv
      rw [hv] at hinv
      simp [hor] at hinv

/-- C24 witness: in a workload of 26 transactions the one at index 25 has an amount in
`[0, 10000)` and an invalid currency, and fails validation. -/
theorem C24_generate_invalid_witness :
    GenerateTestData 26 rand00 = some (genLoop 26 rand00) ∧
    (genLoop 26 rand00).1[25]? = some (genTransaction 25 (genLoop 25 rand00).2).1 ∧
    (∃ x : ℚ, (genTransaction 25 (genLoop 25 rand00).2).1.Amount = F64.fin x ∧ 0 ≤ x ∧
      x < 10000) ∧
    (genTransaction 25 (genLoop 25 rand00).2).1.Currency ∉ validCurrencies ∧
    ValidateTransaction (genTransaction 25 (genLoop 25 rand00).2).1 ≠ none :=
  ⟨rfl, genLoop_getElem? 26 rand00 25 (by decide),
    (C24_generate_invalid 26 rand00 _ _ rfl 25 _
      (genLoop_getElem? 26 rand00 25 (by decide))).2.2.2.1 rand00_floatsAreF64 (by decide),
    (C24_generate_invalid 26 rand00 _ _ rfl 25 _
      (genLoop_getElem? 26 rand00 25 (by decide))).2.2.2.2.2.2.1.mpr (by decide),
    (C24_generate_invalid 26 rand00 _ _ rfl 25 _
      (genLoop_getElem? 26 rand00 25 (by decide))).2.2.2.2.2.2.2.mpr (Or.inr (by decide))⟩

/-! ### C29 -/

/-- C29: for every count `N >= 0` and every state of the random source, the number of
transactions of `GenerateTestData(N)` that fail `ValidateTransaction` is the number of
indices in `[0, N)` divisible by 20 or by 25, which is
`ceil(N/20) + ceil(N/25) - ceil(N/100)` (with `ceil(N/k) = (N + k - 1) / k`); for
`N = 100` it is 8, the indices being 0, 20, 25, 40, 50, 60, 75, 80; and it is the errors
count of every strategy run to completion on that workload: of the sequential strategy, of
the worker pool, fan-out/fan-in and semaphore strategies (which, with at least one worker
and one permit, run to completion on every schedule), and of the select and context
strategies whenever they return without timeout or cancellation. -/
theorem C29_invalid_count (N : ℕ) (numWorkers semaphoreSize : ℤ) (ctx : Context) (r r1 : Rand)
    (hW : 1 ≤ numWorkers) (hS : 1 ≤ semaphoreSize) :
    GenerateTestData (N : ℤ) r = some (genLoop N r) ∧
    (genLoop N r).1.countP invalidTx = invalidIndices N ∧
    invalidIndices N + (N + 99) / 100 = (N + 19) / 20 + (N + 24) / 25 ∧
    invalidIndices N = (N + 19) / 20 + (N + 24) / 25 - (N + 99) / 100 ∧
    invalidIndices 100 = 8 ∧
    (List.range 100).filter (fun i => decide (i % 20 = 0 ∨ i % 25 = 0)) =
      [0, 20, 25, 40, 50, 60, 75, 80] ∧
    (ProcessTransactionsSequential (genLoop N r).1 r1).errors = invalidIndices N ∧
    (ProcessTransactionsWithWorkerPool (genLoop N r).1 numWorkers r1).RunsToCompletion
      (fun s => s.main = PoolMain.returned) (2 * numWorkers.toNat + 7 * N + 9)
      (fun s => PoolState.Complete N s ∧ s.errors = invalidIndices N) ∧
    (ProcessTransactionsWithFanOutFanIn (genLoop N r).1 numWorkers r1).RunsToCompletion
      (fun s => s.main = FanMain.returned) (5 * numWorkers.toNat + 4 * N + 15)
      (fun s => FanState.Complete N s ∧ s.errors = invalidIndices N) ∧
    (ProcessTransactionsWithSemaphore (genLoop N r).1 numWorkers semaphoreSize r1).RunsToCompletion
      (fun s => s.main = PoolMain.returned) (2 * numWorkers.toNat + 7 * N + 9)
      (fun s => PoolState.Complete N s ∧ s.errors = invalidIndices N) ∧
    (∀ s, (ProcessTransactionsWithSelect (genLoop N r).1 numWorkers r1).Reachable s →
      s.main = SelMain.returned → s.timedOut = false → s.errors = invalidIndices N) ∧
    (∀ s, (ProcessTransactionsWithContext ctx (genLoop N r).1 numWorkers r1).Reachable s →
      s.main = CtxMain.returned → s.cancelled = false → s.errors = invalidIndices N) := by
  have hcount := genLoop_countP_invalid N r
  have hlen := genLoop_length N r
  have hform := invalidIndices_formula N
  refine ⟨generateTestData_natCast N r, hcount, hform, by omega, invalidIndices_100, by decide,
    ?_, ?_, ?_, ?_, ?_, ?_⟩
  · rw [sequential_errors, hcount]
  · have h := workerPool_runs_errors (genLoop N r).1 numWorkers r1 hW
    rw [hcount, hlen] at h
    exact h
  · have h := fanOutFanIn_runs_errors (genLoop N r).1 numWorkers r1 hW
    rw [hcount, hlen] at h
    exact h
  · have h := semaphore_runs_errors (genLoop N r).1 numWorkers semaphoreSize r1 hW hS
    rw [hcount, hlen] at h
    exact h
  · intro s hs hm ht
    rw [select_errors (genLoop N r).1 numWorkers r1 hW s hs hm ht, hcount]
  · intro s hs hm hc
    rw [context_errors ctx (genLoop N r).1 numWorkers r1 hW s hs hm hc, hcount]

/-- C29 witness: the workload of 100 transactions with 10 workers and 5 permits (8 errors
for the sequential strategy and for every complete run of the pool, fan-out/fan-in and
semaphore strategies), and complete sample runs of the select and context strategies on the
workload of one transaction (1 error). -/
theorem C29_invalid_count_witness :
    ((1 : ℤ) ≤ 10 ∧ (1 : ℤ) ≤ 5 ∧
      (genLoop 100 rand00).1.countP invalidTx = 8 ∧
      (ProcessTransactionsSequential (genLoop 100 rand00).1 rand0).errors = 8 ∧
      (ProcessTransactionsWithWorkerPool (genLoop 100 rand00).1 10 rand0).RunsToCompletion
        (fun s => s.main = PoolMain.returned) (2 * (10 : ℤ).toNat + 7 * 100 + 9)
        (fun s => PoolState.Complete 100 s ∧ s.errors = invalidIndices 100)) ∧
    (∃ s, (ProcessTransactionsWithSelect (genLoop 1 rand00).1 1 rand0).exec selSchedule1 = some s ∧
      s.main = SelMain.returned ∧ s.timedOut = false ∧ s.errors = invalidIndices 1 ∧
      s.errors = 1) ∧
    (∃ s, (ProcessTransactionsWithContext ctxBackground (genLoop 1 rand00).1 1 rand0).exec
        ctxSchedule1 = some s ∧
      s.main = CtxMain.returned ∧ s.cancelled = false ∧ s.errors = invalidIndices 1 ∧
      s.errors = 1) :=
  ⟨⟨by decide, by decide,
      ((C29_invalid_count 100 10 5 ctxBackground rand00 rand0 (by decide) (by decide)).2.1).trans
        (C29_invalid_count 100 10 5 ctxBackground rand00 rand0 (by decide) (by decide)).2.2.2.2.1,
      ((C29_invalid_count 100 10 5 ctxBackground rand00 rand0 (by decide)
        (by decide)).2.2.2.2.2.2.1).trans
        (C29_invalid_count 100 10 5 ctxBackground rand00 rand0 (by decide) (by decide)).2.2.2.2.1,
      (C29_invalid_count 100 10 5 ctxBackground rand00 rand0 (by decide)
        (by decide)).2.2.2.2.2.2.2.1⟩,
    ⟨_, rfl, rfl, rfl,
      (C29_invalid_count 1 1 1 ctxBackground rand00 rand0 (by decide)
        (by decide)).2.2.2.2.2.2.2.2.2.2.1 _ ⟨selSchedule1, rfl⟩ rfl rfl, rfl⟩,
    ⟨_, rfl, rfl, rfl,
      (C29_invalid_count 1 1 1 ctxBackground rand00 rand0 (by decide)
        (by decide)).2.2.2.2.2.2.2.2.2.2.2 _ ⟨ctxSchedule1, rfl⟩ rfl rfl, rfl⟩⟩

/-! ### C25 -/

theorem genLoop_countP (p : Transaction → Bool) (q : ℕ → Bool)
    (h : ∀ i r, p (genTransaction i r).1 = q i) (n : ℕ) (r : Rand) :
    (genLoop n r).1.countP p = (List.range n).countP q := by
  induction n with
  | zero => rfl
  | succ n ih =>
    rw [genLoop_succ]
    simp only [List.countP_append, ih, List.range_succ, List.countP_cons, List.countP_nil, h]

theorem genLoop_map (p : Transaction → Bool) (q : ℕ → Bool)
    (h : ∀ i r, p (genTransaction i r).1 = q i) (n : ℕ) (r : Rand) :
    (genLoop n r).1.map p = (List.range n).map q := by
  induction n with
  | zero => rfl
  | succ n ih =>
    rw [genLoop_succ]
    simp only [List.map_append, ih, List.range_succ, List.map_cons, List.map_nil, h]

theorem genTransaction_lt_decide (i : ℕ) (r : Rand) :
    F64.lt (genTransaction i r).1.Amount (F64.fin 0) = decide (i % 20 = 0) := by
  have h := genTransaction_Amount_lt i r
  by_cases h20 : i % 20 = 0
  · simp [h20, h.mpr h20]
  · cases hb : F64.lt (genTransaction i r).1.Amount (F64.fin 0) with
    | false => simp [h20]
    | true => exact absurd (h.mp hb) h20

theorem genTransaction_currency_decide (i : ℕ) (r : Rand) :
    decide ((genTransaction i r).1.Currency ∉ validCurrencies) = decide (i % 25 = 0) := by
  have h := genTransaction_Currency_valid i r
  by_cases h25 : i % 25 = 0
  · simp only [h25, h.mpr h25, not_false_eq_true, decide_True]
  · have hm : ¬ (genTransaction i r).1.Currency ∉ validCurrencies := fun hn => h25 (h.mp hn)
    simp only [h25, hm, decide_False]

/-- C25: of the 100 transactions produced by `GenerateTestData(100)`, whatever the random
source yields, exactly 5 violate the amount rule (those at the multiples of 20), the
currency rule is violated exactly at the 4 multiples of 25, the transaction at index 0
violates both rules and `ValidateTransaction` answers it with the single amount error, so
that 8 transactions are invalid; and `ProcessTransactionsWithWorkerPool` with 10 workers runs
to completion on every schedule and returns 100 results with an errors count of 8, which is
between 5 and 9 inclusive, the transaction at index 0 being counted once. -/
theorem C25_workload_100 (r r1 : Rand) :
    GenerateTestData 100 r = some (genLoop 100 r) ∧
    (genLoop 100 r).1.length = 100 ∧
    (genLoop 100 r).1.map (fun tx => F64.lt tx.Amount (F64.fin 0)) =
      (List.range 100).map (fun i => decide (i % 20 = 0)) ∧
    (genLoop 100 r).1.countP (fun tx => F64.lt tx.Amount (F64.fin 0)) = 5 ∧
    (genLoop 100 r).1.map (fun tx => decide (tx.Currency ∉ validCurrencies)) =
      (List.range 100).map (fun i => decide (i % 25 = 0)) ∧
    (genLoop 100 r).1.countP (fun tx => decide (tx.Currency ∉ validCurrencies)) = 4 ∧
    (∃ tx0, (genLoop 100 r).1[0]? = some tx0 ∧ F64.lt tx0.Amount (F64.fin 0) = true ∧
      tx0.Currency ∉ validCurrencies ∧
      ValidateTransaction tx0 = some (ValidationError.invalidAmount (F64.fin (-100)))) ∧
    (genLoop 100 r).1.countP invalidTx = 8 ∧
    (ProcessTransactionsWithWorkerPool (genLoop 100 r).1 10 r1).RunsToCompletion
      (fun s => s.main = PoolMain.returned) 729
      (fun s => s.success + s.errors = 100 ∧ s.results.length = 100 ∧ s.errors = 8 ∧
        5 ≤ s.errors ∧ s.errors ≤ 9) := by
  have hcount : (genLoop 100 r).1.countP invalidTx = 8 := by
    rw [genLoop_countP_invalid, invalidIndices_100]
  refine ⟨generateTestData_natCast 100 r, genLoop_length 100 r, ?_, ?_, ?_, ?_, ?_, hcount, ?_⟩
  · exact genLoop_map _ _ genTransaction_lt_decide 100 r
  · rw [genLoop_countP _ _ genTransaction_lt_decide 100 r]
    decide
  · exact genLoop_map _ _ genTransaction_currency_decide 100 r
  · rw [genLoop_countP _ _ genTransaction_currency_decide 100 r]
    decide
  · refine ⟨_, genLoop_getElem? 100 r 0 (by norm_num), ?_, ?_, ?_⟩
    · exact (genTransaction_Amount_lt 0 _).mpr rfl
    · exact (genTransaction_Currency_valid 0 _).mpr rfl
    · have ha : (genTransaction 0 (genLoop 0 r).2).1.Amount = F64.fin (-100) :=
        (genTransaction_Amount_eq 0 _).mpr rfl
      have hl : F64.lt (genTransaction 0 (genLoop 0 r).2).1.Amount (F64.fin 0) = true :=
        (genTransaction_Amount_lt 0 _).mpr rfl
      unfold ValidateTransaction
      rw [if_pos hl, ha]
  · have h := workerPool_runs_errors (genLoop 100 r).1 10 r1 (by norm_num)
    rw [hcount, genLoop_length] at h
    obtain ⟨h1, h2, h3, h4⟩ := h
    refine ⟨h1, ?_, h3, ?_⟩
    · intro sched s hs
      have := h2 sched s hs
      simpa using this
    · intro s hs hf
      obtain ⟨⟨ha, hb⟩, hc⟩ := h4 s hs hf
      exact ⟨ha, hb, hc, by omega, by omega⟩

/-! ### C30 -/

theorem CtxStep.ctxQuiet {sc : Scorer} {ctx : Context} {txs : List Transaction}
    {numWorkers : ℤ} {s s' : CtxState} (h : CtxStep sc ctx txs numWorkers s s')
    (hq : s.Quiet) : s'.Quiet := by
  obtain ⟨hd, hw, hb, hr, hs, he⟩ := hq
  have hsil : ∀ (i : ℕ) (w : CtxWorker), s.workers[i]? = some w → CtxWorker.silent w :=
    fun i w hi => hw w (mem_of_getElem?_eq_some hi)
  cases h
  case cancel hp hmay hnd => exact ⟨rfl, hw, hb, hr, hs, he⟩
  case spawn w hp hm hlt =>
    refine ⟨hd, ?_, hb, hr, hs, he⟩
    intro x hx
    simp only [List.mem_append, List.mem_singleton] at hx
    rcases hx with hx | hx
    · exact hw x hx
    · rw [hx]
      trivial
  case collect r rest hp hm hbuf => rw [hb] at hbuf; cases hbuf
  case drainCollect r rest hp hm hbuf => rw [hb] at hbuf; cases hbuf
  case take i tx rest hp hwi hbuf =>
    exact ⟨hd, forall_mem_set _ _ _ _ hw trivial, hb, hr, hs, he⟩
  case exit i hp hwi hbuf hclosed hwg =>
    exact ⟨hd, forall_mem_set _ _ _ _ hw trivial, hb, hr, hs, he⟩
  case checkStop i tx hp hwi hdd hwg =>
    exact ⟨hd, forall_mem_set _ _ _ _ hw trivial, hb, hr, hs, he⟩
  case stop i hp hwi hdd hwg =>
    exact ⟨hd, forall_mem_set _ _ _ _ hw trivial, hb, hr, hs, he⟩
  case checkInvalid i tx err hp hwi hdd hv => rw [hd] at hdd; cases hdd
  case checkValid i tx hp hwi hdd hv => rw [hd] at hdd; cases hdd
  case emitErr i r hp hwi hopen hroom => exact absurd (hsil i _ hwi) (by simp [CtxWorker.silent])
  case score i tx hp hwi => exact absurd (hsil i _ hwi) (by simp [CtxWorker.silent])
  case emitOk i r hp hwi hopen hroom => exact absurd (hsil i _ hwi) (by simp [CtxWorker.silent])
  case abandon i r hp hwi hdd hwg => exact absurd (hsil i _ hwi) (by simp [CtxWorker.silent])
  all_goals exact ⟨hd, hw, hb, hr, hs, he⟩

theorem ctxInit_quiet (ctx : Context) (txs : List Transaction) (r : Rand) (hd : ctx.done = true) :
    (ctxInit ctx txs r).Quiet :=
  ⟨hd, by simp [ctxInit], rfl, rfl, rfl, rfl⟩

/-- C30: if the context is already done when `ProcessTransactionsWithContext` is called,
then for every batch and every worker count no worker ever validates or scores a
transaction or emits a result, not even for a transaction that fails validation (a worker
that has received a job finds the context done at its check and returns): in every
reachable state no result is queued or collected and both counters are 0; and the call
returns (no deadlock, no schedule longer than `2 * numWorkers + 7 * N + 11` steps) with
`success == 0`, `errors == 0`, an empty result collection and `cancelled == true`. -/
theorem C30_done_context_no_results (ctx : Context) (txs : List Transaction)
    (numWorkers : ℤ) (r : Rand) (hd : ctx.done = true) :
    (ProcessTransactionsWithContext ctx txs numWorkers r).RunsToCompletion
      (fun s => s.main = CtxMain.returned) (2 * numWorkers.toNat + 7 * txs.length + 11)
      (fun s => s.success = 0 ∧ s.errors = 0 ∧ s.results = [] ∧ s.cancelled = true) ∧
    (∀ s, (ProcessTransactionsWithContext ctx txs numWorkers r).Reachable s →
      s.panicked = false ∧ s.Quiet) := by
  have hμ : (ctxInit ctx txs r).measure txs numWorkers =
      2 * numWorkers.toNat + 7 * txs.length + 11 := by
    simp [ctxInit, CtxState.measure, CtxMain.weight, Feeder.weight, Closer.weight, Chan.make, hd]
    omega
  have hinv : ∀ s, (ProcessTransactionsWithContext ctx txs numWorkers r).Reachable s →
      s.Inv txs numWorkers ∧ s.Quiet ∧ (s.ctxDone = true ∧
        (s.main = CtxMain.returned → s.cancelled = true)) := by
    refine Machine.Reachable.induct _
      ⟨ctxInit_inv ctx txs numWorkers r, ctxInit_quiet ctx txs r hd, hd, fun h => by cases h⟩ ?_
    intro s a s' hI hst
    have hrel := ctxStep_sound _ ctx txs numWorkers s s' a hst
    exact ⟨hrel.ctxInv hI.1, hrel.ctxQuiet hI.2.1, hrel.ctxDoneKept hI.2.2⟩
  constructor
  · have h := ctx_runsToCompletion CalculateFraudScore ctx txs numWorkers r
    rw [hμ] at h
    refine ⟨h.1, h.2.1, h.2.2.1, ?_⟩
    intro s hs hf
    obtain ⟨-, hq, hk⟩ := hinv s hs
    exact ⟨hq.2.2.2.2.1, hq.2.2.2.2.2, hq.2.2.2.1, hk.2 hf⟩
  · intro s hs
    obtain ⟨hi, hq, -⟩ := hinv s hs
    exact ⟨hi.noPanic, hq⟩

/-- C30 witness: the sample batch, whose first transaction fails validation, with one
worker and a context that is done from the start; the worker receives the first job and
returns at its check of the context. -/
theorem C30_done_context_no_results_witness :
    ctxAlreadyDone.done = true ∧
      (ProcessTransactionsWithContext ctxAlreadyDone batch2 1 rand0).RunsToCompletion
        (fun s => s.main = CtxMain.returned) (2 * (1 : ℤ).toNat + 7 * batch2.length + 11)
        (fun s => s.success = 0 ∧ s.errors = 0 ∧ s.results = [] ∧ s.cancelled = true) ∧
      ∃ s, (ProcessTransactionsWithContext ctxAlreadyDone batch2 1 rand0).exec
          ctxScheduleDoneTake = some s ∧
        s.main = CtxMain.returned ∧ s.workers = [CtxWorker.exited] ∧ s.jobs.buf = [] ∧
        s.success = 0 ∧ s.errors = 0 ∧ s.results = [] ∧ s.Quiet :=
  ⟨rfl, (C30_done_context_no_results ctxAlreadyDone batch2 1 rand0 rfl).1, _, rfl, rfl, rfl, rfl,
    rfl, rfl, rfl,
    ((C30_done_context_no_results ctxAlreadyDone batch2 1 rand0 rfl).2 _
      ⟨ctxScheduleDoneTake, rfl⟩).2⟩

/-! ## The concurrent strategies without workers -/

theorem PoolStep.noWork {sc : Scorer} {txs : List Transaction} {numWorkers : ℤ}
    {s s' : PoolState} (h : PoolStep sc txs numWorkers s s') (hW : numWorkers ≤ 0)
    (hn : s.NoWork) : s'.NoWork := by
  obtain ⟨hw0, hb, hr, hs, he⟩ := hn
  cases h
  case spawn w hp hm hw => omega
  case collect r rest hp hm hbuf => rw [hb] at hbuf; cases hbuf
  all_goals first
    | exact ⟨hw0, hb, hr, hs, he⟩
    | simp_all

theorem SelStep.selNoWork {sc : Scorer} {txs : List Transaction} {numWorkers : ℤ}
    {s s' : SelState} (h : SelStep sc txs numWorkers s s') (hW : numWorkers ≤ 0)
    (hn : s.NoWork) : s'.NoWork := by
  obtain ⟨hw0, hb, hr, hs, he⟩ := hn
  cases h
  case spawn w hp hm hw => omega
  case collect r rest hp hm hbuf => rw [hb] at hbuf; cases hbuf
  all_goals first
    | exact ⟨hw0, hb, hr, hs, he⟩
    | simp_all

theorem CtxStep.ctxNoWork {sc : Scorer} {ctx : Context} {txs : List Transaction}
    {numWorkers : ℤ} {s s' : CtxState} (h : CtxStep sc ctx txs numWorkers s s')
    (hW : numWorkers ≤ 0) (hn : s.NoWork) : s'.NoWork := by
  obtain ⟨hw0, hb, hr, hs, he⟩ := hn
  cases h
  case spawn w hp hm hw => omega
  case collect r rest hp hm hbuf => rw [hb] at hbuf; cases hbuf
  case drainCollect r rest hp hm hbuf => rw [hb] at hbuf; cases hbuf
  all_goals first
    | exact ⟨hw0, hb, hr, hs, he⟩
    | simp_all

theorem FanStep.fanNoWork {sc : Scorer} {txs : List Transaction} {s s' : FanState}
    (h : FanStep sc txs 0 s s') (hn : s.NoWork txs) : s'.NoWork txs := by
  obtain ⟨hl0, hr, hs, he, hd⟩ := hn
  cases h
  case fanOut hp hm hw => exact ⟨rfl, hr, hs, he, fun _ => Or.inr rfl⟩
  case sendEnd i hp hdist htx =>
    refine ⟨hl0, hr, hs, he, ?_⟩
    intro hne
    rcases hd hne with h | h
    · rw [h] at hdist
      cases hdist
    · rw [h] at hdist
      cases hdist
      cases txs with
      | nil => exact absurd rfl hne
      | cons x xs => simp at htx
  case closeEnd j hp hdist hl =>
    refine ⟨hl0, hr, hs, he, ?_⟩
    intro hne
    rcases hd hne with h | h <;> rw [h] at hdist <;> cases hdist
  all_goals first
    | exact ⟨hl0, hr, hs, he, hd⟩
    | simp_all

/-! ### C21 -/

theorem pool_runs_noWork (sc : Scorer) (txs : List Transaction)
    (m : Machine PoolState PoolAct) (hstep : m.step = poolStep sc txs 0)
    (h0 : m.init.Inv txs 0) (h1 : m.init.SemPos) (h2 : m.init.NoWork) :
    m.RunsToCompletion (fun s => s.main = PoolMain.returned) (m.init.measure txs 0)
      (fun s => s.success = 0 ∧ s.errors = 0 ∧ s.results = []) := by
  refine Machine.runsToCompletion_of m _
    (fun s => s.Inv txs 0 ∧ s.SemPos ∧ s.NoWork)
    (PoolState.measure txs 0) _ ⟨h0, h1, h2⟩ ?_ ?_ ?_ ?_
  · intro s a s' ⟨ha, hb, hc⟩ hst
    rw [hstep] at hst
    have hrel := poolStep_sound sc txs 0 s s' a hst
    exact ⟨hrel.inv ha, hrel.semPos hb, hrel.noWork (le_refl 0) hc⟩
  · intro s ⟨ha, hb, _⟩ hf
    obtain ⟨s', hs'⟩ := ha.progress sc hb hf
    obtain ⟨a, hst⟩ := poolStep_complete hs'
    exact ⟨a, s', by rw [hstep]; exact hst⟩
  · intro s a s' _ hst
    rw [hstep] at hst
    exact (poolStep_sound sc txs 0 s s' a hst).measure_lt
  · intro s ⟨_, _, hc⟩ _
    exact ⟨hc.2.2.2.1, hc.2.2.2.2, hc.2.2.1⟩

theorem Machine.RunsToCompletion.mono_bound {σ α : Type} {m : Machine σ α}
    {final : σ → Prop} {b b' : ℕ} {P : σ → Prop} (h : m.RunsToCompletion final b P)
    (hb : b ≤ b') : m.RunsToCompletion final b' P :=
  ⟨h.1, fun sched s hs => le_trans (h.2.1 sched s hs) hb, h.2.2.1, h.2.2.2⟩

theorem sel_reachable_noWork (txs : List Transaction) (r : Rand) :
    ∀ s, (ProcessTransactionsWithSelect txs 0 r).Reachable s → s.NoWork := by
  refine Machine.Reachable.induct _ ⟨rfl, rfl, rfl, rfl, rfl⟩ ?_
  intro s a s' hI hst
  exact (selStep_sound _ txs 0 s s' a hst).selNoWork (le_refl 0) hI

theorem ctx_reachable_noWork (ctx : Context) (txs : List Transaction) (r : Rand) :
    ∀ s, (ProcessTransactionsWithContext ctx txs 0 r).Reachable s → s.NoWork := by
  refine Machine.Reachable.induct _ ⟨rfl, rfl, rfl, rfl, rfl⟩ ?_
  intro s a s' hI hst
  exact (ctxStep_sound _ ctx txs 0 s s' a hst).ctxNoWork (le_refl 0) hI

theorem fan_reachable_noWork (txs : List Transaction) (r : Rand) :
    ∀ s, (ProcessTransactionsWithFanOutFanIn txs 0 r).Reachable s → s.NoWork txs := by
  refine Machine.Reachable.induct _ ⟨rfl, rfl, rfl, rfl, fun _ => Or.inl rfl⟩ ?_
  intro s a s' hI hst
  exact (fanStep_sound _ txs 0 s s' a hst).fanNoWork hI

/-- C21 (as stated, refuted): no strategy guards a worker count of zero.  With
`numWorkers = 0` and a batch of one transaction, `ProcessTransactionsWithWorkerPool` returns
without panic `success + errors == 0`, less than the size of the batch, and in
`ProcessTransactionsWithFanOutFanIn` the goroutine of `FanOut` panics with a division by
zero at its first send. -/
theorem C21_counterexample :
    (∃ s, (ProcessTransactionsWithWorkerPool [txUSD100] 0 rand0).exec poolScheduleNoWorkers =
        some s ∧
      s.main = PoolMain.returned ∧ s.panicked = false ∧ s.results = [] ∧
      s.success + s.errors < [txUSD100].length) ∧
    (∃ s, (ProcessTransactionsWithFanOutFanIn [txUSD100] 0 rand0).exec fanScheduleNoWorkers =
        some s ∧
      s.panicked = true) :=
  ⟨⟨_, rfl, rfl, rfl, rfl, by decide⟩, ⟨_, rfl, rfl⟩⟩

/-- C21 (amended): called with `numWorkers = 0`, whatever the batch (of size `N`) and the
random source, `ProcessTransactionsWithWorkerPool`, `ProcessTransactionsWithSemaphore` (with
at least one permit) and `ProcessTransactionsWithContext` run to completion (no deadlock, no
panic, a bounded number of steps) and return `success == 0`, `errors == 0` and no results;
`ProcessTransactionsWithSelect` never panics and never has a result, and returns
`timedOut == false` when the closer runs before the timer fires; in
`ProcessTransactionsWithFanOutFanIn` no result is ever produced, the send of the goroutine
of `FanOut` panics with a division by zero whenever a transaction is left to send, and on a
non-empty batch that goroutine never gets past its first send and the panic is reached by
the call of `FanOut` followed by that send. -/
theorem C21_zero_workers_unguarded (txs : List Transaction) (semaphoreSize : ℤ) (ctx : Context)
    (r : Rand) (hS : 1 ≤ semaphoreSize) :
    (ProcessTransactionsWithWorkerPool txs 0 r).RunsToCompletion
      (fun s => s.main = PoolMain.returned) (7 * txs.length + 9)
      (fun s => s.success = 0 ∧ s.errors = 0 ∧ s.results = []) ∧
    (ProcessTransactionsWithSemaphore txs 0 semaphoreSize r).RunsToCompletion
      (fun s => s.main = PoolMain.returned) (7 * txs.length + 9)
      (fun s => s.success = 0 ∧ s.errors = 0 ∧ s.results = []) ∧
    (ProcessTransactionsWithContext ctx txs 0 r).RunsToCompletion
      (fun s => s.main = CtxMain.returned) (7 * txs.length + 12)
      (fun s => s.success = 0 ∧ s.errors = 0 ∧ s.results = []) ∧
    (∀ s, (ProcessTransactionsWithSelect txs 0 r).Reachable s →
      s.panicked = false ∧ s.success = 0 ∧ s.errors = 0 ∧ s.results = []) ∧
    (∃ s, (ProcessTransactionsWithSelect txs 0 r).exec selScheduleNoWorkers = some s ∧
      s.main = SelMain.returned ∧ s.timedOut = false) ∧
    (∀ s, (ProcessTransactionsWithFanOutFanIn txs 0 r).Reachable s →
      s.success = 0 ∧ s.errors = 0 ∧ s.results = [] ∧
      (txs ≠ [] → s.dist = Distributor.notStarted ∨ s.dist = Distributor.send 0) ∧
      (∀ i tx, s.panicked = false → s.dist = Distributor.send i → txs[i]? = some tx →
        (ProcessTransactionsWithFanOutFanIn txs 0 r).step s FanAct.dist =
          some { s with panicked := true })) ∧
    (txs ≠ [] → ∃ s, (ProcessTransactionsWithFanOutFanIn txs 0 r).exec fanScheduleNoWorkers =
      some s ∧ s.panicked = true) := by
  refine ⟨?_, ?_, ?_, ?_, ?_, ?_, ?_⟩
  · have h := pool_runs_noWork CalculateFraudScore txs
      (ProcessTransactionsWithWorkerPool txs 0 r) rfl
      (workerPool_init_inv CalculateFraudScore txs 0 r).1
      (workerPool_init_inv CalculateFraudScore txs 0 r).2 ⟨rfl, rfl, rfl, rfl, rfl⟩
    have hμ : (ProcessTransactionsWithWorkerPool txs 0 r).init.measure txs 0 =
        7 * txs.length + 9 := by
      simp [ProcessTransactionsWithWorkerPool, ProcessTransactionsWithWorkerPoolWith, poolInit,
        PoolState.measure, PoolMain.weight, Closer.weight, Chan.make]
      omega
    rw [hμ] at h
    exact h
  · have hd : decide (semaphoreSize < 0) = false := by simp; omega
    have hinit : (ProcessTransactionsWithSemaphore txs 0 semaphoreSize r).init.NoWork := by
      simp [ProcessTransactionsWithSemaphore, ProcessTransactionsWithSemaphoreWith, poolInit,
        PoolState.NoWork, Chan.make, hd]
    have h := pool_runs_noWork CalculateFraudScore txs
      (ProcessTransactionsWithSemaphore txs 0 semaphoreSize r) rfl
      (semaphore_init_inv CalculateFraudScore txs 0 semaphoreSize hS r).1
      (semaphore_init_inv CalculateFraudScore txs 0 semaphoreSize hS r).2 hinit
    have hμ : (ProcessTransactionsWithSemaphore txs 0 semaphoreSize r).init.measure txs 0 =
        7 * txs.length + 9 := by
      simp [ProcessTransactionsWithSemaphore, ProcessTransactionsWithSemaphoreWith, poolInit,
        PoolState.measure, PoolMain.weight, Closer.weight, Chan.make, hd]
      omega
    rw [hμ] at h
    exact h
  · have hμ : (ctxInit ctx txs r).measure txs 0 ≤ 7 * txs.length + 12 := by
      cases hcd : ctx.done <;>
        simp [ctxInit, CtxState.measure, CtxMain.weight, Feeder.weight, Closer.weight,
          Chan.make, hcd] <;> omega
    have h := (ctx_runsToCompletion CalculateFraudScore ctx txs 0 r).mono_bound hμ
    refine ⟨h.1, h.2.1, h.2.2.1, ?_⟩
    intro s hs _
    have hn := ctx_reachable_noWork ctx txs r s hs
    exact ⟨hn.2.2.2.1, hn.2.2.2.2, hn.2.2.1⟩
  · intro s hs
    have hn := sel_reachable_noWork txs r s hs
    have hi := sel_reachable_inv CalculateFraudScore txs 0 r s hs
    exact ⟨hi.noPanic, hn.2.2.2.1, hn.2.2.2.2, hn.2.2.1⟩
  · exact ⟨_, rfl, rfl, rfl⟩
  · intro s hs
    have hn := fan_reachable_noWork txs r s hs
    refine ⟨hn.2.2.1, hn.2.2.2.1, hn.2.1, hn.2.2.2.2, ?_⟩
    intro i tx hp hd htx
    simp [ProcessTransactionsWithFanOutFanIn, ProcessTransactionsWithFanOutFanInWith, fanStep,
      hp, fanOutStep, hd, htx]
  · intro hne
    cases txs with
    | nil => exact absurd rfl hne
    | cons x xs =>
      refine ⟨{ lanes := [], dist := Distributor.send 0, wg := 0, outClosed := false,
                closer := Closer.idle, main := FanMain.spawnWorker 0, success := 0, errors := 0,
                results := [], rand := r, panicked := true }, ?_, rfl⟩
      simp [fanScheduleNoWorkers, Machine.exec, Machine.run, ProcessTransactionsWithFanOutFanIn,
        ProcessTransactionsWithFanOutFanInWith, fanStep, fanMainStep, fanOutStep, fanInit]

/-- C21 witness: the sample batch with no worker and one permit. -/
theorem C21_zero_workers_unguarded_witness :
    (1 : ℤ) ≤ 1 ∧
    (ProcessTransactionsWithWorkerPool batch2 0 rand0).RunsToCompletion
      (fun s => s.main = PoolMain.returned) (7 * batch2.length + 9)
      (fun s => s.success = 0 ∧ s.errors = 0 ∧ s.results = []) ∧
    (ProcessTransactionsWithSemaphore batch2 0 1 rand0).RunsToCompletion
      (fun s => s.main = PoolMain.returned) (7 * batch2.length + 9)
      (fun s => s.success = 0 ∧ s.errors = 0 ∧ s.results = []) ∧
    (∃ s, (ProcessTransactionsWithFanOutFanIn batch2 0 rand0).exec fanScheduleNoWorkers =
      some s ∧ s.panicked = true) :=
  ⟨by decide, (C21_zero_workers_unguarded batch2 1 ctxBackground rand0 (by decide)).1,
    (C21_zero_workers_unguarded batch2 1 ctxBackground rand0 (by decide)).2.1,
    (C21_zero_workers_unguarded batch2 1 ctxBackground rand0 (by decide)).2.2.2.2.2.2
      (by decide)⟩

end Lab07

